import Mathlib

/-!
# Address translator of the Cosmos+ OpenSSD firmware (address_translation.c)

A shallow embedding of the translator, the block allocator and the free-block
list of address_translation.c, followed by the properties proved about them.

Conventions of the embedding.
* The memory-mapped tables are total functions from indices to entries; a C
  store is a pointwise function update, executed in program order.
* The header files are not part of the sources at hand, so the build-time
  constants, the sentinels and the address-packing macros are fields of
  `Config`; what is assumed about them is collected in `Config.WellFormed`.
* A failed `assert` ends a call with `Outcome.fatal`, carrying the state at the
  moment of the failure.
* `GarbageCollection` is defined in another translation unit.  The functions
  that call it take the collector as a parameter and go on after it returns as
  the source does.  What the specification says of the collector is the
  contract `Collector.ThroughApi`; `Collector.stop`, the collector that never
  returns, gives the calls that do not enter the collector.
* The `while` loop of `FindFreeVirtualBlock` runs for at most `fuel` tests of
  its condition and ends with `Outcome.fuel` beyond; a call that returns with
  one bound returns the same with every larger bound (`AddrTransWrite_more`).
* Calls to the victim-list hooks of the garbage collector and requests queued
  to the NAND layer are recorded, in order, in two logs of the state.
* `unsigned char` and `unsigned short` variables declared in the file wrap
  modulo 2^8 and 2^16; the 16-bit `currentPage` field wraps modulo 2^16.
  Counters of the block and die tables are natural numbers.
-/

set_option autoImplicit false

namespace AddressTranslation

/-! ## Constants -/

/-- Build-time constants, sentinels and address-packing macros of the firmware
headers (memory_map.h and the headers it includes). -/
structure Config where
  USER_CHANNELS : Nat
  USER_WAYS : Nat
  USER_BLOCKS_PER_DIE : Nat
  USER_PAGES_PER_BLOCK : Nat
  SLICES_PER_PAGE : Nat
  SLICES_PER_SSD : Nat
  LOGICAL_BLOCKS_PER_SSD : Nat
  RESERVED_FREE_BLOCK_COUNT : Nat
  VSA_NONE : Nat
  VSA_FAIL : Nat
  LSA_NONE : Nat
  BLOCK_NONE : Nat
  BLOCK_FAIL : Nat
  GET_FREE_BLOCK_NORMAL : Nat
  GET_FREE_BLOCK_GC : Nat
  Vorg2VsaTranslation : Nat → Nat → Nat → Nat
  Vsa2VdieTranslation : Nat → Nat
  Vsa2VblockTranslation : Nat → Nat
  Vsa2VpageTranslation : Nat → Nat
  Vblock2PblockOfTbsTranslation : Nat → Nat

/-- Modelled from the spec: `USER_DIES = USER_CHANNELS * USER_WAYS` (the
defining header is not among the sources). -/
def Config.USER_DIES (cfg : Config) : Nat := cfg.USER_CHANNELS * cfg.USER_WAYS

/-- Modelled from the spec: `SLICES_PER_BLOCK = USER_PAGES_PER_BLOCK *
SLICES_PER_PAGE` (the defining header is not among the sources). -/
def Config.SLICES_PER_BLOCK (cfg : Config) : Nat :=
  cfg.USER_PAGES_PER_BLOCK * cfg.SLICES_PER_PAGE

/-- Modelled from the spec: `Pcw2Vdie(ch, way) = way * USER_CHANNELS + ch`
(the macro lives in a header that is not among the sources). -/
def Pcw2VdieTranslation (cfg : Config) (chNo wayNo : Nat) : Nat :=
  wayNo * cfg.USER_CHANNELS + chNo

/-- Modelled from the spec: `AddrToBlock(lsa) = lsa / SLICES_PER_BLOCK` (the
macro lives in a header that is not among the sources). -/
def AddrToBlock (cfg : Config) (lsa : Nat) : Nat := lsa / cfg.SLICES_PER_BLOCK

/-- What the translator relies on about its constants: the geometry is not
empty and fits the C types of the variables that hold it, the sentinels lie
outside the valid index ranges, every LSA belongs to a logical block that has
a cursor, and the VSA packing is a bijection between valid (die, block, slice
offset) triples and valid VSAs. -/
structure Config.WellFormed (cfg : Config) : Prop where
  channels_pos : 0 < cfg.USER_CHANNELS
  ways_pos : 0 < cfg.USER_WAYS
  dies_le : cfg.USER_DIES ≤ 256
  pages_pos : 0 < cfg.USER_PAGES_PER_BLOCK
  pages_le : cfg.USER_PAGES_PER_BLOCK ≤ 0x7FFF
  slices_pos : 0 < cfg.SLICES_PER_PAGE
  slices_lt : cfg.SLICES_PER_BLOCK < 65536
  block_none : cfg.USER_BLOCKS_PER_DIE ≤ cfg.BLOCK_NONE
  block_fail : cfg.USER_BLOCKS_PER_DIE ≤ cfg.BLOCK_FAIL
  vsa_none : cfg.SLICES_PER_SSD ≤ cfg.VSA_NONE
  vsa_fail : cfg.SLICES_PER_SSD ≤ cfg.VSA_FAIL
  lsa_none : cfg.SLICES_PER_SSD ≤ cfg.LSA_NONE
  option_ne : cfg.GET_FREE_BLOCK_NORMAL ≠ cfg.GET_FREE_BLOCK_GC
  logical_blocks : cfg.SLICES_PER_SSD ≤ cfg.LOGICAL_BLOCKS_PER_SSD * cfg.SLICES_PER_BLOCK
  pack_lt : ∀ d b p, d < cfg.USER_DIES → b < cfg.USER_BLOCKS_PER_DIE →
    p < cfg.SLICES_PER_BLOCK → cfg.Vorg2VsaTranslation d b p < cfg.SLICES_PER_SSD
  pack_die : ∀ d b p, d < cfg.USER_DIES → b < cfg.USER_BLOCKS_PER_DIE →
    p < cfg.SLICES_PER_BLOCK → cfg.Vsa2VdieTranslation (cfg.Vorg2VsaTranslation d b p) = d
  pack_block : ∀ d b p, d < cfg.USER_DIES → b < cfg.USER_BLOCKS_PER_DIE →
    p < cfg.SLICES_PER_BLOCK → cfg.Vsa2VblockTranslation (cfg.Vorg2VsaTranslation d b p) = b
  pack_page : ∀ d b p, d < cfg.USER_DIES → b < cfg.USER_BLOCKS_PER_DIE →
    p < cfg.SLICES_PER_BLOCK → cfg.Vsa2VpageTranslation (cfg.Vorg2VsaTranslation d b p) = p
  unpack_die : ∀ v, v < cfg.SLICES_PER_SSD → cfg.Vsa2VdieTranslation v < cfg.USER_DIES
  unpack_block : ∀ v, v < cfg.SLICES_PER_SSD →
    cfg.Vsa2VblockTranslation v < cfg.USER_BLOCKS_PER_DIE
  unpack_page : ∀ v, v < cfg.SLICES_PER_SSD →
    cfg.Vsa2VpageTranslation v < cfg.SLICES_PER_BLOCK
  unpack_pack : ∀ v, v < cfg.SLICES_PER_SSD →
    cfg.Vorg2VsaTranslation (cfg.Vsa2VdieTranslation v) (cfg.Vsa2VblockTranslation v)
      (cfg.Vsa2VpageTranslation v) = v

/-! ## Tables -/

/-- One entry of `virtualBlockMapPtr->block[die][blk]`. -/
structure VirtualBlock where
  bad : Nat
  free : Nat
  invalidSliceCnt : Nat
  eraseCnt : Nat
  currentPage : Nat
  prevBlock : Nat
  nextBlock : Nat

/-- One entry of `virtualDieMapPtr->die[die]`. -/
structure VirtualDie where
  headFreeBlock : Nat
  tailFreeBlock : Nat
  freeBlockCnt : Nat
  currentBlock : Nat

/-- One entry of `phyBlockMapPtr->phyBlock[die][pb]`. -/
structure PhyBlock where
  bad : Nat
  remappedPhyBlock : Nat

/-- A call to one of the victim-list hooks of the garbage collector. -/
inductive GcCall where
  | selectiveGet (dieNo blockNo : Nat)
  | put (dieNo blockNo invalidSliceCnt : Nat)
deriving DecidableEq, Repr

/-- The erase request that `EraseBlock` queues to the NAND layer. -/
structure EraseReq where
  virtualSliceAddr : Nat
  programmedPageCnt : Nat
deriving DecidableEq, Repr

/-- The globals of address_translation.c, the two function-local statics of
`FindDieForFreeSliceAllocation`, and the two logs. -/
structure State where
  logicalSlice : Nat → Nat
  virtualSlice : Nat → Nat
  block : Nat → Nat → VirtualBlock
  die : Nat → VirtualDie
  phyBlock : Nat → Nat → PhyBlock
  logicalBlockBaseVsa : Nat → Nat
  logicalBlockNextOffset : Nat → Nat
  sliceAllocationTargetDie : Nat
  targetCh : Nat
  targetWay : Nat
  gcLog : List GcCall
  reqLog : List EraseReq
  mbPerbadBlockSpace : Nat

/-- How a call ends. -/
inductive Outcome (α : Type) where
  | ok (a : α)
  | fatal (s : State)
  | gc (s : State)
  | fuel

/-- Sequencing of calls: the first failure ends the run. -/
def Outcome.bind {α β : Type} (x : Outcome α) (f : α → Outcome β) : Outcome β :=
  match x with
  | .ok a => f a
  | .fatal s => .fatal s
  | .gc s => .gc s
  | .fuel => .fuel

/-- `GarbageCollection(dieNo)` is defined in another translation unit, which is
not among the sources, so it is a parameter of the embedding: a collector maps
the die it is called for and the state at the call to the outcome of the
call.  The victim lists are data of the collector, not tables of the
translator; the state records the calls of their hooks in `gcLog`. -/
abbrev Collector : Type := Nat → State → Outcome State

/-- The collector that is never returned from: a call that enters it ends with
`Outcome.gc`.  With this collector the functions below are the calls followed
up to their first entry into `GarbageCollection`, so a call that returns with
it is a call that returns without entering the garbage collector. -/
def Collector.stop : Collector := fun _ s => .gc s

/-- Store into a one-dimensional table. -/
def upd {α : Type} (f : Nat → α) (i : Nat) (v : α) : Nat → α :=
  fun j => if j = i then v else f j

/-- Store into a two-dimensional table. -/
def upd2 {α : Type} (f : Nat → Nat → α) (i j : Nat) (v : α) : Nat → Nat → α :=
  fun i' j' => if i' = i ∧ j' = j then v else f i' j'

/-- A C loop `for (i = 0; i < n; i++) body`. -/
def forLoop {σ : Type} (n : Nat) (body : Nat → σ → σ) (s : σ) : σ :=
  (List.range n).foldl (fun acc i => body i acc) s

/-- Rewrite the entry of one virtual block. -/
def State.setBlock (s : State) (dieNo blockNo : Nat) (v : VirtualBlock) : State :=
  { s with block := upd2 s.block dieNo blockNo v }

/-- Rewrite the entry of one die. -/
def State.setDie (s : State) (dieNo : Nat) (v : VirtualDie) : State :=
  { s with die := upd s.die dieNo v }

/-! ## Packed `currentPage` accessors -/

def BLOCK_CUR_PAGE_LOCK_MASK : Nat := 0x8000

def BLOCK_CUR_PAGE_VALUE_MASK : Nat := 0x7FFF

def GetBlockCurrentPage (s : State) (dieNo blockNo : Nat) : Nat :=
  (s.block dieNo blockNo).currentPage &&& BLOCK_CUR_PAGE_VALUE_MASK

def IsBlockReservedForBlkMapping (s : State) (dieNo blockNo : Nat) : Nat :=
  (s.block dieNo blockNo).currentPage &&& BLOCK_CUR_PAGE_LOCK_MASK

def SetBlockCurrentPageCount (s : State) (dieNo blockNo pageCnt : Nat) : State :=
  let lock := (s.block dieNo blockNo).currentPage &&& BLOCK_CUR_PAGE_LOCK_MASK
  s.setBlock dieNo blockNo
    { s.block dieNo blockNo with
      currentPage := (lock ||| (pageCnt &&& BLOCK_CUR_PAGE_VALUE_MASK)) % 65536 }

def ResetBlockCurrentPage (s : State) (dieNo blockNo : Nat) : State :=
  s.setBlock dieNo blockNo { s.block dieNo blockNo with currentPage := 0 }

def LockBlockForBlkMapping (s : State) (dieNo blockNo : Nat) : State :=
  s.setBlock dieNo blockNo
    { s.block dieNo blockNo with
      currentPage := ((s.block dieNo blockNo).currentPage ||| BLOCK_CUR_PAGE_LOCK_MASK) % 65536 }

def UnlockBlockFromBlkMapping (s : State) (dieNo blockNo : Nat) : State :=
  s.setBlock dieNo blockNo
    { s.block dieNo blockNo with
      currentPage := ((s.block dieNo blockNo).currentPage &&& BLOCK_CUR_PAGE_VALUE_MASK) % 65536 }

/-! ## Initialisation -/

def InitSliceMap (cfg : Config) (s : State) : State :=
  let s1 := forLoop cfg.SLICES_PER_SSD
    (fun sliceAddr t =>
      { t with
        logicalSlice := upd t.logicalSlice sliceAddr cfg.VSA_NONE
        virtualSlice := upd t.virtualSlice sliceAddr cfg.LSA_NONE }) s
  forLoop cfg.LOGICAL_BLOCKS_PER_SSD
    (fun sliceAddr t =>
      { t with
        logicalBlockBaseVsa := upd t.logicalBlockBaseVsa sliceAddr cfg.VSA_NONE
        logicalBlockNextOffset := upd t.logicalBlockNextOffset sliceAddr 0 }) s1

def InitDieMap (cfg : Config) (s : State) : State :=
  forLoop cfg.USER_DIES
    (fun dieNo t =>
      t.setDie dieNo
        { t.die dieNo with
          headFreeBlock := cfg.BLOCK_NONE
          tailFreeBlock := cfg.BLOCK_NONE
          freeBlockCnt := 0 }) s

/-! ## Free-block list -/

def PutToFbList (cfg : Config) (s : State) (dieNo blockNo : Nat) : State :=
  let s1 :=
    if (s.die dieNo).tailFreeBlock ≠ cfg.BLOCK_NONE then
      let t1 := s.setBlock dieNo blockNo
        { s.block dieNo blockNo with prevBlock := (s.die dieNo).tailFreeBlock }
      let t2 := t1.setBlock dieNo blockNo
        { t1.block dieNo blockNo with nextBlock := cfg.BLOCK_NONE }
      let t3 := t2.setBlock dieNo (t2.die dieNo).tailFreeBlock
        { t2.block dieNo (t2.die dieNo).tailFreeBlock with nextBlock := blockNo }
      t3.setDie dieNo { t3.die dieNo with tailFreeBlock := blockNo }
    else
      let t1 := s.setBlock dieNo blockNo
        { s.block dieNo blockNo with prevBlock := cfg.BLOCK_NONE }
      let t2 := t1.setBlock dieNo blockNo
        { t1.block dieNo blockNo with nextBlock := cfg.BLOCK_NONE }
      let t3 := t2.setDie dieNo { t2.die dieNo with headFreeBlock := blockNo }
      t3.setDie dieNo { t3.die dieNo with tailFreeBlock := blockNo }
  s1.setDie dieNo { s1.die dieNo with freeBlockCnt := (s1.die dieNo).freeBlockCnt + 1 }

/-- The part of `GetFromFbList` after the option test: unlink the head
`evictedBlockNo` and return it. -/
def GetFromFbList.unlink (cfg : Config) (s : State) (dieNo evictedBlockNo : Nat) :
    Nat × State :=
  let s1 :=
    if (s.block dieNo evictedBlockNo).nextBlock ≠ cfg.BLOCK_NONE then
      let t1 := s.setDie dieNo
        { s.die dieNo with headFreeBlock := (s.block dieNo evictedBlockNo).nextBlock }
      t1.setBlock dieNo (t1.block dieNo evictedBlockNo).nextBlock
        { t1.block dieNo (t1.block dieNo evictedBlockNo).nextBlock with
          prevBlock := cfg.BLOCK_NONE }
    else
      let t1 := s.setDie dieNo { s.die dieNo with headFreeBlock := cfg.BLOCK_NONE }
      t1.setDie dieNo { t1.die dieNo with tailFreeBlock := cfg.BLOCK_NONE }
  let s2 := s1.setBlock dieNo evictedBlockNo { s1.block dieNo evictedBlockNo with free := 0 }
  let s3 := s2.setDie dieNo { s2.die dieNo with freeBlockCnt := (s2.die dieNo).freeBlockCnt - 1 }
  let s4 := s3.setBlock dieNo evictedBlockNo
    { s3.block dieNo evictedBlockNo with nextBlock := cfg.BLOCK_NONE }
  let s5 := s4.setBlock dieNo evictedBlockNo
    { s4.block dieNo evictedBlockNo with prevBlock := cfg.BLOCK_NONE }
  (evictedBlockNo, s5)

def GetFromFbList (cfg : Config) (s : State) (dieNo getFreeBlockOption : Nat) :
    Outcome (Nat × State) :=
  let evictedBlockNo := (s.die dieNo).headFreeBlock
  if getFreeBlockOption = cfg.GET_FREE_BLOCK_NORMAL then
    if (s.die dieNo).freeBlockCnt ≤ cfg.RESERVED_FREE_BLOCK_COUNT then
      .ok (cfg.BLOCK_FAIL, s)
    else .ok (GetFromFbList.unlink cfg s dieNo evictedBlockNo)
  else if getFreeBlockOption = cfg.GET_FREE_BLOCK_GC then
    if evictedBlockNo = cfg.BLOCK_NONE then .ok (cfg.BLOCK_FAIL, s)
    else .ok (GetFromFbList.unlink cfg s dieNo evictedBlockNo)
  else .fatal s

/-! ## Block map -/

/-- Body of the inner loop of `InitBlockMap`. -/
def InitBlockMap.body (cfg : Config) (dieNo virtualBlockNo : Nat) (s : State) : State :=
  let phyBlockNo := cfg.Vblock2PblockOfTbsTranslation virtualBlockNo
  let remappedPhyBlock := (s.phyBlock dieNo phyBlockNo).remappedPhyBlock
  let s1 := s.setBlock dieNo virtualBlockNo
    { s.block dieNo virtualBlockNo with bad := (s.phyBlock dieNo remappedPhyBlock).bad }
  let s2 := s1.setBlock dieNo virtualBlockNo { s1.block dieNo virtualBlockNo with free := 1 }
  let s3 := s2.setBlock dieNo virtualBlockNo
    { s2.block dieNo virtualBlockNo with invalidSliceCnt := 0 }
  let s4 := ResetBlockCurrentPage s3 dieNo virtualBlockNo
  let s5 := s4.setBlock dieNo virtualBlockNo { s4.block dieNo virtualBlockNo with eraseCnt := 0 }
  if (s5.block dieNo virtualBlockNo).bad ≠ 0 then
    let s6 := s5.setBlock dieNo virtualBlockNo
      { s5.block dieNo virtualBlockNo with prevBlock := cfg.BLOCK_NONE }
    s6.setBlock dieNo virtualBlockNo
      { s6.block dieNo virtualBlockNo with nextBlock := cfg.BLOCK_NONE }
  else PutToFbList cfg s5 dieNo virtualBlockNo

def InitBlockMap (cfg : Config) (s : State) : State :=
  forLoop cfg.USER_DIES
    (fun dieNo t => forLoop cfg.USER_BLOCKS_PER_DIE (InitBlockMap.body cfg dieNo) t) s

/-- Body of the loop of `InitCurrentBlockOfDieMap`. -/
def InitCurrentBlockOfDieMap.body (cfg : Config) (dieNo : Nat) (x : Outcome State) :
    Outcome State :=
  x.bind fun s =>
    (GetFromFbList cfg s dieNo cfg.GET_FREE_BLOCK_NORMAL).bind fun r =>
      let s1 := r.2.setDie dieNo { r.2.die dieNo with currentBlock := r.1 }
      if (s1.die dieNo).currentBlock = cfg.BLOCK_FAIL then .fatal s1 else .ok s1

def InitCurrentBlockOfDieMap (cfg : Config) (s : State) : Outcome State :=
  forLoop cfg.USER_DIES (InitCurrentBlockOfDieMap.body cfg) (.ok s)

/-! ## Allocator -/

def FindDieForFreeSliceAllocation (cfg : Config) (s : State) : Nat × State :=
  let targetDie := Pcw2VdieTranslation cfg s.targetCh s.targetWay
  if s.targetCh ≠ cfg.USER_CHANNELS - 1 then
    (targetDie, { s with targetCh := (s.targetCh + 1) % 256 })
  else
    let s1 := { s with targetCh := 0 }
    (targetDie, { s1 with targetWay := ((s1.targetWay + 1) % cfg.USER_WAYS) % 256 })

/-- The `while` loop of `FindFreeVirtualBlock`; `fuel` bounds the number of
tests of the loop condition.  After a returning `GarbageCollection` the current
block of the die is read again, the two assertions are checked and the loop
goes on. -/
def FindFreeVirtualBlock.loop (gc : Collector) (cfg : Config) (dieNo : Nat) :
    Nat → State → Nat → Outcome (Nat × State)
  | 0, _, _ => .fuel
  | fuel + 1, s, currentBlock =>
    if GetBlockCurrentPage s dieNo currentBlock ≠ 0 ∨
        IsBlockReservedForBlkMapping s dieNo currentBlock ≠ 0 then
      (GetFromFbList cfg s dieNo cfg.GET_FREE_BLOCK_NORMAL).bind fun r =>
        if r.1 ≠ cfg.BLOCK_FAIL then
          let s1 := r.2.setDie dieNo { r.2.die dieNo with currentBlock := r.1 }
          let s2 := ResetBlockCurrentPage s1 dieNo r.1
          if GetBlockCurrentPage s2 dieNo r.1 ≤ cfg.USER_PAGES_PER_BLOCK then
            FindFreeVirtualBlock.loop gc cfg dieNo fuel s2 r.1
          else .fatal s2
        else
          (gc dieNo r.2).bind fun s1 =>
            let currentBlock := (s1.die dieNo).currentBlock
            if currentBlock = cfg.BLOCK_FAIL then .fatal s1
            else if GetBlockCurrentPage s1 dieNo currentBlock ≤ cfg.USER_PAGES_PER_BLOCK then
              FindFreeVirtualBlock.loop gc cfg dieNo fuel s1 currentBlock
            else .fatal s1
    else .ok (currentBlock, s)

/-- `FindFreeVirtualBlock()`, with collector `gc` and at most `fuel` tests of
the condition of its loop (two tests suffice when the collector is not
entered). -/
def FindFreeVirtualBlock (gc : Collector) (fuel : Nat) (cfg : Config) (s : State) :
    Outcome (Nat × State) :=
  let dieNo := s.sliceAllocationTargetDie
  let currentBlock := (s.die dieNo).currentBlock
  if currentBlock = cfg.BLOCK_FAIL then .fatal s
  else if ¬ GetBlockCurrentPage s dieNo currentBlock ≤ cfg.USER_PAGES_PER_BLOCK then .fatal s
  else
    (FindFreeVirtualBlock.loop gc cfg dieNo fuel s currentBlock).bind fun r =>
      let baseVsa := cfg.Vorg2VsaTranslation dieNo r.1 0
      let s1 := ResetBlockCurrentPage r.2 dieNo r.1
      let s2 := LockBlockForBlkMapping s1 dieNo r.1
      let d := FindDieForFreeSliceAllocation cfg s2
      .ok (baseVsa, { d.2 with sliceAllocationTargetDie := d.1 % 256 })

/-! ## Translator -/

def InvalidateOldVsa (cfg : Config) (s : State) (logicalSliceAddr : Nat) : State :=
  let virtualSliceAddr := s.logicalSlice logicalSliceAddr
  if virtualSliceAddr ≠ cfg.VSA_NONE then
    if s.virtualSlice virtualSliceAddr ≠ logicalSliceAddr then s
    else
      let dieNo := cfg.Vsa2VdieTranslation virtualSliceAddr
      let blockNo := cfg.Vsa2VblockTranslation virtualSliceAddr
      let s1 := { s with gcLog := s.gcLog ++ [GcCall.selectiveGet dieNo blockNo] }
      let s2 := s1.setBlock dieNo blockNo
        { s1.block dieNo blockNo with
          invalidSliceCnt := (s1.block dieNo blockNo).invalidSliceCnt + 1 }
      let s3 := { s2 with logicalSlice := upd s2.logicalSlice logicalSliceAddr cfg.VSA_NONE }
      { s3 with
        gcLog := s3.gcLog ++ [GcCall.put dieNo blockNo (s3.block dieNo blockNo).invalidSliceCnt] }
  else s

def AddrTransRead (cfg : Config) (s : State) (logicalSliceAddr : Nat) :
    Outcome (Nat × State) :=
  if logicalSliceAddr < cfg.SLICES_PER_SSD then
    let vSlice := s.logicalSlice logicalSliceAddr
    if vSlice ≠ cfg.VSA_NONE then .ok (vSlice, s) else .ok (cfg.VSA_FAIL, s)
  else .fatal s

/-- Step 3 of `AddrTransWrite`: reserve a virtual block for logical block
`block` when it has none. -/
def AddrTransWrite.reserve (gc : Collector) (fuel : Nat) (cfg : Config) (s : State)
    (block : Nat) : Outcome State :=
  if s.logicalBlockBaseVsa block = cfg.VSA_NONE then
    (FindFreeVirtualBlock gc fuel cfg s).bind fun r =>
      let s1 := { r.2 with logicalBlockBaseVsa := upd r.2.logicalBlockBaseVsa block r.1 }
      .ok { s1 with logicalBlockNextOffset := upd s1.logicalBlockNextOffset block 0 }
  else .ok s

/-- Steps 4 and 5 of `AddrTransWrite`: take the next slot of the reserved
block, record the mapping, track the programmed pages, release a full block. -/
def AddrTransWrite.commit (cfg : Config) (s : State) (logicalSliceAddr block : Nat) :
    Outcome (Nat × State) :=
  if s.logicalBlockNextOffset block ≥ cfg.SLICES_PER_BLOCK then .fatal s
  else
    let baseVsa := s.logicalBlockBaseVsa block
    let baseDie := cfg.Vsa2VdieTranslation baseVsa
    let baseBlock := cfg.Vsa2VblockTranslation baseVsa
    let pageOffset := s.logicalBlockNextOffset block
    let vSlice := cfg.Vorg2VsaTranslation baseDie baseBlock pageOffset
    let s1 := { s with
      logicalBlockNextOffset :=
        upd s.logicalBlockNextOffset block ((s.logicalBlockNextOffset block + 1) % 65536) }
    let s2 := { s1 with logicalSlice := upd s1.logicalSlice logicalSliceAddr vSlice }
    let s3 := { s2 with virtualSlice := upd s2.virtualSlice vSlice logicalSliceAddr }
    let vsaDie := cfg.Vsa2VdieTranslation vSlice
    let vsaBlock := cfg.Vsa2VblockTranslation vSlice
    let programmedPages :=
      (s3.logicalBlockNextOffset block + (cfg.SLICES_PER_PAGE - 1)) / cfg.SLICES_PER_PAGE
    let s4 :=
      if GetBlockCurrentPage s3 vsaDie vsaBlock < programmedPages then
        SetBlockCurrentPageCount s3 vsaDie vsaBlock programmedPages
      else s3
    let s5 :=
      if s4.logicalBlockNextOffset block = cfg.SLICES_PER_BLOCK then
        let t1 := UnlockBlockFromBlkMapping s4 vsaDie vsaBlock
        let t2 := { t1 with logicalBlockBaseVsa := upd t1.logicalBlockBaseVsa block cfg.VSA_NONE }
        { t2 with logicalBlockNextOffset := upd t2.logicalBlockNextOffset block 0 }
      else s4
    .ok (vSlice, s5)

/-- Step 2 of `AddrTransWrite`, after its assertion has passed: a mapped LSA
has its old VSA invalidated. -/
def AddrTransWrite.invalidate (cfg : Config) (s : State) (logicalSliceAddr : Nat) : State :=
  if s.logicalSlice logicalSliceAddr ≠ cfg.VSA_NONE then InvalidateOldVsa cfg s logicalSliceAddr
  else s

/-- `AddrTransWrite(logicalSliceAddr)`, with collector `gc` and at most `fuel`
tests of the loop condition of `FindFreeVirtualBlock`. -/
def AddrTransWrite (gc : Collector) (fuel : Nat) (cfg : Config) (s : State)
    (logicalSliceAddr : Nat) : Outcome (Nat × State) :=
  if logicalSliceAddr ≥ cfg.SLICES_PER_SSD then .fatal s
  else
    let block := AddrToBlock cfg logicalSliceAddr
    let vSlice := s.logicalSlice logicalSliceAddr
    if vSlice ≠ cfg.VSA_NONE ∧ s.virtualSlice vSlice ≠ logicalSliceAddr then .fatal s
    else
      let s1 := AddrTransWrite.invalidate cfg s logicalSliceAddr
      (AddrTransWrite.reserve gc fuel cfg s1 block).bind fun s2 =>
        AddrTransWrite.commit cfg s2 logicalSliceAddr block

/-- The part of `EraseBlock` before the loop over the pages: queue the erase
request, re-initialise the block entry, put the block on the free list. -/
def EraseBlock.requeue (cfg : Config) (s : State) (dieNo blockNo : Nat) : State :=
  let s0 := { s with
    reqLog := s.reqLog ++
      [EraseReq.mk (cfg.Vorg2VsaTranslation dieNo blockNo 0)
        (GetBlockCurrentPage s dieNo blockNo)] }
  let s1 := s0.setBlock dieNo blockNo { s0.block dieNo blockNo with free := 1 }
  let s2 := s1.setBlock dieNo blockNo
    { s1.block dieNo blockNo with eraseCnt := (s1.block dieNo blockNo).eraseCnt + 1 }
  let s3 := s2.setBlock dieNo blockNo { s2.block dieNo blockNo with invalidSliceCnt := 0 }
  let s4 := ResetBlockCurrentPage s3 dieNo blockNo
  PutToFbList cfg s4 dieNo blockNo

def EraseBlock (cfg : Config) (s : State) (dieNo blockNo : Nat) : State :=
  forLoop cfg.USER_PAGES_PER_BLOCK
    (fun pageNo t =>
      let virtualSliceAddr := cfg.Vorg2VsaTranslation dieNo blockNo pageNo
      { t with virtualSlice := upd t.virtualSlice virtualSliceAddr cfg.LSA_NONE })
    (EraseBlock.requeue cfg s dieNo blockNo)

/-! ## Runs and concrete instances -/

/-- The results of `n` successive calls of `FindDieForFreeSliceAllocation`,
in call order, and the state after them. -/
def callsFindDie (cfg : Config) : Nat → State → List Nat × State
  | 0, s => ([], s)
  | n + 1, s =>
    let r := FindDieForFreeSliceAllocation cfg s
    let rest := callsFindDie cfg n r.2
    (r.1 :: rest.1, rest.2)

/-- Successive `AddrTransWrite` calls to the listed LSAs; the run is `some`
when every call returned, and then holds the returned VSAs in call order and
the final state. -/
def writeAll (gc : Collector) (fuel : Nat) (cfg : Config) :
    State → List Nat → Option (List Nat × State)
  | s, [] => some ([], s)
  | s, lsa :: rest =>
    match AddrTransWrite gc fuel cfg s lsa with
    | .ok r =>
      match writeAll gc fuel cfg r.2 rest with
      | some q => some (r.1 :: q.1, q.2)
      | none => none
    | _ => none

/-- The state component of a returned call, `s` when the call did not return. -/
def Outcome.stateOr {α : Type} (x : Outcome (α × State)) (s : State) : State :=
  match x with
  | .ok r => r.2
  | _ => s

/-- The value component of a returned call, `v` when the call did not return. -/
def Outcome.valueOr {α : Type} (x : Outcome (α × State)) (v : α) : α :=
  match x with
  | .ok r => r.1
  | _ => v

/-- The geometry of the end-to-end scenarios: 2 channels x 2 ways, 4 user
blocks per die, 4 pages per block, `slicesPerPage` slices per page, VSAs
interleaved over the dies. -/
def scenarioWith (slicesPerPage : Nat) : Config where
  USER_CHANNELS := 2
  USER_WAYS := 2
  USER_BLOCKS_PER_DIE := 4
  USER_PAGES_PER_BLOCK := 4
  SLICES_PER_PAGE := slicesPerPage
  SLICES_PER_SSD := 4 * 4 * (4 * slicesPerPage)
  LOGICAL_BLOCKS_PER_SSD := 16
  RESERVED_FREE_BLOCK_COUNT := 1
  VSA_NONE := 0xffffffff
  VSA_FAIL := 0xffffffff
  LSA_NONE := 0xffffffff
  BLOCK_NONE := 0xffff
  BLOCK_FAIL := 0xffff
  GET_FREE_BLOCK_NORMAL := 0
  GET_FREE_BLOCK_GC := 1
  Vorg2VsaTranslation := fun d b p => d + 4 * (b * (4 * slicesPerPage) + p)
  Vsa2VdieTranslation := fun v => v % 4
  Vsa2VblockTranslation := fun v => v / 4 / (4 * slicesPerPage)
  Vsa2VpageTranslation := fun v => v / 4 % (4 * slicesPerPage)
  Vblock2PblockOfTbsTranslation := fun vb => vb

/-- The scenario geometry with one slice per page (64 slices). -/
def scenario : Config := scenarioWith 1

/-- Memory before initialisation: every table entry and every variable is 0. -/
def State.blank : State where
  logicalSlice := fun _ => 0
  virtualSlice := fun _ => 0
  block := fun _ _ => ⟨0, 0, 0, 0, 0, 0, 0⟩
  die := fun _ => ⟨0, 0, 0, 0⟩
  phyBlock := fun _ _ => ⟨0, 0⟩
  logicalBlockBaseVsa := fun _ => 0
  logicalBlockNextOffset := fun _ => 0
  sliceAllocationTargetDie := 0
  targetCh := 0
  targetWay := 0
  gcLog := []
  reqLog := []
  mbPerbadBlockSpace := 0

/-! ## Free-list consistency -/

/-- First element of a block list, `BLOCK_NONE` for the empty list. -/
def headOr (cfg : Config) (l : List Nat) : Nat := l.head?.getD cfg.BLOCK_NONE

/-- Last element of a block list, `BLOCK_NONE` for the empty list. -/
def lastOr (cfg : Config) (l : List Nat) : Nat := l.getLast?.getD cfg.BLOCK_NONE

/-- The blocks of `l` are chained in this order by `nextBlock`, with
`prevBlock` the inverse link (`prev` for the first node) and `BLOCK_NONE`
closing the chain; every node is a valid block index with `free = 1`. -/
def Linked (cfg : Config) (blk : Nat → VirtualBlock) : Nat → List Nat → Prop
  | _, [] => True
  | prev, b :: rest =>
    b < cfg.USER_BLOCKS_PER_DIE ∧ (blk b).free = 1 ∧ (blk b).prevBlock = prev ∧
      (blk b).nextBlock = headOr cfg rest ∧ Linked cfg blk b rest

/-- The free list of die `dieNo` is exactly `l`: following `nextBlock` from
`headFreeBlock` visits the pairwise distinct blocks of `l` in order and ends
at `tailFreeBlock`, `freeBlockCnt` is the length of `l`, the head has
`prevBlock = BLOCK_NONE`, the tail has `nextBlock = BLOCK_NONE`, `prevBlock`
inverts `nextBlock` along the list and every node has `free = 1`. -/
structure FreeListIs (cfg : Config) (s : State) (dieNo : Nat) (l : List Nat) : Prop where
  nodup : l.Nodup
  head : (s.die dieNo).headFreeBlock = headOr cfg l
  tail : (s.die dieNo).tailFreeBlock = lastOr cfg l
  count : (s.die dieNo).freeBlockCnt = l.length
  linked : Linked cfg (s.block dieNo) cfg.BLOCK_NONE l

/-- The free list of die `dieNo` is consistent. -/
def FreeListConsistent (cfg : Config) (s : State) (dieNo : Nat) : Prop :=
  ∃ l, FreeListIs cfg s dieNo l

/-- The `bad` flag that `InitBlockMap` gives virtual block `vb` of die `dieNo`. -/
def resolvedBad (cfg : Config) (s : State) (dieNo vb : Nat) : Nat :=
  (s.phyBlock dieNo
    (s.phyBlock dieNo (cfg.Vblock2PblockOfTbsTranslation vb)).remappedPhyBlock).bad

/-- The virtual blocks below `n` of die `dieNo` that `InitBlockMap` finds not
bad, in ascending order. -/
def goodBlocks (cfg : Config) (s : State) (dieNo n : Nat) : List Nat :=
  (List.range n).filter (fun vb => resolvedBad cfg s dieNo vb = 0)

/-- Every die has a consistent free list. -/
def FreeListsConsistent (cfg : Config) (s : State) : Prop :=
  ∀ d, d < cfg.USER_DIES → FreeListConsistent cfg s d

/-- Block `b` is a node of the free list of die `d`. -/
def OnFreeList (cfg : Config) (s : State) (d b : Nat) : Prop :=
  ∃ l, FreeListIs cfg s d l ∧ b ∈ l

/-- The result of a returned call, `a` when the call did not return. -/
def Outcome.getD {α : Type} (x : Outcome α) (a : α) : α :=
  match x with
  | .ok r => r
  | _ => a

/-- Boot of a geometry from blank memory, in the order of `InitAddressMap` and
`InitBlockDieMap`: identity remap, first allocation die, `InitSliceMap`,
`InitDieMap`, the bad-block-table block 0 of every die forced bad (kept
unremapped: the geometry has no spare blocks), `InitBlockMap`,
`InitCurrentBlockOfDieMap`. -/
def bootOf (cfg : Config) : State :=
  let s0 : State := { State.blank with phyBlock := fun _ pb => ⟨0, pb⟩ }
  let d := FindDieForFreeSliceAllocation cfg s0
  let s1 := { d.2 with sliceAllocationTargetDie := d.1 % 256 }
  let s2 := InitDieMap cfg (InitSliceMap cfg s1)
  let s3 := { s2 with phyBlock := fun dieNo pb => if pb = 0 then ⟨1, pb⟩ else s2.phyBlock dieNo pb }
  (InitCurrentBlockOfDieMap cfg (InitBlockMap cfg s3)).getD s3

/-- Boot of the scenario geometry. -/
def scenarioBoot : State := bootOf scenario

instance Linked.instDecidable (cfg : Config) (blk : Nat → VirtualBlock) :
    (prev : Nat) → (l : List Nat) → Decidable (Linked cfg blk prev l)
  | _, [] => isTrue trivial
  | prev, b :: rest =>
    have := Linked.instDecidable cfg blk b rest
    inferInstanceAs (Decidable (b < cfg.USER_BLOCKS_PER_DIE ∧ (blk b).free = 1 ∧
      (blk b).prevBlock = prev ∧ (blk b).nextBlock = headOr cfg rest ∧
      Linked cfg blk b rest))

/-- The scenario geometry with two slices per page (8 slices per block). -/
def scenarioTwo : Config := scenarioWith 2

/-- In the geometry with two slices per page: boot, write the eight LSAs of
logical block 0, then overwrite all eight. -/
def overwrittenTwo : State :=
  ((writeAll Collector.stop 2 scenarioTwo (bootOf scenarioTwo) (List.range 8 ++ List.range 8)).map
    (fun r => r.2)).getD State.blank

/-- Well-formedness of the allocator state, as the boot sequence leaves it and
as `AddrTransWrite` keeps it: the allocation die and the round-robin cursor are
in range, every die has a consistent free list and a valid current block that
is not on it, and an active cursor of a logical block points at slice 0 of a
valid virtual block that is not on a free list. -/
structure AllocInv (cfg : Config) (s : State) : Prop where
  targetDie_lt : s.sliceAllocationTargetDie < cfg.USER_DIES
  targetCh_lt : s.targetCh < cfg.USER_CHANNELS
  targetWay_lt : s.targetWay < cfg.USER_WAYS
  lists : FreeListsConsistent cfg s
  current_lt : ∀ d, d < cfg.USER_DIES → (s.die d).currentBlock < cfg.USER_BLOCKS_PER_DIE
  current_off : ∀ d, d < cfg.USER_DIES → ¬ OnFreeList cfg s d (s.die d).currentBlock
  cursor_ok : ∀ lb, lb < cfg.LOGICAL_BLOCKS_PER_SSD →
    s.logicalBlockBaseVsa lb ≠ cfg.VSA_NONE →
    ∃ d b, d < cfg.USER_DIES ∧ b < cfg.USER_BLOCKS_PER_DIE ∧
      s.logicalBlockBaseVsa lb = cfg.Vorg2VsaTranslation d b 0 ∧ ¬ OnFreeList cfg s d b

/-- The state after a run of writes, `s` itself when some call did not return. -/
def writeAllState (gc : Collector) (fuel : Nat) (cfg : Config) (s : State) (ls : List Nat) :
    State :=
  ((writeAll gc fuel cfg s ls).map (fun q => q.2)).getD s

def InvalidateOldVsaBlock (cfg : Config) (s : State) (logicalBlockAddr : Nat) : State :=
  let s1 := forLoop cfg.SLICES_PER_BLOCK
    (fun offset t =>
      let logicalSliceAddr := logicalBlockAddr * cfg.SLICES_PER_BLOCK + offset
      InvalidateOldVsa cfg t logicalSliceAddr) s
  if logicalBlockAddr < cfg.LOGICAL_BLOCKS_PER_SSD then
    let s2 := { s1 with
      logicalBlockBaseVsa := upd s1.logicalBlockBaseVsa logicalBlockAddr cfg.VSA_NONE }
    { s2 with logicalBlockNextOffset := upd s2.logicalBlockNextOffset logicalBlockAddr 0 }
  else s1

/-- The choice of the block in `FindFreeVirtualSlice`: the current block of the
die, or the head of the free list when the current block is full or locked.
When the free list is at its reserve the collector runs; after it the current
block is read again and tested again, and the free list is tried once more. -/
def FindFreeVirtualSlice.pick (gc : Collector) (cfg : Config) (s : State) (dieNo : Nat) :
    Outcome (Nat × State) :=
  let currentBlock := (s.die dieNo).currentBlock
  if GetBlockCurrentPage s dieNo currentBlock = cfg.USER_PAGES_PER_BLOCK ∨
      IsBlockReservedForBlkMapping s dieNo currentBlock ≠ 0 then
    (GetFromFbList cfg s dieNo cfg.GET_FREE_BLOCK_NORMAL).bind fun r =>
      if r.1 ≠ cfg.BLOCK_FAIL then
        .ok (r.1, r.2.setDie dieNo { r.2.die dieNo with currentBlock := r.1 })
      else
        (gc dieNo r.2).bind fun s1 =>
          let currentBlock := (s1.die dieNo).currentBlock
          if GetBlockCurrentPage s1 dieNo currentBlock = cfg.USER_PAGES_PER_BLOCK ∨
              IsBlockReservedForBlkMapping s1 dieNo currentBlock ≠ 0 then
            (GetFromFbList cfg s1 dieNo cfg.GET_FREE_BLOCK_NORMAL).bind fun q =>
              if q.1 ≠ cfg.BLOCK_FAIL then
                .ok (q.1, q.2.setDie dieNo { q.2.die dieNo with currentBlock := q.1 })
              else .fatal q.2
          else if GetBlockCurrentPage s1 dieNo currentBlock > cfg.USER_PAGES_PER_BLOCK then
            .fatal s1
          else .ok (currentBlock, s1)
  else if GetBlockCurrentPage s dieNo currentBlock > cfg.USER_PAGES_PER_BLOCK then .fatal s
  else .ok (currentBlock, s)

/-- `FindFreeVirtualSlice()`, with collector `gc`. -/
def FindFreeVirtualSlice (gc : Collector) (cfg : Config) (s : State) : Outcome (Nat × State) :=
  let dieNo := s.sliceAllocationTargetDie
  (FindFreeVirtualSlice.pick gc cfg s dieNo).bind fun q =>
    let virtualSliceAddr :=
      cfg.Vorg2VsaTranslation dieNo q.1 (GetBlockCurrentPage q.2 dieNo q.1)
    let s1 := SetBlockCurrentPageCount q.2 dieNo q.1 (GetBlockCurrentPage q.2 dieNo q.1 + 1)
    let d := FindDieForFreeSliceAllocation cfg s1
    .ok (virtualSliceAddr, { d.2 with sliceAllocationTargetDie := d.1 % 256 })

/-- The first step of `FindFreeVirtualSliceForGc`: a victim that is the current
block of the die is replaced as current block by the head of the free list. -/
def FindFreeVirtualSliceForGc.replace (cfg : Config) (s : State)
    (dieNo victimBlockNo : Nat) : Outcome State :=
  if victimBlockNo = (s.die dieNo).currentBlock then
    (GetFromFbList cfg s dieNo cfg.GET_FREE_BLOCK_GC).bind fun r =>
      let s1 := r.2.setDie dieNo { r.2.die dieNo with currentBlock := r.1 }
      if (s1.die dieNo).currentBlock = cfg.BLOCK_FAIL then .fatal s1 else .ok s1
  else .ok s

/-- The choice of the block in `FindFreeVirtualSliceForGc`. -/
def FindFreeVirtualSliceForGc.pick (cfg : Config) (s : State) (dieNo : Nat) :
    Outcome (Nat × State) :=
  let currentBlock := (s.die dieNo).currentBlock
  if GetBlockCurrentPage s dieNo currentBlock = cfg.USER_PAGES_PER_BLOCK ∨
      IsBlockReservedForBlkMapping s dieNo currentBlock ≠ 0 then
    (GetFromFbList cfg s dieNo cfg.GET_FREE_BLOCK_GC).bind fun r =>
      if r.1 ≠ cfg.BLOCK_FAIL then
        .ok (r.1, r.2.setDie dieNo { r.2.die dieNo with currentBlock := r.1 })
      else .fatal r.2
  else if GetBlockCurrentPage s dieNo currentBlock > cfg.USER_PAGES_PER_BLOCK then .fatal s
  else .ok (currentBlock, s)

def FindFreeVirtualSliceForGc (cfg : Config) (s : State)
    (copyTargetDieNo victimBlockNo : Nat) : Outcome (Nat × State) :=
  let dieNo := copyTargetDieNo
  (FindFreeVirtualSliceForGc.replace cfg s dieNo victimBlockNo).bind fun s1 =>
    (FindFreeVirtualSliceForGc.pick cfg s1 dieNo).bind fun q =>
      let virtualSliceAddr :=
        cfg.Vorg2VsaTranslation dieNo q.1 (GetBlockCurrentPage q.2 dieNo q.1)
      .ok (virtualSliceAddr,
        SetBlockCurrentPageCount q.2 dieNo q.1 (GetBlockCurrentPage q.2 dieNo q.1 + 1))

/-- The number of slice offsets `k < n` of logical block `lblk` whose LSA is
mapped, in state `s`, to a VSA of virtual block `(d, b)`. -/
def mappedInto (cfg : Config) (s : State) (lblk d b n : Nat) : Nat :=
  ((List.range n).filter (fun k =>
    decide (s.logicalSlice (lblk * cfg.SLICES_PER_BLOCK + k) ≠ cfg.VSA_NONE ∧
      cfg.Vsa2VdieTranslation (s.logicalSlice (lblk * cfg.SLICES_PER_BLOCK + k)) = d ∧
      cfg.Vsa2VblockTranslation (s.logicalSlice (lblk * cfg.SLICES_PER_BLOCK + k)) = b))).length

/-- `PutToFbList(dieNo, b)` for the blocks `b` of the list, in order. -/
def putAll (cfg : Config) (s : State) (dieNo : Nat) (bs : List Nat) : State :=
  bs.foldl (fun t b => PutToFbList cfg t dieNo b) s

/-- The results of `n` successive `GetFromFbList(dieNo, GET_FREE_BLOCK_GC)`
calls, in call order, and the state after them; `none` when a call does not
return. -/
def getAll (cfg : Config) (dieNo : Nat) : Nat → State → Option (List Nat × State)
  | 0, s => some ([], s)
  | n + 1, s =>
    match GetFromFbList cfg s dieNo cfg.GET_FREE_BLOCK_GC with
    | .ok r =>
      match getAll cfg dieNo n r.2 with
      | some q => some (r.1 :: q.1, q.2)
      | none => none
    | _ => none

/-- The blocks of `l` are chained in this order by `nextBlock`, with
`BLOCK_NONE` closing the chain; no node is `BLOCK_NONE`. -/
def NextChain (cfg : Config) (blk : Nat → VirtualBlock) : List Nat → Prop
  | [] => True
  | b :: rest =>
    b ≠ cfg.BLOCK_NONE ∧ (blk b).nextBlock = headOr cfg rest ∧ NextChain cfg blk rest

/-- The queue of die `dieNo` holds the pairwise distinct blocks of `l`, from
`headFreeBlock` to `tailFreeBlock`, as far as `PutToFbList` and `GetFromFbList`
in mode `GET_FREE_BLOCK_GC` read it: the `free` flags, the `prevBlock` links
and `freeBlockCnt` are left open. -/
structure FifoIs (cfg : Config) (s : State) (dieNo : Nat) (l : List Nat) : Prop where
  nodup : l.Nodup
  head : (s.die dieNo).headFreeBlock = headOr cfg l
  tail : (s.die dieNo).tailFreeBlock = lastOr cfg l
  chain : NextChain cfg (s.block dieNo) l

/-! ## Bad-block remapping -/

/-- Constants of the physical block space of a die, from the firmware headers:
each LUN has `TOTAL_BLOCKS_PER_LUN` blocks, of which the first
`USER_BLOCKS_PER_LUN` are user blocks and the rest are spares. -/
structure BlockSpace where
  USER_BLOCKS_PER_LUN : Nat
  TOTAL_BLOCKS_PER_LUN : Nat
  TOTAL_BLOCKS_PER_DIE : Nat
  LUNS_PER_DIE : Nat
  MB_PER_BLOCK : Nat

/-- What `RemapBadBlock` relies on about the block space: the user blocks of a
LUN are among its blocks, the user blocks of the LUNs in use are among the
blocks of the die, a block holds at least one megabyte, and the capacity of the
user blocks in megabytes fits an `unsigned int`. -/
structure BlockSpace.WellFormed (cfg : Config) (sp : BlockSpace) : Prop where
  user_le : sp.USER_BLOCKS_PER_LUN ≤ sp.TOTAL_BLOCKS_PER_LUN
  lun_le : sp.USER_BLOCKS_PER_LUN ≤ sp.TOTAL_BLOCKS_PER_DIE
  die_le : sp.LUNS_PER_DIE > 1 →
    sp.TOTAL_BLOCKS_PER_LUN + sp.USER_BLOCKS_PER_LUN ≤ sp.TOTAL_BLOCKS_PER_DIE
  mb_pos : 0 < sp.MB_PER_BLOCK
  capacity_fits : 2 * sp.USER_BLOCKS_PER_LUN * cfg.USER_DIES * sp.MB_PER_BLOCK < 4294967296

/-- The local arrays of `RemapBadBlock`. -/
structure RemapBadBlock.Locals where
  reservedBlockOfLun0 : Nat → Nat
  reservedBlockOfLun1 : Nat → Nat
  badBlockCount : Nat → Nat

/-- The `while` loop of `RemapBadBlock` that moves a reserve pointer over bad
spare blocks up to `limit`; it gives the pointer and `remapFlag`.  `fuel`
bounds the number of tests of the loop condition. -/
def RemapBadBlock.scan (s : State) (dieNo limit : Nat) : Nat → Nat → Option (Nat × Nat)
  | 0, _ => none
  | fuel + 1, reserved =>
    if (s.phyBlock dieNo reserved).bad ≠ 0 then
      if reserved + 1 ≥ limit then some (reserved + 1, 0)
      else RemapBadBlock.scan s dieNo limit fuel (reserved + 1)
    else some (reserved, 1)

/-- One of the two sections (`lun0`, `lun1`) of the loop body of
`RemapBadBlock`, for the user block `pb` of die `dieNo`, the end `limit` of the
spare range and the reserve pointer `reserved` of that LUN.  It gives the
state, the reserve pointer, and the number (0 or 1) by which
`badBlockCount[dieNo]` grows.  The section `lun0` has `pb = blockNo`,
`limit = TOTAL_BLOCKS_PER_LUN` and the pointer `reservedBlockOfLun0[dieNo]`;
the section `lun1` has `pb = blockNo + TOTAL_BLOCKS_PER_LUN`,
`limit = TOTAL_BLOCKS_PER_DIE` and the pointer `reservedBlockOfLun1[dieNo]`. -/
def RemapBadBlock.lun (s : State) (dieNo pb limit reserved : Nat) :
    Option (State × Nat × Nat) :=
  if (s.phyBlock dieNo pb).bad ≠ 0 then
    if reserved < limit then
      match RemapBadBlock.scan s dieNo limit (limit - reserved) reserved with
      | none => none
      | some r =>
        if r.2 ≠ 0 then
          some ({ s with
            phyBlock := upd2 s.phyBlock dieNo pb
              { s.phyBlock dieNo pb with remappedPhyBlock := r.1 } }, r.1 + 1, 0)
        else some (s, r.1, 1)
    else some (s, reserved, 1)
  else some (s, reserved, 0)

/-- Body of the inner loop of `RemapBadBlock`. -/
def RemapBadBlock.body (sp : BlockSpace) (blockNo dieNo : Nat)
    (x : Outcome (State × RemapBadBlock.Locals)) : Outcome (State × RemapBadBlock.Locals) :=
  x.bind fun st =>
    match RemapBadBlock.lun st.1 dieNo blockNo sp.TOTAL_BLOCKS_PER_LUN
        (st.2.reservedBlockOfLun0 dieNo) with
    | none => .fuel
    | some r0 =>
      let v1 : RemapBadBlock.Locals :=
        { st.2 with
          reservedBlockOfLun0 := upd st.2.reservedBlockOfLun0 dieNo r0.2.1
          badBlockCount := upd st.2.badBlockCount dieNo (st.2.badBlockCount dieNo + r0.2.2) }
      if sp.LUNS_PER_DIE > 1 then
        match RemapBadBlock.lun r0.1 dieNo (blockNo + sp.TOTAL_BLOCKS_PER_LUN)
            sp.TOTAL_BLOCKS_PER_DIE (v1.reservedBlockOfLun1 dieNo) with
        | none => .fuel
        | some r1 =>
          .ok (r1.1,
            { v1 with
              reservedBlockOfLun1 := upd v1.reservedBlockOfLun1 dieNo r1.2.1
              badBlockCount := upd v1.badBlockCount dieNo (v1.badBlockCount dieNo + r1.2.2) })
      else .ok (r0.1, v1)

/-- The first loop of `RemapBadBlock`: the initial values of the local arrays. -/
def RemapBadBlock.init (cfg : Config) (sp : BlockSpace) : RemapBadBlock.Locals :=
  forLoop cfg.USER_DIES
    (fun dieNo v =>
      { reservedBlockOfLun0 := upd v.reservedBlockOfLun0 dieNo sp.USER_BLOCKS_PER_LUN
        reservedBlockOfLun1 :=
          upd v.reservedBlockOfLun1 dieNo (sp.TOTAL_BLOCKS_PER_LUN + sp.USER_BLOCKS_PER_LUN)
        badBlockCount := upd v.badBlockCount dieNo 0 })
    ⟨fun _ => 0, fun _ => 0, fun _ => 0⟩

/-- The last loop of `RemapBadBlock`: the largest `badBlockCount` of a die. -/
def RemapBadBlock.maxCount (cfg : Config) (badBlockCount : Nat → Nat) : Nat :=
  forLoop cfg.USER_DIES
    (fun dieNo maxBadBlockCount =>
      if maxBadBlockCount < badBlockCount dieNo then badBlockCount dieNo
      else maxBadBlockCount) 0

def RemapBadBlock (cfg : Config) (sp : BlockSpace) (s : State) : Outcome State :=
  (forLoop sp.USER_BLOCKS_PER_LUN
    (fun blockNo x => forLoop cfg.USER_DIES (RemapBadBlock.body sp blockNo) x)
    (.ok (s, RemapBadBlock.init cfg sp))).bind fun st =>
      let maxBadBlockCount := RemapBadBlock.maxCount cfg st.2.badBlockCount
      .ok { st.1 with
        mbPerbadBlockSpace :=
          (maxBadBlockCount * cfg.USER_DIES * sp.MB_PER_BLOCK) % 4294967296 }

/-- The number of offsets `i < n` for which block `base + i` of die `dieNo` is
bad and is its own remap target. -/
def missCount (s : State) (dieNo base n : Nat) : Nat :=
  ((List.range n).filter (fun i =>
    decide ((s.phyBlock dieNo (base + i)).bad ≠ 0 ∧
      (s.phyBlock dieNo (base + i)).remappedPhyBlock = base + i))).length

/-- The number of bad user blocks of die `dieNo` (of LUN0 and, when
`LUNS_PER_DIE > 1`, of LUN1) that are their own remap target: the bad user
blocks that have not been assigned a spare. -/
def unassignedBad (sp : BlockSpace) (s : State) (dieNo : Nat) : Nat :=
  missCount s dieNo 0 sp.USER_BLOCKS_PER_LUN +
    (if sp.LUNS_PER_DIE > 1 then missCount s dieNo sp.TOTAL_BLOCKS_PER_LUN sp.USER_BLOCKS_PER_LUN
      else 0)

/-- The remapping of one LUN of die `d` after its first `n` user blocks, seen
from the state `s0` before the remapping: the user blocks are
`base, .., base + ubl - 1`, the spares are `start, .., limit - 1`, and `r` is
the reserve pointer. -/
structure RemapInv (s0 s : State) (d base ubl start limit n r : Nat) : Prop where
  ptr_ge : start ≤ r
  done : ∀ i, i < n →
    ((s0.phyBlock d (base + i)).bad = 0 →
      (s.phyBlock d (base + i)).remappedPhyBlock = base + i) ∧
    ((s0.phyBlock d (base + i)).bad ≠ 0 →
      (start ≤ (s.phyBlock d (base + i)).remappedPhyBlock ∧
        (s.phyBlock d (base + i)).remappedPhyBlock < r ∧
        (s.phyBlock d (base + i)).remappedPhyBlock < limit ∧
        (s0.phyBlock d (s.phyBlock d (base + i)).remappedPhyBlock).bad = 0) ∨
      ((s.phyBlock d (base + i)).remappedPhyBlock = base + i ∧ limit ≤ r))
  todo : ∀ i, n ≤ i → i < ubl → (s.phyBlock d (base + i)).remappedPhyBlock = base + i
  used : ∀ q, start ≤ q → q < r → q < limit → (s0.phyBlock d q).bad = 0 →
    ∃ i, i < n ∧ (s0.phyBlock d (base + i)).bad ≠ 0 ∧
      (s.phyBlock d (base + i)).remappedPhyBlock = q

/-- What holds for die `d` when the outer loop of `RemapBadBlock` has handled
the user blocks below `n` of every LUN: both LUNs are remapped that far, and
`badBlockCount[d]` counts the bad user blocks that got no spare. -/
structure RemapDone (sp : BlockSpace) (s0 s : State) (v : RemapBadBlock.Locals)
    (d n : Nat) : Prop where
  lun0 : RemapInv s0 s d 0 sp.USER_BLOCKS_PER_LUN sp.USER_BLOCKS_PER_LUN
    sp.TOTAL_BLOCKS_PER_LUN n (v.reservedBlockOfLun0 d)
  lun1 : sp.LUNS_PER_DIE > 1 →
    RemapInv s0 s d sp.TOTAL_BLOCKS_PER_LUN sp.USER_BLOCKS_PER_LUN
      (sp.TOTAL_BLOCKS_PER_LUN + sp.USER_BLOCKS_PER_LUN) sp.TOTAL_BLOCKS_PER_DIE n
      (v.reservedBlockOfLun1 d)
  count : v.badBlockCount d = missCount s d 0 n +
    (if sp.LUNS_PER_DIE > 1 then missCount s d sp.TOTAL_BLOCKS_PER_LUN n else 0)

/-- A geometry with spare blocks for the remapping scenarios: 2 LUNs per die,
4 user blocks and 2 spares per LUN. -/
def scenarioSpace : BlockSpace where
  USER_BLOCKS_PER_LUN := 4
  TOTAL_BLOCKS_PER_LUN := 6
  TOTAL_BLOCKS_PER_DIE := 12
  LUNS_PER_DIE := 2
  MB_PER_BLOCK := 4

/-- Identity remapping, with the listed physical blocks of every die bad. -/
def badBlocksAt (bad : List Nat) : State :=
  { State.blank with phyBlock := fun _ pb => ⟨if pb ∈ bad then 1 else 0, pb⟩ }

/-! ## Reachable states -/

/-- The table-building part of the boot sequence (`InitAddressMap`,
`InitBlockDieMap`), run on memory `s` whose physical-block table is the one
that bad-block discovery and remapping leave: the round-robin statics start at
0, the first allocation die is chosen, then `InitSliceMap`, `InitDieMap`,
`InitBlockMap` and `InitCurrentBlockOfDieMap` run. -/
def initialise (cfg : Config) (s : State) : Outcome State :=
  let d := FindDieForFreeSliceAllocation cfg { s with targetCh := 0, targetWay := 0 }
  let s1 := { d.2 with sliceAllocationTargetDie := d.1 % 256 }
  InitCurrentBlockOfDieMap cfg (InitBlockMap cfg (InitDieMap cfg (InitSliceMap cfg s1)))

/-- A call of one of the operations of the translator. -/
inductive Call where
  | write (logicalSliceAddr : Nat)
  | invalidate (logicalSliceAddr : Nat)
  | invalidateBlock (logicalBlockAddr : Nat)
  | findSlice
  | findSliceForGc (copyTargetDieNo victimBlockNo : Nat)
  | erase (dieNo blockNo : Nat)
deriving DecidableEq, Repr

/-- The state after a call, `none` when the call does not return. -/
def Call.run (gc : Collector) (fuel : Nat) (cfg : Config) (s : State) : Call → Option State
  | .write lsa =>
    match AddrTransWrite gc fuel cfg s lsa with
    | .ok r => some r.2
    | _ => none
  | .invalidate lsa => some (InvalidateOldVsa cfg s lsa)
  | .invalidateBlock lblk => some (InvalidateOldVsaBlock cfg s lblk)
  | .findSlice =>
    match FindFreeVirtualSlice gc cfg s with
    | .ok r => some r.2
    | _ => none
  | .findSliceForGc d v =>
    match FindFreeVirtualSliceForGc cfg s d v with
    | .ok r => some r.2
    | _ => none
  | .erase d b => some (EraseBlock cfg s d b)

/-- The state after a sequence of calls, `none` when one of them does not
return. -/
def runCalls (gc : Collector) (fuel : Nat) (cfg : Config) : State → List Call → Option State
  | s, [] => some s
  | s, c :: cs =>
    match c.run gc fuel cfg s with
    | some t => runCalls gc fuel cfg t cs
    | none => none

/-- The calls `AddrTransWrite`, `InvalidateOldVsa` and `FindFreeVirtualSlice`. -/
def Call.isAllocation : Call → Bool
  | .write _ => true
  | .invalidate _ => true
  | .findSlice => true
  | _ => false

/-- The allocator state is well formed, the lock bit of the block under every
active cursor is set, and no two logical blocks have their cursors on the same
block. -/
structure LockInv (cfg : Config) (s : State) : Prop where
  alloc : AllocInv cfg s
  locked : ∀ lb d b, lb < cfg.LOGICAL_BLOCKS_PER_SSD → d < cfg.USER_DIES →
    b < cfg.USER_BLOCKS_PER_DIE → s.logicalBlockBaseVsa lb = cfg.Vorg2VsaTranslation d b 0 →
    IsBlockReservedForBlkMapping s d b ≠ 0
  distinct : ∀ lb lb' d b, lb < cfg.LOGICAL_BLOCKS_PER_SSD → lb' < cfg.LOGICAL_BLOCKS_PER_SSD →
    d < cfg.USER_DIES → b < cfg.USER_BLOCKS_PER_DIE →
    s.logicalBlockBaseVsa lb = cfg.Vorg2VsaTranslation d b 0 →
    s.logicalBlockBaseVsa lb' = cfg.Vorg2VsaTranslation d b 0 → lb = lb'

/-- The VSA `v` holds live data: its reverse entry names an LSA whose forward
entry is `v`. -/
def coherentSlot (cfg : Config) (s : State) (v : Nat) : Prop :=
  s.virtualSlice v < cfg.SLICES_PER_SSD ∧ s.logicalSlice (s.virtualSlice v) = v

instance coherentSlot.instDecidable (cfg : Config) (s : State) (v : Nat) :
    Decidable (coherentSlot cfg s v) :=
  inferInstanceAs (Decidable (_ ∧ _))

/-- The number of slices of virtual block `(d, b)` that hold live data. -/
def liveSlices (cfg : Config) (s : State) (d b : Nat) : Nat :=
  ((List.range cfg.SLICES_PER_BLOCK).filter
    (fun p => decide (coherentSlot cfg s (cfg.Vorg2VsaTranslation d b p)))).length

/-- The use of the blocks as the translator keeps it when it is called as
intended: a block that is not bad has `free = 1` exactly while it is on the
free list of its die; a bad block is never on a free list and keeps the
`free = 1` that `InitBlockMap` gave it; a listed block has `currentPage = 0`;
no block has more programmed pages than `USER_PAGES_PER_BLOCK`; mapped LSAs
point at valid VSAs; an unlocked block with no programmed page has no invalid
and no live slice; in every block the invalid and the live slices together are
at most `SLICES_PER_BLOCK`, and at most the offset of the cursor when the block
is under a cursor. -/
structure UseInv (cfg : Config) (s : State) : Prop where
  lock : LockInv cfg s
  free_iff : ∀ d b, d < cfg.USER_DIES → b < cfg.USER_BLOCKS_PER_DIE → (s.block d b).bad = 0 →
    ((s.block d b).free = 1 ↔ OnFreeList cfg s d b)
  bad_off : ∀ d b, d < cfg.USER_DIES → b < cfg.USER_BLOCKS_PER_DIE → (s.block d b).bad ≠ 0 →
    ¬ OnFreeList cfg s d b ∧ (s.block d b).free = 1
  listed : ∀ d b, d < cfg.USER_DIES → OnFreeList cfg s d b → (s.block d b).currentPage = 0
  pages : ∀ d b, d < cfg.USER_DIES → b < cfg.USER_BLOCKS_PER_DIE →
    GetBlockCurrentPage s d b ≤ cfg.USER_PAGES_PER_BLOCK
  fwd : ∀ lsa, lsa < cfg.SLICES_PER_SSD → s.logicalSlice lsa ≠ cfg.VSA_NONE →
    s.logicalSlice lsa < cfg.SLICES_PER_SSD
  clean : ∀ d b, d < cfg.USER_DIES → b < cfg.USER_BLOCKS_PER_DIE →
    GetBlockCurrentPage s d b = 0 → IsBlockReservedForBlkMapping s d b = 0 →
    (s.block d b).invalidSliceCnt = 0 ∧ liveSlices cfg s d b = 0
  cap : ∀ d b, d < cfg.USER_DIES → b < cfg.USER_BLOCKS_PER_DIE →
    (s.block d b).invalidSliceCnt + liveSlices cfg s d b ≤ cfg.SLICES_PER_BLOCK
  cursor_cap : ∀ lb d b, lb < cfg.LOGICAL_BLOCKS_PER_SSD → d < cfg.USER_DIES →
    b < cfg.USER_BLOCKS_PER_DIE → s.logicalBlockBaseVsa lb = cfg.Vorg2VsaTranslation d b 0 →
    (s.block d b).invalidSliceCnt + liveSlices cfg s d b ≤ s.logicalBlockNextOffset lb

/-- The calls as the firmware issues them.  `InvalidateOldVsa` and
`InvalidateOldVsaBlock` get LSAs below `SLICES_PER_SSD`;
`FindFreeVirtualSliceForGc` gets a valid die; `EraseBlock` gets a valid block
that is neither bad nor free, is not the current block of its die, is under no
cursor of a logical block, and holds no live slice (the garbage collector has
moved its live data). -/
def Call.Admissible (cfg : Config) (s : State) : Call → Prop
  | .write _ => True
  | .invalidate lsa => lsa < cfg.SLICES_PER_SSD
  | .invalidateBlock lblk =>
    ∀ k, k < cfg.SLICES_PER_BLOCK → lblk * cfg.SLICES_PER_BLOCK + k < cfg.SLICES_PER_SSD
  | .findSlice => True
  | .findSliceForGc d _ => d < cfg.USER_DIES
  | .erase d b =>
    d < cfg.USER_DIES ∧ b < cfg.USER_BLOCKS_PER_DIE ∧ (s.block d b).bad = 0 ∧
    (s.block d b).free = 0 ∧ b ≠ (s.die d).currentBlock ∧
    (∀ lb, lb < cfg.LOGICAL_BLOCKS_PER_SSD →
      s.logicalBlockBaseVsa lb ≠ cfg.Vorg2VsaTranslation d b 0) ∧
    liveSlices cfg s d b = 0

instance Call.Admissible.instDecidable (cfg : Config) (s : State) (c : Call) :
    Decidable (c.Admissible cfg s) := by
  cases c <;> unfold Call.Admissible <;> infer_instance

/-- The state after a sequence of admissible calls, `none` when one of them is
not admissible or does not return. -/
def runAdmissible (gc : Collector) (fuel : Nat) (cfg : Config) :
    State → List Call → Option State
  | s, [] => some s
  | s, c :: cs =>
    if c.Admissible cfg s then
      match c.run gc fuel cfg s with
      | some t => runAdmissible gc fuel cfg t cs
      | none => none
    else none

/-- The fields that `InitBlockMap` and `InitCurrentBlockOfDieMap` never write:
`t` has the slice maps, the cursors of the logical blocks and the allocation
statics of `s`. -/
structure SameMaps (s t : State) : Prop where
  logicalSlice : t.logicalSlice = s.logicalSlice
  virtualSlice : t.virtualSlice = s.virtualSlice
  base : t.logicalBlockBaseVsa = s.logicalBlockBaseVsa
  offset : t.logicalBlockNextOffset = s.logicalBlockNextOffset
  targetDie : t.sliceAllocationTargetDie = s.sliceAllocationTargetDie
  targetCh : t.targetCh = s.targetCh
  targetWay : t.targetWay = s.targetWay

/-- The scenario geometry initialised with physical block 0 of every die bad
and not remapped. -/
def scenarioInit : State := (initialise scenario (badBlocksAt [0])).getD State.blank

/-- The state after a sequence of calls, `s` itself when a call does not
return. -/
def runCallsState (gc : Collector) (fuel : Nat) (cfg : Config) (s : State)
    (calls : List Call) : State :=
  (runCalls gc fuel cfg s calls).getD s

/-- The state after a sequence of admissible calls, `s` itself when a call is
not admissible or does not return. -/
def runAdmissibleState (gc : Collector) (fuel : Nat) (cfg : Config) (s : State)
    (calls : List Call) : State :=
  (runAdmissible gc fuel cfg s calls).getD s

/-- The calls `AddrTransWrite`, `InvalidateOldVsa` and `InvalidateOldVsaBlock`. -/
def Call.isMapping : Call → Bool
  | .write _ => true
  | .invalidate _ => true
  | .invalidateBlock _ => true
  | _ => false

/-- Writes that fill logical block 0 and start logical block 1, with an
overwrite, an invalidation and the invalidation of logical block 0. -/
def mappingRun : List Call :=
  [.write 0, .write 1, .write 2, .write 3, .write 4, .write 1, .invalidate 2,
    .invalidateBlock 0, .write 0]

/-! ## Invariants of the mapping calls -/

/-- The maps as `AddrTransWrite`, `InvalidateOldVsa` and `InvalidateOldVsaBlock`
keep them: the lock invariant holds; a listed block has `currentPage = 0`; a
mapped LSA points at a valid VSA whose reverse entry names it; and the block of
a mapped VSA is locked or has a programmed page, with the slot of the VSA below
the cursor when the block is under a cursor. -/
structure MapInv (cfg : Config) (s : State) : Prop where
  lock : LockInv cfg s
  listed : ∀ d b, d < cfg.USER_DIES → OnFreeList cfg s d b → (s.block d b).currentPage = 0
  coh : ∀ lsa, lsa < cfg.SLICES_PER_SSD → s.logicalSlice lsa ≠ cfg.VSA_NONE →
    s.logicalSlice lsa < cfg.SLICES_PER_SSD ∧ s.virtualSlice (s.logicalSlice lsa) = lsa
  used : ∀ lsa d b p, lsa < cfg.SLICES_PER_SSD → d < cfg.USER_DIES →
    b < cfg.USER_BLOCKS_PER_DIE → p < cfg.SLICES_PER_BLOCK →
    s.logicalSlice lsa = cfg.Vorg2VsaTranslation d b p →
    (GetBlockCurrentPage s d b ≠ 0 ∨ IsBlockReservedForBlkMapping s d b ≠ 0) ∧
    ∀ lb, lb < cfg.LOGICAL_BLOCKS_PER_SSD →
      s.logicalBlockBaseVsa lb = cfg.Vorg2VsaTranslation d b 0 → p < s.logicalBlockNextOffset lb

/-- The cursors of the logical blocks are below `SLICES_PER_BLOCK`, and 0 for a
logical block without a reserved block. -/
def OffsetInv (cfg : Config) (s : State) : Prop :=
  ∀ lb, lb < cfg.LOGICAL_BLOCKS_PER_SSD →
    (s.logicalBlockBaseVsa lb ≠ cfg.VSA_NONE →
      s.logicalBlockNextOffset lb < cfg.SLICES_PER_BLOCK) ∧
    (s.logicalBlockBaseVsa lb = cfg.VSA_NONE → s.logicalBlockNextOffset lb = 0)

/-- The user physical blocks of a die: the first `USER_BLOCKS_PER_LUN` blocks
of LUN0 and, when `LUNS_PER_DIE > 1`, of LUN1. -/
def BlockSpace.IsUserBlock (sp : BlockSpace) (pb : Nat) : Prop :=
  pb < sp.USER_BLOCKS_PER_LUN ∨
    (sp.LUNS_PER_DIE > 1 ∧ sp.TOTAL_BLOCKS_PER_LUN ≤ pb ∧
      pb < sp.TOTAL_BLOCKS_PER_LUN + sp.USER_BLOCKS_PER_LUN)

instance BlockSpace.IsUserBlock.instDecidable (sp : BlockSpace) (pb : Nat) :
    Decidable (sp.IsUserBlock pb) := by
  unfold BlockSpace.IsUserBlock; infer_instance

/-- The remap targets of one LUN of die `d` after its first `n` user blocks:
the reserve pointer `r` is not below the start of the spares; a handled block
is its own target or has a spare below the pointer and the limit; a block not
handled yet is its own target; and no two handled blocks have the same
target. -/
structure RemapMono (s : State) (d base ubl start limit n r : Nat) : Prop where
  ptr_ge : start ≤ r
  range : ∀ i, i < n →
    (s.phyBlock d (base + i)).remappedPhyBlock = base + i ∨
    (start ≤ (s.phyBlock d (base + i)).remappedPhyBlock ∧
      (s.phyBlock d (base + i)).remappedPhyBlock < r ∧
      (s.phyBlock d (base + i)).remappedPhyBlock < limit)
  todo : ∀ i, n ≤ i → i < ubl → (s.phyBlock d (base + i)).remappedPhyBlock = base + i
  inj : ∀ i j, i < j → j < n →
    (s.phyBlock d (base + i)).remappedPhyBlock ≠ (s.phyBlock d (base + j)).remappedPhyBlock

/-- The remap targets of both LUNs of die `d` when the outer loop of
`RemapBadBlock` has handled the user blocks below `n` of every LUN. -/
structure MonoDone (sp : BlockSpace) (s : State) (v : RemapBadBlock.Locals) (d n : Nat) :
    Prop where
  lun0 : RemapMono s d 0 sp.USER_BLOCKS_PER_LUN sp.USER_BLOCKS_PER_LUN
    sp.TOTAL_BLOCKS_PER_LUN n (v.reservedBlockOfLun0 d)
  lun1 : sp.LUNS_PER_DIE > 1 →
    RemapMono s d sp.TOTAL_BLOCKS_PER_LUN sp.USER_BLOCKS_PER_LUN
      (sp.TOTAL_BLOCKS_PER_LUN + sp.USER_BLOCKS_PER_LUN) sp.TOTAL_BLOCKS_PER_DIE n
      (v.reservedBlockOfLun1 d)

/-! ## The boot sequence and the bad-block-table block -/

/-- The loop of `InitBlockDieMap` that forces the bad-block-table block of
every die bad; `bbtPhyBlock dieNo` stands for `bbtInfo[dieNo].phyBlock`. -/
def InitBlockDieMap.markBbt (cfg : Config) (bbtPhyBlock : Nat → Nat) (s : State) : State :=
  forLoop cfg.USER_DIES
    (fun dieNo t =>
      { t with
        phyBlock := upd2 t.phyBlock dieNo (bbtPhyBlock dieNo)
          { t.phyBlock dieNo (bbtPhyBlock dieNo) with bad := 1 } }) s

/-- The table-building part of the boot sequence from the marking loop of
`InitBlockDieMap` on: the bad-block-table blocks are forced bad, `RemapBadBlock`
runs, and `initialise` builds the tables (`InitBlockMap`,
`InitCurrentBlockOfDieMap`, and before them the steps of `InitAddressMap` and
`InitBlockDieMap` that neither read nor write the physical-block table: the
choice of the first allocation die, `InitSliceMap`, `InitDieMap`).
`EraseUserBlockSpace` only queues erase requests and is left out. -/
def InitBlockDieMap.tables (cfg : Config) (sp : BlockSpace) (bbtPhyBlock : Nat → Nat)
    (s : State) : Outcome State :=
  (RemapBadBlock cfg sp (InitBlockDieMap.markBbt cfg bbtPhyBlock s)).bind fun t =>
    initialise cfg t

/-- The blocks that the allocator can hand out in state `s`: the current block
of the die, the blocks of its free list, and the blocks under the cursor of a
logical block. -/
def Usable (cfg : Config) (s : State) (d b : Nat) : Prop :=
  b = (s.die d).currentBlock ∨ OnFreeList cfg s d b ∨
    ∃ lb, lb < cfg.LOGICAL_BLOCKS_PER_SSD ∧
      s.logicalBlockBaseVsa lb = cfg.Vorg2VsaTranslation d b 0

/-- No block that the allocator can hand out is bad. -/
def GoodBlocks (cfg : Config) (s : State) : Prop :=
  ∀ d b, d < cfg.USER_DIES → b < cfg.USER_BLOCKS_PER_DIE → Usable cfg s d b →
    (s.block d b).bad = 0

/-- From `s` to `s'` the `bad` flags and the physical-block table are kept, and
a block that the allocator can hand out in `s'` is one that it can hand out in
`s`, or is not bad. -/
structure Handover (cfg : Config) (s s' : State) : Prop where
  bad : ∀ d b, (s'.block d b).bad = (s.block d b).bad
  phy : s'.phyBlock = s.phyBlock
  usable : ∀ d b, d < cfg.USER_DIES → b < cfg.USER_BLOCKS_PER_DIE → Usable cfg s' d b →
    Usable cfg s d b ∨ (s.block d b).bad = 0

/-- The scenario geometry booted with both spares of LUN0 bad, so that the
bad-block-table block 0 of every die keeps its place. -/
def bbtBoot : State :=
  (InitBlockDieMap.tables scenario scenarioSpace (fun _ => 0) (badBlocksAt [4, 5])).getD
    State.blank

/-! ## Reading and saving the bad-block table -/

/-- Constants and translations of the firmware headers that the bad-block
table I/O uses. -/
structure BbtConfig where
  DATA_SIZE_OF_BAD_BLOCK_TABLE_PER_DIE : Nat
  BYTES_PER_DATA_REGION_OF_PAGE : Nat
  START_PAGE_NO_OF_BAD_BLOCK_TABLE_BLOCK : Nat
  PlsbPage2VpageTranslation : Nat → Nat
  Vpage2PlsbPageTranslation : Nat → Nat
  Vdie2PchTranslation : Nat → Nat
  Vdie2PwayTranslation : Nat → Nat
  DIE_STATE_BAD_BLOCK_TABLE_NOT_EXIST : Nat
  DIE_STATE_BAD_BLOCK_TABLE_UPDATE : Nat

/-- The request codes `REQ_CODE_READ`, `REQ_CODE_WRITE`, `REQ_CODE_ERASE`. -/
inductive ReqCode where
  | read
  | write
  | erase
deriving DecidableEq, Repr

/-- A NAND request with a physical address, as it is handed to
`SelectLowLevelReqQ`: the code, the data buffer (`none` for
`REQ_OPT_DATA_BUF_NONE`) and the fields of `nandInfo`. -/
structure NandReq where
  reqCode : ReqCode
  dataBufAddr : Option Nat
  physicalCh : Nat
  physicalWay : Nat
  physicalBlock : Nat
  physicalPage : Nat
deriving DecidableEq, Repr

/-- The `for` loop over the dies inside the `while` loop of
`ReadBadBlockTable`: one read request per die, appended to the requests issued
so far. -/
def ReadBadBlockTable.pass (cfg : Config) (bc : BbtConfig) (bbtPhyBlock : Nat → Nat)
    (tempBbtBufAddr : Nat → Nat) (tempBbtBufEntrySize tempPage loop : Nat)
    (issued : List NandReq) : List NandReq :=
  forLoop cfg.USER_DIES
    (fun dieNo q =>
      q ++ [{ reqCode := .read
              dataBufAddr := some ((tempBbtBufAddr dieNo + loop * tempBbtBufEntrySize) %
                4294967296)
              physicalCh := bc.Vdie2PchTranslation dieNo
              physicalWay := bc.Vdie2PwayTranslation dieNo
              physicalBlock := bbtPhyBlock dieNo
              physicalPage := bc.Vpage2PlsbPageTranslation tempPage }]) issued

/-- The `while` loop of `ReadBadBlockTable`; `fuel` bounds the number of tests
of the loop condition, `dataSize` is the signed counter. -/
def ReadBadBlockTable.loop (cfg : Config) (bc : BbtConfig) (bbtPhyBlock : Nat → Nat)
    (tempBbtBufAddr : Nat → Nat) (tempBbtBufEntrySize : Nat) :
    Nat → Int → Nat → Nat → List NandReq → Option (List NandReq)
  | 0, _, _, _, _ => none
  | fuel + 1, dataSize, tempPage, loop, issued =>
    if dataSize > 0 then
      ReadBadBlockTable.loop cfg bc bbtPhyBlock tempBbtBufAddr tempBbtBufEntrySize fuel
        (dataSize - bc.BYTES_PER_DATA_REGION_OF_PAGE) ((tempPage + 1) % 4294967296) (loop + 1)
        (ReadBadBlockTable.pass cfg bc bbtPhyBlock tempBbtBufAddr tempBbtBufEntrySize tempPage
          loop issued)
    else some issued

/-- The requests that `ReadBadBlockTable` issues, in order; `none` when the
loop does not end within `fuel` tests.  `bbtPhyBlock dieNo` stands for
`bbtInfo[dieNo].phyBlock`. -/
def ReadBadBlockTable (cfg : Config) (bc : BbtConfig) (bbtPhyBlock : Nat → Nat)
    (tempBbtBufAddr : Nat → Nat) (tempBbtBufEntrySize fuel : Nat) : Option (List NandReq) :=
  ReadBadBlockTable.loop cfg bc bbtPhyBlock tempBbtBufAddr tempBbtBufEntrySize fuel
    bc.DATA_SIZE_OF_BAD_BLOCK_TABLE_PER_DIE
    (bc.PlsbPage2VpageTranslation bc.START_PAGE_NO_OF_BAD_BLOCK_TABLE_BLOCK) 0 []

/-- The `for` loop over the dies inside the `while` loop of
`SaveBadBlockTable`: for a die in state `NOT_EXIST` or `UPDATE`, an erase
request when `loop = 0`, then a write request. -/
def SaveBadBlockTable.pass (cfg : Config) (bc : BbtConfig) (dieState : Nat → Nat)
    (bbtPhyBlock : Nat → Nat) (tempBbtBufAddr : Nat → Nat)
    (tempBbtBufEntrySize tempPage loop : Nat) (issued : List NandReq) : List NandReq :=
  forLoop cfg.USER_DIES
    (fun dieNo q =>
      if dieState dieNo = bc.DIE_STATE_BAD_BLOCK_TABLE_NOT_EXIST ∨
          dieState dieNo = bc.DIE_STATE_BAD_BLOCK_TABLE_UPDATE then
        let q1 :=
          if loop = 0 then
            q ++ [{ reqCode := .erase
                    dataBufAddr := none
                    physicalCh := bc.Vdie2PchTranslation dieNo
                    physicalWay := bc.Vdie2PwayTranslation dieNo
                    physicalBlock := bbtPhyBlock dieNo
                    physicalPage := 0 }]
          else q
        q1 ++ [{ reqCode := .write
                 dataBufAddr := some ((tempBbtBufAddr dieNo + loop * tempBbtBufEntrySize) %
                   4294967296)
                 physicalCh := bc.Vdie2PchTranslation dieNo
                 physicalWay := bc.Vdie2PwayTranslation dieNo
                 physicalBlock := bbtPhyBlock dieNo
                 physicalPage := bc.Vpage2PlsbPageTranslation tempPage }]
      else q) issued

/-- The `while` loop of `SaveBadBlockTable`; `fuel` bounds the number of tests
of the loop condition.  The tail of the loop body is `loop++; dataSize++;
dataSize -= BYTES_PER_DATA_REGION_OF_PAGE;` and `tempPage` is not changed. -/
def SaveBadBlockTable.loop (cfg : Config) (bc : BbtConfig) (dieState : Nat → Nat)
    (bbtPhyBlock : Nat → Nat) (tempBbtBufAddr : Nat → Nat) (tempBbtBufEntrySize : Nat) :
    Nat → Int → Nat → Nat → List NandReq → Option (List NandReq)
  | 0, _, _, _, _ => none
  | fuel + 1, dataSize, tempPage, loop, issued =>
    if dataSize > 0 then
      SaveBadBlockTable.loop cfg bc dieState bbtPhyBlock tempBbtBufAddr tempBbtBufEntrySize fuel
        (dataSize + 1 - bc.BYTES_PER_DATA_REGION_OF_PAGE) tempPage (loop + 1)
        (SaveBadBlockTable.pass cfg bc dieState bbtPhyBlock tempBbtBufAddr tempBbtBufEntrySize
          tempPage loop issued)
    else some issued

/-- The requests that `SaveBadBlockTable` issues, in order; `none` when the
loop does not end within `fuel` tests. -/
def SaveBadBlockTable (cfg : Config) (bc : BbtConfig) (dieState : Nat → Nat)
    (bbtPhyBlock : Nat → Nat) (tempBbtBufAddr : Nat → Nat) (tempBbtBufEntrySize fuel : Nat) :
    Option (List NandReq) :=
  SaveBadBlockTable.loop cfg bc dieState bbtPhyBlock tempBbtBufAddr tempBbtBufEntrySize fuel
    bc.DATA_SIZE_OF_BAD_BLOCK_TABLE_PER_DIE
    (bc.PlsbPage2VpageTranslation bc.START_PAGE_NO_OF_BAD_BLOCK_TABLE_BLOCK) 0 []

/-- The requests of a list that address the channel and way of die `dieNo`. -/
def requestsOfDie (bc : BbtConfig) (issued : List NandReq) (dieNo : Nat) : List NandReq :=
  issued.filter (fun r =>
    decide (r.physicalCh = bc.Vdie2PchTranslation dieNo ∧
      r.physicalWay = bc.Vdie2PwayTranslation dieNo))

/-- The number of pages of the table of a die:
`ceil(DATA_SIZE_OF_BAD_BLOCK_TABLE_PER_DIE / BYTES_PER_DATA_REGION_OF_PAGE)`. -/
def BbtConfig.tablePages (bc : BbtConfig) : Nat :=
  (bc.DATA_SIZE_OF_BAD_BLOCK_TABLE_PER_DIE + bc.BYTES_PER_DATA_REGION_OF_PAGE - 1) /
    bc.BYTES_PER_DATA_REGION_OF_PAGE

/-- The read requests of die `dieNo` as the specification describes them: the
`k`-th fills the buffer chunk `tempBbtBufAddr[die] + k * tempBbtBufEntrySize`
from page `Vpage2PlsbPage(PlsbPage2Vpage(START_PAGE_NO) + k)` of the
bad-block-table block. -/
def ReadBadBlockTable.expected (bc : BbtConfig) (bbtPhyBlock : Nat → Nat)
    (tempBbtBufAddr : Nat → Nat) (tempBbtBufEntrySize dieNo : Nat) : List NandReq :=
  (List.range bc.tablePages).map fun k =>
    { reqCode := .read
      dataBufAddr := some (tempBbtBufAddr dieNo + k * tempBbtBufEntrySize)
      physicalCh := bc.Vdie2PchTranslation dieNo
      physicalWay := bc.Vdie2PwayTranslation dieNo
      physicalBlock := bbtPhyBlock dieNo
      physicalPage := bc.Vpage2PlsbPageTranslation
        (bc.PlsbPage2VpageTranslation bc.START_PAGE_NO_OF_BAD_BLOCK_TABLE_BLOCK + k) }

/-- The save requests of die `dieNo` as the specification describes them: for
a die in state `NOT_EXIST` or `UPDATE` one erase of the bad-block-table block,
then one write per page of the table, the `k`-th programming the chunk and the
page of the `k`-th read; no request for a die in another state. -/
def SaveBadBlockTable.expected (bc : BbtConfig) (dieState : Nat → Nat)
    (bbtPhyBlock : Nat → Nat) (tempBbtBufAddr : Nat → Nat)
    (tempBbtBufEntrySize dieNo : Nat) : List NandReq :=
  if dieState dieNo = bc.DIE_STATE_BAD_BLOCK_TABLE_NOT_EXIST ∨
      dieState dieNo = bc.DIE_STATE_BAD_BLOCK_TABLE_UPDATE then
    { reqCode := .erase
      dataBufAddr := none
      physicalCh := bc.Vdie2PchTranslation dieNo
      physicalWay := bc.Vdie2PwayTranslation dieNo
      physicalBlock := bbtPhyBlock dieNo
      physicalPage := 0 } ::
    (ReadBadBlockTable.expected bc bbtPhyBlock tempBbtBufAddr tempBbtBufEntrySize dieNo).map
      fun r => { r with reqCode := .write }
  else []

/-- A bad-block table of two pages: 8 bytes per die, 4 bytes per page, the
table starts at page 0 of block 0, LSB pages `0, 1, 3, 5, ..`, dies numbered
channel first over 2 channels; `NOT_EXIST = 0`, `UPDATE = 2`. -/
def bbtScenario : BbtConfig where
  DATA_SIZE_OF_BAD_BLOCK_TABLE_PER_DIE := 8
  BYTES_PER_DATA_REGION_OF_PAGE := 4
  START_PAGE_NO_OF_BAD_BLOCK_TABLE_BLOCK := 0
  PlsbPage2VpageTranslation := fun p => if p > 0 then (p + 1) / 2 else 0
  Vpage2PlsbPageTranslation := fun v => if v > 0 then 2 * v - 1 else 0
  Vdie2PchTranslation := fun d => d % 2
  Vdie2PwayTranslation := fun d => d / 2
  DIE_STATE_BAD_BLOCK_TABLE_NOT_EXIST := 0
  DIE_STATE_BAD_BLOCK_TABLE_UPDATE := 2

/-- A bad-block table of one page: 8 bytes per die, 16 bytes per page. -/
def bbtOnePage : BbtConfig :=
  { bbtScenario with BYTES_PER_DATA_REGION_OF_PAGE := 16 }

/-- The buffers of the scenario: 100 bytes apart from address 1000 on. -/
def bbtBuffers (dieNo : Nat) : Nat := 1000 + dieNo * 100

/-- The die states of the scenario: die 1 has a table, the others have none. -/
def bbtStates (dieNo : Nat) : Nat := if dieNo = 1 then 1 else 0

/-! ## Grown bad blocks -/

/-- One entry of `bbtInfoMapPtr->bbtInfo[die]`. -/
structure BbtInfo where
  phyBlock : Nat
  grownBadUpdate : Nat

/-- Constants of the firmware headers that the grown-bad-block functions
use. -/
structure GrownBadConfig where
  BYTES_PER_SPARE_REGION_OF_PAGE : Nat
  USED_PAGES_FOR_BAD_BLOCK_TABLE_PER_DIE : Nat
  BLOCK_STATE_NORMAL : Nat
  BLOCK_STATE_BAD : Nat
  BBT_INFO_GROWN_BAD_UPDATE_BOOKED : Nat
  DIE_STATE_BAD_BLOCK_TABLE_HOLD : Nat

/-- The memory that the grown-bad-block functions work on: the maps of the
translator, the bad-block-table info of the dies, the bytes of the data
buffers, and the requests handed to `SelectLowLevelReqQ` so far. -/
structure Machine where
  tables : State
  bbtInfo : Nat → BbtInfo
  mem : Nat → Nat
  issued : List NandReq

def UpdatePhyBlockMapForGrownBadBlock (gb : GrownBadConfig) (m : Machine)
    (dieNo phyBlockNo : Nat) : Machine :=
  let m1 := { m with
    tables := { m.tables with
      phyBlock := upd2 m.tables.phyBlock dieNo phyBlockNo
        { m.tables.phyBlock dieNo phyBlockNo with bad := gb.BLOCK_STATE_BAD } } }
  { m1 with
    bbtInfo := upd m1.bbtInfo dieNo
      { m1.bbtInfo dieNo with grownBadUpdate := gb.BBT_INFO_GROWN_BAD_UPDATE_BOOKED } }

/-- The local `tempBbtBufEntrySize` of `UpdateBadBlockTableForGrownBadBlock`. -/
def UpdateBadBlockTableForGrownBadBlock.entrySize (bc : BbtConfig) (gb : GrownBadConfig) :
    Nat :=
  (bc.BYTES_PER_DATA_REGION_OF_PAGE + gb.BYTES_PER_SPARE_REGION_OF_PAGE) % 4294967296

/-- The first loop of `UpdateBadBlockTableForGrownBadBlock`: the local array
`tempBbtBufAddr`. -/
def UpdateBadBlockTableForGrownBadBlock.bufAddr (cfg : Config) (bc : BbtConfig)
    (gb : GrownBadConfig) (tempBufAddr : Nat) : Nat → Nat :=
  forLoop cfg.USER_DIES
    (fun dieNo a =>
      upd a dieNo
        ((tempBufAddr + dieNo * gb.USED_PAGES_FOR_BAD_BLOCK_TABLE_PER_DIE *
          UpdateBadBlockTableForGrownBadBlock.entrySize bc gb) % 4294967296))
    (fun _ => 0)

/-- The loop over the physical blocks of a booked die: one byte per block is
stored through `bbtUpdater`. -/
def UpdateBadBlockTableForGrownBadBlock.fill (sp : BlockSpace) (gb : GrownBadConfig)
    (m : Machine) (dieNo bufAddr : Nat) : Machine :=
  forLoop sp.TOTAL_BLOCKS_PER_DIE
    (fun phyBlockNo t =>
      let bbtUpdater := (bufAddr + phyBlockNo) % 4294967296
      if phyBlockNo ≠ (t.bbtInfo dieNo).phyBlock then
        { t with mem := upd t.mem bbtUpdater ((t.tables.phyBlock dieNo phyBlockNo).bad % 256) }
      else { t with mem := upd t.mem bbtUpdater (gb.BLOCK_STATE_NORMAL % 256) }) m

/-- The loop of `UpdateBadBlockTableForGrownBadBlock` that creates the new
tables: it gives the memory and the local array `dieState` (bytes). -/
def UpdateBadBlockTableForGrownBadBlock.build (cfg : Config) (bc : BbtConfig)
    (sp : BlockSpace) (gb : GrownBadConfig) (m : Machine) (tempBufAddr : Nat) :
    Machine × (Nat → Nat) :=
  forLoop cfg.USER_DIES
    (fun dieNo (x : Machine × (Nat → Nat)) =>
      if (x.1.bbtInfo dieNo).grownBadUpdate = gb.BBT_INFO_GROWN_BAD_UPDATE_BOOKED then
        (UpdateBadBlockTableForGrownBadBlock.fill sp gb x.1 dieNo
            (UpdateBadBlockTableForGrownBadBlock.bufAddr cfg bc gb tempBufAddr dieNo),
          upd x.2 dieNo (bc.DIE_STATE_BAD_BLOCK_TABLE_UPDATE % 256))
      else (x.1, upd x.2 dieNo (gb.DIE_STATE_BAD_BLOCK_TABLE_HOLD % 256)))
    (m, fun _ => 0)

/-- `UpdateBadBlockTableForGrownBadBlock(tempBufAddr)`; `none` when the loop of
`SaveBadBlockTable` does not end within `fuel` tests. -/
def UpdateBadBlockTableForGrownBadBlock (cfg : Config) (bc : BbtConfig) (sp : BlockSpace)
    (gb : GrownBadConfig) (m : Machine) (tempBufAddr fuel : Nat) : Option Machine :=
  let b := UpdateBadBlockTableForGrownBadBlock.build cfg bc sp gb m tempBufAddr
  match SaveBadBlockTable cfg bc b.2 (fun dieNo => (b.1.bbtInfo dieNo).phyBlock)
      (UpdateBadBlockTableForGrownBadBlock.bufAddr cfg bc gb tempBufAddr)
      (UpdateBadBlockTableForGrownBadBlock.entrySize bc gb) fuel with
  | some q => some { b.1 with issued := b.1.issued ++ q }
  | none => none

/-- The erase request of `SaveBadBlockTable` for die `dieNo`. -/
def SaveBadBlockTable.eraseReq (bc : BbtConfig) (bbtPhyBlock : Nat → Nat) (dieNo : Nat) :
    NandReq :=
  { reqCode := .erase
    dataBufAddr := none
    physicalCh := bc.Vdie2PchTranslation dieNo
    physicalWay := bc.Vdie2PwayTranslation dieNo
    physicalBlock := bbtPhyBlock dieNo
    physicalPage := 0 }

/-- Constants of the grown-bad scenario: 16 bytes of spare region, one page of
table per die, `NORMAL = 0`, `BAD = 1`, `BOOKED = 1`, `HOLD = 3`. -/
def grownBadScenario : GrownBadConfig where
  BYTES_PER_SPARE_REGION_OF_PAGE := 16
  USED_PAGES_FOR_BAD_BLOCK_TABLE_PER_DIE := 1
  BLOCK_STATE_NORMAL := 0
  BLOCK_STATE_BAD := 1
  BBT_INFO_GROWN_BAD_UPDATE_BOOKED := 1
  DIE_STATE_BAD_BLOCK_TABLE_HOLD := 3

/-- The booted scenario with the bad-block table in block 0 of every die, no
booking, zeroed buffers and no request issued. -/
def grownBadBoot : Machine where
  tables := bbtBoot
  bbtInfo := fun _ => ⟨0, 0⟩
  mem := fun _ => 0
  issued := []

/-- The scenario after block 3 of die 2 has grown bad. -/
def grownBadBooked : Machine :=
  UpdatePhyBlockMapForGrownBadBlock grownBadScenario grownBadBoot 2 3

/-! ## The garbage collector as a collaborator -/

/-- The calls through which the garbage collector acts on the tables of the
translator: `FindFreeVirtualSliceForGc` and `EraseBlock`. -/
def Call.isCollector : Call → Bool
  | .findSliceForGc _ _ => true
  | .erase _ _ => true
  | _ => false

/-- Modelled from the spec: `GarbageCollection` (its translation unit is not
among the sources).  The spec says of it that the tables are exclusively owned
by the translator and that external components read them through the API only
(section 5), that the collector allocates with `FindFreeVirtualSliceForGc`
(sections 6 and 9) and that a victim block becomes free through `EraseBlock`
(section 4.7).  A collector obeys this contract when the state of every
returning call is the state after a sequence of `FindFreeVirtualSliceForGc` and
`EraseBlock` calls, each of them admissible where it is issued
(`Call.Admissible`: a valid die; an erased block is valid, not bad, not free,
not the current block of its die, under no cursor and without live slice).
The contract says how the collector acts on the tables, not that it returns or
that it finds a block: what section 6 asks of its result (a free block more, a
usable current block) is what the callers check after it.  A collector that
stores into the slice maps itself is outside the contract. -/
def Collector.ThroughApi (gc : Collector) (cfg : Config) : Prop :=
  ∀ dieNo s s', gc dieNo s = .ok s' →
    ∃ calls : List Call, (∀ c ∈ calls, c.isCollector = true) ∧
      runAdmissible Collector.stop 2 cfg s calls = some s'

/-- What the calls of the collector never write: from `s` to `t` the forward
map, the cursors of the logical blocks, the allocation die and the round-robin
statics are the same. -/
structure CollectorFrame (s t : State) : Prop where
  logicalSlice : t.logicalSlice = s.logicalSlice
  base : t.logicalBlockBaseVsa = s.logicalBlockBaseVsa
  offset : t.logicalBlockNextOffset = s.logicalBlockNextOffset
  targetDie : t.sliceAllocationTargetDie = s.sliceAllocationTargetDie
  targetCh : t.targetCh = s.targetCh
  targetWay : t.targetWay = s.targetWay

/-- The collector keeps the property `I` of the states: `I` includes the
well-formedness of the allocator state, and a returning call of the collector
from a state with `I` ends in a state with `I` and leaves what
`CollectorFrame` lists. -/
structure Collector.Keeps (gc : Collector) (cfg : Config) (I : State → Prop) : Prop where
  alloc : ∀ t, I t → AllocInv cfg t
  step : ∀ d t t', I t → gc d t = .ok t' → I t' ∧ CollectorFrame t t'

/-- The collector that carries out a plan: called for die `dieNo` in state `s`
it issues the calls `plan dieNo s`, and fails when one of them is not a call of
the collector, is not admissible or does not return. -/
def Collector.ofPlan (cfg : Config) (plan : Nat → State → List Call) : Collector :=
  fun dieNo s =>
    if (plan dieNo s).all Call.isCollector = true then
      match runAdmissible Collector.stop 2 cfg s (plan dieNo s) with
      | some t => .ok t
      | none => .fatal s
    else .fatal s

/-- A plan that reclaims one block: the first block of the die that may be
erased (valid, not bad, not free, not current, under no cursor, without live
slice); no call when the die has no such block. -/
def reclaimPlan (cfg : Config) (dieNo : Nat) (s : State) : List Call :=
  match (List.range cfg.USER_BLOCKS_PER_DIE).find?
      (fun b => decide ((Call.erase dieNo b).Admissible cfg s)) with
  | some b => [.erase dieNo b]
  | none => []

/-- A plan that reclaims the current block of the die: an allocation with
`FindFreeVirtualSliceForGc` for that victim, which makes the head of the free
list the current block, and then the erase of the victim. -/
def replacePlan (dieNo : Nat) (s : State) : List Call :=
  [.findSliceForGc dieNo (s.die dieNo).currentBlock, .erase dieNo (s.die dieNo).currentBlock]

/-- The collector of the scenarios: it reclaims the first erasable block of the
die. -/
def scenarioCollector : Collector := Collector.ofPlan scenario (reclaimPlan scenario)

/-- A collector that reclaims the current block of the die. -/
def replacingCollector : Collector := Collector.ofPlan scenario replacePlan

/-! ## Runs that enter the collector -/

/-- Eight slice allocations of the collector on die 0 (the victim, the bad
block 0, is never the current block): they fill virtual blocks 1 and 2 of the
die and leave one block, the reserve, on its free list. -/
def exhaustRun : List Call := List.replicate 8 (.findSliceForGc 0 0)

/-- The initialised scenario after `exhaustRun`: on die 0 the current block is
full and the free list is down to the reserve. -/
def exhausted : State := runAdmissibleState Collector.stop 2 scenario scenarioInit exhaustRun

/-- The result of `FindFreeVirtualSlice` on `exhausted` with the collector that
replaces the current block, `(0, State.blank)` when the call does not
return. -/
def collectedSlice : Nat × State :=
  (FindFreeVirtualSlice replacingCollector scenario exhausted).getD (0, State.blank)

/-! ## Basic facts about stores and loops -/

@[simp] theorem upd_same {α : Type} (f : Nat → α) (i : Nat) (v : α) : upd f i v i = v := by
  simp [upd]

@[simp] theorem upd_ne {α : Type} (f : Nat → α) {i j : Nat} (v : α) (h : j ≠ i) :
    upd f i v j = f j := by
  simp [upd, h]

theorem upd_apply {α : Type} (f : Nat → α) (i j : Nat) (v : α) :
    upd f i v j = if j = i then v else f j := rfl

@[simp] theorem upd2_same {α : Type} (f : Nat → Nat → α) (i j : Nat) (v : α) :
    upd2 f i j v i j = v := by
  simp [upd2]

theorem upd2_apply {α : Type} (f : Nat → Nat → α) (i j i' j' : Nat) (v : α) :
    upd2 f i j v i' j' = if i' = i ∧ j' = j then v else f i' j' := rfl

theorem upd2_ne {α : Type} (f : Nat → Nat → α) {i j i' j' : Nat} (v : α)
    (h : ¬ (i' = i ∧ j' = j)) : upd2 f i j v i' j' = f i' j' := by
  simp [upd2, h]

@[simp] theorem forLoop_zero {σ : Type} (body : Nat → σ → σ) (s : σ) :
    forLoop 0 body s = s := rfl

theorem forLoop_succ {σ : Type} (n : Nat) (body : Nat → σ → σ) (s : σ) :
    forLoop (n + 1) body s = body n (forLoop n body s) := by
  simp [forLoop, List.range_succ, List.foldl_append]

/-- A loop establishes, step by step, an invariant indexed by the number of
completed iterations. -/
theorem forLoop_induction {σ : Type} (P : Nat → σ → Prop) (n : Nat) (body : Nat → σ → σ)
    (s : σ) (h0 : P 0 s) (hstep : ∀ i t, i < n → P i t → P (i + 1) (body i t)) :
    P n (forLoop n body s) := by
  induction n with
  | zero => simpa using h0
  | succ k ih =>
    rw [forLoop_succ]
    exact hstep k _ (Nat.lt_succ_self k)
      (ih (fun i t hi hp => hstep i t (Nat.lt_succ_of_lt hi) hp))

/-! ## Facts about the geometry and the scenario -/

theorem scenarioWith_wellFormed (n : Nat) (hn : 0 < n) (hn2 : n ≤ 4) :
    (scenarioWith n).WellFormed := by
  have h4 : 0 < 4 * n := by omega
  refine
    { channels_pos := by simp [scenarioWith]
      ways_pos := by simp [scenarioWith, Config.USER_DIES]
      dies_le := by simp [scenarioWith, Config.USER_DIES]
      pages_pos := by simp [scenarioWith, Config.USER_DIES]
      pages_le := by simp [scenarioWith, Config.USER_DIES]
      slices_pos := hn
      slices_lt := by simp only [Config.SLICES_PER_BLOCK, scenarioWith]; omega
      block_none := by simp [scenarioWith, Config.USER_DIES]
      block_fail := by simp [scenarioWith, Config.USER_DIES]
      vsa_none := by simp only [scenarioWith]; omega
      vsa_fail := by simp only [scenarioWith]; omega
      lsa_none := by simp only [scenarioWith]; omega
      option_ne := by simp [scenarioWith, Config.USER_DIES]
      logical_blocks := by simp only [Config.SLICES_PER_BLOCK, scenarioWith]; omega
      pack_lt := ?_
      pack_die := ?_
      pack_block := ?_
      pack_page := ?_
      unpack_die := ?_
      unpack_block := ?_
      unpack_page := ?_
      unpack_pack := ?_ }
  · intro d b p hd hb hp
    simp only [Config.USER_DIES, Config.SLICES_PER_BLOCK, scenarioWith] at *
    have : b * (4 * n) + p < 4 * (4 * n) := by nlinarith
    omega
  · intro d b p hd _ _
    simp only [Config.USER_DIES, scenarioWith] at *
    omega
  · intro d b p hd hb hp
    simp only [Config.USER_DIES, Config.SLICES_PER_BLOCK, scenarioWith] at *
    have h1 : (d + 4 * (b * (4 * n) + p)) / 4 = b * (4 * n) + p := by omega
    rw [h1, Nat.mul_comm b, Nat.mul_add_div h4, Nat.div_eq_of_lt hp]
    rfl
  · intro d b p hd hb hp
    simp only [Config.USER_DIES, Config.SLICES_PER_BLOCK, scenarioWith] at *
    have h1 : (d + 4 * (b * (4 * n) + p)) / 4 = b * (4 * n) + p := by omega
    rw [h1, Nat.mul_comm b, Nat.mul_add_mod, Nat.mod_eq_of_lt hp]
  · intro v _
    simp only [Config.USER_DIES, scenarioWith]
    omega
  · intro v hv
    simp only [scenarioWith] at *
    rw [Nat.div_div_eq_div_mul, Nat.div_lt_iff_lt_mul (by omega)]
    nlinarith
  · intro v _
    simp only [Config.SLICES_PER_BLOCK, scenarioWith]
    exact Nat.mod_lt _ h4
  · intro v _
    simp only [scenarioWith]
    have := Nat.div_add_mod (v / 4) (4 * n)
    rw [Nat.mul_comm (v / 4 / (4 * n))]
    omega

theorem scenario_wellFormed : scenario.WellFormed :=
  scenarioWith_wellFormed 1 (by decide) (by decide)

theorem InitSliceMap_eq (cfg : Config) (s : State) :
    InitSliceMap cfg s =
      { s with
        logicalSlice := fun i => if i < cfg.SLICES_PER_SSD then cfg.VSA_NONE else s.logicalSlice i
        virtualSlice := fun i => if i < cfg.SLICES_PER_SSD then cfg.LSA_NONE else s.virtualSlice i
        logicalBlockBaseVsa := fun i =>
          if i < cfg.LOGICAL_BLOCKS_PER_SSD then cfg.VSA_NONE else s.logicalBlockBaseVsa i
        logicalBlockNextOffset := fun i =>
          if i < cfg.LOGICAL_BLOCKS_PER_SSD then 0 else s.logicalBlockNextOffset i } := by
  have h1 : ∀ n (t : State),
      forLoop n (fun sliceAddr t =>
        { t with
          logicalSlice := upd t.logicalSlice sliceAddr cfg.VSA_NONE
          virtualSlice := upd t.virtualSlice sliceAddr cfg.LSA_NONE }) t =
      { t with
        logicalSlice := fun i => if i < n then cfg.VSA_NONE else t.logicalSlice i
        virtualSlice := fun i => if i < n then cfg.LSA_NONE else t.virtualSlice i } := by
    intro n t
    induction n with
    | zero => simp
    | succ k ih =>
      rw [forLoop_succ, ih]
      simp only [State.mk.injEq, true_and, and_true]
      constructor <;>
      · funext i
        simp only [upd_apply]
        by_cases h : i = k
        · simp [h]
        · have : i < k + 1 ↔ i < k := by omega
          simp [h, this]
  have h2 : ∀ n (t : State),
      forLoop n (fun sliceAddr t =>
        { t with
          logicalBlockBaseVsa := upd t.logicalBlockBaseVsa sliceAddr cfg.VSA_NONE
          logicalBlockNextOffset := upd t.logicalBlockNextOffset sliceAddr 0 }) t =
      { t with
        logicalBlockBaseVsa := fun i => if i < n then cfg.VSA_NONE else t.logicalBlockBaseVsa i
        logicalBlockNextOffset := fun i => if i < n then 0 else t.logicalBlockNextOffset i } := by
    intro n t
    induction n with
    | zero => simp
    | succ k ih =>
      rw [forLoop_succ, ih]
      simp only [State.mk.injEq, true_and, and_true]
      constructor <;>
      · funext i
        simp only [upd_apply]
        by_cases h : i = k
        · simp [h]
        · have : i < k + 1 ↔ i < k := by omega
          simp [h, this]
  simp only [InitSliceMap, h1, h2]

/-- C2. `AddrTransRead` is a lookup behind a bounds check: for an in-range LSA it
returns the forward-map entry when that entry is not `VSA_NONE` and `VSA_FAIL`
when it is, and the state it hands back is the state it was given; it ends in
the fatal assertion exactly when the LSA is not below `SLICES_PER_SSD`; right
after `InitSliceMap` every in-range LSA reads `VSA_FAIL`. -/
theorem AddrTransRead_lookup (cfg : Config) (s : State) (lsa : Nat) :
    (lsa < cfg.SLICES_PER_SSD → s.logicalSlice lsa ≠ cfg.VSA_NONE →
      AddrTransRead cfg s lsa = .ok (s.logicalSlice lsa, s)) ∧
    (lsa < cfg.SLICES_PER_SSD → s.logicalSlice lsa = cfg.VSA_NONE →
      AddrTransRead cfg s lsa = .ok (cfg.VSA_FAIL, s)) ∧
    (cfg.SLICES_PER_SSD ≤ lsa → AddrTransRead cfg s lsa = .fatal s) ∧
    ((∃ t, AddrTransRead cfg s lsa = .fatal t) ↔ cfg.SLICES_PER_SSD ≤ lsa) ∧
    (lsa < cfg.SLICES_PER_SSD →
      AddrTransRead cfg (InitSliceMap cfg s) lsa = .ok (cfg.VSA_FAIL, InitSliceMap cfg s)) := by
  refine ⟨?_, ?_, ?_, ?_, ?_⟩
  · intro h1 h2
    simp [AddrTransRead, h1, h2]
  · intro h1 h2
    simp [AddrTransRead, h1, h2]
  · intro h1
    simp [AddrTransRead, Nat.not_lt.mpr h1]
  · constructor
    · rintro ⟨t, ht⟩
      by_contra hlt
      have hlt : lsa < cfg.SLICES_PER_SSD := Nat.lt_of_not_le hlt
      by_cases hv : s.logicalSlice lsa = cfg.VSA_NONE <;>
        simp [AddrTransRead, hlt, hv] at ht
    · intro h1
      exact ⟨s, by simp [AddrTransRead, Nat.not_lt.mpr h1]⟩
  · intro h1
    have : (InitSliceMap cfg s).logicalSlice lsa = cfg.VSA_NONE := by
      rw [InitSliceMap_eq]; simp [h1]
    simp [AddrTransRead, h1, this]

theorem AddrTransRead_lookup_witness :
    AddrTransRead scenario State.blank 0 = .ok (0, State.blank) ∧
    AddrTransRead scenario (InitSliceMap scenario State.blank) 0 =
      .ok (0xffffffff, InitSliceMap scenario State.blank) ∧
    AddrTransRead scenario State.blank 64 = .fatal State.blank ∧
    AddrTransRead scenario (InitSliceMap scenario State.blank) 63 =
      .ok (0xffffffff, InitSliceMap scenario State.blank) :=
  ⟨(AddrTransRead_lookup scenario State.blank 0).1 (by decide) (by decide),
   (AddrTransRead_lookup scenario (InitSliceMap scenario State.blank) 0).2.1 (by decide)
     (by decide),
   (AddrTransRead_lookup scenario State.blank 64).2.2.1 (by decide),
   (AddrTransRead_lookup scenario State.blank 63).2.2.2.2 (by decide)⟩

/-- C3. `AddrTransWrite` ends in a fatal assertion, with the state exactly as it
was given, when the LSA is not below `SLICES_PER_SSD`, and when the LSA is in
range, mapped to some `old` other than `VSA_NONE`, and the reverse entry of
`old` is not that LSA. -/
theorem AddrTransWrite_fatal (gc : Collector) (fuel : Nat) (cfg : Config) (s : State)
    (lsa : Nat) :
    (cfg.SLICES_PER_SSD ≤ lsa → AddrTransWrite gc fuel cfg s lsa = .fatal s) ∧
    (lsa < cfg.SLICES_PER_SSD → s.logicalSlice lsa ≠ cfg.VSA_NONE →
      s.virtualSlice (s.logicalSlice lsa) ≠ lsa →
      AddrTransWrite gc fuel cfg s lsa = .fatal s) := by
  constructor
  · intro h
    simp [AddrTransWrite, h]
  · intro h1 h2 h3
    simp [AddrTransWrite, Nat.not_le.mpr h1, h2, h3]

theorem AddrTransWrite_fatal_witness :
    AddrTransWrite Collector.stop 2 scenario State.blank 64 = .fatal State.blank ∧
    AddrTransWrite Collector.stop 2 scenario State.blank 1 = .fatal State.blank :=
  ⟨(AddrTransWrite_fatal Collector.stop 2 scenario State.blank 64).1 (by decide),
   (AddrTransWrite_fatal Collector.stop 2 scenario State.blank 1).2 (by decide) (by decide)
     (by decide)⟩

/-- One call of the die selector, seen on die indices. -/
theorem FindDie_step (cfg : Config) (hd : cfg.USER_DIES ≤ 256) (s : State)
    (hch : s.targetCh < cfg.USER_CHANNELS) (hway : s.targetWay < cfg.USER_WAYS) :
    (FindDieForFreeSliceAllocation cfg s).1 = s.targetWay * cfg.USER_CHANNELS + s.targetCh ∧
    (FindDieForFreeSliceAllocation cfg s).1 < cfg.USER_DIES ∧
    (FindDieForFreeSliceAllocation cfg s).2.targetCh < cfg.USER_CHANNELS ∧
    (FindDieForFreeSliceAllocation cfg s).2.targetWay < cfg.USER_WAYS ∧
    (FindDieForFreeSliceAllocation cfg s).2.targetWay * cfg.USER_CHANNELS +
        (FindDieForFreeSliceAllocation cfg s).2.targetCh =
      ((FindDieForFreeSliceAllocation cfg s).1 + 1) % cfg.USER_DIES := by
  have hC : cfg.USER_CHANNELS ≤ 256 := by
    have : cfg.USER_CHANNELS * 1 ≤ cfg.USER_CHANNELS * cfg.USER_WAYS :=
      Nat.mul_le_mul_left _ (by omega)
    simp only [Config.USER_DIES] at hd
    omega
  have hW : cfg.USER_WAYS ≤ 256 := by
    have : 1 * cfg.USER_WAYS ≤ cfg.USER_CHANNELS * cfg.USER_WAYS :=
      Nat.mul_le_mul_right _ (by omega)
    simp only [Config.USER_DIES] at hd
    omega
  have hlt : s.targetWay * cfg.USER_CHANNELS + s.targetCh < cfg.USER_DIES := by
    have : (s.targetWay + 1) * cfg.USER_CHANNELS ≤ cfg.USER_WAYS * cfg.USER_CHANNELS :=
      Nat.mul_le_mul_right _ hway
    simp only [Config.USER_DIES]
    rw [Nat.mul_comm cfg.USER_CHANNELS]
    rw [Nat.add_mul] at this
    omega
  by_cases h : s.targetCh = cfg.USER_CHANNELS - 1
  · have hmod : (s.targetWay + 1) % cfg.USER_WAYS < cfg.USER_WAYS := Nat.mod_lt _ (by omega)
    have h256 : (s.targetWay + 1) % cfg.USER_WAYS % 256 = (s.targetWay + 1) % cfg.USER_WAYS :=
      Nat.mod_eq_of_lt (by omega)
    simp only [FindDieForFreeSliceAllocation, Pcw2VdieTranslation, h, ne_eq, not_true_eq_false,
      ↓reduceIte, h256]
    refine ⟨trivial, by rw [h] at hlt; exact hlt, by omega, hmod, ?_⟩
    have e : s.targetWay * cfg.USER_CHANNELS + (cfg.USER_CHANNELS - 1) + 1 =
        (s.targetWay + 1) * cfg.USER_CHANNELS := by
      rw [Nat.add_mul]; omega
    rw [e, Config.USER_DIES, Nat.mul_comm cfg.USER_CHANNELS, Nat.mul_mod_mul_right]
    simp
  · have h256 : (s.targetCh + 1) % 256 = s.targetCh + 1 := Nat.mod_eq_of_lt (by omega)
    simp only [FindDieForFreeSliceAllocation, Pcw2VdieTranslation, h, ne_eq, not_false_eq_true,
      ↓reduceIte, h256]
    refine ⟨trivial, hlt, by omega, hway, ?_⟩
    have : s.targetWay * cfg.USER_CHANNELS + s.targetCh + 1 < cfg.USER_DIES := by
      have : (s.targetWay + 1) * cfg.USER_CHANNELS ≤ cfg.USER_WAYS * cfg.USER_CHANNELS :=
        Nat.mul_le_mul_right _ hway
      simp only [Config.USER_DIES]
      rw [Nat.mul_comm cfg.USER_CHANNELS]
      rw [Nat.add_mul] at this
      omega
    rw [Nat.mod_eq_of_lt this]
    omega

/-- The dies returned by `n` successive calls are consecutive modulo
`USER_DIES`. -/
theorem callsFindDie_eq (cfg : Config) (hd : cfg.USER_DIES ≤ 256) (n : Nat) :
    ∀ s : State, s.targetCh < cfg.USER_CHANNELS → s.targetWay < cfg.USER_WAYS →
      (callsFindDie cfg n s).1 =
        (List.range n).map
          (fun k => (s.targetWay * cfg.USER_CHANNELS + s.targetCh + k) % cfg.USER_DIES) := by
  induction n with
  | zero => intro s _ _; rfl
  | succ m ih =>
    intro s hch hway
    obtain ⟨h1, h2, h3, h4, h5⟩ := FindDie_step cfg hd s hch hway
    have hrec := ih (FindDieForFreeSliceAllocation cfg s).2 h3 h4
    simp only [callsFindDie] at hrec ⊢
    rw [hrec, h5, h1, List.range_succ_eq_map, List.map_cons, List.map_map]
    rw [h1] at h2
    congr 1
    · simp [Nat.mod_eq_of_lt h2]
    · apply List.map_congr_left
      intro k _
      simp only [Function.comp, Nat.succ_eq_add_one, Nat.mod_add_mod]
      congr 1
      omega

/-- C6. Round-robin fairness: from any cursor with `targetCh < USER_CHANNELS` and
`targetWay < USER_WAYS`, the dies returned by `USER_DIES` successive calls of
`FindDieForFreeSliceAllocation` are a permutation of `0 .. USER_DIES - 1`; from
the cursor (0, 0) the call number `k` (counted from 0) returns `k mod USER_DIES`. -/
theorem FindDie_round_robin (cfg : Config) (hd : cfg.USER_DIES ≤ 256) (s : State)
    (hch : s.targetCh < cfg.USER_CHANNELS) (hway : s.targetWay < cfg.USER_WAYS) :
    List.Perm (callsFindDie cfg cfg.USER_DIES s).1 (List.range cfg.USER_DIES) ∧
    (s.targetCh = 0 → s.targetWay = 0 →
      ∀ n k, k < n → (callsFindDie cfg n s).1[k]? = some (k % cfg.USER_DIES)) := by
  constructor
  · rw [callsFindDie_eq cfg hd _ s hch hway]
    have hpos : 0 < cfg.USER_DIES := by
      simp only [Config.USER_DIES]
      exact Nat.mul_pos (by omega) (by omega)
    apply List.Subperm.perm_of_length_le
    · apply List.subperm_of_subset
      · apply List.Nodup.map_on _ (List.nodup_range _)
        intro a ha b hb hab
        rw [List.mem_range] at ha hb
        have : a ≡ b [MOD cfg.USER_DIES] := Nat.ModEq.add_left_cancel' _ hab
        exact Nat.ModEq.eq_of_lt_of_lt this ha hb
      · intro x hx
        rw [List.mem_map] at hx
        obtain ⟨k, _, rfl⟩ := hx
        exact List.mem_range.mpr (Nat.mod_lt _ hpos)
    · simp
  · intro h0 h1 n k hk
    rw [callsFindDie_eq cfg hd _ s hch hway, h0, h1]
    simp [hk]

theorem FindDie_round_robin_witness :
    List.Perm (callsFindDie scenario scenario.USER_DIES
      { State.blank with targetCh := 1, targetWay := 1 }).1 (List.range scenario.USER_DIES) ∧
    (callsFindDie scenario 6 State.blank).1[5]? = some (5 % scenario.USER_DIES) :=
  ⟨(FindDie_round_robin scenario (by decide) { State.blank with targetCh := 1, targetWay := 1 }
      (by decide) (by decide)).1,
   (FindDie_round_robin scenario (by decide) State.blank (by decide) (by decide)).2
      rfl rfl 6 5 (by decide)⟩

/-! ## Free-block list -/

@[simp] theorem headOr_nil (cfg : Config) : headOr cfg [] = cfg.BLOCK_NONE := rfl

@[simp] theorem headOr_cons (cfg : Config) (b : Nat) (l : List Nat) :
    headOr cfg (b :: l) = b := rfl

@[simp] theorem lastOr_nil (cfg : Config) : lastOr cfg [] = cfg.BLOCK_NONE := rfl

@[simp] theorem lastOr_singleton (cfg : Config) (b : Nat) : lastOr cfg [b] = b := rfl

@[simp] theorem lastOr_cons_cons (cfg : Config) (a b : Nat) (l : List Nat) :
    lastOr cfg (a :: b :: l) = lastOr cfg (b :: l) := by
  simp [lastOr, List.getLast?_cons_cons]

@[simp] theorem lastOr_append_singleton (cfg : Config) (l : List Nat) (b : Nat) :
    lastOr cfg (l ++ [b]) = b := by
  simp [lastOr]

theorem lastOr_mem (cfg : Config) {l : List Nat} (h : l ≠ []) : lastOr cfg l ∈ l := by
  induction l with
  | nil => exact absurd rfl h
  | cons a t ih =>
    cases t with
    | nil => simp
    | cons b r =>
      rw [lastOr_cons_cons]
      exact List.mem_cons_of_mem _ (ih (by simp))

theorem headOr_mem (cfg : Config) {l : List Nat} (h : l ≠ []) : headOr cfg l ∈ l := by
  cases l with
  | nil => exact absurd rfl h
  | cons a t => simp

theorem Linked_congr {cfg : Config} {blk blk' : Nat → VirtualBlock} {l : List Nat} :
    ∀ {prev : Nat}, (∀ b ∈ l, blk' b = blk b) → Linked cfg blk prev l →
      Linked cfg blk' prev l := by
  induction l with
  | nil => intro _ _ _; trivial
  | cons a t ih =>
    intro prev h hl
    obtain ⟨h1, h2, h3, h4, h5⟩ := hl
    have ha := h a (List.mem_cons_self _ _)
    exact ⟨h1, by rw [ha]; exact h2, by rw [ha]; exact h3, by rw [ha]; exact h4,
      ih (fun b hb => h b (List.mem_cons_of_mem _ hb)) h5⟩

theorem Linked_lt {cfg : Config} {blk : Nat → VirtualBlock} {l : List Nat} :
    ∀ {prev : Nat}, Linked cfg blk prev l → ∀ b ∈ l, b < cfg.USER_BLOCKS_PER_DIE := by
  induction l with
  | nil => intro _ _ b hb; cases hb
  | cons a t ih =>
    intro prev hl b hb
    obtain ⟨h1, _, _, _, h5⟩ := hl
    rcases List.mem_cons.mp hb with rfl | hb
    · exact h1
    · exact ih h5 b hb

/-- Appending a node behind the last node of a chain. -/
theorem Linked_append {cfg : Config} {blk blk' : Nat → VirtualBlock} {b : Nat} {l : List Nat} :
    ∀ {prev : Nat}, Linked cfg blk prev l → l.Nodup → l ≠ [] →
      b < cfg.USER_BLOCKS_PER_DIE → b ∉ l →
      (blk' b).free = 1 → (blk' b).prevBlock = lastOr cfg l →
      (blk' b).nextBlock = cfg.BLOCK_NONE →
      blk' (lastOr cfg l) = { blk (lastOr cfg l) with nextBlock := b } →
      (∀ x ∈ l, x ≠ lastOr cfg l → blk' x = blk x) →
      Linked cfg blk' prev (l ++ [b]) := by
  induction l with
  | nil => intro _ _ _ h; exact absurd rfl h
  | cons a t ih =>
    intro prev hl hnd _ hb hbl hfree hprev hnext hlast hother
    obtain ⟨h1, h2, h3, h4, h5⟩ := hl
    cases t with
    | nil =>
      simp only [lastOr_singleton] at hlast hprev
      refine ⟨h1, by rw [hlast]; exact h2, by rw [hlast]; exact h3, by rw [hlast]; rfl, ?_⟩
      exact ⟨hb, hfree, hprev, hnext, trivial⟩
    | cons c r =>
      rw [lastOr_cons_cons] at hlast hprev hother
      have hmem : lastOr cfg (c :: r) ∈ c :: r := lastOr_mem cfg (by simp)
      have hane : a ≠ lastOr cfg (c :: r) := by
        intro h
        rw [← h] at hmem
        exact (List.nodup_cons.mp hnd).1 hmem
      have ha := hother a (List.mem_cons_self _ _) hane
      refine ⟨h1, by rw [ha]; exact h2, by rw [ha]; exact h3, by rw [ha]; exact h4, ?_⟩
      exact ih h5 (List.nodup_cons.mp hnd).2 (by simp) hb
        (fun h => hbl (List.mem_cons_of_mem _ h)) hfree hprev hnext hlast
        (fun x hx hne => hother x (List.mem_cons_of_mem _ hx) hne)

/-- `PutToFbList` touches only the block and die tables. -/
theorem PutToFbList_frame (cfg : Config) (s : State) (d b : Nat) :
    (PutToFbList cfg s d b).logicalSlice = s.logicalSlice ∧
    (PutToFbList cfg s d b).virtualSlice = s.virtualSlice ∧
    (PutToFbList cfg s d b).phyBlock = s.phyBlock ∧
    (PutToFbList cfg s d b).logicalBlockBaseVsa = s.logicalBlockBaseVsa ∧
    (PutToFbList cfg s d b).logicalBlockNextOffset = s.logicalBlockNextOffset ∧
    (PutToFbList cfg s d b).sliceAllocationTargetDie = s.sliceAllocationTargetDie ∧
    (PutToFbList cfg s d b).targetCh = s.targetCh ∧
    (PutToFbList cfg s d b).targetWay = s.targetWay ∧
    (PutToFbList cfg s d b).gcLog = s.gcLog ∧
    (PutToFbList cfg s d b).reqLog = s.reqLog := by
  unfold PutToFbList
  by_cases h : (s.die d).tailFreeBlock = cfg.BLOCK_NONE <;>
    simp [h, State.setBlock, State.setDie]

/-- `PutToFbList` on die `d` leaves the other dies alone. -/
theorem PutToFbList_other (cfg : Config) (s : State) (d b d' : Nat) (h : d' ≠ d) :
    (PutToFbList cfg s d b).die d' = s.die d' ∧
    (PutToFbList cfg s d b).block d' = s.block d' := by
  unfold PutToFbList
  by_cases ht : (s.die d).tailFreeBlock = cfg.BLOCK_NONE
  · refine ⟨by simp [ht, State.setBlock, State.setDie, upd_apply, h], ?_⟩
    funext x
    simp [ht, State.setBlock, State.setDie, upd2_apply, h]
  · refine ⟨by simp [ht, State.setBlock, State.setDie, upd_apply, h], ?_⟩
    funext x
    simp [ht, State.setBlock, State.setDie, upd2_apply, h]

/-- The die entry after `PutToFbList`. -/
theorem PutToFbList_die (cfg : Config) (s : State) (d b : Nat) :
    (PutToFbList cfg s d b).die d =
      { s.die d with
        headFreeBlock :=
          if (s.die d).tailFreeBlock ≠ cfg.BLOCK_NONE then (s.die d).headFreeBlock else b
        tailFreeBlock := b
        freeBlockCnt := (s.die d).freeBlockCnt + 1 } := by
  unfold PutToFbList
  by_cases ht : (s.die d).tailFreeBlock = cfg.BLOCK_NONE <;>
    simp [ht, State.setBlock, State.setDie]

/-- The block table of the die after `PutToFbList` on an empty list. -/
theorem PutToFbList_block_empty (cfg : Config) (s : State) (d b : Nat)
    (ht : (s.die d).tailFreeBlock = cfg.BLOCK_NONE) (x : Nat) :
    (PutToFbList cfg s d b).block d x =
      if x = b then
        { s.block d b with prevBlock := cfg.BLOCK_NONE, nextBlock := cfg.BLOCK_NONE }
      else s.block d x := by
  unfold PutToFbList
  by_cases hx : x = b <;> simp [ht, State.setBlock, State.setDie, upd2_apply, hx]

/-- The block table of the die after `PutToFbList` behind a tail other than
the new block. -/
theorem PutToFbList_block_tail (cfg : Config) (s : State) (d b : Nat)
    (ht : (s.die d).tailFreeBlock ≠ cfg.BLOCK_NONE) (hb : (s.die d).tailFreeBlock ≠ b)
    (x : Nat) :
    (PutToFbList cfg s d b).block d x =
      if x = (s.die d).tailFreeBlock then
        { s.block d (s.die d).tailFreeBlock with nextBlock := b }
      else if x = b then
        { s.block d b with prevBlock := (s.die d).tailFreeBlock, nextBlock := cfg.BLOCK_NONE }
      else s.block d x := by
  unfold PutToFbList
  by_cases hx : x = (s.die d).tailFreeBlock
  · subst hx
    simp [ht, State.setBlock, State.setDie, upd2_apply, hb]
  · have hb' : b ≠ (s.die d).tailFreeBlock := fun h => hb h.symm
    by_cases hx' : x = b
    · subst hx'
      simp [ht, State.setBlock, State.setDie, upd2_apply, hb, hb']
    · simp [ht, State.setBlock, State.setDie, upd2_apply, hx, hx']

/-- `PutToFbList` appends a block with `free = 1` that is not on the list. -/
theorem FreeListIs_put (cfg : Config) (hw : cfg.USER_BLOCKS_PER_DIE ≤ cfg.BLOCK_NONE)
    (s : State) (d b : Nat) (l : List Nat)
    (hl : FreeListIs cfg s d l) (hb : b < cfg.USER_BLOCKS_PER_DIE) (hbl : b ∉ l)
    (hfree : (s.block d b).free = 1) :
    FreeListIs cfg (PutToFbList cfg s d b) d (l ++ [b]) := by
  obtain ⟨hnd, hhead, htail, hcnt, hlink⟩ := hl
  have hnd' : (l ++ [b]).Nodup := by
    rw [List.nodup_append]
    exact ⟨hnd, List.nodup_singleton b, by
      intro x hx hx'
      rw [List.mem_singleton] at hx'
      exact hbl (hx' ▸ hx)⟩
  by_cases hne : l = []
  · subst hne
    have ht : (s.die d).tailFreeBlock = cfg.BLOCK_NONE := htail
    refine ⟨hnd', ?_, ?_, ?_, ?_⟩
    · rw [PutToFbList_die]; simp [ht]
    · rw [PutToFbList_die]; simp
    · rw [PutToFbList_die]; simp [hcnt]
    · refine ⟨hb, ?_, ?_, ?_, trivial⟩ <;>
        simp [PutToFbList_block_empty cfg s d b ht, hfree]
  · have hmem := lastOr_mem cfg hne
    have hlt := Linked_lt hlink _ hmem
    have ht : (s.die d).tailFreeBlock ≠ cfg.BLOCK_NONE := by rw [htail]; omega
    have htb : (s.die d).tailFreeBlock ≠ b := by
      rw [htail]; intro h; exact hbl (h ▸ hmem)
    refine ⟨hnd', ?_, ?_, ?_, ?_⟩
    · rw [PutToFbList_die]
      cases l with
      | nil => exact absurd rfl hne
      | cons a t => simpa [ht] using hhead
    · rw [PutToFbList_die]; simp
    · rw [PutToFbList_die]; simp [hcnt]
    · have hbt : b ≠ (s.die d).tailFreeBlock := fun h => htb h.symm
      apply Linked_append hlink hnd hne hb hbl
      · simp [PutToFbList_block_tail cfg s d b ht htb, hbt, hfree]
      · rw [← htail]
        simp [PutToFbList_block_tail cfg s d b ht htb, hbt]
      · simp [PutToFbList_block_tail cfg s d b ht htb, hbt]
      · rw [← htail]
        simp [PutToFbList_block_tail cfg s d b ht htb]
      · intro x hx hxl
        rw [← htail] at hxl
        have hxb : x ≠ b := fun h => hbl (h ▸ hx)
        simp [PutToFbList_block_tail cfg s d b ht htb, hxl, hxb]

/-- A list of another die is not affected by `PutToFbList`. -/
theorem FreeListIs_put_other (cfg : Config) (s : State) (d b d' : Nat) (l : List Nat)
    (h : d' ≠ d) (hl : FreeListIs cfg s d' l) :
    FreeListIs cfg (PutToFbList cfg s d b) d' l := by
  obtain ⟨h1, h2⟩ := PutToFbList_other cfg s d b d' h
  obtain ⟨hnd, hhead, htail, hcnt, hlink⟩ := hl
  exact ⟨hnd, by rw [h1]; exact hhead, by rw [h1]; exact htail, by rw [h1]; exact hcnt,
    by rw [h2]; exact hlink⟩

/-- `GetFromFbList.unlink` touches only the block and die tables. -/
theorem unlink_frame (cfg : Config) (s : State) (d e : Nat) :
    (GetFromFbList.unlink cfg s d e).1 = e ∧
    (GetFromFbList.unlink cfg s d e).2.logicalSlice = s.logicalSlice ∧
    (GetFromFbList.unlink cfg s d e).2.virtualSlice = s.virtualSlice ∧
    (GetFromFbList.unlink cfg s d e).2.phyBlock = s.phyBlock ∧
    (GetFromFbList.unlink cfg s d e).2.logicalBlockBaseVsa = s.logicalBlockBaseVsa ∧
    (GetFromFbList.unlink cfg s d e).2.logicalBlockNextOffset = s.logicalBlockNextOffset ∧
    (GetFromFbList.unlink cfg s d e).2.sliceAllocationTargetDie = s.sliceAllocationTargetDie ∧
    (GetFromFbList.unlink cfg s d e).2.targetCh = s.targetCh ∧
    (GetFromFbList.unlink cfg s d e).2.targetWay = s.targetWay ∧
    (GetFromFbList.unlink cfg s d e).2.gcLog = s.gcLog ∧
    (GetFromFbList.unlink cfg s d e).2.reqLog = s.reqLog := by
  unfold GetFromFbList.unlink
  by_cases h : (s.block d e).nextBlock = cfg.BLOCK_NONE <;>
    simp [h, State.setBlock, State.setDie]

/-- `GetFromFbList.unlink` on die `d` leaves the other dies alone. -/
theorem unlink_other (cfg : Config) (s : State) (d e d' : Nat) (h : d' ≠ d) :
    (GetFromFbList.unlink cfg s d e).2.die d' = s.die d' ∧
    (GetFromFbList.unlink cfg s d e).2.block d' = s.block d' := by
  unfold GetFromFbList.unlink
  by_cases ht : (s.block d e).nextBlock = cfg.BLOCK_NONE
  · refine ⟨by simp [ht, State.setBlock, State.setDie, upd_apply, h], ?_⟩
    funext x
    simp [ht, State.setBlock, State.setDie, upd2_apply, h]
  · refine ⟨by simp [ht, State.setBlock, State.setDie, upd_apply, h], ?_⟩
    funext x
    simp [ht, State.setBlock, State.setDie, upd2_apply, h]

/-- The die entry after `GetFromFbList.unlink`. -/
theorem unlink_die (cfg : Config) (s : State) (d e : Nat) :
    (GetFromFbList.unlink cfg s d e).2.die d =
      { s.die d with
        headFreeBlock := (s.block d e).nextBlock
        tailFreeBlock :=
          if (s.block d e).nextBlock ≠ cfg.BLOCK_NONE then (s.die d).tailFreeBlock
          else cfg.BLOCK_NONE
        freeBlockCnt := (s.die d).freeBlockCnt - 1 } := by
  unfold GetFromFbList.unlink
  by_cases ht : (s.block d e).nextBlock = cfg.BLOCK_NONE <;>
    simp [ht, State.setBlock, State.setDie]

/-- The evicted block after `GetFromFbList.unlink`, when it is not its own
successor. -/
theorem unlink_block_self (cfg : Config) (s : State) (d e : Nat)
    (hne : (s.block d e).nextBlock ≠ e) :
    (GetFromFbList.unlink cfg s d e).2.block d e =
      { s.block d e with free := 0, nextBlock := cfg.BLOCK_NONE, prevBlock := cfg.BLOCK_NONE } := by
  unfold GetFromFbList.unlink
  have hne' : e ≠ (s.block d e).nextBlock := fun h => hne h.symm
  by_cases ht : (s.block d e).nextBlock = cfg.BLOCK_NONE <;>
    simp [ht, State.setBlock, State.setDie, upd2_apply, hne']

/-- The other blocks of the die after `GetFromFbList.unlink`. -/
theorem unlink_block_other (cfg : Config) (s : State) (d e x : Nat) (hx : x ≠ e) :
    (GetFromFbList.unlink cfg s d e).2.block d x =
      if (s.block d e).nextBlock ≠ cfg.BLOCK_NONE ∧ x = (s.block d e).nextBlock then
        { s.block d x with prevBlock := cfg.BLOCK_NONE }
      else s.block d x := by
  unfold GetFromFbList.unlink
  by_cases ht : (s.block d e).nextBlock = cfg.BLOCK_NONE
  · simp [ht, State.setBlock, State.setDie, upd2_apply, hx]
  · by_cases hx' : x = (s.block d e).nextBlock
    · subst hx'
      simp [ht, State.setBlock, State.setDie, upd2_apply, hx]
    · simp [ht, State.setBlock, State.setDie, upd2_apply, hx, hx']

/-- Unlinking the head of a consistent list leaves the rest of the list. -/
theorem FreeListIs_unlink (cfg : Config) (hw : cfg.USER_BLOCKS_PER_DIE ≤ cfg.BLOCK_NONE)
    (s : State) (d b : Nat) (rest : List Nat) (hl : FreeListIs cfg s d (b :: rest)) :
    FreeListIs cfg (GetFromFbList.unlink cfg s d b).2 d rest := by
  obtain ⟨hnd, hhead, htail, hcnt, hlink⟩ := hl
  obtain ⟨hb, hfree, hprev, hnext, hrest⟩ := hlink
  obtain ⟨hbr, hndr⟩ := List.nodup_cons.mp hnd
  cases rest with
  | nil =>
    simp only [headOr_nil] at hnext
    refine ⟨List.nodup_nil, ?_, ?_, ?_, trivial⟩
    · rw [unlink_die]; simp [hnext]
    · rw [unlink_die]; simp [hnext]
    · rw [unlink_die]; simp [hcnt]
  | cons c r =>
    simp only [headOr_cons] at hnext
    obtain ⟨hc, hcfree, hcprev, hcnext, hr⟩ := hrest
    have hcne : (s.block d b).nextBlock ≠ cfg.BLOCK_NONE := by rw [hnext]; omega
    have hcb : c ≠ b := fun h => hbr (h ▸ List.mem_cons_self _ _)
    have hcn : c ≠ cfg.BLOCK_NONE := by omega
    refine ⟨hndr, ?_, ?_, ?_, ?_⟩
    · rw [unlink_die]; simp [hnext]
    · rw [unlink_die]
      simp only [hcne, ne_eq, not_false_eq_true, ↓reduceIte]
      rw [htail, lastOr_cons_cons]
    · rw [unlink_die]; simp [hcnt]
    · refine ⟨hc, ?_, ?_, ?_, ?_⟩
      · rw [unlink_block_other cfg s d b c hcb]; simp [hnext, hcfree, hcn]
      · rw [unlink_block_other cfg s d b c hcb]; simp [hnext, hcn]
      · rw [unlink_block_other cfg s d b c hcb]; simp [hnext, hcnext, hcn]
      · apply Linked_congr _ hr
        intro x hx
        have hxb : x ≠ b := fun h => hbr (h ▸ List.mem_cons_of_mem _ hx)
        have hxc : x ≠ c := fun h => (List.nodup_cons.mp hndr).1 (h ▸ hx)
        rw [unlink_block_other cfg s d b x hxb]
        simp [hnext, hxc]

/-- A list of another die is not affected by `GetFromFbList.unlink`. -/
theorem FreeListIs_unlink_other (cfg : Config) (s : State) (d e d' : Nat) (l : List Nat)
    (h : d' ≠ d) (hl : FreeListIs cfg s d' l) :
    FreeListIs cfg (GetFromFbList.unlink cfg s d e).2 d' l := by
  obtain ⟨h1, h2⟩ := unlink_other cfg s d e d' h
  obtain ⟨hnd, hhead, htail, hcnt, hlink⟩ := hl
  exact ⟨hnd, by rw [h1]; exact hhead, by rw [h1]; exact htail, by rw [h1]; exact hcnt,
    by rw [h2]; exact hlink⟩

/-- On a consistent list the head and tail pointers are both `BLOCK_NONE`
exactly when the counter is 0. -/
theorem FreeListIs_empty_iff (cfg : Config) (hw : cfg.USER_BLOCKS_PER_DIE ≤ cfg.BLOCK_NONE)
    (s : State) (d : Nat) (l : List Nat) (hl : FreeListIs cfg s d l) :
    ((s.die d).headFreeBlock = cfg.BLOCK_NONE ↔ (s.die d).freeBlockCnt = 0) ∧
    ((s.die d).tailFreeBlock = cfg.BLOCK_NONE ↔ (s.die d).freeBlockCnt = 0) ∧
    ((s.die d).freeBlockCnt = 0 ↔ l = []) := by
  obtain ⟨hnd, hhead, htail, hcnt, hlink⟩ := hl
  cases l with
  | nil => simp [hhead, htail, hcnt]
  | cons a t =>
    have h1 : a < cfg.USER_BLOCKS_PER_DIE := Linked_lt hlink a (List.mem_cons_self _ _)
    have h2 : lastOr cfg (a :: t) < cfg.USER_BLOCKS_PER_DIE :=
      Linked_lt hlink _ (lastOr_mem cfg (by simp))
    rw [hhead, htail, hcnt]
    simp only [headOr_cons, List.length_cons, Nat.add_one_ne_zero, reduceCtorEq, iff_false,
      not_false_eq_true, and_true]
    constructor <;> omega

/-- The chain that starts at a given head is unique. -/
theorem Linked_unique {cfg : Config} (hw : cfg.USER_BLOCKS_PER_DIE ≤ cfg.BLOCK_NONE)
    {blk : Nat → VirtualBlock} {l : List Nat} :
    ∀ {l' : List Nat} {prev prev' : Nat}, Linked cfg blk prev l → Linked cfg blk prev' l' →
      headOr cfg l = headOr cfg l' → l = l' := by
  induction l with
  | nil =>
    intro l' _ _ _ h' hh
    cases l' with
    | nil => rfl
    | cons a t =>
      have := h'.1
      simp only [headOr_nil, headOr_cons] at hh
      omega
  | cons a t ih =>
    intro l' _ _ h h' hh
    cases l' with
    | nil =>
      have := h.1
      simp only [headOr_nil, headOr_cons] at hh
      omega
    | cons a' t' =>
      simp only [headOr_cons] at hh
      subst hh
      obtain ⟨_, _, _, h4, h5⟩ := h
      obtain ⟨_, _, _, h4', h5'⟩ := h'
      rw [ih h5 h5' (by rw [← h4, ← h4'])]

theorem FreeListIs_unique (cfg : Config) (hw : cfg.USER_BLOCKS_PER_DIE ≤ cfg.BLOCK_NONE)
    (s : State) (d : Nat) (l l' : List Nat) (h : FreeListIs cfg s d l)
    (h' : FreeListIs cfg s d l') : l = l' :=
  Linked_unique hw h.linked h'.linked (by rw [← h.head, ← h'.head])

/-- Membership in the free list, given what the list is. -/
theorem OnFreeList_iff (cfg : Config) (hw : cfg.USER_BLOCKS_PER_DIE ≤ cfg.BLOCK_NONE)
    (s : State) (d b : Nat) (l : List Nat) (h : FreeListIs cfg s d l) :
    OnFreeList cfg s d b ↔ b ∈ l := by
  constructor
  · rintro ⟨l', hl', hb⟩
    rw [FreeListIs_unique cfg hw s d l l' h hl']
    exact hb
  · intro hb
    exact ⟨l, h, hb⟩

/-- A list depends only on the die entry and on the entries of its nodes. -/
theorem FreeListIs_congr (cfg : Config) (s s' : State) (d : Nat) (l : List Nat)
    (hd : s'.die d = s.die d) (hb : ∀ b ∈ l, s'.block d b = s.block d b)
    (hl : FreeListIs cfg s d l) : FreeListIs cfg s' d l := by
  obtain ⟨hnd, hhead, htail, hcnt, hlink⟩ := hl
  exact ⟨hnd, by rw [hd]; exact hhead, by rw [hd]; exact htail, by rw [hd]; exact hcnt,
    Linked_congr hb hlink⟩

/-- `InitDieMap` empties the list of every die and touches nothing else. -/
theorem InitDieMap_eq (cfg : Config) (s : State) :
    InitDieMap cfg s =
      { s with
        die := fun d =>
          if d < cfg.USER_DIES then
            { s.die d with
              headFreeBlock := cfg.BLOCK_NONE
              tailFreeBlock := cfg.BLOCK_NONE
              freeBlockCnt := 0 }
          else s.die d } := by
  have h : ∀ n,
      forLoop n (fun dieNo t =>
        t.setDie dieNo
          { t.die dieNo with
            headFreeBlock := cfg.BLOCK_NONE
            tailFreeBlock := cfg.BLOCK_NONE
            freeBlockCnt := 0 }) s =
      { s with
        die := fun d =>
          if d < n then
            { s.die d with
              headFreeBlock := cfg.BLOCK_NONE
              tailFreeBlock := cfg.BLOCK_NONE
              freeBlockCnt := 0 }
          else s.die d } := by
    intro n
    induction n with
    | zero => simp
    | succ k ih =>
      rw [forLoop_succ, ih]
      simp only [State.setDie, State.mk.injEq, true_and, and_true]
      funext i
      simp only [upd_apply]
      by_cases h : i = k
      · simp [h]
      · have : i < k + 1 ↔ i < k := by omega
        simp [h, this]
  exact h _

theorem goodBlocks_succ (cfg : Config) (s : State) (d k : Nat) :
    goodBlocks cfg s d (k + 1) =
      goodBlocks cfg s d k ++ (if resolvedBad cfg s d k = 0 then [k] else []) := by
  simp only [goodBlocks, List.range_succ, List.filter_append]
  by_cases h : resolvedBad cfg s d k = 0 <;> simp [List.filter, h]

theorem goodBlocks_lt (cfg : Config) (s : State) (d k : Nat) :
    ∀ b ∈ goodBlocks cfg s d k, b < k := by
  intro b hb
  simp only [goodBlocks, List.mem_filter, List.mem_range] at hb
  exact hb.1

/-- What one iteration of the inner loop of `InitBlockMap` leaves alone. -/
theorem InitBlockMap_body_frame (cfg : Config) (d vb : Nat) (s : State) :
    (InitBlockMap.body cfg d vb s).phyBlock = s.phyBlock ∧
    (∀ d', d' ≠ d → (InitBlockMap.body cfg d vb s).die d' = s.die d' ∧
      (InitBlockMap.body cfg d vb s).block d' = s.block d') := by
  unfold InitBlockMap.body
  simp only [ResetBlockCurrentPage, State.setBlock]
  split
  · refine ⟨rfl, fun d' hd' => ⟨rfl, ?_⟩⟩
    funext x
    simp [upd2_apply, hd']
  · refine ⟨(PutToFbList_frame cfg _ d vb).2.2.1, fun d' hd' => ?_⟩
    obtain ⟨h1, h2⟩ := PutToFbList_other cfg
      { s with block := upd2 (upd2 (upd2 (upd2 (upd2 s.block d vb _) d vb _) d vb _) d vb _) d vb _ }
      d vb d' hd'
    refine ⟨h1, ?_⟩
    rw [h2]
    funext x
    simp [upd2_apply, hd']

/-- One iteration of the inner loop of `InitBlockMap` extends the list of the
die by the block it visits when that block is not bad. -/
theorem InitBlockMap_body_list (cfg : Config) (hw : cfg.USER_BLOCKS_PER_DIE ≤ cfg.BLOCK_NONE)
    (s0 t : State) (d k : Nat) (hphy : t.phyBlock = s0.phyBlock)
    (hk : k < cfg.USER_BLOCKS_PER_DIE) (hl : FreeListIs cfg t d (goodBlocks cfg s0 d k)) :
    FreeListIs cfg (InitBlockMap.body cfg d k t) d (goodBlocks cfg s0 d (k + 1)) := by
  have hkl : k ∉ goodBlocks cfg s0 d k := fun h => Nat.lt_irrefl _ (goodBlocks_lt cfg s0 d k k h)
  rw [goodBlocks_succ]
  unfold InitBlockMap.body
  simp only [ResetBlockCurrentPage, State.setBlock, upd2_same, hphy]
  have hbad : (s0.phyBlock d
      (s0.phyBlock d (cfg.Vblock2PblockOfTbsTranslation k)).remappedPhyBlock).bad =
      resolvedBad cfg s0 d k := rfl
  rw [hbad]
  by_cases hb : resolvedBad cfg s0 d k = 0
  · simp only [hb, ne_eq, not_true_eq_false, ↓reduceIte]
    apply FreeListIs_put cfg hw _ d k _ _ hk hkl
    · simp
    · refine FreeListIs_congr cfg t _ d _ ?_ ?_ hl
      · rfl
      intro b hb'
      have : b ≠ k := fun h => hkl (h ▸ hb')
      simp [upd2_apply, this]
  · simp only [hb, ne_eq, not_false_eq_true, ↓reduceIte, List.append_nil]
    refine FreeListIs_congr cfg t _ d _ ?_ ?_ hl
    · rfl
    intro b hb'
    have : b ≠ k := fun h => hkl (h ▸ hb')
    simp [upd2_apply, this]

/-- After `InitBlockMap`, run on empty lists, the free list of every die holds
the virtual blocks that are not bad, in ascending order. -/
theorem InitBlockMap_list (cfg : Config) (hw : cfg.USER_BLOCKS_PER_DIE ≤ cfg.BLOCK_NONE)
    (s : State) (hempty : ∀ d, d < cfg.USER_DIES → FreeListIs cfg s d []) :
    ∀ d, d < cfg.USER_DIES →
      FreeListIs cfg (InitBlockMap cfg s) d (goodBlocks cfg s d cfg.USER_BLOCKS_PER_DIE) := by
  have inner : ∀ (t0 : State) (d : Nat), t0.phyBlock = s.phyBlock →
      FreeListIs cfg t0 d [] →
      (forLoop cfg.USER_BLOCKS_PER_DIE (InitBlockMap.body cfg d) t0).phyBlock = s.phyBlock ∧
      FreeListIs cfg (forLoop cfg.USER_BLOCKS_PER_DIE (InitBlockMap.body cfg d) t0) d
        (goodBlocks cfg s d cfg.USER_BLOCKS_PER_DIE) ∧
      (∀ d', d' ≠ d →
        (forLoop cfg.USER_BLOCKS_PER_DIE (InitBlockMap.body cfg d) t0).die d' = t0.die d' ∧
        (forLoop cfg.USER_BLOCKS_PER_DIE (InitBlockMap.body cfg d) t0).block d' = t0.block d') := by
    intro t0 d hphy h0
    apply forLoop_induction
      (fun k t => t.phyBlock = s.phyBlock ∧ FreeListIs cfg t d (goodBlocks cfg s d k) ∧
        (∀ d', d' ≠ d → t.die d' = t0.die d' ∧ t.block d' = t0.block d'))
    · exact ⟨hphy, by simpa [goodBlocks] using h0, fun _ _ => ⟨rfl, rfl⟩⟩
    · rintro k t hk ⟨h1, h2, h3⟩
      obtain ⟨f1, f2⟩ := InitBlockMap_body_frame cfg d k t
      refine ⟨by rw [f1, h1], InitBlockMap_body_list cfg hw s t d k h1 hk h2, ?_⟩
      intro d' hd'
      obtain ⟨g1, g2⟩ := f2 d' hd'
      obtain ⟨g3, g4⟩ := h3 d' hd'
      exact ⟨by rw [g1, g3], by rw [g2, g4]⟩
  have outer : ∀ n, n ≤ cfg.USER_DIES →
      (forLoop n (fun dieNo t =>
        forLoop cfg.USER_BLOCKS_PER_DIE (InitBlockMap.body cfg dieNo) t) s).phyBlock =
        s.phyBlock ∧
      (∀ d, d < n →
        FreeListIs cfg (forLoop n (fun dieNo t =>
          forLoop cfg.USER_BLOCKS_PER_DIE (InitBlockMap.body cfg dieNo) t) s) d
          (goodBlocks cfg s d cfg.USER_BLOCKS_PER_DIE)) ∧
      (∀ d, n ≤ d → d < cfg.USER_DIES →
        FreeListIs cfg (forLoop n (fun dieNo t =>
          forLoop cfg.USER_BLOCKS_PER_DIE (InitBlockMap.body cfg dieNo) t) s) d []) := by
    intro n
    induction n with
    | zero =>
      intro _
      exact ⟨rfl, fun d hd => absurd hd (Nat.not_lt_zero d), fun d _ hd => hempty d hd⟩
    | succ k ih =>
      intro hk
      obtain ⟨h1, h2, h3⟩ := ih (Nat.le_of_succ_le hk)
      rw [forLoop_succ]
      obtain ⟨i1, i2, i3⟩ := inner _ k h1 (h3 k (Nat.le_refl k) hk)
      refine ⟨i1, ?_, ?_⟩
      · intro d hd
        by_cases hdk : d = k
        · subst hdk; exact i2
        · obtain ⟨j1, j2⟩ := i3 d hdk
          exact FreeListIs_congr cfg _ _ d _ j1 (fun b _ => by rw [j2]) (h2 d (by omega))
      · intro d hd hd'
        have hdk : d ≠ k := by omega
        obtain ⟨j1, j2⟩ := i3 d hdk
        exact FreeListIs_congr cfg _ _ d _ j1 (fun b _ => by rw [j2]) (h3 d (by omega) hd')
  exact (outer cfg.USER_DIES (Nat.le_refl _)).2.1

/-- After `InitDieMap` the list of every die is empty. -/
theorem InitDieMap_list (cfg : Config) (s : State) (d : Nat) (hd : d < cfg.USER_DIES) :
    FreeListIs cfg (InitDieMap cfg s) d [] := by
  rw [InitDieMap_eq]
  exact ⟨List.nodup_nil, by simp [hd], by simp [hd], by simp [hd], trivial⟩

/-- The outcome of `GetFromFbList` on a consistent list. -/
theorem GetFromFbList_list (cfg : Config) (hw : cfg.USER_BLOCKS_PER_DIE ≤ cfg.BLOCK_NONE)
    (s : State) (d opt : Nat) (l : List Nat) (hl : FreeListIs cfg s d l)
    (r : Nat × State) (h : GetFromFbList cfg s d opt = .ok r) :
    (r = (cfg.BLOCK_FAIL, s)) ∨
    (l ≠ [] ∧ r = GetFromFbList.unlink cfg s d (headOr cfg l) ∧ r.1 = headOr cfg l ∧
      FreeListIs cfg r.2 d l.tail) := by
  unfold GetFromFbList at h
  have key : l ≠ [] → GetFromFbList.unlink cfg s d (s.die d).headFreeBlock = r →
      (l ≠ [] ∧ r = GetFromFbList.unlink cfg s d (headOr cfg l) ∧ r.1 = headOr cfg l ∧
        FreeListIs cfg r.2 d l.tail) := by
    intro hne hr
    rw [hl.head] at hr
    subst hr
    refine ⟨hne, rfl, (unlink_frame cfg s d _).1, ?_⟩
    cases l with
    | nil => exact absurd rfl hne
    | cons a t => exact FreeListIs_unlink cfg hw s d a t hl
  by_cases h1 : opt = cfg.GET_FREE_BLOCK_NORMAL
  · simp only [h1, ↓reduceIte] at h
    by_cases h2 : (s.die d).freeBlockCnt ≤ cfg.RESERVED_FREE_BLOCK_COUNT
    · simp only [h2, ↓reduceIte, Outcome.ok.injEq] at h
      exact Or.inl h.symm
    · simp only [h2, ↓reduceIte, Outcome.ok.injEq] at h
      refine Or.inr (key ?_ h)
      intro hnil
      rw [hl.count, hnil] at h2
      simp at h2
  · simp only [h1, ↓reduceIte] at h
    by_cases h3 : opt = cfg.GET_FREE_BLOCK_GC
    · simp only [h3, ↓reduceIte] at h
      by_cases h2 : (s.die d).headFreeBlock = cfg.BLOCK_NONE
      · simp only [h2, ↓reduceIte, Outcome.ok.injEq] at h
        exact Or.inl h.symm
      · simp only [h2, ↓reduceIte, Outcome.ok.injEq] at h
        refine Or.inr (key ?_ h)
        intro hnil
        rw [hl.head, hnil] at h2
        simp at h2
    · simp [h3] at h

/-- A returning `GetFromFbList` call either fails and hands back the state, or
unlinks the head. -/
theorem GetFromFbList_cases (cfg : Config) (s : State) (d opt : Nat) (r : Nat × State)
    (hr : GetFromFbList cfg s d opt = .ok r) :
    r = (cfg.BLOCK_FAIL, s) ∨ r = GetFromFbList.unlink cfg s d (s.die d).headFreeBlock := by
  unfold GetFromFbList at hr
  by_cases h1 : opt = cfg.GET_FREE_BLOCK_NORMAL
  · by_cases h2 : (s.die d).freeBlockCnt ≤ cfg.RESERVED_FREE_BLOCK_COUNT <;>
      simp only [h1, h2, ↓reduceIte, Outcome.ok.injEq] at hr
    · exact Or.inl hr.symm
    · exact Or.inr hr.symm
  · by_cases h3 : opt = cfg.GET_FREE_BLOCK_GC
    · subst h3
      by_cases h2 : (s.die d).headFreeBlock = cfg.BLOCK_NONE <;>
        simp only [h1, h2, ↓reduceIte, Outcome.ok.injEq] at hr
      · exact Or.inl hr.symm
      · exact Or.inr hr.symm
    · simp [h1, h3] at hr

/-- C9. Free-list consistency is an invariant.  The free lists of all dies are
consistent after `InitDieMap` followed by `InitBlockMap`; consistency is kept by
`PutToFbList` of a valid block with `free = 1` that is not on the list, and by
every returning `GetFromFbList` call; on a consistent list head and tail are
`BLOCK_NONE` exactly when `freeBlockCnt` is 0. -/
theorem free_list_invariant (cfg : Config) (hw : cfg.USER_BLOCKS_PER_DIE ≤ cfg.BLOCK_NONE) :
    (∀ s, FreeListsConsistent cfg (InitBlockMap cfg (InitDieMap cfg s))) ∧
    (∀ s d b, FreeListsConsistent cfg s → b < cfg.USER_BLOCKS_PER_DIE →
      (s.block d b).free = 1 → ¬ OnFreeList cfg s d b →
      FreeListsConsistent cfg (PutToFbList cfg s d b)) ∧
    (∀ s d opt r, FreeListsConsistent cfg s → GetFromFbList cfg s d opt = .ok r →
      FreeListsConsistent cfg r.2) ∧
    (∀ s d, FreeListsConsistent cfg s → d < cfg.USER_DIES →
      (((s.die d).headFreeBlock = cfg.BLOCK_NONE ∧ (s.die d).tailFreeBlock = cfg.BLOCK_NONE) ↔
        (s.die d).freeBlockCnt = 0)) := by
  refine ⟨?_, ?_, ?_, ?_⟩
  · intro s d hd
    exact ⟨_, InitBlockMap_list cfg hw (InitDieMap cfg s)
      (fun d' hd' => InitDieMap_list cfg s d' hd') d hd⟩
  · intro s d b hs hb hfree hnot d' hd'
    obtain ⟨l, hl⟩ := hs d' hd'
    by_cases h : d' = d
    · subst h
      exact ⟨_, FreeListIs_put cfg hw s d' b l hl hb (fun hm => hnot ⟨l, hl, hm⟩) hfree⟩
    · exact ⟨l, FreeListIs_put_other cfg s d b d' l h hl⟩
  · intro s d opt r hs hr d' hd'
    obtain ⟨l, hl⟩ := hs d' hd'
    by_cases h : d' = d
    · subst h
      rcases GetFromFbList_list cfg hw s d' opt l hl r hr with h1 | ⟨_, _, _, h4⟩
      · rw [h1]; exact ⟨l, hl⟩
      · exact ⟨_, h4⟩
    · have hr' := GetFromFbList_cases cfg s d opt r hr
      rcases hr' with h1 | h1
      · rw [h1]; exact ⟨l, hl⟩
      · rw [h1]; exact ⟨l, FreeListIs_unlink_other cfg s d _ d' l h hl⟩
  · intro s d hs hd
    obtain ⟨l, hl⟩ := hs d hd
    obtain ⟨h1, h2, _⟩ := FreeListIs_empty_iff cfg hw s d l hl
    constructor
    · intro h; exact h1.mp h.1
    · intro h; exact ⟨h1.mpr h, h2.mpr h⟩

theorem emptyLists_consistent (cfg : Config) (s : State) (d b : Nat) (v : VirtualBlock) :
    FreeListsConsistent cfg ((InitDieMap cfg s).setBlock d b v) := by
  intro d' hd'
  exact ⟨[], FreeListIs_congr cfg (InitDieMap cfg s) _ d' [] rfl (fun _ h => by cases h)
    (InitDieMap_list cfg s d' hd')⟩

set_option maxRecDepth 100000 in
theorem free_list_invariant_witness :
    FreeListsConsistent scenario (InitBlockMap scenario (InitDieMap scenario State.blank)) ∧
    FreeListsConsistent scenario
      (PutToFbList scenario
        ((InitDieMap scenario State.blank).setBlock 0 2 ⟨0, 1, 0, 0, 0, 0, 0⟩) 0 2) ∧
    FreeListsConsistent scenario
      (GetFromFbList.unlink scenario (InitBlockMap scenario (InitDieMap scenario State.blank))
        3 0).2 ∧
    ((((InitBlockMap scenario (InitDieMap scenario State.blank)).die 1).headFreeBlock =
        scenario.BLOCK_NONE ∧
      ((InitBlockMap scenario (InitDieMap scenario State.blank)).die 1).tailFreeBlock =
        scenario.BLOCK_NONE) ↔
      ((InitBlockMap scenario (InitDieMap scenario State.blank)).die 1).freeBlockCnt = 0) :=
  ⟨(free_list_invariant scenario (by decide)).1 State.blank,
   (free_list_invariant scenario (by decide)).2.1
      ((InitDieMap scenario State.blank).setBlock 0 2 ⟨0, 1, 0, 0, 0, 0, 0⟩) 0 2
      (emptyLists_consistent scenario State.blank 0 2 _) (by decide) (by decide)
      (fun h => by
        have hl : FreeListIs scenario
            ((InitDieMap scenario State.blank).setBlock 0 2 ⟨0, 1, 0, 0, 0, 0, 0⟩) 0 [] :=
          FreeListIs_congr scenario (InitDieMap scenario State.blank) _ 0 [] rfl
            (fun _ h => by cases h) (InitDieMap_list scenario State.blank 0 (by decide))
        have := (OnFreeList_iff scenario (by decide) _ 0 2 [] hl).mp h
        cases this),
   (free_list_invariant scenario (by decide)).2.2.1
      (InitBlockMap scenario (InitDieMap scenario State.blank)) 3 scenario.GET_FREE_BLOCK_GC _
      ((free_list_invariant scenario (by decide)).1 State.blank) rfl,
   (free_list_invariant scenario (by decide)).2.2.2
      (InitBlockMap scenario (InitDieMap scenario State.blank)) 1
      ((free_list_invariant scenario (by decide)).1 State.blank) (by decide)⟩

/-- C10. `GetFromFbList` on a consistent free list `l` of die `d`.  In mode
`GET_FREE_BLOCK_NORMAL` it returns, and the result is `BLOCK_FAIL` exactly when
`freeBlockCnt ≤ RESERVED_FREE_BLOCK_COUNT`; in mode `GET_FREE_BLOCK_GC` it
returns, and the result is `BLOCK_FAIL` exactly when the list is empty; a call
that returns `BLOCK_FAIL` hands back the state unchanged; every other returning
call returns the former head, leaves it with `free = 0` and both links
`BLOCK_NONE`, lowers `freeBlockCnt` by one and leaves the rest of the list. -/
theorem GetFromFbList_contract (cfg : Config) (hw : cfg.WellFormed) (s : State) (d : Nat)
    (l : List Nat) (hl : FreeListIs cfg s d l) :
    (∃ r, GetFromFbList cfg s d cfg.GET_FREE_BLOCK_NORMAL = .ok r ∧
      (r.1 = cfg.BLOCK_FAIL ↔ (s.die d).freeBlockCnt ≤ cfg.RESERVED_FREE_BLOCK_COUNT) ∧
      (r.1 = cfg.BLOCK_FAIL → r.2 = s)) ∧
    (∃ r, GetFromFbList cfg s d cfg.GET_FREE_BLOCK_GC = .ok r ∧
      (r.1 = cfg.BLOCK_FAIL ↔ l = []) ∧ (r.1 = cfg.BLOCK_FAIL → r.2 = s)) ∧
    (∀ opt r, GetFromFbList cfg s d opt = .ok r → r.1 ≠ cfg.BLOCK_FAIL →
      r.1 = (s.die d).headFreeBlock ∧ (r.2.block d r.1).free = 0 ∧
      (r.2.block d r.1).prevBlock = cfg.BLOCK_NONE ∧
      (r.2.block d r.1).nextBlock = cfg.BLOCK_NONE ∧
      (r.2.die d).freeBlockCnt + 1 = (s.die d).freeBlockCnt ∧
      FreeListIs cfg r.2 d l.tail) := by
  have hbn := hw.block_none
  have hbf := hw.block_fail
  have hhead : l ≠ [] → headOr cfg l ≠ cfg.BLOCK_FAIL := by
    intro hne
    have := Linked_lt hl.linked _ (headOr_mem cfg hne)
    omega
  have succ : ∀ opt r, GetFromFbList cfg s d opt = .ok r → r.1 ≠ cfg.BLOCK_FAIL →
      l ≠ [] ∧ r = GetFromFbList.unlink cfg s d (headOr cfg l) ∧ r.1 = headOr cfg l ∧
        FreeListIs cfg r.2 d l.tail := by
    intro opt r hr hne
    rcases GetFromFbList_list cfg hbn s d opt l hl r hr with h1 | h1
    · rw [h1] at hne; exact absurd rfl hne
    · exact h1
  refine ⟨?_, ?_, ?_⟩
  · by_cases h2 : (s.die d).freeBlockCnt ≤ cfg.RESERVED_FREE_BLOCK_COUNT
    · exact ⟨(cfg.BLOCK_FAIL, s), by simp [GetFromFbList, h2], by simp [h2], fun _ => rfl⟩
    · have hne : l ≠ [] := by
        intro hnil
        rw [hl.count, hnil] at h2
        simp at h2
      refine ⟨GetFromFbList.unlink cfg s d (s.die d).headFreeBlock,
        by simp [GetFromFbList, h2], ?_, ?_⟩
      · rw [(unlink_frame cfg s d _).1, hl.head]
        simp [h2, hhead hne]
      · intro h
        rw [(unlink_frame cfg s d _).1, hl.head] at h
        exact absurd h (hhead hne)
  · by_cases h2 : l = []
    · refine ⟨(cfg.BLOCK_FAIL, s), ?_, by simp [h2], fun _ => rfl⟩
      have : (s.die d).headFreeBlock = cfg.BLOCK_NONE := by rw [hl.head, h2]; rfl
      simp [GetFromFbList, this, hw.option_ne.symm]
    · have hh : (s.die d).headFreeBlock ≠ cfg.BLOCK_NONE := by
        have := Linked_lt hl.linked _ (headOr_mem cfg h2)
        rw [hl.head]
        omega
      refine ⟨GetFromFbList.unlink cfg s d (s.die d).headFreeBlock,
        by simp [GetFromFbList, hh, hw.option_ne.symm], ?_, ?_⟩
      · rw [(unlink_frame cfg s d _).1, hl.head]
        simp [h2, hhead h2]
      · intro h
        rw [(unlink_frame cfg s d _).1, hl.head] at h
        exact absurd h (hhead h2)
  · intro opt r hr hne
    obtain ⟨hne', h2, h3, h4⟩ := succ opt r hr hne
    cases l with
    | nil => exact absurd rfl hne'
    | cons a t =>
      simp only [headOr_cons, List.tail_cons] at h2 h3 h4 ⊢
      obtain ⟨ha, _, _, hnext, _⟩ := hl.linked
      have hself : (s.block d a).nextBlock ≠ a := by
        rw [hnext]
        cases t with
        | nil => simp only [headOr_nil]; omega
        | cons c r' =>
          simp only [headOr_cons]
          intro h
          exact (List.nodup_cons.mp hl.nodup).1 (h ▸ List.mem_cons_self _ _)
      rw [h3]
      have hb := unlink_block_self cfg s d a hself
      have hd := unlink_die cfg s d a
      rw [← h2] at hb hd
      refine ⟨by rw [hl.head]; rfl, by rw [hb], by rw [hb], by rw [hb], ?_, h4⟩
      rw [hd, hl.count]
      simp

set_option maxRecDepth 100000 in
theorem GetFromFbList_contract_witness :
    (∃ r, GetFromFbList scenario scenarioBoot 0 scenario.GET_FREE_BLOCK_NORMAL = .ok r ∧
      (r.1 = scenario.BLOCK_FAIL ↔
        (scenarioBoot.die 0).freeBlockCnt ≤ scenario.RESERVED_FREE_BLOCK_COUNT) ∧
      (r.1 = scenario.BLOCK_FAIL → r.2 = scenarioBoot)) ∧
    ((GetFromFbList.unlink scenario scenarioBoot 0 2).1 = (scenarioBoot.die 0).headFreeBlock ∧
      ((GetFromFbList.unlink scenario scenarioBoot 0 2).2.block 0
        (GetFromFbList.unlink scenario scenarioBoot 0 2).1).free = 0 ∧
      ((GetFromFbList.unlink scenario scenarioBoot 0 2).2.block 0
        (GetFromFbList.unlink scenario scenarioBoot 0 2).1).prevBlock = scenario.BLOCK_NONE ∧
      ((GetFromFbList.unlink scenario scenarioBoot 0 2).2.block 0
        (GetFromFbList.unlink scenario scenarioBoot 0 2).1).nextBlock = scenario.BLOCK_NONE ∧
      ((GetFromFbList.unlink scenario scenarioBoot 0 2).2.die 0).freeBlockCnt + 1 =
        (scenarioBoot.die 0).freeBlockCnt ∧
      FreeListIs scenario (GetFromFbList.unlink scenario scenarioBoot 0 2).2 0 [2, 3].tail) :=
  ⟨(GetFromFbList_contract scenario scenario_wellFormed scenarioBoot 0 [2, 3]
      ⟨by decide, by decide, by decide, by decide, by decide⟩).1,
   (GetFromFbList_contract scenario scenario_wellFormed scenarioBoot 0 [2, 3]
      ⟨by decide, by decide, by decide, by decide, by decide⟩).2.2
      scenario.GET_FREE_BLOCK_NORMAL (GetFromFbList.unlink scenario scenarioBoot 0 2) rfl
      (by decide)⟩

/-! ## Packed `currentPage` field -/

theorem lockMask_eq : BLOCK_CUR_PAGE_LOCK_MASK = 2 ^ 15 := rfl

theorem valueMask_eq : BLOCK_CUR_PAGE_VALUE_MASK = 2 ^ 15 - 1 := rfl

theorem cp_get_eq_mod (cp : Nat) : cp &&& BLOCK_CUR_PAGE_VALUE_MASK = cp % 32768 := by
  rw [valueMask_eq, Nat.and_pow_two_sub_one_eq_mod]

theorem cp_get_set (cp p : Nat) :
    (((cp &&& BLOCK_CUR_PAGE_LOCK_MASK) ||| (p &&& BLOCK_CUR_PAGE_VALUE_MASK)) % 65536) &&&
      BLOCK_CUR_PAGE_VALUE_MASK = p % 32768 := by
  rw [← cp_get_eq_mod p]
  apply Nat.eq_of_testBit_eq
  intro i
  have e : (65536 : Nat) = 2 ^ 16 := rfl
  rw [e, lockMask_eq, valueMask_eq]
  simp only [Nat.testBit_and, Nat.testBit_or, Nat.testBit_mod_two_pow, Nat.testBit_two_pow,
    Nat.testBit_two_pow_sub_one]
  by_cases h1 : i < 15
  · have h2 : i < 16 := by omega
    have h3 : ¬ 15 = i := by omega
    simp [h1, h2, h3]
  · simp [h1]

theorem cp_lock_set (cp p : Nat) :
    (((cp &&& BLOCK_CUR_PAGE_LOCK_MASK) ||| (p &&& BLOCK_CUR_PAGE_VALUE_MASK)) % 65536) &&&
      BLOCK_CUR_PAGE_LOCK_MASK = cp &&& BLOCK_CUR_PAGE_LOCK_MASK := by
  apply Nat.eq_of_testBit_eq
  intro i
  have e : (65536 : Nat) = 2 ^ 16 := rfl
  rw [e, lockMask_eq, valueMask_eq]
  simp only [Nat.testBit_and, Nat.testBit_or, Nat.testBit_mod_two_pow, Nat.testBit_two_pow,
    Nat.testBit_two_pow_sub_one]
  by_cases h1 : 15 = i
  · subst h1
    simp
  · simp [h1]

theorem cp_get_lock (cp : Nat) :
    ((cp ||| BLOCK_CUR_PAGE_LOCK_MASK) % 65536) &&& BLOCK_CUR_PAGE_VALUE_MASK =
      cp &&& BLOCK_CUR_PAGE_VALUE_MASK := by
  apply Nat.eq_of_testBit_eq
  intro i
  have e : (65536 : Nat) = 2 ^ 16 := rfl
  rw [e, lockMask_eq, valueMask_eq]
  simp only [Nat.testBit_and, Nat.testBit_or, Nat.testBit_mod_two_pow, Nat.testBit_two_pow,
    Nat.testBit_two_pow_sub_one]
  by_cases h1 : i < 15
  · have h2 : i < 16 := by omega
    have h3 : ¬ 15 = i := by omega
    simp [h1, h2, h3]
  · simp [h1]

theorem cp_lock_lock (cp : Nat) :
    ((cp ||| BLOCK_CUR_PAGE_LOCK_MASK) % 65536) &&& BLOCK_CUR_PAGE_LOCK_MASK =
      BLOCK_CUR_PAGE_LOCK_MASK := by
  apply Nat.eq_of_testBit_eq
  intro i
  have e : (65536 : Nat) = 2 ^ 16 := rfl
  rw [e, lockMask_eq]
  simp only [Nat.testBit_and, Nat.testBit_or, Nat.testBit_mod_two_pow, Nat.testBit_two_pow]
  by_cases h1 : 15 = i
  · subst h1
    simp
  · simp [h1]

theorem cp_get_unlock (cp : Nat) :
    ((cp &&& BLOCK_CUR_PAGE_VALUE_MASK) % 65536) &&& BLOCK_CUR_PAGE_VALUE_MASK =
      cp &&& BLOCK_CUR_PAGE_VALUE_MASK := by
  apply Nat.eq_of_testBit_eq
  intro i
  have e : (65536 : Nat) = 2 ^ 16 := rfl
  rw [e, valueMask_eq]
  simp only [Nat.testBit_and, Nat.testBit_mod_two_pow, Nat.testBit_two_pow_sub_one]
  by_cases h1 : i < 15
  · have h2 : i < 16 := by omega
    simp [h1, h2]
  · simp [h1]

theorem cp_lock_unlock (cp : Nat) :
    ((cp &&& BLOCK_CUR_PAGE_VALUE_MASK) % 65536) &&& BLOCK_CUR_PAGE_LOCK_MASK = 0 := by
  apply Nat.eq_of_testBit_eq
  intro i
  have e : (65536 : Nat) = 2 ^ 16 := rfl
  rw [e, lockMask_eq, valueMask_eq]
  simp only [Nat.testBit_and, Nat.testBit_mod_two_pow, Nat.testBit_two_pow,
    Nat.testBit_two_pow_sub_one, Nat.zero_testBit]
  by_cases h1 : 15 = i
  · subst h1
    simp
  · simp [h1]

/-! ## EraseBlock -/

/-- `PutToFbList` changes only link fields of blocks and list fields of dies. -/
theorem PutToFbList_fields (cfg : Config) (s : State) (d b d' x : Nat) :
    ((PutToFbList cfg s d b).block d' x).bad = (s.block d' x).bad ∧
    ((PutToFbList cfg s d b).block d' x).free = (s.block d' x).free ∧
    ((PutToFbList cfg s d b).block d' x).invalidSliceCnt = (s.block d' x).invalidSliceCnt ∧
    ((PutToFbList cfg s d b).block d' x).eraseCnt = (s.block d' x).eraseCnt ∧
    ((PutToFbList cfg s d b).block d' x).currentPage = (s.block d' x).currentPage ∧
    ((PutToFbList cfg s d b).die d').currentBlock = (s.die d').currentBlock := by
  unfold PutToFbList
  by_cases ht : (s.die d).tailFreeBlock = cfg.BLOCK_NONE
  · simp only [ht, ne_eq, not_true_eq_false, ↓reduceIte, State.setBlock, State.setDie,
      upd2_apply, upd_apply]
    by_cases h1 : d' = d <;> by_cases h2 : x = b <;> simp [h1, h2]
  · simp only [ht, ne_eq, not_false_eq_true, ↓reduceIte, State.setBlock, State.setDie,
      upd2_apply, upd_apply]
    by_cases h1 : d' = d
    · subst h1
      by_cases h3 : x = (s.die d').tailFreeBlock
      · subst h3
        by_cases h4 : (s.die d').tailFreeBlock = b
        · simp [h4]
        · simp [h4]
      · by_cases h2 : x = b
        · subst h2
          simp [h3]
        · simp [h2, h3]
    · simp [h1]

/-- A loop that stores one value at the addresses `f 0, .., f (n-1)` of the
reverse map. -/
theorem clearLoop_spec (f : Nat → Nat) (v : Nat) (n : Nat) (s : State) :
    (∀ p, p < n →
      (forLoop n (fun p t => { t with virtualSlice := upd t.virtualSlice (f p) v }) s).virtualSlice
        (f p) = v) ∧
    (∀ x, (∀ p, p < n → f p ≠ x) →
      (forLoop n (fun p t => { t with virtualSlice := upd t.virtualSlice (f p) v }) s).virtualSlice
        x = s.virtualSlice x) ∧
    (forLoop n (fun p t => { t with virtualSlice := upd t.virtualSlice (f p) v }) s) =
      { s with virtualSlice :=
        (forLoop n (fun p t => { t with virtualSlice := upd t.virtualSlice (f p) v })
          s).virtualSlice } := by
  induction n with
  | zero =>
    exact ⟨fun p hp => absurd hp (Nat.not_lt_zero p), fun _ _ => rfl, rfl⟩
  | succ k ih =>
    obtain ⟨h1, h2, h3⟩ := ih
    rw [forLoop_succ]
    refine ⟨?_, ?_, ?_⟩
    · intro p hp
      simp only [upd_apply]
      by_cases h : f p = f k
      · simp [h]
      · simp only [h, ↓reduceIte]
        have hpk : p ≠ k := fun e => h (e ▸ rfl)
        exact h1 p (by omega)
    · intro x hx
      have hk : x ≠ f k := fun e => hx k (Nat.lt_succ_self k) e.symm
      simp only [upd_apply, hk, ↓reduceIte]
      exact h2 x (fun p hp => hx p (Nat.lt_succ_of_lt hp))
    · rw [h3]

/-- The block and die tables after the first part of `EraseBlock`. -/
theorem EraseBlock_requeue_spec (cfg : Config) (hw : cfg.USER_BLOCKS_PER_DIE ≤ cfg.BLOCK_NONE)
    (s : State) (d b : Nat) (l : List Nat) (hb : b < cfg.USER_BLOCKS_PER_DIE)
    (hl : FreeListIs cfg s d l) (hbl : b ∉ l) :
    ((EraseBlock.requeue cfg s d b).block d b).currentPage = 0 ∧
    ((EraseBlock.requeue cfg s d b).block d b).invalidSliceCnt = 0 ∧
    ((EraseBlock.requeue cfg s d b).block d b).free = 1 ∧
    ((EraseBlock.requeue cfg s d b).block d b).eraseCnt = (s.block d b).eraseCnt + 1 ∧
    FreeListIs cfg (EraseBlock.requeue cfg s d b) d (l ++ [b]) ∧
    (EraseBlock.requeue cfg s d b).virtualSlice = s.virtualSlice := by
  unfold EraseBlock.requeue
  simp only [ResetBlockCurrentPage, State.setBlock, upd2_same]
  refine ⟨?_, ?_, ?_, ?_, ?_, ?_⟩
  · rw [(PutToFbList_fields cfg _ d b d b).2.2.2.2.1]; simp
  · rw [(PutToFbList_fields cfg _ d b d b).2.2.1]; simp
  · rw [(PutToFbList_fields cfg _ d b d b).2.1]; simp
  · rw [(PutToFbList_fields cfg _ d b d b).2.2.2.1]; simp
  · refine FreeListIs_put cfg hw _ d b l ?_ hb hbl (by simp)
    refine FreeListIs_congr cfg s _ d l ?_ ?_ hl
    · rfl
    intro x hx
    have : x ≠ b := fun e => hbl (e ▸ hx)
    simp [upd2_apply, this]
  · rw [(PutToFbList_frame cfg _ d b).2.1]

/-- Postcondition of `EraseBlock` on a valid block that is not on the free
list `l` of its die. -/
theorem EraseBlock_post (cfg : Config) (hw : cfg.USER_BLOCKS_PER_DIE ≤ cfg.BLOCK_NONE)
    (s : State) (d b : Nat) (l : List Nat) (hb : b < cfg.USER_BLOCKS_PER_DIE)
    (hl : FreeListIs cfg s d l) (hbl : b ∉ l) :
    GetBlockCurrentPage (EraseBlock cfg s d b) d b = 0 ∧
    IsBlockReservedForBlkMapping (EraseBlock cfg s d b) d b = 0 ∧
    ((EraseBlock cfg s d b).block d b).invalidSliceCnt = 0 ∧
    ((EraseBlock cfg s d b).block d b).free = 1 ∧
    ((EraseBlock cfg s d b).block d b).eraseCnt = (s.block d b).eraseCnt + 1 ∧
    ((EraseBlock cfg s d b).die d).tailFreeBlock = b ∧
    FreeListIs cfg (EraseBlock cfg s d b) d (l ++ [b]) ∧
    (∀ p, p < cfg.USER_PAGES_PER_BLOCK →
      (EraseBlock cfg s d b).virtualSlice (cfg.Vorg2VsaTranslation d b p) = cfg.LSA_NONE) ∧
    (∀ x, (∀ p, p < cfg.USER_PAGES_PER_BLOCK → cfg.Vorg2VsaTranslation d b p ≠ x) →
      (EraseBlock cfg s d b).virtualSlice x = s.virtualSlice x) := by
  obtain ⟨c1, c2, c3⟩ := clearLoop_spec (fun p => cfg.Vorg2VsaTranslation d b p) cfg.LSA_NONE
    cfg.USER_PAGES_PER_BLOCK (EraseBlock.requeue cfg s d b)
  obtain ⟨r1, r2, r3, r4, r5, r6⟩ := EraseBlock_requeue_spec cfg hw s d b l hb hl hbl
  have hE : EraseBlock cfg s d b = _ := c3
  have hlist : FreeListIs cfg (EraseBlock cfg s d b) d (l ++ [b]) := by
    rw [hE]
    refine FreeListIs_congr cfg (EraseBlock.requeue cfg s d b) _ d _ ?_ ?_ r5
    · rfl
    · intro _ _; rfl
  refine ⟨?_, ?_, ?_, ?_, ?_, ?_, hlist, ?_, ?_⟩
  · rw [hE]; simp only [GetBlockCurrentPage]; rw [r1]; rfl
  · rw [hE]; simp only [IsBlockReservedForBlkMapping]; rw [r1]; rfl
  · rw [hE]; exact r2
  · rw [hE]; exact r3
  · rw [hE]; exact r4
  · rw [hlist.tail]; simp
  · intro p hp
    exact c1 p hp
  · intro x hx
    have := c2 x hx
    rw [r6] at this
    exact this

/-! ## Block reservation -/

@[simp] theorem Outcome.bind_ok {α β : Type} (a : α) (f : α → Outcome β) :
    (Outcome.ok a).bind f = f a := rfl

@[simp] theorem Outcome.bind_gc {α β : Type} (s : State) (f : α → Outcome β) :
    (Outcome.gc s : Outcome α).bind f = .gc s := rfl

@[simp] theorem Collector.stop_apply (d : Nat) (s : State) : Collector.stop d s = .gc s := rfl

theorem Outcome.bind_eq_ok {α β : Type} {x : Outcome α} {f : α → Outcome β} {b : β}
    (h : x.bind f = .ok b) : ∃ a, x = .ok a ∧ f a = .ok b := by
  cases x with
  | ok a => exact ⟨a, rfl, h⟩
  | fatal s => cases h
  | gc s => cases h
  | fuel => cases h

/-- `GetFromFbList` in mode `GET_FREE_BLOCK_NORMAL` always returns. -/
theorem GetFromFbList_normal (cfg : Config) (s : State) (d : Nat) :
    GetFromFbList cfg s d cfg.GET_FREE_BLOCK_NORMAL =
      .ok (if (s.die d).freeBlockCnt ≤ cfg.RESERVED_FREE_BLOCK_COUNT then (cfg.BLOCK_FAIL, s)
        else GetFromFbList.unlink cfg s d (s.die d).headFreeBlock) := by
  unfold GetFromFbList
  by_cases h : (s.die d).freeBlockCnt ≤ cfg.RESERVED_FREE_BLOCK_COUNT <;> simp [h]

/-- The block that the loop of `FindFreeVirtualBlock` settles on: the current
block when it is unused and unlocked, else the head of the free list, which
becomes the current block. -/
theorem FindFreeVirtualBlock_loop_spec (cfg : Config) (s : State) (d cb : Nat)
    (r : Nat × State) (h : FindFreeVirtualBlock.loop Collector.stop cfg d 2 s cb = .ok r) :
    (r = (cb, s) ∧ GetBlockCurrentPage s d cb = 0 ∧ IsBlockReservedForBlkMapping s d cb = 0) ∨
    (cfg.RESERVED_FREE_BLOCK_COUNT < (s.die d).freeBlockCnt ∧
      (s.die d).headFreeBlock ≠ cfg.BLOCK_FAIL ∧
      r = ((s.die d).headFreeBlock,
        ResetBlockCurrentPage
          ((GetFromFbList.unlink cfg s d (s.die d).headFreeBlock).2.setDie d
            { (GetFromFbList.unlink cfg s d (s.die d).headFreeBlock).2.die d with
              currentBlock := (s.die d).headFreeBlock })
          d (s.die d).headFreeBlock)) := by
  unfold FindFreeVirtualBlock.loop at h
  by_cases hc : GetBlockCurrentPage s d cb ≠ 0 ∨ IsBlockReservedForBlkMapping s d cb ≠ 0
  · right
    simp only [hc, ↓reduceIte, GetFromFbList_normal, Outcome.bind_ok] at h
    by_cases hr : (s.die d).freeBlockCnt ≤ cfg.RESERVED_FREE_BLOCK_COUNT
    · simp [hr] at h
    · simp only [hr, ↓reduceIte, (unlink_frame cfg s d _).1] at h
      by_cases hf : (s.die d).headFreeBlock = cfg.BLOCK_FAIL
      · simp [hf] at h
      · simp only [hf, ne_eq, not_false_eq_true, ↓reduceIte] at h
        have hg : GetBlockCurrentPage (ResetBlockCurrentPage
            ((GetFromFbList.unlink cfg s d (s.die d).headFreeBlock).2.setDie d
              { (GetFromFbList.unlink cfg s d (s.die d).headFreeBlock).2.die d with
                currentBlock := (s.die d).headFreeBlock }) d (s.die d).headFreeBlock) d
            (s.die d).headFreeBlock = 0 := by
          simp [GetBlockCurrentPage, ResetBlockCurrentPage, State.setBlock]
        have hk : IsBlockReservedForBlkMapping (ResetBlockCurrentPage
            ((GetFromFbList.unlink cfg s d (s.die d).headFreeBlock).2.setDie d
              { (GetFromFbList.unlink cfg s d (s.die d).headFreeBlock).2.die d with
                currentBlock := (s.die d).headFreeBlock }) d (s.die d).headFreeBlock) d
            (s.die d).headFreeBlock = 0 := by
          simp [IsBlockReservedForBlkMapping, ResetBlockCurrentPage, State.setBlock]
        simp only [hg, Nat.zero_le, ↓reduceIte] at h
        unfold FindFreeVirtualBlock.loop at h
        simp only [hg, hk, ne_eq, not_true_eq_false, or_self, ↓reduceIte, Outcome.ok.injEq] at h
        exact ⟨Nat.lt_of_not_le hr, hf, h.symm⟩
  · left
    simp only [hc, ↓reduceIte, Outcome.ok.injEq] at h
    simp only [ne_eq, not_or, not_not] at hc
    exact ⟨h.symm, hc.1, hc.2⟩

/-- Two tests of the loop condition always suffice: the loop of
`FindFreeVirtualBlock` never runs out of fuel, and more fuel does not change
its outcome. -/
theorem FindFreeVirtualBlock_loop_fuel (cfg : Config) (s : State) (d cb n : Nat) :
    FindFreeVirtualBlock.loop Collector.stop cfg d 2 s cb ≠ .fuel ∧
    FindFreeVirtualBlock.loop Collector.stop cfg d (n + 2) s cb = FindFreeVirtualBlock.loop Collector.stop cfg d 2 s cb := by
  have hg : ∀ (t : State) (x : Nat), GetBlockCurrentPage (ResetBlockCurrentPage t d x) d x = 0 := by
    intro t x
    simp [GetBlockCurrentPage, ResetBlockCurrentPage, State.setBlock]
  have hk : ∀ (t : State) (x : Nat),
      IsBlockReservedForBlkMapping (ResetBlockCurrentPage t d x) d x = 0 := by
    intro t x
    simp [IsBlockReservedForBlkMapping, ResetBlockCurrentPage, State.setBlock]
  have one : ∀ (m : Nat) (t : State) (x : Nat),
      FindFreeVirtualBlock.loop Collector.stop cfg d (m + 1) (ResetBlockCurrentPage t d x) x =
        .ok (x, ResetBlockCurrentPage t d x) := by
    intro m t x
    unfold FindFreeVirtualBlock.loop
    simp [hg, hk]
  constructor
  · unfold FindFreeVirtualBlock.loop
    by_cases hc : GetBlockCurrentPage s d cb ≠ 0 ∨ IsBlockReservedForBlkMapping s d cb ≠ 0
    · simp only [hc, ↓reduceIte, GetFromFbList_normal, Outcome.bind_ok]
      split_ifs <;> simp [one 0]
    · simp [hc]
  · unfold FindFreeVirtualBlock.loop
    by_cases hc : GetBlockCurrentPage s d cb ≠ 0 ∨ IsBlockReservedForBlkMapping s d cb ≠ 0
    · simp only [hc, ↓reduceIte, GetFromFbList_normal, Outcome.bind_ok]
      split_ifs <;> simp [one 0, one n]
    · simp [hc]

/-! ## Allocator invariant -/

theorem Linked_of_fields {cfg : Config} {blk blk' : Nat → VirtualBlock} {l : List Nat} :
    ∀ {prev : Nat},
      (∀ b ∈ l, (blk' b).free = (blk b).free ∧ (blk' b).prevBlock = (blk b).prevBlock ∧
        (blk' b).nextBlock = (blk b).nextBlock) →
      Linked cfg blk prev l → Linked cfg blk' prev l := by
  induction l with
  | nil => intro _ _ _; trivial
  | cons a t ih =>
    intro prev h hl
    obtain ⟨h1, h2, h3, h4, h5⟩ := hl
    obtain ⟨e1, e2, e3⟩ := h a (List.mem_cons_self _ _)
    exact ⟨h1, by rw [e1]; exact h2, by rw [e2]; exact h3, by rw [e3]; exact h4,
      ih (fun b hb => h b (List.mem_cons_of_mem _ hb)) h5⟩

/-- A free list depends only on the list fields of the die entry and on the
`free` flag and the links of the block entries. -/
theorem FreeListIs_of_fields (cfg : Config) (s s' : State) (d : Nat) (l : List Nat)
    (hd : (s'.die d).headFreeBlock = (s.die d).headFreeBlock ∧
      (s'.die d).tailFreeBlock = (s.die d).tailFreeBlock ∧
      (s'.die d).freeBlockCnt = (s.die d).freeBlockCnt)
    (hb : ∀ b, (s'.block d b).free = (s.block d b).free ∧
      (s'.block d b).prevBlock = (s.block d b).prevBlock ∧
      (s'.block d b).nextBlock = (s.block d b).nextBlock)
    (hl : FreeListIs cfg s d l) : FreeListIs cfg s' d l := by
  obtain ⟨hnd, hhead, htail, hcnt, hlink⟩ := hl
  exact ⟨hnd, by rw [hd.1]; exact hhead, by rw [hd.2.1]; exact htail, by rw [hd.2.2]; exact hcnt,
    Linked_of_fields (fun b _ => hb b) hlink⟩

theorem OnFreeList_of_fields (cfg : Config) (s s' : State) (d b : Nat)
    (hd : (s'.die d).headFreeBlock = (s.die d).headFreeBlock ∧
      (s'.die d).tailFreeBlock = (s.die d).tailFreeBlock ∧
      (s'.die d).freeBlockCnt = (s.die d).freeBlockCnt)
    (hb : ∀ x, (s'.block d x).free = (s.block d x).free ∧
      (s'.block d x).prevBlock = (s.block d x).prevBlock ∧
      (s'.block d x).nextBlock = (s.block d x).nextBlock) :
    OnFreeList cfg s' d b ↔ OnFreeList cfg s d b := by
  constructor
  · rintro ⟨l, hl, hm⟩
    refine ⟨l, FreeListIs_of_fields cfg s' s d l ?_ ?_ hl, hm⟩
    · exact ⟨hd.1.symm, hd.2.1.symm, hd.2.2.symm⟩
    · intro x
      obtain ⟨e1, e2, e3⟩ := hb x
      exact ⟨e1.symm, e2.symm, e3.symm⟩
  · rintro ⟨l, hl, hm⟩
    exact ⟨l, FreeListIs_of_fields cfg s s' d l hd hb hl, hm⟩

/-- The allocator invariant depends only on the die table, the `free` flag
and the links of the block table, the cursors of the logical blocks, the
allocation die and the round-robin cursor. -/
theorem AllocInv_of_fields (cfg : Config) (s s' : State) (hinv : AllocInv cfg s)
    (hdie : s'.die = s.die)
    (hb : ∀ d x, (s'.block d x).free = (s.block d x).free ∧
      (s'.block d x).prevBlock = (s.block d x).prevBlock ∧
      (s'.block d x).nextBlock = (s.block d x).nextBlock)
    (hbase : s'.logicalBlockBaseVsa = s.logicalBlockBaseVsa)
    (htd : s'.sliceAllocationTargetDie < cfg.USER_DIES)
    (hch : s'.targetCh < cfg.USER_CHANNELS) (hway : s'.targetWay < cfg.USER_WAYS) :
    AllocInv cfg s' := by
  have hon : ∀ d b, OnFreeList cfg s' d b ↔ OnFreeList cfg s d b := fun d b =>
    OnFreeList_of_fields cfg s s' d b (by rw [hdie]; exact ⟨rfl, rfl, rfl⟩) (hb d)
  refine ⟨htd, hch, hway, ?_, ?_, ?_, ?_⟩
  · intro d hd
    obtain ⟨l, hl⟩ := hinv.lists d hd
    exact ⟨l, FreeListIs_of_fields cfg s s' d l (by rw [hdie]; exact ⟨rfl, rfl, rfl⟩) (hb d) hl⟩
  · intro d hd
    rw [hdie]
    exact hinv.current_lt d hd
  · intro d hd
    rw [hdie, hon]
    exact hinv.current_off d hd
  · intro lb hlb hne
    rw [hbase] at hne ⊢
    obtain ⟨d, b, h1, h2, h3, h4⟩ := hinv.cursor_ok lb hlb hne
    exact ⟨d, b, h1, h2, h3, by rw [hon]; exact h4⟩

/-- Taking the head of the free list of the allocation die as its new current
block keeps the allocator invariant; free lists only lose nodes. -/
theorem AllocInv_pop (cfg : Config) (hw : cfg.WellFormed) (s : State) (hinv : AllocInv cfg s)
    (d : Nat) (hd : d < cfg.USER_DIES)
    (hcnt : cfg.RESERVED_FREE_BLOCK_COUNT < (s.die d).freeBlockCnt) :
    (s.die d).headFreeBlock < cfg.USER_BLOCKS_PER_DIE ∧
    OnFreeList cfg s d (s.die d).headFreeBlock ∧
    AllocInv cfg
      ((GetFromFbList.unlink cfg s d (s.die d).headFreeBlock).2.setDie d
        { (GetFromFbList.unlink cfg s d (s.die d).headFreeBlock).2.die d with
          currentBlock := (s.die d).headFreeBlock }) ∧
    ¬ OnFreeList cfg
      ((GetFromFbList.unlink cfg s d (s.die d).headFreeBlock).2.setDie d
        { (GetFromFbList.unlink cfg s d (s.die d).headFreeBlock).2.die d with
          currentBlock := (s.die d).headFreeBlock }) d (s.die d).headFreeBlock ∧
    (∀ d' b, OnFreeList cfg
      ((GetFromFbList.unlink cfg s d (s.die d).headFreeBlock).2.setDie d
        { (GetFromFbList.unlink cfg s d (s.die d).headFreeBlock).2.die d with
          currentBlock := (s.die d).headFreeBlock }) d' b → OnFreeList cfg s d' b) := by
  have hbn := hw.block_none
  obtain ⟨l, hl⟩ := hinv.lists d hd
  have hne : l ≠ [] := by
    intro h
    have := hl.count
    rw [h] at this
    simp only [List.length_nil] at this
    omega
  obtain ⟨a, rest, rfl⟩ := List.exists_cons_of_ne_nil hne
  have hhead : (s.die d).headFreeBlock = a := hl.head
  rw [hhead]
  have ha : a < cfg.USER_BLOCKS_PER_DIE := Linked_lt hl.linked a (List.mem_cons_self _ _)
  have harest : a ∉ rest := (List.nodup_cons.mp hl.nodup).1
  obtain ⟨u1, u2, u3, u4, u5, u6, u7, u8, u9, u10, u11⟩ := unlink_frame cfg s d a
  -- the state after the pop, and its free lists
  have hfl : ∀ d' l', FreeListIs cfg (GetFromFbList.unlink cfg s d a).2 d' l' →
      FreeListIs cfg ((GetFromFbList.unlink cfg s d a).2.setDie d
        { (GetFromFbList.unlink cfg s d a).2.die d with currentBlock := a }) d' l' := by
    intro d' l' h
    refine FreeListIs_of_fields cfg (GetFromFbList.unlink cfg s d a).2 _ d' l' ?_
      (fun _ => ⟨rfl, rfl, rfl⟩) h
    simp only [State.setDie, upd_apply]
    by_cases e : d' = d
    · subst e; simp
    · simp [e]
  have hfl' : ∀ d' l', FreeListIs cfg ((GetFromFbList.unlink cfg s d a).2.setDie d
        { (GetFromFbList.unlink cfg s d a).2.die d with currentBlock := a }) d' l' →
      FreeListIs cfg (GetFromFbList.unlink cfg s d a).2 d' l' := by
    intro d' l' h
    refine FreeListIs_of_fields cfg ((GetFromFbList.unlink cfg s d a).2.setDie d
        { (GetFromFbList.unlink cfg s d a).2.die d with currentBlock := a })
      (GetFromFbList.unlink cfg s d a).2 d' l' ?_ (fun _ => ⟨rfl, rfl, rfl⟩) h
    simp only [State.setDie, upd_apply]
    by_cases e : d' = d
    · subst e; simp
    · simp [e]
  have hrest : FreeListIs cfg (GetFromFbList.unlink cfg s d a).2 d rest :=
    FreeListIs_unlink cfg hbn s d a rest hl
  have hmono : ∀ d' b, OnFreeList cfg ((GetFromFbList.unlink cfg s d a).2.setDie d
        { (GetFromFbList.unlink cfg s d a).2.die d with currentBlock := a }) d' b →
      OnFreeList cfg s d' b := by
    rintro d' b ⟨l', hl', hm⟩
    have hl'' := hfl' d' l' hl'
    by_cases e : d' = d
    · subst e
      have := FreeListIs_unique cfg hbn _ d' l' rest hl'' hrest
      subst this
      exact ⟨a :: l', hl, List.mem_cons_of_mem _ hm⟩
    · obtain ⟨o1, o2⟩ := unlink_other cfg s d a d' e
      refine ⟨l', FreeListIs_congr cfg _ s d' l' ?_ ?_ hl'', hm⟩
      · rw [o1]
      · intro x _; rw [o2]
  have hoff : ¬ OnFreeList cfg ((GetFromFbList.unlink cfg s d a).2.setDie d
        { (GetFromFbList.unlink cfg s d a).2.die d with currentBlock := a }) d a := by
    rintro ⟨l', hl', hm⟩
    have := FreeListIs_unique cfg hbn _ d l' rest (hfl' d l' hl') hrest
    subst this
    exact harest hm
  refine ⟨ha, ⟨a :: rest, hl, List.mem_cons_self _ _⟩, ?_, hoff, hmono⟩
  refine ⟨?_, ?_, ?_, ?_, ?_, ?_, ?_⟩
  · simp only [State.setDie]; rw [u7]; exact hinv.targetDie_lt
  · simp only [State.setDie]; rw [u8]; exact hinv.targetCh_lt
  · simp only [State.setDie]; rw [u9]; exact hinv.targetWay_lt
  · intro d' hd'
    by_cases e : d' = d
    · subst e; exact ⟨rest, hfl d' rest hrest⟩
    · obtain ⟨l', hl'⟩ := hinv.lists d' hd'
      exact ⟨l', hfl d' l' (FreeListIs_unlink_other cfg s d a d' l' e hl')⟩
  · intro d' hd'
    by_cases e : d' = d
    · subst e; simp [State.setDie, ha]
    · simp only [State.setDie, upd_apply, e, ↓reduceIte]
      rw [(unlink_other cfg s d a d' e).1]
      exact hinv.current_lt d' hd'
  · intro d' hd'
    by_cases e : d' = d
    · subst e
      simpa [State.setDie] using hoff
    · intro h
      have h2 : ((GetFromFbList.unlink cfg s d a).2.setDie d
          { (GetFromFbList.unlink cfg s d a).2.die d with currentBlock := a }).die d' =
          s.die d' := by
        simp only [State.setDie, upd_apply, e, ↓reduceIte]
        exact (unlink_other cfg s d a d' e).1
      rw [h2] at h
      exact hinv.current_off d' hd' (hmono d' _ h)
  · intro lb hlb hne
    have hbase : ((GetFromFbList.unlink cfg s d a).2.setDie d
        { (GetFromFbList.unlink cfg s d a).2.die d with currentBlock := a }).logicalBlockBaseVsa =
        s.logicalBlockBaseVsa := u5
    rw [hbase] at hne ⊢
    obtain ⟨d', b, h1, h2, h3, h4⟩ := hinv.cursor_ok lb hlb hne
    exact ⟨d', b, h1, h2, h3, fun h => h4 (hmono d' b h)⟩

/-- `GetFromFbList.unlink` changes only link fields and the `free` flag of
blocks, and leaves the current blocks. -/
theorem unlink_fields (cfg : Config) (s : State) (d e d' x : Nat) :
    ((GetFromFbList.unlink cfg s d e).2.block d' x).bad = (s.block d' x).bad ∧
    ((GetFromFbList.unlink cfg s d e).2.block d' x).invalidSliceCnt =
      (s.block d' x).invalidSliceCnt ∧
    ((GetFromFbList.unlink cfg s d e).2.block d' x).eraseCnt = (s.block d' x).eraseCnt ∧
    ((GetFromFbList.unlink cfg s d e).2.block d' x).currentPage = (s.block d' x).currentPage ∧
    ((GetFromFbList.unlink cfg s d e).2.die d').currentBlock = (s.die d').currentBlock := by
  unfold GetFromFbList.unlink
  by_cases ht : (s.block d e).nextBlock = cfg.BLOCK_NONE
  · simp only [ht, ne_eq, not_true_eq_false, ↓reduceIte, State.setBlock, State.setDie,
      upd2_apply, upd_apply]
    by_cases h1 : d' = d
    · subst h1
      by_cases h2 : x = e
      · subst h2; simp
      · simp [h2]
    · simp [h1]
  · simp only [ht, ne_eq, not_false_eq_true, ↓reduceIte, State.setBlock, State.setDie,
      upd2_apply, upd_apply]
    by_cases h1 : d' = d
    · subst h1
      by_cases h2 : x = e
      · subst h2
        by_cases h3 : x = (s.block d' x).nextBlock
        · simp [← h3]
        · simp [h3]
      · by_cases h3 : x = (s.block d' e).nextBlock
        · subst h3; simp [h2]
        · simp [h2, h3]
    · simp [h1]

/-- The die selector reads and writes only its two static variables. -/
theorem FindDie_frame (cfg : Config) (s : State) :
    (FindDieForFreeSliceAllocation cfg s).2 =
      { s with
        targetCh := (FindDieForFreeSliceAllocation cfg s).2.targetCh
        targetWay := (FindDieForFreeSliceAllocation cfg s).2.targetWay } := by
  unfold FindDieForFreeSliceAllocation
  by_cases h : s.targetCh = cfg.USER_CHANNELS - 1 <;> simp [h]

theorem FindDie_congr (cfg : Config) (s t : State) (hch : t.targetCh = s.targetCh)
    (hway : t.targetWay = s.targetWay) :
    (FindDieForFreeSliceAllocation cfg t).1 = (FindDieForFreeSliceAllocation cfg s).1 ∧
    (FindDieForFreeSliceAllocation cfg t).2.targetCh =
      (FindDieForFreeSliceAllocation cfg s).2.targetCh ∧
    (FindDieForFreeSliceAllocation cfg t).2.targetWay =
      (FindDieForFreeSliceAllocation cfg s).2.targetWay := by
  unfold FindDieForFreeSliceAllocation
  rw [hch]
  by_cases h : s.targetCh = cfg.USER_CHANNELS - 1 <;>
    simp [h, hch, hway, Pcw2VdieTranslation]

/-- The tail of `FindFreeVirtualBlock`, after the loop has settled on block
`cb` in state `t`. -/
theorem FindFreeVirtualBlock_unfold (cfg : Config) (s : State) (r : Nat × State)
    (h : FindFreeVirtualBlock Collector.stop 2 cfg s = .ok r) :
    ∃ q, FindFreeVirtualBlock.loop Collector.stop cfg s.sliceAllocationTargetDie 2 s
        (s.die s.sliceAllocationTargetDie).currentBlock = .ok q ∧
      r.1 = cfg.Vorg2VsaTranslation s.sliceAllocationTargetDie q.1 0 ∧
      r.2 =
        { q.2 with
          block := upd2 q.2.block s.sliceAllocationTargetDie q.1
            { q.2.block s.sliceAllocationTargetDie q.1 with
              currentPage := BLOCK_CUR_PAGE_LOCK_MASK }
          targetCh := (FindDieForFreeSliceAllocation cfg q.2).2.targetCh
          targetWay := (FindDieForFreeSliceAllocation cfg q.2).2.targetWay
          sliceAllocationTargetDie := (FindDieForFreeSliceAllocation cfg q.2).1 % 256 } := by
  unfold FindFreeVirtualBlock at h
  by_cases h1 : (s.die s.sliceAllocationTargetDie).currentBlock = cfg.BLOCK_FAIL
  · simp [h1] at h
  · by_cases h2 : GetBlockCurrentPage s s.sliceAllocationTargetDie
        (s.die s.sliceAllocationTargetDie).currentBlock ≤ cfg.USER_PAGES_PER_BLOCK
    · simp only [h1, h2, ↓reduceIte, not_true_eq_false] at h
      obtain ⟨q, hq, hf⟩ := Outcome.bind_eq_ok h
      refine ⟨q, hq, ?_⟩
      simp only [Outcome.ok.injEq] at hf
      subst hf
      refine ⟨rfl, ?_⟩
      obtain ⟨e1, e2, e3⟩ := FindDie_congr cfg q.2
        (LockBlockForBlkMapping (ResetBlockCurrentPage q.2 s.sliceAllocationTargetDie q.1)
          s.sliceAllocationTargetDie q.1) rfl rfl
      simp only
      rw [FindDie_frame, e1, e2, e3]
      simp only [LockBlockForBlkMapping, ResetBlockCurrentPage, State.setBlock, upd2_same,
        State.mk.injEq, true_and, and_true]
      funext d' b'
      simp only [upd2_apply]
      by_cases hx : d' = s.sliceAllocationTargetDie ∧ b' = q.1
      · simp only [hx, and_self, ↓reduceIte]
        rfl
      · simp [hx]
    · simp [h1, h2] at h

/-- What a returning `FindFreeVirtualBlock` does to a well-formed state: it
reserves slice 0 of a valid block `cb` of the allocation die, which is not on
the free list afterwards, is the current block of the die and has the packed
field "locked, 0 pages"; free lists only lose nodes; no other block changes
its page field, no block its invalid-slice counter; the slice maps, the
cursors of the logical blocks and the logs are untouched; the allocation die
moves on in round-robin order. -/
theorem FindFreeVirtualBlock_spec (cfg : Config) (hw : cfg.WellFormed) (s : State)
    (hinv : AllocInv cfg s) (r : Nat × State) (h : FindFreeVirtualBlock Collector.stop 2 cfg s = .ok r) :
    ∃ cb, cb < cfg.USER_BLOCKS_PER_DIE ∧
      r.1 = cfg.Vorg2VsaTranslation s.sliceAllocationTargetDie cb 0 ∧
      AllocInv cfg r.2 ∧
      ¬ OnFreeList cfg r.2 s.sliceAllocationTargetDie cb ∧
      (r.2.die s.sliceAllocationTargetDie).currentBlock = cb ∧
      (r.2.block s.sliceAllocationTargetDie cb).currentPage = BLOCK_CUR_PAGE_LOCK_MASK ∧
      (∀ d' b', OnFreeList cfg r.2 d' b' → OnFreeList cfg s d' b') ∧
      (∀ d' b', ¬ (d' = s.sliceAllocationTargetDie ∧ b' = cb) →
        (r.2.block d' b').currentPage = (s.block d' b').currentPage) ∧
      (∀ d' b', (r.2.block d' b').invalidSliceCnt = (s.block d' b').invalidSliceCnt) ∧
      (∀ d', d' ≠ s.sliceAllocationTargetDie → r.2.die d' = s.die d') ∧
      r.2.logicalSlice = s.logicalSlice ∧ r.2.virtualSlice = s.virtualSlice ∧
      r.2.logicalBlockBaseVsa = s.logicalBlockBaseVsa ∧
      r.2.logicalBlockNextOffset = s.logicalBlockNextOffset ∧
      r.2.gcLog = s.gcLog ∧ r.2.reqLog = s.reqLog ∧
      r.2.sliceAllocationTargetDie = (FindDieForFreeSliceAllocation cfg s).1 % 256 ∧
      r.2.targetCh = (FindDieForFreeSliceAllocation cfg s).2.targetCh ∧
      r.2.targetWay = (FindDieForFreeSliceAllocation cfg s).2.targetWay ∧
      (GetBlockCurrentPage s s.sliceAllocationTargetDie
          (s.die s.sliceAllocationTargetDie).currentBlock = 0 →
        IsBlockReservedForBlkMapping s s.sliceAllocationTargetDie
          (s.die s.sliceAllocationTargetDie).currentBlock = 0 →
        cb = (s.die s.sliceAllocationTargetDie).currentBlock ∧ r.2.die = s.die) := by
  obtain ⟨q, hq, hr1, hr2⟩ := FindFreeVirtualBlock_unfold cfg s r h
  have hd := hinv.targetDie_lt
  obtain ⟨g1, g2, g3, g4, _⟩ := FindDie_step cfg hw.dies_le s hinv.targetCh_lt hinv.targetWay_lt
  have g256 : (FindDieForFreeSliceAllocation cfg s).1 % 256 < cfg.USER_DIES :=
    Nat.lt_of_le_of_lt (Nat.mod_le _ _) g2
  rcases FindFreeVirtualBlock_loop_spec cfg s _ _ q hq with ⟨hq', hg, hk⟩ | ⟨hcnt, hf, hq'⟩
  · -- the current block is taken as it is
    subst hq'
    simp only at hr1 hr2
    refine ⟨(s.die s.sliceAllocationTargetDie).currentBlock, hinv.current_lt _ hd, hr1, ?_⟩
    have hon : ∀ d b, OnFreeList cfg r.2 d b ↔ OnFreeList cfg s d b := by
      intro d b
      apply OnFreeList_of_fields cfg s r.2 d b
      · rw [hr2]; exact ⟨rfl, rfl, rfl⟩
      · intro x
        rw [hr2]
        simp only [upd2_apply]
        split_ifs with hx
        · obtain ⟨rfl, rfl⟩ := hx; exact ⟨rfl, rfl, rfl⟩
        · exact ⟨rfl, rfl, rfl⟩
    refine ⟨?_, ?_, ?_, ?_, ?_, ?_, ?_, ?_, ?_, ?_, ?_, ?_, ?_, ?_, ?_, ?_, ?_, ?_⟩
    · apply AllocInv_of_fields cfg s r.2 hinv
      · rw [hr2]
      · intro d x
        rw [hr2]
        simp only [upd2_apply]
        split_ifs with hx
        · obtain ⟨rfl, rfl⟩ := hx; exact ⟨rfl, rfl, rfl⟩
        · exact ⟨rfl, rfl, rfl⟩
      · rw [hr2]
      · rw [hr2]; exact g256
      · rw [hr2]; exact g3
      · rw [hr2]; exact g4
    · rw [hon]; exact hinv.current_off _ hd
    · rw [hr2]
    · rw [hr2]; simp
    · intro d' b' hx; exact (hon d' b').mp hx
    · intro d' b' hx
      rw [hr2]; simp [upd2_apply, hx]
    · intro d' b'
      rw [hr2]
      simp only [upd2_apply]
      split_ifs with hx
      · obtain ⟨rfl, rfl⟩ := hx; rfl
      · rfl
    · intro d' _; rw [hr2]
    · rw [hr2]
    · rw [hr2]
    · rw [hr2]
    · rw [hr2]
    · rw [hr2]
    · rw [hr2]
    · rw [hr2]
    · rw [hr2]
    · rw [hr2]
    · intro _ _
      exact ⟨rfl, by rw [hr2]⟩
  · -- the head of the free list becomes the current block
    subst hq'
    simp only at hr1 hr2
    obtain ⟨p1, p2, p3, p4, p5⟩ := AllocInv_pop cfg hw s hinv _ hd hcnt
    obtain ⟨u1, u2, u3, u4, u5, u6, u7, u8, u9, u10, u11⟩ :=
      unlink_frame cfg s s.sliceAllocationTargetDie
        (s.die s.sliceAllocationTargetDie).headFreeBlock
    obtain ⟨e1, e2, e3⟩ := FindDie_congr cfg s
      (ResetBlockCurrentPage
        ((GetFromFbList.unlink cfg s s.sliceAllocationTargetDie
          (s.die s.sliceAllocationTargetDie).headFreeBlock).2.setDie s.sliceAllocationTargetDie
          { (GetFromFbList.unlink cfg s s.sliceAllocationTargetDie
              (s.die s.sliceAllocationTargetDie).headFreeBlock).2.die s.sliceAllocationTargetDie with
            currentBlock := (s.die s.sliceAllocationTargetDie).headFreeBlock })
        s.sliceAllocationTargetDie (s.die s.sliceAllocationTargetDie).headFreeBlock) u8 u9
    rw [e1, e2, e3] at hr2
    refine ⟨(s.die s.sliceAllocationTargetDie).headFreeBlock, p1, hr1, ?_⟩
    have hcur : (s.die s.sliceAllocationTargetDie).currentBlock ≠
        (s.die s.sliceAllocationTargetDie).headFreeBlock := by
      intro e
      exact hinv.current_off _ hd (e ▸ p2)
    have hon : ∀ d b, OnFreeList cfg r.2 d b ↔ OnFreeList cfg
        ((GetFromFbList.unlink cfg s s.sliceAllocationTargetDie
          (s.die s.sliceAllocationTargetDie).headFreeBlock).2.setDie s.sliceAllocationTargetDie
          { (GetFromFbList.unlink cfg s s.sliceAllocationTargetDie
              (s.die s.sliceAllocationTargetDie).headFreeBlock).2.die s.sliceAllocationTargetDie with
            currentBlock := (s.die s.sliceAllocationTargetDie).headFreeBlock }) d b := by
      intro d b
      apply OnFreeList_of_fields
      · rw [hr2]; exact ⟨rfl, rfl, rfl⟩
      · intro x
        rw [hr2]
        simp only [ResetBlockCurrentPage, State.setBlock, State.setDie, upd2_apply]
        by_cases hx : d = s.sliceAllocationTargetDie ∧
            x = (s.die s.sliceAllocationTargetDie).headFreeBlock
        · obtain ⟨rfl, rfl⟩ := hx; simp
        · simp [hx]
    refine ⟨?_, ?_, ?_, ?_, ?_, ?_, ?_, ?_, ?_, ?_, ?_, ?_, ?_, ?_, ?_, ?_, ?_, ?_⟩
    · apply AllocInv_of_fields cfg _ r.2 p3
      · rw [hr2]; rfl
      · intro d x
        rw [hr2]
        simp only [ResetBlockCurrentPage, State.setBlock, State.setDie, upd2_apply]
        by_cases hx : d = s.sliceAllocationTargetDie ∧
            x = (s.die s.sliceAllocationTargetDie).headFreeBlock
        · obtain ⟨rfl, rfl⟩ := hx; simp
        · simp [hx]
      · rw [hr2]; rfl
      · rw [hr2]; exact g256
      · rw [hr2]; exact g3
      · rw [hr2]; exact g4
    · rw [hon]; exact p4
    · rw [hr2]; simp [ResetBlockCurrentPage, State.setBlock, State.setDie]
    · rw [hr2]; simp
    · intro d' b' hx; exact p5 d' b' ((hon d' b').mp hx)
    · intro d' b' hx
      rw [hr2]
      simp only [ResetBlockCurrentPage, State.setBlock, State.setDie, upd2_apply, hx, ↓reduceIte]
      exact (unlink_fields cfg s _ _ d' b').2.2.2.1
    · intro d' b'
      rw [hr2]
      simp only [ResetBlockCurrentPage, State.setBlock, State.setDie, upd2_apply]
      by_cases hx : d' = s.sliceAllocationTargetDie ∧
          b' = (s.die s.sliceAllocationTargetDie).headFreeBlock
      · obtain ⟨rfl, rfl⟩ := hx
        simp only [and_self, ↓reduceIte]
        exact (unlink_fields cfg s _ _ _ _).2.1
      · simp only [hx, ↓reduceIte]
        exact (unlink_fields cfg s _ _ d' b').2.1
    · intro d' hd'
      rw [hr2]
      simp only [ResetBlockCurrentPage, State.setBlock, State.setDie, upd_apply, hd', ↓reduceIte]
      exact (unlink_other cfg s _ _ d' hd').1
    · rw [hr2]; exact u2
    · rw [hr2]; exact u3
    · rw [hr2]; exact u5
    · rw [hr2]; exact u6
    · rw [hr2]; exact u10
    · rw [hr2]; exact u11
    · rw [hr2]
    · rw [hr2]
    · rw [hr2]
    · intro hg hk
      -- the loop took the other branch: the current block was used or locked
      exfalso
      unfold FindFreeVirtualBlock.loop at hq
      simp [hg, hk] at hq
      exact hcur hq.1

/-! ## AddrTransWrite -/

/-- Pages needed for `k + 1` slices: at least one, at most a whole block. -/
theorem programmedPages_bounds (cfg : Config) (hw : cfg.WellFormed) (k : Nat)
    (hk : k < cfg.SLICES_PER_BLOCK) :
    1 ≤ (k + 1 + (cfg.SLICES_PER_PAGE - 1)) / cfg.SLICES_PER_PAGE ∧
    (k + 1 + (cfg.SLICES_PER_PAGE - 1)) / cfg.SLICES_PER_PAGE ≤ cfg.USER_PAGES_PER_BLOCK := by
  have hp := hw.slices_pos
  constructor
  · rw [Nat.le_div_iff_mul_le hp]
    omega
  · rw [Nat.div_le_iff_le_mul_add_pred hp]
    simp only [Config.SLICES_PER_BLOCK] at hk
    rw [Nat.mul_comm]
    omega

/-- What a returning `AddrTransWrite.commit` does when the cursor of the
logical block points at slice 0 of the valid block `(d, b)`. -/
theorem commit_spec (cfg : Config) (hw : cfg.WellFormed) (s : State) (lsa lb d b : Nat)
    (hd : d < cfg.USER_DIES) (hb : b < cfg.USER_BLOCKS_PER_DIE)
    (hbase : s.logicalBlockBaseVsa lb = cfg.Vorg2VsaTranslation d b 0)
    (r : Nat × State) (h : AddrTransWrite.commit cfg s lsa lb = .ok r) :
    s.logicalBlockNextOffset lb < cfg.SLICES_PER_BLOCK ∧
    r.1 = cfg.Vorg2VsaTranslation d b (s.logicalBlockNextOffset lb) ∧
    r.2.logicalSlice = upd s.logicalSlice lsa r.1 ∧
    r.2.virtualSlice = upd s.virtualSlice r.1 lsa ∧
    r.2.die = s.die ∧
    (∀ d' x, (r.2.block d' x).free = (s.block d' x).free ∧
      (r.2.block d' x).prevBlock = (s.block d' x).prevBlock ∧
      (r.2.block d' x).nextBlock = (s.block d' x).nextBlock ∧
      (r.2.block d' x).invalidSliceCnt = (s.block d' x).invalidSliceCnt) ∧
    (∀ d' x, ¬ (d' = d ∧ x = b) → (r.2.block d' x).currentPage = (s.block d' x).currentPage) ∧
    1 ≤ GetBlockCurrentPage r.2 d b ∧
    (s.logicalBlockNextOffset lb + 1 = cfg.SLICES_PER_BLOCK →
      IsBlockReservedForBlkMapping r.2 d b = 0) ∧
    r.2.logicalBlockBaseVsa =
      (if s.logicalBlockNextOffset lb + 1 = cfg.SLICES_PER_BLOCK then
        upd s.logicalBlockBaseVsa lb cfg.VSA_NONE else s.logicalBlockBaseVsa) ∧
    r.2.logicalBlockNextOffset = upd s.logicalBlockNextOffset lb
      (if s.logicalBlockNextOffset lb + 1 = cfg.SLICES_PER_BLOCK then 0
        else s.logicalBlockNextOffset lb + 1) ∧
    r.2.sliceAllocationTargetDie = s.sliceAllocationTargetDie ∧
    r.2.targetCh = s.targetCh ∧ r.2.targetWay = s.targetWay ∧
    r.2.gcLog = s.gcLog ∧ r.2.reqLog = s.reqLog := by
  have hspb : 0 < cfg.SLICES_PER_BLOCK := by
    simp only [Config.SLICES_PER_BLOCK]
    exact Nat.mul_pos hw.pages_pos hw.slices_pos
  by_cases hk : s.logicalBlockNextOffset lb ≥ cfg.SLICES_PER_BLOCK
  · simp [AddrTransWrite.commit, hk] at h
  have hk' : s.logicalBlockNextOffset lb < cfg.SLICES_PER_BLOCK := Nat.lt_of_not_le hk
  have hd0 := hw.pack_die d b 0 hd hb hspb
  have hb0 := hw.pack_block d b 0 hd hb hspb
  have hdk := hw.pack_die d b _ hd hb hk'
  have hbk := hw.pack_block d b _ hd hb hk'
  have h16 : (s.logicalBlockNextOffset lb + 1) % 65536 = s.logicalBlockNextOffset lb + 1 :=
    Nat.mod_eq_of_lt (by have := hw.slices_lt; omega)
  obtain ⟨hp1, hp2⟩ := programmedPages_bounds cfg hw _ hk'
  have hp3 : (s.logicalBlockNextOffset lb + 1 + (cfg.SLICES_PER_PAGE - 1)) / cfg.SLICES_PER_PAGE %
      32768 = (s.logicalBlockNextOffset lb + 1 + (cfg.SLICES_PER_PAGE - 1)) / cfg.SLICES_PER_PAGE :=
    Nat.mod_eq_of_lt (by have := hw.pages_le; omega)
  unfold AddrTransWrite.commit at h
  simp only [hk, ↓reduceIte, hbase, hd0, hb0, hdk, hbk, upd_same, h16, Outcome.ok.injEq,
    apply_ite State.logicalBlockNextOffset, SetBlockCurrentPageCount, State.setBlock,
    ite_self] at h
  subst h
  refine ⟨hk', rfl, ?_, ?_, ?_, ?_, ?_, ?_, ?_, ?_, ?_, ?_, ?_, ?_, ?_, ?_⟩
  · split_ifs <;> rfl
  · split_ifs <;> rfl
  · split_ifs <;> rfl
  · intro d' x
    by_cases hx : d' = d ∧ x = b
    · obtain ⟨rfl, rfl⟩ := hx
      split_ifs <;>
        simp [SetBlockCurrentPageCount, UnlockBlockFromBlkMapping, State.setBlock]
    · split_ifs <;>
        simp [SetBlockCurrentPageCount, UnlockBlockFromBlkMapping, State.setBlock, upd2_apply, hx]
  · intro d' x hx
    split_ifs <;>
      simp [SetBlockCurrentPageCount, UnlockBlockFromBlkMapping, State.setBlock, upd2_apply, hx]
  · split_ifs with c1 c2 c2
    · simp only [GetBlockCurrentPage, UnlockBlockFromBlkMapping, State.setBlock, upd2_same]
      rw [cp_get_unlock, cp_get_set, hp3]
      exact hp1
    · simp only [GetBlockCurrentPage, UnlockBlockFromBlkMapping, State.setBlock, upd2_same]
      rw [cp_get_unlock]
      simp only [GetBlockCurrentPage] at c2
      omega
    · simp only [GetBlockCurrentPage, State.setBlock, upd2_same]
      rw [cp_get_set, hp3]
      exact hp1
    · simp only [GetBlockCurrentPage] at c2 ⊢
      omega
  · intro hfull
    split_ifs with c2
    · simp only [IsBlockReservedForBlkMapping, UnlockBlockFromBlkMapping, State.setBlock,
        upd2_same]
      exact cp_lock_unlock _
    · simp only [IsBlockReservedForBlkMapping, UnlockBlockFromBlkMapping, State.setBlock,
        upd2_same]
      exact cp_lock_unlock _
  · split_ifs <;> rfl
  · split_ifs <;>
      first
      | rfl
      | (funext j
         by_cases hj : j = lb <;>
           simp [UnlockBlockFromBlkMapping, State.setBlock, upd_apply, hj])
  · split_ifs <;> rfl
  · split_ifs <;> rfl
  · split_ifs <;> rfl
  · split_ifs <;> rfl
  · split_ifs <;> rfl

/-- The allocator invariant survives changes that keep the die table, the
`free` flag and the links of the blocks, and that keep or clear the cursors of
the logical blocks. -/
theorem AllocInv_of_fields_clear (cfg : Config) (s s' : State) (hinv : AllocInv cfg s)
    (hdie : s'.die = s.die)
    (hb : ∀ d x, (s'.block d x).free = (s.block d x).free ∧
      (s'.block d x).prevBlock = (s.block d x).prevBlock ∧
      (s'.block d x).nextBlock = (s.block d x).nextBlock)
    (hbase : ∀ lb, s'.logicalBlockBaseVsa lb = s.logicalBlockBaseVsa lb ∨
      s'.logicalBlockBaseVsa lb = cfg.VSA_NONE)
    (htd : s'.sliceAllocationTargetDie < cfg.USER_DIES)
    (hch : s'.targetCh < cfg.USER_CHANNELS) (hway : s'.targetWay < cfg.USER_WAYS) :
    AllocInv cfg s' := by
  have hon : ∀ d b, OnFreeList cfg s' d b ↔ OnFreeList cfg s d b := fun d b =>
    OnFreeList_of_fields cfg s s' d b (by rw [hdie]; exact ⟨rfl, rfl, rfl⟩) (hb d)
  refine ⟨htd, hch, hway, ?_, ?_, ?_, ?_⟩
  · intro d hd
    obtain ⟨l, hl⟩ := hinv.lists d hd
    exact ⟨l, FreeListIs_of_fields cfg s s' d l (by rw [hdie]; exact ⟨rfl, rfl, rfl⟩) (hb d) hl⟩
  · intro d hd
    rw [hdie]
    exact hinv.current_lt d hd
  · intro d hd
    rw [hdie, hon]
    exact hinv.current_off d hd
  · intro lb hlb hne
    rcases hbase lb with e | e
    · rw [e] at hne ⊢
      obtain ⟨d, b, h1, h2, h3, h4⟩ := hinv.cursor_ok lb hlb hne
      exact ⟨d, b, h1, h2, h3, by rw [hon]; exact h4⟩
    · exact absurd e hne

/-- Pointing the cursor of a logical block at slice 0 of a valid block that is
on no free list keeps the allocator invariant. -/
theorem AllocInv_set_cursor (cfg : Config) (s : State) (hinv : AllocInv cfg s)
    (lb d b n : Nat) (hd : d < cfg.USER_DIES) (hb : b < cfg.USER_BLOCKS_PER_DIE)
    (hoff : ¬ OnFreeList cfg s d b) :
    AllocInv cfg
      { s with
        logicalBlockBaseVsa := upd s.logicalBlockBaseVsa lb (cfg.Vorg2VsaTranslation d b 0)
        logicalBlockNextOffset := upd s.logicalBlockNextOffset lb n } := by
  have hon : ∀ d' b', OnFreeList cfg
      { s with
        logicalBlockBaseVsa := upd s.logicalBlockBaseVsa lb (cfg.Vorg2VsaTranslation d b 0)
        logicalBlockNextOffset := upd s.logicalBlockNextOffset lb n } d' b' ↔
      OnFreeList cfg s d' b' := fun d' b' =>
    OnFreeList_of_fields cfg s _ d' b' ⟨rfl, rfl, rfl⟩ (fun _ => ⟨rfl, rfl, rfl⟩)
  refine ⟨hinv.targetDie_lt, hinv.targetCh_lt, hinv.targetWay_lt, ?_, hinv.current_lt, ?_, ?_⟩
  · intro d' hd'
    obtain ⟨l, hl⟩ := hinv.lists d' hd'
    exact ⟨l, FreeListIs_of_fields cfg s _ d' l ⟨rfl, rfl, rfl⟩ (fun _ => ⟨rfl, rfl, rfl⟩) hl⟩
  · intro d' hd'
    rw [hon]
    exact hinv.current_off d' hd'
  · intro lb' hlb' hne
    simp only [upd_apply] at hne ⊢
    by_cases e : lb' = lb
    · simp only [e, ↓reduceIte]
      exact ⟨d, b, hd, hb, rfl, by rw [hon]; exact hoff⟩
    · simp only [e, ↓reduceIte] at hne ⊢
      obtain ⟨d', b', h1, h2, h3, h4⟩ := hinv.cursor_ok lb' hlb' hne
      exact ⟨d', b', h1, h2, h3, by rw [hon]; exact h4⟩

/-- Step 2 of `AddrTransWrite` on an unmapped LSA does nothing. -/
theorem invalidate_unmapped (cfg : Config) (s : State) (lsa : Nat)
    (h : s.logicalSlice lsa = cfg.VSA_NONE) : AddrTransWrite.invalidate cfg s lsa = s := by
  simp [AddrTransWrite.invalidate, h]

/-- Step 2 of `AddrTransWrite` on a live mapping: the forward entry is cleared,
the invalid-slice counter of the block of the old VSA grows by one, and the
victim-list hooks are called once each, in this order. -/
theorem invalidate_live (cfg : Config) (s : State) (lsa : Nat)
    (h : s.logicalSlice lsa ≠ cfg.VSA_NONE) (hc : s.virtualSlice (s.logicalSlice lsa) = lsa) :
    AddrTransWrite.invalidate cfg s lsa =
      { s with
        gcLog := s.gcLog ++
          [GcCall.selectiveGet (cfg.Vsa2VdieTranslation (s.logicalSlice lsa))
            (cfg.Vsa2VblockTranslation (s.logicalSlice lsa)),
           GcCall.put (cfg.Vsa2VdieTranslation (s.logicalSlice lsa))
            (cfg.Vsa2VblockTranslation (s.logicalSlice lsa))
            ((s.block (cfg.Vsa2VdieTranslation (s.logicalSlice lsa))
              (cfg.Vsa2VblockTranslation (s.logicalSlice lsa))).invalidSliceCnt + 1)]
        block := upd2 s.block (cfg.Vsa2VdieTranslation (s.logicalSlice lsa))
          (cfg.Vsa2VblockTranslation (s.logicalSlice lsa))
          { s.block (cfg.Vsa2VdieTranslation (s.logicalSlice lsa))
              (cfg.Vsa2VblockTranslation (s.logicalSlice lsa)) with
            invalidSliceCnt := (s.block (cfg.Vsa2VdieTranslation (s.logicalSlice lsa))
              (cfg.Vsa2VblockTranslation (s.logicalSlice lsa))).invalidSliceCnt + 1 }
        logicalSlice := upd s.logicalSlice lsa cfg.VSA_NONE } := by
  simp [AddrTransWrite.invalidate, InvalidateOldVsa, h, hc, State.setBlock]

/-- What step 2 of `AddrTransWrite` leaves alone, whatever the mapping. -/
theorem invalidate_frame (cfg : Config) (s : State) (lsa : Nat)
    (hok : ¬ (s.logicalSlice lsa ≠ cfg.VSA_NONE ∧ s.virtualSlice (s.logicalSlice lsa) ≠ lsa)) :
    (AddrTransWrite.invalidate cfg s lsa).die = s.die ∧
    (∀ d x, ((AddrTransWrite.invalidate cfg s lsa).block d x).free = (s.block d x).free ∧
      ((AddrTransWrite.invalidate cfg s lsa).block d x).prevBlock = (s.block d x).prevBlock ∧
      ((AddrTransWrite.invalidate cfg s lsa).block d x).nextBlock = (s.block d x).nextBlock ∧
      ((AddrTransWrite.invalidate cfg s lsa).block d x).currentPage =
        (s.block d x).currentPage) ∧
    (AddrTransWrite.invalidate cfg s lsa).logicalSlice = upd s.logicalSlice lsa cfg.VSA_NONE ∧
    (AddrTransWrite.invalidate cfg s lsa).virtualSlice = s.virtualSlice ∧
    (AddrTransWrite.invalidate cfg s lsa).logicalBlockBaseVsa = s.logicalBlockBaseVsa ∧
    (AddrTransWrite.invalidate cfg s lsa).logicalBlockNextOffset = s.logicalBlockNextOffset ∧
    (AddrTransWrite.invalidate cfg s lsa).sliceAllocationTargetDie =
      s.sliceAllocationTargetDie ∧
    (AddrTransWrite.invalidate cfg s lsa).targetCh = s.targetCh ∧
    (AddrTransWrite.invalidate cfg s lsa).targetWay = s.targetWay ∧
    (AddrTransWrite.invalidate cfg s lsa).reqLog = s.reqLog := by
  by_cases h : s.logicalSlice lsa = cfg.VSA_NONE
  · rw [invalidate_unmapped cfg s lsa h]
    refine ⟨rfl, fun _ _ => ⟨rfl, rfl, rfl, rfl⟩, ?_, rfl, rfl, rfl, rfl, rfl, rfl, rfl⟩
    funext j
    by_cases hj : j = lsa
    · subst hj; simp [h]
    · simp [hj]
  · have hc : s.virtualSlice (s.logicalSlice lsa) = lsa := by
      by_contra hc
      exact hok ⟨h, hc⟩
    rw [invalidate_live cfg s lsa h hc]
    refine ⟨rfl, ?_, rfl, rfl, rfl, rfl, rfl, rfl, rfl, rfl⟩
    intro d x
    simp only [upd2_apply]
    split_ifs with hx
    · obtain ⟨rfl, rfl⟩ := hx; exact ⟨rfl, rfl, rfl, rfl⟩
    · exact ⟨rfl, rfl, rfl, rfl⟩

/-- Where the block reserved by `FindFreeVirtualBlock` comes from: it is the
unused, unlocked current block of the allocation die, or it was on the free
list of that die. -/
theorem FindFreeVirtualBlock_source (cfg : Config) (hw : cfg.WellFormed) (s : State)
    (hinv : AllocInv cfg s) (r : Nat × State) (h : FindFreeVirtualBlock Collector.stop 2 cfg s = .ok r)
    (cb : Nat) (hcb : cb < cfg.USER_BLOCKS_PER_DIE)
    (hr : r.1 = cfg.Vorg2VsaTranslation s.sliceAllocationTargetDie cb 0) :
    (cb = (s.die s.sliceAllocationTargetDie).currentBlock ∧
      GetBlockCurrentPage s s.sliceAllocationTargetDie cb = 0 ∧
      IsBlockReservedForBlkMapping s s.sliceAllocationTargetDie cb = 0) ∨
    OnFreeList cfg s s.sliceAllocationTargetDie cb := by
  have hspb : 0 < cfg.SLICES_PER_BLOCK := by
    simp only [Config.SLICES_PER_BLOCK]
    exact Nat.mul_pos hw.pages_pos hw.slices_pos
  have hd := hinv.targetDie_lt
  obtain ⟨q, hq, hr1, _⟩ := FindFreeVirtualBlock_unfold cfg s r h
  have inj : ∀ x, x < cfg.USER_BLOCKS_PER_DIE →
      r.1 = cfg.Vorg2VsaTranslation s.sliceAllocationTargetDie x 0 → cb = x := by
    intro x hx e
    have h1 := hw.pack_block _ cb 0 hd hcb hspb
    have h2 := hw.pack_block _ x 0 hd hx hspb
    rw [← hr] at h1
    rw [← e] at h2
    rw [← h1, ← h2]
  rcases FindFreeVirtualBlock_loop_spec cfg s _ _ q hq with ⟨hq', hg, hk⟩ | ⟨hcnt, hf, hq'⟩
  · subst hq'
    have e := inj _ (hinv.current_lt _ hd) hr1
    left
    rw [e]
    exact ⟨rfl, hg, hk⟩
  · subst hq'
    obtain ⟨p1, p2, _⟩ := AllocInv_pop cfg hw s hinv _ hd hcnt
    have e := inj _ p1 hr1
    right
    rw [e]
    exact p2

/-- What a returning `AddrTransWrite.reserve` does to a well-formed state:
afterwards the cursor of logical block `lb` points at slice 0 of a valid block
`(d, b)` that is on no free list.  An active cursor is kept as it is; otherwise
the block comes from `FindFreeVirtualBlock` on the allocation die. -/
theorem reserve_spec (cfg : Config) (hw : cfg.WellFormed) (s : State) (hinv : AllocInv cfg s)
    (lb : Nat) (hlb : lb < cfg.LOGICAL_BLOCKS_PER_SSD) (t : State)
    (h : AddrTransWrite.reserve Collector.stop 2 cfg s lb = .ok t) :
    ∃ d b, d < cfg.USER_DIES ∧ b < cfg.USER_BLOCKS_PER_DIE ∧
      t.logicalBlockBaseVsa lb = cfg.Vorg2VsaTranslation d b 0 ∧
      AllocInv cfg t ∧ ¬ OnFreeList cfg t d b ∧
      (s.logicalBlockBaseVsa lb ≠ cfg.VSA_NONE → t = s) ∧
      (s.logicalBlockBaseVsa lb = cfg.VSA_NONE →
        t.logicalBlockNextOffset lb = 0 ∧ d = s.sliceAllocationTargetDie ∧
        ((b = (s.die d).currentBlock ∧ GetBlockCurrentPage s d b = 0 ∧
            IsBlockReservedForBlkMapping s d b = 0) ∨ OnFreeList cfg s d b) ∧
        (GetBlockCurrentPage s d (s.die d).currentBlock = 0 →
          IsBlockReservedForBlkMapping s d (s.die d).currentBlock = 0 →
          b = (s.die d).currentBlock ∧ t.die = s.die) ∧
        (t.block d b).currentPage = BLOCK_CUR_PAGE_LOCK_MASK ∧
        t.sliceAllocationTargetDie = (FindDieForFreeSliceAllocation cfg s).1 % 256 ∧
        t.targetCh = (FindDieForFreeSliceAllocation cfg s).2.targetCh ∧
        t.targetWay = (FindDieForFreeSliceAllocation cfg s).2.targetWay) ∧
      t.logicalSlice = s.logicalSlice ∧ t.virtualSlice = s.virtualSlice ∧
      t.gcLog = s.gcLog ∧ t.reqLog = s.reqLog ∧
      (∀ d' x, (t.block d' x).invalidSliceCnt = (s.block d' x).invalidSliceCnt) ∧
      (∀ d' x, ¬ (d' = d ∧ x = b) → (t.block d' x).currentPage = (s.block d' x).currentPage) ∧
      (∀ lb', lb' ≠ lb → t.logicalBlockBaseVsa lb' = s.logicalBlockBaseVsa lb' ∧
        t.logicalBlockNextOffset lb' = s.logicalBlockNextOffset lb') ∧
      (∀ d' x, OnFreeList cfg t d' x → OnFreeList cfg s d' x) := by
  unfold AddrTransWrite.reserve at h
  by_cases hb : s.logicalBlockBaseVsa lb = cfg.VSA_NONE
  · simp only [hb, ↓reduceIte] at h
    obtain ⟨r, hr, ht⟩ := Outcome.bind_eq_ok h
    simp only [Outcome.ok.injEq] at ht
    obtain ⟨cb, f1, f2, f3, f4, f5, f6, f7, f8, f9, f10, f11, f12, f13, f14, f15, f16, f17,
      f18, f19, f20⟩ := FindFreeVirtualBlock_spec cfg hw s hinv r hr
    have hsrc := FindFreeVirtualBlock_source cfg hw s hinv r hr cb f1 f2
    have hon : ∀ d' x, OnFreeList cfg t d' x ↔ OnFreeList cfg r.2 d' x := by
      intro d' x
      apply OnFreeList_of_fields
      · rw [← ht]; exact ⟨rfl, rfl, rfl⟩
      · intro y; rw [← ht]; exact ⟨rfl, rfl, rfl⟩
    refine ⟨s.sliceAllocationTargetDie, cb, hinv.targetDie_lt, f1, ?_, ?_, ?_, ?_, ?_, ?_, ?_,
      ?_, ?_, ?_, ?_, ?_, ?_⟩
    · rw [← ht, f2]; simp
    · rw [← ht, f2]
      exact AllocInv_set_cursor cfg r.2 f3 lb _ cb 0 hinv.targetDie_lt f1 f4
    · rw [hon]; exact f4
    · intro hne; exact absurd hb hne
    · intro _
      refine ⟨by rw [← ht]; simp, rfl, hsrc, ?_, by rw [← ht]; exact f6, by rw [← ht]; exact f17,
        by rw [← ht]; exact f18, by rw [← ht]; exact f19⟩
      intro hg hk
      obtain ⟨e1, e2⟩ := f20 hg hk
      exact ⟨e1, by rw [← ht]; exact e2⟩
    · rw [← ht]; exact f11
    · rw [← ht]; exact f12
    · rw [← ht]; exact f15
    · rw [← ht]; exact f16
    · intro d' x; rw [← ht]; exact f9 d' x
    · intro d' x hx; rw [← ht]; exact f8 d' x hx
    · intro lb' hne
      rw [← ht]
      simp only [upd_apply, hne, ↓reduceIte]
      rw [f13, f14]
      exact ⟨rfl, rfl⟩
    · intro d' x hx
      exact f7 d' x ((hon d' x).mp hx)
  · simp only [hb, ↓reduceIte, Outcome.ok.injEq] at h
    subst h
    obtain ⟨d, b, h1, h2, h3, h4⟩ := hinv.cursor_ok lb hlb hb
    exact ⟨d, b, h1, h2, h3, hinv, h4, fun _ => rfl, fun e => absurd e hb, rfl, rfl, rfl, rfl,
      fun _ _ => rfl, fun _ _ _ => rfl, fun _ _ => ⟨rfl, rfl⟩, fun _ _ hx => hx⟩

/-- Every in-range LSA belongs to a logical block that has a cursor. -/
theorem AddrToBlock_lt (cfg : Config) (hw : cfg.WellFormed) (lsa : Nat)
    (h : lsa < cfg.SLICES_PER_SSD) : AddrToBlock cfg lsa < cfg.LOGICAL_BLOCKS_PER_SSD := by
  unfold AddrToBlock
  apply Nat.div_lt_of_lt_mul
  have := hw.logical_blocks
  rw [Nat.mul_comm]
  omega

/-- What a returning `AddrTransWrite` does to a well-formed state.  The LSA is
in range and coherently mapped or unmapped; the returned VSA is slice `k` of a
valid block `(d, b)`; the state stays well-formed; the block is on no free list
and has at least one programmed page; both maps hold the new pair; the cursor
of the logical block moves to `k + 1`, or is cleared, with the block unlocked,
when the block is full; the slot comes from the active cursor, or from slice 0
of a block reserved by `FindFreeVirtualBlock`; other cursors, and the page
fields of other blocks, are untouched; invalid-slice counters and the GC log
are those left by the invalidation step. -/
theorem AddrTransWrite_spec (cfg : Config) (hw : cfg.WellFormed) (s : State)
    (hinv : AllocInv cfg s) (lsa : Nat) (r : Nat × State)
    (h : AddrTransWrite Collector.stop 2 cfg s lsa = .ok r) :
    lsa < cfg.SLICES_PER_SSD ∧
    ¬ (s.logicalSlice lsa ≠ cfg.VSA_NONE ∧ s.virtualSlice (s.logicalSlice lsa) ≠ lsa) ∧
    ∃ d b k, d < cfg.USER_DIES ∧ b < cfg.USER_BLOCKS_PER_DIE ∧ k < cfg.SLICES_PER_BLOCK ∧
      r.1 = cfg.Vorg2VsaTranslation d b k ∧
      AllocInv cfg r.2 ∧ ¬ OnFreeList cfg r.2 d b ∧ 1 ≤ GetBlockCurrentPage r.2 d b ∧
      r.2.logicalSlice = upd s.logicalSlice lsa r.1 ∧
      r.2.virtualSlice = upd s.virtualSlice r.1 lsa ∧
      (k + 1 = cfg.SLICES_PER_BLOCK →
        r.2.logicalBlockBaseVsa (AddrToBlock cfg lsa) = cfg.VSA_NONE ∧
        r.2.logicalBlockNextOffset (AddrToBlock cfg lsa) = 0 ∧
        IsBlockReservedForBlkMapping r.2 d b = 0) ∧
      (k + 1 ≠ cfg.SLICES_PER_BLOCK →
        r.2.logicalBlockBaseVsa (AddrToBlock cfg lsa) = cfg.Vorg2VsaTranslation d b 0 ∧
        r.2.logicalBlockNextOffset (AddrToBlock cfg lsa) = k + 1) ∧
      (s.logicalBlockBaseVsa (AddrToBlock cfg lsa) ≠ cfg.VSA_NONE →
        s.logicalBlockBaseVsa (AddrToBlock cfg lsa) = cfg.Vorg2VsaTranslation d b 0 ∧
        k = s.logicalBlockNextOffset (AddrToBlock cfg lsa) ∧ r.2.die = s.die ∧
        r.2.sliceAllocationTargetDie = s.sliceAllocationTargetDie ∧
        r.2.targetCh = s.targetCh ∧ r.2.targetWay = s.targetWay) ∧
      (s.logicalBlockBaseVsa (AddrToBlock cfg lsa) = cfg.VSA_NONE →
        k = 0 ∧ d = s.sliceAllocationTargetDie ∧
        ((b = (s.die d).currentBlock ∧ GetBlockCurrentPage s d b = 0 ∧
            IsBlockReservedForBlkMapping s d b = 0) ∨ OnFreeList cfg s d b) ∧
        (GetBlockCurrentPage s d (s.die d).currentBlock = 0 →
          IsBlockReservedForBlkMapping s d (s.die d).currentBlock = 0 →
          b = (s.die d).currentBlock ∧ r.2.die = s.die) ∧
        r.2.sliceAllocationTargetDie = (FindDieForFreeSliceAllocation cfg s).1 % 256 ∧
        r.2.targetCh = (FindDieForFreeSliceAllocation cfg s).2.targetCh ∧
        r.2.targetWay = (FindDieForFreeSliceAllocation cfg s).2.targetWay) ∧
      (∀ lb', lb' ≠ AddrToBlock cfg lsa →
        r.2.logicalBlockBaseVsa lb' = s.logicalBlockBaseVsa lb' ∧
        r.2.logicalBlockNextOffset lb' = s.logicalBlockNextOffset lb') ∧
      (∀ d' x, (r.2.block d' x).invalidSliceCnt =
        ((AddrTransWrite.invalidate cfg s lsa).block d' x).invalidSliceCnt) ∧
      r.2.gcLog = (AddrTransWrite.invalidate cfg s lsa).gcLog ∧
      (∀ d' x, ¬ (d' = d ∧ x = b) → (r.2.block d' x).currentPage = (s.block d' x).currentPage) := by
  unfold AddrTransWrite at h
  by_cases hr : lsa ≥ cfg.SLICES_PER_SSD
  · simp [hr] at h
  have hlt : lsa < cfg.SLICES_PER_SSD := Nat.lt_of_not_le hr
  by_cases hok : s.logicalSlice lsa ≠ cfg.VSA_NONE ∧ s.virtualSlice (s.logicalSlice lsa) ≠ lsa
  · simp [hr, hok] at h
  simp only [hr, hok, ↓reduceIte] at h
  obtain ⟨t, ht, hc⟩ := Outcome.bind_eq_ok h
  refine ⟨hlt, hok, ?_⟩
  have hlb := AddrToBlock_lt cfg hw lsa hlt
  obtain ⟨i1, i2, i3, i4, i5, i6, i7, i8, i9, i10⟩ := invalidate_frame cfg s lsa hok
  have hpre : AllocInv cfg (AddrTransWrite.invalidate cfg s lsa) :=
    AllocInv_of_fields cfg s _ hinv i1 (fun d x => ⟨(i2 d x).1, (i2 d x).2.1, (i2 d x).2.2.1⟩)
      i5 (by rw [i7]; exact hinv.targetDie_lt) (by rw [i8]; exact hinv.targetCh_lt)
      (by rw [i9]; exact hinv.targetWay_lt)
  have honpre : ∀ d x, OnFreeList cfg (AddrTransWrite.invalidate cfg s lsa) d x ↔
      OnFreeList cfg s d x := fun d x =>
    OnFreeList_of_fields cfg s _ d x (by rw [i1]; exact ⟨rfl, rfl, rfl⟩)
      (fun y => ⟨(i2 d y).1, (i2 d y).2.1, (i2 d y).2.2.1⟩)
  have hgpre : ∀ d x, GetBlockCurrentPage (AddrTransWrite.invalidate cfg s lsa) d x =
      GetBlockCurrentPage s d x := by
    intro d x; simp only [GetBlockCurrentPage]; rw [(i2 d x).2.2.2]
  have hkpre : ∀ d x, IsBlockReservedForBlkMapping (AddrTransWrite.invalidate cfg s lsa) d x =
      IsBlockReservedForBlkMapping s d x := by
    intro d x; simp only [IsBlockReservedForBlkMapping]; rw [(i2 d x).2.2.2]
  obtain ⟨d, b, r1, r2, r3, r4, r5, r6, r7, r8, r9, r10, r11, r12, r13, r14, r15⟩ :=
    reserve_spec cfg hw _ hpre _ hlb t ht
  obtain ⟨c1, c2, c3, c4, c5, c6, c7, c8, c9, c10, c11, c12, c13, c14, c15, c16⟩ :=
    commit_spec cfg hw t lsa _ d b r1 r2 r3 r hc
  have hont : ∀ d' x, OnFreeList cfg r.2 d' x ↔ OnFreeList cfg t d' x := fun d' x =>
    OnFreeList_of_fields cfg t _ d' x (by rw [c5]; exact ⟨rfl, rfl, rfl⟩)
      (fun y => ⟨(c6 d' y).1, (c6 d' y).2.1, (c6 d' y).2.2.1⟩)
  refine ⟨d, b, _, r1, r2, c1, c2, ?_, ?_, c8, ?_, ?_, ?_, ?_, ?_, ?_, ?_, ?_, ?_, ?_⟩
  · apply AllocInv_of_fields_clear cfg t r.2 r4 c5
      (fun d' x => ⟨(c6 d' x).1, (c6 d' x).2.1, (c6 d' x).2.2.1⟩)
    · intro lb'
      rw [c10]
      split_ifs
      · simp only [upd_apply]
        split_ifs
        · exact Or.inr rfl
        · exact Or.inl rfl
      · exact Or.inl rfl
    · rw [c12]; exact r4.targetDie_lt
    · rw [c13]; exact r4.targetCh_lt
    · rw [c14]; exact r4.targetWay_lt
  · rw [hont]; exact r5
  · rw [c3, r8, i3]
    funext j
    by_cases hj : j = lsa <;> simp [upd_apply, hj]
  · rw [c4, r9, i4]
  · intro hfull
    refine ⟨?_, ?_, c9 hfull⟩
    · rw [c10]; simp [hfull]
    · rw [c11]; simp [hfull]
  · intro hnf
    refine ⟨?_, ?_⟩
    · rw [c10]; simp only [hnf, ↓reduceIte]; exact r3
    · rw [c11]; simp [hnf]
  · intro hne
    have hne' : (AddrTransWrite.invalidate cfg s lsa).logicalBlockBaseVsa (AddrToBlock cfg lsa) ≠
        cfg.VSA_NONE := by rw [i5]; exact hne
    have e := r6 hne'
    subst e
    refine ⟨by rw [← i5]; exact r3, by rw [i6], by rw [c5, i1], by rw [c12, i7],
      by rw [c13, i8], by rw [c14, i9]⟩
  · intro he
    have he' : (AddrTransWrite.invalidate cfg s lsa).logicalBlockBaseVsa (AddrToBlock cfg lsa) =
        cfg.VSA_NONE := by rw [i5]; exact he
    obtain ⟨q1, q2, q3, q4, q5, q6, q7, q8⟩ := r7 he'
    obtain ⟨g1, g2, g3⟩ := FindDie_congr cfg s (AddrTransWrite.invalidate cfg s lsa) i8 i9
    refine ⟨q1, by rw [q2, i7], ?_, ?_, by rw [c12, q6, g1], by rw [c13, q7, g2],
      by rw [c14, q8, g3]⟩
    · rcases q3 with ⟨a1, a2, a3⟩ | a
      · left
        exact ⟨by rw [a1, i1], by rw [← hgpre]; exact a2, by rw [← hkpre]; exact a3⟩
      · right
        exact (honpre d b).mp a
    · intro hg hk
      rw [i1, hgpre, hkpre] at q4
      obtain ⟨a1, a2⟩ := q4 hg hk
      exact ⟨a1, by rw [c5, a2]⟩
  · intro lb' hne
    obtain ⟨a1, a2⟩ := r14 lb' hne
    refine ⟨?_, ?_⟩
    · rw [c10]
      split_ifs
      · simp only [upd_apply, hne, ↓reduceIte]; rw [a1, i5]
      · rw [a1, i5]
    · rw [c11]
      simp only [upd_apply, hne, ↓reduceIte]; rw [a2, i6]
  · intro d' x
    rw [(c6 d' x).2.2.2, r12 d' x]
  · rw [c15, r10]
  · intro d' x hx
    rw [c7 d' x hx, r13 d' x hx, (i2 d' x).2.2.2]

/-! ## Runs of writes -/

theorem writeAll_cons {gc : Collector} {fuel : Nat} (cfg : Config) (s : State) (l : Nat)
    (ls : List Nat) (q : List Nat × State) (h : writeAll gc fuel cfg s (l :: ls) = some q) :
    ∃ r q', AddrTransWrite gc fuel cfg s l = .ok r ∧ writeAll gc fuel cfg r.2 ls = some q' ∧
      q = (r.1 :: q'.1, q'.2) := by
  unfold writeAll at h
  cases hw : AddrTransWrite gc fuel cfg s l with
  | ok r =>
    rw [hw] at h
    simp only at h
    cases hq : writeAll gc fuel cfg r.2 ls with
    | none => rw [hq] at h; cases h
    | some q' =>
      rw [hq] at h
      simp only [Option.some.injEq] at h
      exact ⟨r, q', rfl, hq, h.symm⟩
  | fatal t => rw [hw] at h; cases h
  | gc t => rw [hw] at h; cases h
  | fuel => rw [hw] at h; cases h

theorem writeAll_nil {gc : Collector} {fuel : Nat} (cfg : Config) (s : State) :
    writeAll gc fuel cfg s [] = some ([], s) := rfl

/-- A run of returning writes keeps the state well-formed and leaves the
forward entry of every LSA that it does not write. -/
theorem writeAll_keeps (cfg : Config) (hw : cfg.WellFormed) (lsa : Nat) (ls : List Nat) :
    ∀ (s : State) (q : List Nat × State), AllocInv cfg s → (∀ l ∈ ls, l ≠ lsa) →
      writeAll Collector.stop 2 cfg s ls = some q →
      AllocInv cfg q.2 ∧ q.2.logicalSlice lsa = s.logicalSlice lsa := by
  induction ls with
  | nil =>
    intro s q hinv _ h
    rw [writeAll_nil] at h
    simp only [Option.some.injEq] at h
    subst h
    exact ⟨hinv, rfl⟩
  | cons l rest ih =>
    intro s q hinv hne h
    obtain ⟨r, q', h1, h2, rfl⟩ := writeAll_cons cfg s l rest q h
    obtain ⟨_, _, d, b, k, _, _, _, _, a5, _, _, a8, _⟩ :=
      AddrTransWrite_spec cfg hw s hinv l r h1
    obtain ⟨i1, i2⟩ := ih r.2 q' a5 (fun x hx => hne x (List.mem_cons_of_mem _ hx)) h2
    refine ⟨i1, ?_⟩
    rw [i2, a8]
    have : lsa ≠ l := fun e => hne l (List.mem_cons_self _ _) e.symm
    simp [upd_apply, this]

set_option maxRecDepth 100000 in
/-- The boot state of the scenario is well-formed. -/
theorem scenarioBoot_allocInv : AllocInv scenario scenarioBoot := by
  have hl : ∀ d, d < 4 → FreeListIs scenario scenarioBoot d [2, 3] := by
    intro d hd
    interval_cases d <;> exact ⟨by decide, by decide, by decide, by decide, by decide⟩
  refine ⟨by decide, by decide, by decide, ?_, by decide, ?_, ?_⟩
  · intro d hd
    exact ⟨[2, 3], hl d hd⟩
  · intro d hd
    rw [OnFreeList_iff scenario (by decide) scenarioBoot d _ [2, 3] (hl d hd)]
    have hd' : d < 4 := hd
    interval_cases d <;> decide
  · intro lb hlb hne
    exfalso
    have hlb' : lb < 16 := hlb
    interval_cases lb <;> exact hne (by decide)

theorem AddrToBlock_add (cfg : Config) (lb i : Nat) (hi : i < cfg.SLICES_PER_BLOCK) :
    AddrToBlock cfg (lb * cfg.SLICES_PER_BLOCK + i) = lb := by
  unfold AddrToBlock
  have hpos : 0 < cfg.SLICES_PER_BLOCK := by omega
  rw [Nat.mul_comm, Nat.mul_add_div hpos, Nat.div_eq_of_lt hi]
  rfl

/-- The VSA packing is injective on valid blocks (at slice 0). -/
theorem pack_base_inj (cfg : Config) (hw : cfg.WellFormed) (d b d' b' : Nat)
    (hd : d < cfg.USER_DIES) (hb : b < cfg.USER_BLOCKS_PER_DIE)
    (hd' : d' < cfg.USER_DIES) (hb' : b' < cfg.USER_BLOCKS_PER_DIE)
    (h : cfg.Vorg2VsaTranslation d b 0 = cfg.Vorg2VsaTranslation d' b' 0) :
    d = d' ∧ b = b' := by
  have hspb : 0 < cfg.SLICES_PER_BLOCK := by
    simp only [Config.SLICES_PER_BLOCK]
    exact Nat.mul_pos hw.pages_pos hw.slices_pos
  have h1 := hw.pack_die d b 0 hd hb hspb
  have h2 := hw.pack_die d' b' 0 hd' hb' hspb
  have h3 := hw.pack_block d b 0 hd hb hspb
  have h4 := hw.pack_block d' b' 0 hd' hb' hspb
  rw [h] at h1 h3
  exact ⟨by rw [← h1, h2], by rw [← h3, h4]⟩

theorem writeAll_cons_eq {gc : Collector} {fuel : Nat} (cfg : Config) (s : State) (l : Nat)
    (ls : List Nat) (r : Nat × State) (q : List Nat × State)
    (h1 : AddrTransWrite gc fuel cfg s l = .ok r) (h2 : writeAll gc fuel cfg r.2 ls = some q) :
    writeAll gc fuel cfg s (l :: ls) = some (r.1 :: q.1, q.2) := by
  unfold writeAll
  rw [h1]
  simp only
  rw [h2]

/-- A write to an unmapped LSA of a logical block without cursor returns when
the current block of the allocation die is unused and unlocked. -/
theorem fresh_write_returns (cfg : Config) (hw : cfg.WellFormed) (t : State)
    (hinv : AllocInv cfg t) (lsa : Nat) (hlt : lsa < cfg.SLICES_PER_SSD)
    (hun : t.logicalSlice lsa = cfg.VSA_NONE)
    (hb : t.logicalBlockBaseVsa (AddrToBlock cfg lsa) = cfg.VSA_NONE)
    (hg : GetBlockCurrentPage t t.sliceAllocationTargetDie
      (t.die t.sliceAllocationTargetDie).currentBlock = 0)
    (hk : IsBlockReservedForBlkMapping t t.sliceAllocationTargetDie
      (t.die t.sliceAllocationTargetDie).currentBlock = 0) :
    ∃ r, AddrTransWrite Collector.stop 2 cfg t lsa = .ok r := by
  have hspb : 0 < cfg.SLICES_PER_BLOCK := by
    simp only [Config.SLICES_PER_BLOCK]
    exact Nat.mul_pos hw.pages_pos hw.slices_pos
  have hcur : (t.die t.sliceAllocationTargetDie).currentBlock ≠ cfg.BLOCK_FAIL := by
    have := hinv.current_lt _ hinv.targetDie_lt
    have := hw.block_fail
    omega
  have hloop : FindFreeVirtualBlock.loop Collector.stop cfg t.sliceAllocationTargetDie 2 t
      (t.die t.sliceAllocationTargetDie).currentBlock =
      .ok ((t.die t.sliceAllocationTargetDie).currentBlock, t) := by
    unfold FindFreeVirtualBlock.loop
    simp [hg, hk]
  have hfind : ∃ q, FindFreeVirtualBlock Collector.stop 2 cfg t = .ok q := by
    unfold FindFreeVirtualBlock
    simp only [hcur, ↓reduceIte, hg, Nat.zero_le, not_true_eq_false, hloop, Outcome.bind_ok]
    exact ⟨_, rfl⟩
  obtain ⟨q, hq⟩ := hfind
  have hres : ∃ u, AddrTransWrite.reserve Collector.stop 2 cfg t (AddrToBlock cfg lsa) = .ok u ∧
      u.logicalBlockNextOffset (AddrToBlock cfg lsa) = 0 := by
    unfold AddrTransWrite.reserve
    simp only [hb, ↓reduceIte, hq, Outcome.bind_ok]
    exact ⟨_, rfl, by simp⟩
  obtain ⟨u, hu, hu0⟩ := hres
  unfold AddrTransWrite
  have h1 : ¬ lsa ≥ cfg.SLICES_PER_SSD := Nat.not_le.mpr hlt
  simp only [h1, ↓reduceIte, hun, ne_eq, not_true_eq_false, false_and,
    invalidate_unmapped cfg t lsa hun, hu, Outcome.bind_ok]
  unfold AddrTransWrite.commit
  have h2 : ¬ u.logicalBlockNextOffset (AddrToBlock cfg lsa) ≥ cfg.SLICES_PER_BLOCK := by
    rw [hu0]; omega
  simp only [h2, ↓reduceIte]
  exact ⟨_, rfl⟩

/-- Writes to unwritten logical blocks, one per remaining die, starting at die
`j`: each takes slice 0 of the current block of the next die. -/
theorem spread_from (cfg : Config) (hw : cfg.WellFormed) (s : State) (rest : List Nat) :
    ∀ (j : Nat) (t : State), j + rest.length = cfg.USER_DIES → AllocInv cfg t →
      t.sliceAllocationTargetDie = j % cfg.USER_DIES →
      t.targetWay * cfg.USER_CHANNELS + t.targetCh = (j + 1) % cfg.USER_DIES →
      (∀ d, j ≤ d → d < cfg.USER_DIES →
        (t.die d).currentBlock = (s.die d).currentBlock ∧
        GetBlockCurrentPage t d (s.die d).currentBlock = 0 ∧
        IsBlockReservedForBlkMapping t d (s.die d).currentBlock = 0) →
      (∀ l ∈ rest, l < cfg.SLICES_PER_SSD ∧ t.logicalSlice l = cfg.VSA_NONE ∧
        t.logicalBlockBaseVsa (AddrToBlock cfg l) = cfg.VSA_NONE) →
      (rest.map (AddrToBlock cfg)).Nodup →
      ∃ s', writeAll Collector.stop 2 cfg t rest =
        some ((List.range' j rest.length).map
          (fun d => cfg.Vorg2VsaTranslation d (s.die d).currentBlock 0), s') := by
  induction rest with
  | nil =>
    intro j t _ _ _ _ _ _ _
    exact ⟨t, rfl⟩
  | cons l rest' ih =>
    intro j t hlen hinv htd hcur hfresh hls hnd
    simp only [List.length_cons] at hlen
    have hj : j < cfg.USER_DIES := by omega
    have htd' : t.sliceAllocationTargetDie = j := by rw [htd, Nat.mod_eq_of_lt hj]
    obtain ⟨hl1, hl2, hl3⟩ := hls l (List.mem_cons_self _ _)
    obtain ⟨f1, f2, f3⟩ := hfresh j (Nat.le_refl j) hj
    have hg : GetBlockCurrentPage t t.sliceAllocationTargetDie
        (t.die t.sliceAllocationTargetDie).currentBlock = 0 := by rw [htd', f1]; exact f2
    have hk : IsBlockReservedForBlkMapping t t.sliceAllocationTargetDie
        (t.die t.sliceAllocationTargetDie).currentBlock = 0 := by rw [htd', f1]; exact f3
    obtain ⟨r, hr⟩ := fresh_write_returns cfg hw t hinv l hl1 hl2 hl3 hg hk
    obtain ⟨_, _, d, b, k, a1, a2, a3, a4, a5, _, _, a8, _, _, _, _, a13, a14, _, _, a17⟩ :=
      AddrTransWrite_spec cfg hw t hinv l r hr
    obtain ⟨k0, e1, _, e3, e4, e5, e6⟩ := a13 hl3
    subst k0
    rw [htd'] at e1
    subst e1
    rw [htd'] at hg hk
    obtain ⟨eb, edie⟩ := e3 hg hk
    rw [f1] at eb
    obtain ⟨g1, g2, g3, g4, g5⟩ :=
      FindDie_step cfg hw.dies_le t hinv.targetCh_lt hinv.targetWay_lt
    have hnext : (FindDieForFreeSliceAllocation cfg t).1 = (d + 1) % cfg.USER_DIES := by
      rw [g1, hcur]
    have hnd' := List.nodup_cons.mp (by simpa using hnd : (AddrToBlock cfg l ::
      rest'.map (AddrToBlock cfg)).Nodup)
    obtain ⟨s', hs'⟩ := ih (d + 1) r.2 (by omega) a5
      (by
        rw [e4, hnext]
        exact Nat.mod_eq_of_lt (Nat.lt_of_lt_of_le (Nat.mod_lt _ (by omega)) hw.dies_le))
      (by
        rw [e5, e6, g5, hnext, Nat.mod_add_mod])
      (by
        intro d' hd' hd'N
        obtain ⟨q1, q2, q3⟩ := hfresh d' (by omega) hd'N
        have hne : ¬ (d' = d ∧ (s.die d').currentBlock = b) := by
          intro h; omega
        have hcp := a17 d' (s.die d').currentBlock hne
        refine ⟨by rw [edie]; exact q1, ?_, ?_⟩
        · simp only [GetBlockCurrentPage] at q2 ⊢
          rw [hcp]; exact q2
        · simp only [IsBlockReservedForBlkMapping] at q3 ⊢
          rw [hcp]; exact q3)
      (by
        intro l' hl'
        obtain ⟨p1, p2, p3⟩ := hls l' (List.mem_cons_of_mem _ hl')
        have hblk : AddrToBlock cfg l' ≠ AddrToBlock cfg l := by
          intro e
          exact hnd'.1 (e ▸ List.mem_map_of_mem _ hl')
        have hne : l' ≠ l := fun e => hblk (e ▸ rfl)
        refine ⟨p1, ?_, ?_⟩
        · rw [a8]; simp only [upd_apply, hne, ↓reduceIte]; exact p2
        · rw [(a14 _ hblk).1]; exact p3)
      hnd'.2
    refine ⟨s', ?_⟩
    rw [writeAll_cons_eq cfg t l rest' r _ hr hs', List.length_cons, List.range'_succ,
      List.map_cons, a4, eb]

/-- Die spread, with the collector that never returns and two tests of the loop
of `FindFreeVirtualBlock`: in a well-formed state as `InitAddressMap` leaves it,
`USER_DIES` successive `AddrTransWrite` calls to in-range, unmapped LSAs of
`USER_DIES` pairwise different logical blocks without cursor all return, call
number `d` with slice 0 of the current block of die `d`. -/
theorem die_spread_direct (cfg : Config) (hw : cfg.WellFormed) (s : State) (hinv : AllocInv cfg s)
    (htd : s.sliceAllocationTargetDie = 0)
    (hcur : s.targetWay * cfg.USER_CHANNELS + s.targetCh = 1 % cfg.USER_DIES)
    (hfresh : ∀ d, d < cfg.USER_DIES →
      GetBlockCurrentPage s d (s.die d).currentBlock = 0 ∧
      IsBlockReservedForBlkMapping s d (s.die d).currentBlock = 0)
    (lsas : List Nat) (hlen : lsas.length = cfg.USER_DIES)
    (hls : ∀ l ∈ lsas, l < cfg.SLICES_PER_SSD ∧ s.logicalSlice l = cfg.VSA_NONE ∧
      s.logicalBlockBaseVsa (AddrToBlock cfg l) = cfg.VSA_NONE)
    (hnd : (lsas.map (AddrToBlock cfg)).Nodup) :
    (∃ s', writeAll Collector.stop 2 cfg s lsas =
      some ((List.range cfg.USER_DIES).map
        (fun d => cfg.Vorg2VsaTranslation d (s.die d).currentBlock 0), s')) ∧
    ((List.range cfg.USER_DIES).map
      (fun d => cfg.Vorg2VsaTranslation d (s.die d).currentBlock 0)).map
        cfg.Vsa2VdieTranslation = List.range cfg.USER_DIES := by
  have hspb : 0 < cfg.SLICES_PER_BLOCK := by
    simp only [Config.SLICES_PER_BLOCK]
    exact Nat.mul_pos hw.pages_pos hw.slices_pos
  constructor
  · obtain ⟨s', hs'⟩ := spread_from cfg hw s lsas 0 s (by omega) hinv
      (by rw [htd, Nat.zero_mod]) (by rw [hcur]) 
      (fun d _ hd => ⟨rfl, (hfresh d hd).1, (hfresh d hd).2⟩) hls hnd
    rw [hlen, ← List.range_eq_range'] at hs'
    exact ⟨s', hs'⟩
  · rw [List.map_map]
    conv_rhs => rw [← List.map_id (List.range cfg.USER_DIES)]
    apply List.map_congr_left
    intro d hd
    rw [List.mem_range] at hd
    simp only [Function.comp, id]
    exact hw.pack_die d _ 0 hd (hinv.current_lt d hd) hspb

/-- C4. Rewrite, on a well-formed state: when `AddrTransWrite(lsa)` returns `v1`
and the next call `AddrTransWrite(lsa)` returns `v2`, then `v1 ≠ v2`; the second
call raises the invalid-slice counter of the block containing `v1` by exactly
one (to 1 when it was 0) and that of no other block; and it calls the
victim-list hooks exactly once each: `SelectiveGetFromGcVictimList` and then
`PutToGcVictimList`, for that block, the latter with the new counter.  The
two calls do not enter the garbage collector (`Collector.stop`). -/
theorem rewrite_invalidates (cfg : Config) (hw : cfg.WellFormed) (s : State)
    (hinv : AllocInv cfg s) (lsa v1 v2 : Nat) (s1 s2 : State)
    (h1 : AddrTransWrite Collector.stop 2 cfg s lsa = .ok (v1, s1))
    (h2 : AddrTransWrite Collector.stop 2 cfg s1 lsa = .ok (v2, s2)) :
    v1 ≠ v2 ∧
    (s2.block (cfg.Vsa2VdieTranslation v1) (cfg.Vsa2VblockTranslation v1)).invalidSliceCnt =
      (s1.block (cfg.Vsa2VdieTranslation v1) (cfg.Vsa2VblockTranslation v1)).invalidSliceCnt
        + 1 ∧
    ((s1.block (cfg.Vsa2VdieTranslation v1) (cfg.Vsa2VblockTranslation v1)).invalidSliceCnt
        = 0 →
      (s2.block (cfg.Vsa2VdieTranslation v1) (cfg.Vsa2VblockTranslation v1)).invalidSliceCnt
        = 1) ∧
    (∀ d x, ¬ (d = cfg.Vsa2VdieTranslation v1 ∧ x = cfg.Vsa2VblockTranslation v1) →
      (s2.block d x).invalidSliceCnt = (s1.block d x).invalidSliceCnt) ∧
    s2.gcLog = s1.gcLog ++
      [GcCall.selectiveGet (cfg.Vsa2VdieTranslation v1) (cfg.Vsa2VblockTranslation v1),
       GcCall.put (cfg.Vsa2VdieTranslation v1) (cfg.Vsa2VblockTranslation v1)
        ((s1.block (cfg.Vsa2VdieTranslation v1)
          (cfg.Vsa2VblockTranslation v1)).invalidSliceCnt + 1)] := by
  have hspb : 0 < cfg.SLICES_PER_BLOCK := by
    simp only [Config.SLICES_PER_BLOCK]
    exact Nat.mul_pos hw.pages_pos hw.slices_pos
  obtain ⟨hlt, _, d, b, k, a1, a2, a3, a4, a5, a6, a7, a8, a9, a10, a11, _⟩ :=
    AddrTransWrite_spec cfg hw s hinv lsa (v1, s1) h1
  obtain ⟨_, hok, d', b', k', b1, b2, b3, b4, _, _, _, _, _, _, _, b12, b13, _, b15, b16, _⟩ :=
    AddrTransWrite_spec cfg hw s1 a5 lsa (v2, s2) h2
  simp only at a4 a5 a6 a7 a8 a9 a10 a11 b4 b12 b13 b15 b16
  have hv1 : v1 ≠ cfg.VSA_NONE := by
    have := hw.pack_lt d b k a1 a2 a3
    have := hw.vsa_none
    rw [a4]; omega
  have hmap : s1.logicalSlice lsa = v1 := by rw [a8]; simp
  have hrev : s1.virtualSlice (s1.logicalSlice lsa) = lsa := by rw [hmap, a9]; simp
  have hdie : cfg.Vsa2VdieTranslation v1 = d := by rw [a4]; exact hw.pack_die d b k a1 a2 a3
  have hblk : cfg.Vsa2VblockTranslation v1 = b := by rw [a4]; exact hw.pack_block d b k a1 a2 a3
  have hlive := invalidate_live cfg s1 lsa (by rw [hmap]; exact hv1) hrev
  rw [hmap, hdie, hblk] at hlive
  rw [hdie, hblk]
  have hcnt : (s2.block d b).invalidSliceCnt = (s1.block d b).invalidSliceCnt + 1 := by
    rw [b15, hlive]; simp
  refine ⟨?_, hcnt, fun h0 => by rw [hcnt, h0], ?_, ?_⟩
  · -- the two VSAs differ
    intro e
    have hpage1 : cfg.Vsa2VpageTranslation v1 = k := by
      rw [a4]; exact hw.pack_page d b k a1 a2 a3
    have hpage2 : cfg.Vsa2VpageTranslation v2 = k' := by
      rw [b4]; exact hw.pack_page d' b' k' b1 b2 b3
    have hkk : k = k' := by rw [← hpage1, ← hpage2, e]
    have hdd : d = d' := by
      have h3 := hw.pack_die d' b' k' b1 b2 b3
      rw [← b4, ← e, hdie] at h3
      exact h3
    have hbb : b = b' := by
      have h3 := hw.pack_block d' b' k' b1 b2 b3
      rw [← b4, ← e, hblk] at h3
      exact h3
    subst hkk hdd hbb
    by_cases hfull : k + 1 = cfg.SLICES_PER_BLOCK
    · -- the first write filled the block: the second one reserves a block
      obtain ⟨c1, _, _⟩ := a10 hfull
      obtain ⟨k0, _, src, _⟩ := b13 c1
      rcases src with ⟨_, g0, _⟩ | hon
      · omega
      · exact a6 hon
    · -- the cursor is still active: the second write takes the next slot
      obtain ⟨c1, c2⟩ := a11 hfull
      have hne : s1.logicalBlockBaseVsa (AddrToBlock cfg lsa) ≠ cfg.VSA_NONE := by
        have := hw.pack_lt d b 0 a1 a2 hspb
        have := hw.vsa_none
        rw [c1]; omega
      obtain ⟨_, e2, _⟩ := b12 hne
      rw [c2] at e2
      omega
  · intro d'' x hx
    rw [b15, hlive]
    simp [upd2_apply, hx]
  · rw [b16, hlive]

set_option maxRecDepth 100000 in
theorem rewrite_invalidates_witness :
    (16 : Nat) ≠ 20 ∧
    ((writeAllState Collector.stop 2 scenario scenarioBoot [0, 0]).block (scenario.Vsa2VdieTranslation 16)
        (scenario.Vsa2VblockTranslation 16)).invalidSliceCnt =
      ((writeAllState Collector.stop 2 scenario scenarioBoot [0]).block (scenario.Vsa2VdieTranslation 16)
        (scenario.Vsa2VblockTranslation 16)).invalidSliceCnt + 1 ∧
    (writeAllState Collector.stop 2 scenario scenarioBoot [0, 0]).gcLog =
      (writeAllState Collector.stop 2 scenario scenarioBoot [0]).gcLog ++
        [GcCall.selectiveGet (scenario.Vsa2VdieTranslation 16)
          (scenario.Vsa2VblockTranslation 16),
         GcCall.put (scenario.Vsa2VdieTranslation 16) (scenario.Vsa2VblockTranslation 16)
          (((writeAllState Collector.stop 2 scenario scenarioBoot [0]).block (scenario.Vsa2VdieTranslation 16)
            (scenario.Vsa2VblockTranslation 16)).invalidSliceCnt + 1)] :=
  ⟨(rewrite_invalidates scenario scenario_wellFormed scenarioBoot scenarioBoot_allocInv 0 16 20
      (writeAllState Collector.stop 2 scenario scenarioBoot [0]) (writeAllState Collector.stop 2 scenario scenarioBoot [0, 0])
      rfl rfl).1,
   (rewrite_invalidates scenario scenario_wellFormed scenarioBoot scenarioBoot_allocInv 0 16 20
      (writeAllState Collector.stop 2 scenario scenarioBoot [0]) (writeAllState Collector.stop 2 scenario scenarioBoot [0, 0])
      rfl rfl).2.1,
   (rewrite_invalidates scenario scenario_wellFormed scenarioBoot scenarioBoot_allocInv 0 16 20
      (writeAllState Collector.stop 2 scenario scenarioBoot [0]) (writeAllState Collector.stop 2 scenario scenarioBoot [0, 0])
      rfl rfl).2.2.2.2⟩

/-- With one slice per page, `EraseBlock` on a valid block that is not on the
free list clears the reverse entry of every VSA of the block. -/
theorem EraseBlock_clears_block (cfg : Config) (hw : cfg.WellFormed)
    (hone : cfg.SLICES_PER_PAGE = 1) (s : State) (d b : Nat) (l : List Nat)
    (hb : b < cfg.USER_BLOCKS_PER_DIE) (hl : FreeListIs cfg s d l) (hbl : b ∉ l) (v : Nat)
    (hv : v < cfg.SLICES_PER_SSD) (hvd : cfg.Vsa2VdieTranslation v = d)
    (hvb : cfg.Vsa2VblockTranslation v = b) :
    (EraseBlock cfg s d b).virtualSlice v = cfg.LSA_NONE := by
  obtain ⟨_, _, _, _, _, _, _, h8, _⟩ := EraseBlock_post cfg hw.block_none s d b l hb hl hbl
  have hp := hw.unpack_page v hv
  have he := hw.unpack_pack v hv
  rw [hvd, hvb] at he
  rw [← he]
  apply h8
  simpa [Config.SLICES_PER_BLOCK, hone] using hp

set_option maxRecDepth 100000 in
/-- C8. The claim fails on the code when a page holds more than one slice: the
loop of `EraseBlock` runs over `USER_PAGES_PER_BLOCK` slice offsets, not over
`SLICES_PER_BLOCK`.  In the geometry with two slices per page, after logical
block 0 has been written and overwritten, block 1 of die 0 is fully invalid
and not on the free list `[2, 3]`; VSA 48 lies in it (slice offset 4); after
`EraseBlock(0, 1)` its reverse entry is still LSA 4, not `LSA_NONE`, while the
entries of the offsets below `USER_PAGES_PER_BLOCK` are cleared. -/
theorem EraseBlock_stale_reverse_entry :
    scenarioTwo.WellFormed ∧
    FreeListIs scenarioTwo overwrittenTwo 0 [2, 3] ∧
    (overwrittenTwo.block 0 1).invalidSliceCnt = scenarioTwo.SLICES_PER_BLOCK ∧
    48 < scenarioTwo.SLICES_PER_SSD ∧
    scenarioTwo.Vsa2VdieTranslation 48 = 0 ∧ scenarioTwo.Vsa2VblockTranslation 48 = 1 ∧
    scenarioTwo.Vsa2VpageTranslation 48 = 4 ∧
    (EraseBlock scenarioTwo overwrittenTwo 0 1).virtualSlice 48 = 4 ∧
    (4 : Nat) ≠ scenarioTwo.LSA_NONE ∧
    (EraseBlock scenarioTwo overwrittenTwo 0 1).virtualSlice 44 = scenarioTwo.LSA_NONE :=
  ⟨scenarioWith_wellFormed 2 (by decide) (by decide),
   ⟨by decide, by decide, by decide, by decide, by decide⟩,
   by decide, by decide, by decide, by decide, by decide, by decide, by decide, by decide⟩

/-! ## Invalidation -/

/-- `InvalidateOldVsa` on a live mapping, as one record update. -/
theorem InvalidateOldVsa_eq (cfg : Config) (s : State) (lsa : Nat)
    (hv : s.logicalSlice lsa ≠ cfg.VSA_NONE)
    (hc : s.virtualSlice (s.logicalSlice lsa) = lsa) :
    InvalidateOldVsa cfg s lsa =
      { s with
        gcLog := s.gcLog ++
          [GcCall.selectiveGet (cfg.Vsa2VdieTranslation (s.logicalSlice lsa))
            (cfg.Vsa2VblockTranslation (s.logicalSlice lsa)),
           GcCall.put (cfg.Vsa2VdieTranslation (s.logicalSlice lsa))
            (cfg.Vsa2VblockTranslation (s.logicalSlice lsa))
            ((s.block (cfg.Vsa2VdieTranslation (s.logicalSlice lsa))
              (cfg.Vsa2VblockTranslation (s.logicalSlice lsa))).invalidSliceCnt + 1)]
        block := upd2 s.block (cfg.Vsa2VdieTranslation (s.logicalSlice lsa))
          (cfg.Vsa2VblockTranslation (s.logicalSlice lsa))
          { s.block (cfg.Vsa2VdieTranslation (s.logicalSlice lsa))
              (cfg.Vsa2VblockTranslation (s.logicalSlice lsa)) with
            invalidSliceCnt := (s.block (cfg.Vsa2VdieTranslation (s.logicalSlice lsa))
              (cfg.Vsa2VblockTranslation (s.logicalSlice lsa))).invalidSliceCnt + 1 }
        logicalSlice := upd s.logicalSlice lsa cfg.VSA_NONE } := by
  simp [InvalidateOldVsa, hv, hc, State.setBlock]

/-- `InvalidateOldVsa` on an unmapped LSA, or on one whose reverse entry names
another LSA, does nothing. -/
theorem InvalidateOldVsa_skip (cfg : Config) (s : State) (lsa : Nat)
    (h : s.logicalSlice lsa = cfg.VSA_NONE ∨ s.virtualSlice (s.logicalSlice lsa) ≠ lsa) :
    InvalidateOldVsa cfg s lsa = s := by
  unfold InvalidateOldVsa
  rcases h with h | h
  · simp [h]
  · by_cases hv : s.logicalSlice lsa = cfg.VSA_NONE
    · simp [hv]
    · simp [hv, h]

/-- C14. `InvalidateOldVsa` on a live mapping.  When `LogicalSlice[lsa] = v` is
not `VSA_NONE` and `VirtualSlice[v] = lsa`, the call clears the forward entry of
`lsa`, raises `invalidSliceCnt` of block `(Vsa2Vdie v, Vsa2Vblock v)` by exactly
one and changes no other field of that block, calls
`SelectiveGetFromGcVictimList` and then `PutToGcVictimList` for that block, the
latter with the new count, and leaves the reverse map (the entry of `v`
included), every other forward entry, every other block, the die table, both
cursor arrays and all remaining variables as they were. -/
theorem InvalidateOldVsa_live (cfg : Config) (s : State) (lsa : Nat)
    (hv : s.logicalSlice lsa ≠ cfg.VSA_NONE)
    (hc : s.virtualSlice (s.logicalSlice lsa) = lsa) :
    (InvalidateOldVsa cfg s lsa).logicalSlice lsa = cfg.VSA_NONE ∧
    ((InvalidateOldVsa cfg s lsa).block (cfg.Vsa2VdieTranslation (s.logicalSlice lsa))
        (cfg.Vsa2VblockTranslation (s.logicalSlice lsa))).invalidSliceCnt =
      (s.block (cfg.Vsa2VdieTranslation (s.logicalSlice lsa))
        (cfg.Vsa2VblockTranslation (s.logicalSlice lsa))).invalidSliceCnt + 1 ∧
    (InvalidateOldVsa cfg s lsa).gcLog = s.gcLog ++
      [GcCall.selectiveGet (cfg.Vsa2VdieTranslation (s.logicalSlice lsa))
        (cfg.Vsa2VblockTranslation (s.logicalSlice lsa)),
       GcCall.put (cfg.Vsa2VdieTranslation (s.logicalSlice lsa))
        (cfg.Vsa2VblockTranslation (s.logicalSlice lsa))
        ((s.block (cfg.Vsa2VdieTranslation (s.logicalSlice lsa))
          (cfg.Vsa2VblockTranslation (s.logicalSlice lsa))).invalidSliceCnt + 1)] ∧
    (InvalidateOldVsa cfg s lsa).virtualSlice = s.virtualSlice ∧
    (∀ l, l ≠ lsa → (InvalidateOldVsa cfg s lsa).logicalSlice l = s.logicalSlice l) ∧
    (∀ d b, ¬ (d = cfg.Vsa2VdieTranslation (s.logicalSlice lsa) ∧
        b = cfg.Vsa2VblockTranslation (s.logicalSlice lsa)) →
      (InvalidateOldVsa cfg s lsa).block d b = s.block d b) ∧
    (InvalidateOldVsa cfg s lsa).block (cfg.Vsa2VdieTranslation (s.logicalSlice lsa))
        (cfg.Vsa2VblockTranslation (s.logicalSlice lsa)) =
      { s.block (cfg.Vsa2VdieTranslation (s.logicalSlice lsa))
          (cfg.Vsa2VblockTranslation (s.logicalSlice lsa)) with
        invalidSliceCnt := (s.block (cfg.Vsa2VdieTranslation (s.logicalSlice lsa))
          (cfg.Vsa2VblockTranslation (s.logicalSlice lsa))).invalidSliceCnt + 1 } ∧
    (InvalidateOldVsa cfg s lsa).logicalBlockBaseVsa = s.logicalBlockBaseVsa ∧
    (InvalidateOldVsa cfg s lsa).logicalBlockNextOffset = s.logicalBlockNextOffset ∧
    (InvalidateOldVsa cfg s lsa).die = s.die ∧
    (InvalidateOldVsa cfg s lsa).phyBlock = s.phyBlock ∧
    (InvalidateOldVsa cfg s lsa).sliceAllocationTargetDie = s.sliceAllocationTargetDie ∧
    (InvalidateOldVsa cfg s lsa).targetCh = s.targetCh ∧
    (InvalidateOldVsa cfg s lsa).targetWay = s.targetWay ∧
    (InvalidateOldVsa cfg s lsa).reqLog = s.reqLog := by
  rw [InvalidateOldVsa_eq cfg s lsa hv hc]
  refine ⟨by simp, by simp, rfl, rfl, ?_, ?_, by simp, rfl, rfl, rfl, rfl, rfl, rfl, rfl, rfl⟩
  · intro l hl
    simp [upd_apply, hl]
  · intro d b hdb
    simp only [upd2_apply]
    rw [if_neg hdb]

set_option maxRecDepth 100000 in
theorem InvalidateOldVsa_live_witness :
    (InvalidateOldVsa scenario (writeAllState Collector.stop 2 scenario scenarioBoot [0, 1]) 1).logicalSlice 1 =
      scenario.VSA_NONE ∧
    ((InvalidateOldVsa scenario (writeAllState Collector.stop 2 scenario scenarioBoot [0, 1]) 1).block 0
      1).invalidSliceCnt = 1 ∧
    (InvalidateOldVsa scenario (writeAllState Collector.stop 2 scenario scenarioBoot [0, 1]) 1).gcLog =
      [GcCall.selectiveGet 0 1, GcCall.put 0 1 1] ∧
    (InvalidateOldVsa scenario (writeAllState Collector.stop 2 scenario scenarioBoot [0, 1]) 1).virtualSlice 20 =
      1 :=
  have h := InvalidateOldVsa_live scenario (writeAllState Collector.stop 2 scenario scenarioBoot [0, 1]) 1
    (by decide) (by decide)
  ⟨h.1, h.2.1, h.2.2.1, by rw [h.2.2.2.1]; decide⟩

theorem mappedInto_succ (cfg : Config) (s : State) (lblk d b n : Nat) :
    mappedInto cfg s lblk d b (n + 1) = mappedInto cfg s lblk d b n +
      (if s.logicalSlice (lblk * cfg.SLICES_PER_BLOCK + n) ≠ cfg.VSA_NONE ∧
          cfg.Vsa2VdieTranslation (s.logicalSlice (lblk * cfg.SLICES_PER_BLOCK + n)) = d ∧
          cfg.Vsa2VblockTranslation (s.logicalSlice (lblk * cfg.SLICES_PER_BLOCK + n)) = b
        then 1 else 0) := by
  simp only [mappedInto, List.range_succ, List.filter_append, List.length_append]
  congr 1
  split_ifs with h
  · simp [List.filter, h]
  · simp [List.filter, h]

/-- The loop of `InvalidateOldVsaBlock` after `n` iterations, on a logical
block whose mapped LSAs are reverse-coherent. -/
theorem InvalidateOldVsaBlock_loop (cfg : Config) (s : State) (lblk : Nat)
    (hcoh : ∀ k, k < cfg.SLICES_PER_BLOCK →
      s.logicalSlice (lblk * cfg.SLICES_PER_BLOCK + k) ≠ cfg.VSA_NONE →
      s.virtualSlice (s.logicalSlice (lblk * cfg.SLICES_PER_BLOCK + k)) =
        lblk * cfg.SLICES_PER_BLOCK + k)
    (n : Nat) (hn : n ≤ cfg.SLICES_PER_BLOCK) :
    (forLoop n (fun offset t =>
        InvalidateOldVsa cfg t (lblk * cfg.SLICES_PER_BLOCK + offset)) s).virtualSlice =
      s.virtualSlice ∧
    (∀ l, (forLoop n (fun offset t =>
        InvalidateOldVsa cfg t (lblk * cfg.SLICES_PER_BLOCK + offset)) s).logicalSlice l =
      if lblk * cfg.SLICES_PER_BLOCK ≤ l ∧ l < lblk * cfg.SLICES_PER_BLOCK + n then cfg.VSA_NONE
      else s.logicalSlice l) ∧
    (∀ d b, ((forLoop n (fun offset t =>
        InvalidateOldVsa cfg t (lblk * cfg.SLICES_PER_BLOCK + offset)) s).block d
          b).invalidSliceCnt =
      (s.block d b).invalidSliceCnt + mappedInto cfg s lblk d b n) ∧
    (forLoop n (fun offset t =>
        InvalidateOldVsa cfg t (lblk * cfg.SLICES_PER_BLOCK + offset)) s).logicalBlockBaseVsa =
      s.logicalBlockBaseVsa ∧
    (forLoop n (fun offset t =>
        InvalidateOldVsa cfg t (lblk * cfg.SLICES_PER_BLOCK + offset)) s).logicalBlockNextOffset =
      s.logicalBlockNextOffset := by
  induction n with
  | zero =>
    refine ⟨rfl, fun l => ?_, fun d b => ?_, rfl, rfl⟩
    · have : ¬ (lblk * cfg.SLICES_PER_BLOCK ≤ l ∧ l < lblk * cfg.SLICES_PER_BLOCK + 0) := by omega
      rw [if_neg this]
      rfl
    · simp [mappedInto]
  | succ k ih =>
    obtain ⟨h1, h2, h3, h4, h5⟩ := ih (Nat.le_of_succ_le hn)
    rw [forLoop_succ]
    generalize forLoop k (fun offset t =>
        InvalidateOldVsa cfg t (lblk * cfg.SLICES_PER_BLOCK + offset)) s = t at h1 h2 h3 h4 h5
    have hk : k < cfg.SLICES_PER_BLOCK := hn
    have ht : t.logicalSlice (lblk * cfg.SLICES_PER_BLOCK + k) =
        s.logicalSlice (lblk * cfg.SLICES_PER_BLOCK + k) := by
      rw [h2]
      have : ¬ (lblk * cfg.SLICES_PER_BLOCK ≤ lblk * cfg.SLICES_PER_BLOCK + k ∧
          lblk * cfg.SLICES_PER_BLOCK + k < lblk * cfg.SLICES_PER_BLOCK + k) := by omega
      simp [this]
    by_cases hm : s.logicalSlice (lblk * cfg.SLICES_PER_BLOCK + k) = cfg.VSA_NONE
    · rw [InvalidateOldVsa_skip cfg t _ (Or.inl (by rw [ht]; exact hm))]
      refine ⟨h1, fun l => ?_, fun d b => ?_, h4, h5⟩
      · rw [h2]
        by_cases e : l = lblk * cfg.SLICES_PER_BLOCK + k
        · subst e
          have a : ¬ (lblk * cfg.SLICES_PER_BLOCK ≤ lblk * cfg.SLICES_PER_BLOCK + k ∧
              lblk * cfg.SLICES_PER_BLOCK + k < lblk * cfg.SLICES_PER_BLOCK + k) := by omega
          have b : lblk * cfg.SLICES_PER_BLOCK ≤ lblk * cfg.SLICES_PER_BLOCK + k ∧
              lblk * cfg.SLICES_PER_BLOCK + k < lblk * cfg.SLICES_PER_BLOCK + (k + 1) := by omega
          rw [if_neg a, if_pos b]
          exact hm
        · have : (lblk * cfg.SLICES_PER_BLOCK ≤ l ∧ l < lblk * cfg.SLICES_PER_BLOCK + (k + 1)) ↔
              (lblk * cfg.SLICES_PER_BLOCK ≤ l ∧ l < lblk * cfg.SLICES_PER_BLOCK + k) := by omega
          simp only [this]
      · rw [h3, mappedInto_succ]
        simp [hm]
    · have hc := hcoh k hk hm
      have hm' : t.logicalSlice (lblk * cfg.SLICES_PER_BLOCK + k) ≠ cfg.VSA_NONE := by
        rw [ht]; exact hm
      have hc' : t.virtualSlice (t.logicalSlice (lblk * cfg.SLICES_PER_BLOCK + k)) =
          lblk * cfg.SLICES_PER_BLOCK + k := by rw [h1, ht]; exact hc
      rw [InvalidateOldVsa_eq cfg t _ hm' hc']
      refine ⟨h1, fun l => ?_, fun d b => ?_, h4, h5⟩
      · simp only [upd_apply]
        by_cases e : l = lblk * cfg.SLICES_PER_BLOCK + k
        · subst e
          have b : lblk * cfg.SLICES_PER_BLOCK ≤ lblk * cfg.SLICES_PER_BLOCK + k ∧
              lblk * cfg.SLICES_PER_BLOCK + k < lblk * cfg.SLICES_PER_BLOCK + (k + 1) := by omega
          simp [b]
        · have : (lblk * cfg.SLICES_PER_BLOCK ≤ l ∧ l < lblk * cfg.SLICES_PER_BLOCK + (k + 1)) ↔
              (lblk * cfg.SLICES_PER_BLOCK ≤ l ∧ l < lblk * cfg.SLICES_PER_BLOCK + k) := by omega
          simp only [e, ↓reduceIte, this]
          exact h2 l
      · rw [mappedInto_succ, ht]
        simp only [upd2_apply]
        by_cases e : d = cfg.Vsa2VdieTranslation (s.logicalSlice (lblk * cfg.SLICES_PER_BLOCK + k)) ∧
            b = cfg.Vsa2VblockTranslation (s.logicalSlice (lblk * cfg.SLICES_PER_BLOCK + k))
        · obtain ⟨e1, e2⟩ := e
          subst e1 e2
          simp only [and_self, ↓reduceIte, ne_eq, hm, not_false_eq_true, and_true]
          rw [h3]
          omega
        · have e' : ¬ (cfg.Vsa2VdieTranslation (s.logicalSlice (lblk * cfg.SLICES_PER_BLOCK + k)) = d ∧
              cfg.Vsa2VblockTranslation (s.logicalSlice (lblk * cfg.SLICES_PER_BLOCK + k)) = b) :=
            fun h => e ⟨h.1.symm, h.2.symm⟩
          simp only [e, ↓reduceIte, ne_eq, hm, not_false_eq_true, e', and_false, true_and,
            Nat.add_zero]
          rw [h3]

/-- C15. `InvalidateOldVsaBlock(lblk)` for `lblk < LOGICAL_BLOCKS_PER_SSD`, in a
state where every mapped LSA of `lblk` is reverse-coherent (the LSAs of the
logical blocks are taken to lie below `SLICES_PER_SSD`).  Afterwards
`AddrTransRead` returns `VSA_FAIL` for each of the `SLICES_PER_BLOCK` LSAs
`lblk * SLICES_PER_BLOCK + k`; `invalidSliceCnt` of every virtual block has
grown by the number of LSAs of `lblk` that were mapped into it; the cursor of
`lblk` is `(VSA_NONE, 0)`; the forward entries of the LSAs of other logical
blocks and the cursors of other logical blocks are unchanged. -/
theorem InvalidateOldVsaBlock_spec (cfg : Config)
    (hcap : cfg.LOGICAL_BLOCKS_PER_SSD * cfg.SLICES_PER_BLOCK ≤ cfg.SLICES_PER_SSD)
    (s : State) (lblk : Nat) (hl : lblk < cfg.LOGICAL_BLOCKS_PER_SSD)
    (hcoh : ∀ k, k < cfg.SLICES_PER_BLOCK →
      s.logicalSlice (lblk * cfg.SLICES_PER_BLOCK + k) ≠ cfg.VSA_NONE →
      s.virtualSlice (s.logicalSlice (lblk * cfg.SLICES_PER_BLOCK + k)) =
        lblk * cfg.SLICES_PER_BLOCK + k) :
    (∀ k, k < cfg.SLICES_PER_BLOCK →
      AddrTransRead cfg (InvalidateOldVsaBlock cfg s lblk) (lblk * cfg.SLICES_PER_BLOCK + k) =
        .ok (cfg.VSA_FAIL, InvalidateOldVsaBlock cfg s lblk)) ∧
    (∀ d b, ((InvalidateOldVsaBlock cfg s lblk).block d b).invalidSliceCnt =
      (s.block d b).invalidSliceCnt + mappedInto cfg s lblk d b cfg.SLICES_PER_BLOCK) ∧
    (InvalidateOldVsaBlock cfg s lblk).logicalBlockBaseVsa lblk = cfg.VSA_NONE ∧
    (InvalidateOldVsaBlock cfg s lblk).logicalBlockNextOffset lblk = 0 ∧
    (∀ l, AddrToBlock cfg l ≠ lblk →
      (InvalidateOldVsaBlock cfg s lblk).logicalSlice l = s.logicalSlice l) ∧
    (∀ lb, lb ≠ lblk →
      (InvalidateOldVsaBlock cfg s lblk).logicalBlockBaseVsa lb = s.logicalBlockBaseVsa lb ∧
      (InvalidateOldVsaBlock cfg s lblk).logicalBlockNextOffset lb =
        s.logicalBlockNextOffset lb) := by
  obtain ⟨h1, h2, h3, h4, h5⟩ :=
    InvalidateOldVsaBlock_loop cfg s lblk hcoh cfg.SLICES_PER_BLOCK (Nat.le_refl _)
  have hE : InvalidateOldVsaBlock cfg s lblk =
      { forLoop cfg.SLICES_PER_BLOCK (fun offset t =>
          InvalidateOldVsa cfg t (lblk * cfg.SLICES_PER_BLOCK + offset)) s with
        logicalBlockBaseVsa := upd s.logicalBlockBaseVsa lblk cfg.VSA_NONE
        logicalBlockNextOffset := upd s.logicalBlockNextOffset lblk 0 } := by
    simp only [InvalidateOldVsaBlock, hl, ↓reduceIte, h4, h5]
  generalize forLoop cfg.SLICES_PER_BLOCK (fun offset t =>
    InvalidateOldVsa cfg t (lblk * cfg.SLICES_PER_BLOCK + offset)) s = t at h1 h2 h3 h4 h5 hE
  rw [hE]
  refine ⟨?_, fun d b => h3 d b, by simp, by simp, ?_, ?_⟩
  · intro k hk
    have hlt : lblk * cfg.SLICES_PER_BLOCK + k < cfg.SLICES_PER_SSD := by
      have : (lblk + 1) * cfg.SLICES_PER_BLOCK ≤
          cfg.LOGICAL_BLOCKS_PER_SSD * cfg.SLICES_PER_BLOCK :=
        Nat.mul_le_mul_right _ hl
      rw [Nat.add_mul] at this
      omega
    have hno : t.logicalSlice (lblk * cfg.SLICES_PER_BLOCK + k) = cfg.VSA_NONE := by
      rw [h2]
      have : lblk * cfg.SLICES_PER_BLOCK ≤ lblk * cfg.SLICES_PER_BLOCK + k ∧
          lblk * cfg.SLICES_PER_BLOCK + k < lblk * cfg.SLICES_PER_BLOCK + cfg.SLICES_PER_BLOCK := by
        omega
      simp [this]
    simp [AddrTransRead, hlt, hno]
  · intro l hne
    show t.logicalSlice l = s.logicalSlice l
    rw [h2]
    have : ¬ (lblk * cfg.SLICES_PER_BLOCK ≤ l ∧
        l < lblk * cfg.SLICES_PER_BLOCK + cfg.SLICES_PER_BLOCK) := by
      rintro ⟨a, b⟩
      apply hne
      have hb : l - lblk * cfg.SLICES_PER_BLOCK < cfg.SLICES_PER_BLOCK := by omega
      have := AddrToBlock_add cfg lblk (l - lblk * cfg.SLICES_PER_BLOCK) hb
      rwa [Nat.add_sub_cancel' a] at this
    simp [this]
  · intro lb hne
    simp [upd_apply, hne]

set_option maxRecDepth 100000 in
theorem InvalidateOldVsaBlock_spec_witness :
    (∀ k, k < 4 →
      AddrTransRead scenario
        (InvalidateOldVsaBlock scenario (writeAllState Collector.stop 2 scenario scenarioBoot [0, 1, 0]) 0)
        (0 * 4 + k) =
        .ok (scenario.VSA_FAIL,
          InvalidateOldVsaBlock scenario (writeAllState Collector.stop 2 scenario scenarioBoot [0, 1, 0]) 0)) ∧
    ((InvalidateOldVsaBlock scenario (writeAllState Collector.stop 2 scenario scenarioBoot [0, 1, 0]) 0).block 0
      1).invalidSliceCnt = 3 :=
  have h := InvalidateOldVsaBlock_spec scenario (by decide)
    (writeAllState Collector.stop 2 scenario scenarioBoot [0, 1, 0]) 0 (by decide) (by decide)
  ⟨h.1, by rw [h.2.1]; decide⟩

/-! ## InitBlockMap, field by field -/

/-- `PutToFbList` leaves every block other than the new node and the old tail. -/
theorem PutToFbList_block_other (cfg : Config) (s : State) (d b x : Nat)
    (hx : x ≠ b) (ht : x ≠ (s.die d).tailFreeBlock) :
    (PutToFbList cfg s d b).block d x = s.block d x := by
  unfold PutToFbList
  by_cases h : (s.die d).tailFreeBlock = cfg.BLOCK_NONE
  · simp [h, State.setBlock, State.setDie, upd2_apply, hx]
  · simp [h, State.setBlock, State.setDie, upd2_apply, hx, ht]

/-- One iteration of the inner loop of `InitBlockMap`: the entry of the block
it visits, and what happens to the other blocks of the die. -/
theorem InitBlockMap_body_fields (cfg : Config) (d k : Nat) (t : State) :
    ((InitBlockMap.body cfg d k t).block d k).bad = resolvedBad cfg t d k ∧
    ((InitBlockMap.body cfg d k t).block d k).free = 1 ∧
    ((InitBlockMap.body cfg d k t).block d k).invalidSliceCnt = 0 ∧
    ((InitBlockMap.body cfg d k t).block d k).currentPage = 0 ∧
    ((InitBlockMap.body cfg d k t).block d k).eraseCnt = 0 ∧
    (resolvedBad cfg t d k ≠ 0 →
      ((InitBlockMap.body cfg d k t).block d k).prevBlock = cfg.BLOCK_NONE ∧
      ((InitBlockMap.body cfg d k t).block d k).nextBlock = cfg.BLOCK_NONE) ∧
    (∀ x, x ≠ k →
      ((InitBlockMap.body cfg d k t).block d x).bad = (t.block d x).bad ∧
      ((InitBlockMap.body cfg d k t).block d x).free = (t.block d x).free ∧
      ((InitBlockMap.body cfg d k t).block d x).invalidSliceCnt = (t.block d x).invalidSliceCnt ∧
      ((InitBlockMap.body cfg d k t).block d x).currentPage = (t.block d x).currentPage ∧
      ((InitBlockMap.body cfg d k t).block d x).eraseCnt = (t.block d x).eraseCnt) ∧
    (∀ x, x ≠ k → x ≠ (t.die d).tailFreeBlock →
      (InitBlockMap.body cfg d k t).block d x = t.block d x) := by
  unfold InitBlockMap.body
  simp only [ResetBlockCurrentPage, State.setBlock, upd2_same]
  have hbad : (t.phyBlock d
      (t.phyBlock d (cfg.Vblock2PblockOfTbsTranslation k)).remappedPhyBlock).bad =
      resolvedBad cfg t d k := rfl
  rw [hbad]
  by_cases hb : resolvedBad cfg t d k = 0
  · simp only [hb, ne_eq, not_true_eq_false, ↓reduceIte, false_implies, true_and]
    refine ⟨?_, ?_, ?_, ?_, ?_, ?_, ?_⟩
    · rw [(PutToFbList_fields cfg _ d k d k).1]; simp [hb]
    · rw [(PutToFbList_fields cfg _ d k d k).2.1]; simp [hb]
    · rw [(PutToFbList_fields cfg _ d k d k).2.2.1]; simp [hb]
    · rw [(PutToFbList_fields cfg _ d k d k).2.2.2.2.1]; simp [hb]
    · rw [(PutToFbList_fields cfg _ d k d k).2.2.2.1]; simp [hb]
    · intro x hx
      obtain ⟨f1, f2, f3, f4, f5, _⟩ := PutToFbList_fields cfg
        { t with block := upd2 (upd2 (upd2 (upd2 (upd2 t.block d k _) d k _) d k _) d k _) d k _ }
        d k d x
      rw [f1, f2, f3, f4, f5]
      simp [upd2_apply, hx]
    · intro x hx hxt
      rw [PutToFbList_block_other cfg _ d k x hx (by exact hxt)]
      simp [upd2_apply, hx]
  · simp only [hb, ne_eq, not_false_eq_true, ↓reduceIte]
    refine ⟨by simp, by simp, by simp, by simp, by simp, fun _ => ⟨by simp, by simp⟩, ?_, ?_⟩
    · intro x hx
      simp [upd2_apply, hx]
    · intro x hx _
      simp [upd2_apply, hx]

/-- The inner loop of `InitBlockMap` on die `d`, started on an empty list. -/
theorem InitBlockMap_inner (cfg : Config) (hw : cfg.USER_BLOCKS_PER_DIE ≤ cfg.BLOCK_NONE)
    (s t0 : State) (d : Nat) (hphy : t0.phyBlock = s.phyBlock) (h0 : FreeListIs cfg t0 d [])
    (n : Nat) (hn : n ≤ cfg.USER_BLOCKS_PER_DIE) :
    (forLoop n (InitBlockMap.body cfg d) t0).phyBlock = s.phyBlock ∧
    FreeListIs cfg (forLoop n (InitBlockMap.body cfg d) t0) d (goodBlocks cfg s d n) ∧
    (∀ vb, vb < n →
      ((forLoop n (InitBlockMap.body cfg d) t0).block d vb).bad = resolvedBad cfg s d vb ∧
      ((forLoop n (InitBlockMap.body cfg d) t0).block d vb).free = 1 ∧
      ((forLoop n (InitBlockMap.body cfg d) t0).block d vb).invalidSliceCnt = 0 ∧
      ((forLoop n (InitBlockMap.body cfg d) t0).block d vb).currentPage = 0 ∧
      ((forLoop n (InitBlockMap.body cfg d) t0).block d vb).eraseCnt = 0 ∧
      (resolvedBad cfg s d vb ≠ 0 →
        ((forLoop n (InitBlockMap.body cfg d) t0).block d vb).prevBlock = cfg.BLOCK_NONE ∧
        ((forLoop n (InitBlockMap.body cfg d) t0).block d vb).nextBlock = cfg.BLOCK_NONE)) := by
  induction n with
  | zero =>
    exact ⟨hphy, by simpa [goodBlocks] using h0, fun vb hvb => absurd hvb (Nat.not_lt_zero _)⟩
  | succ k ih =>
    obtain ⟨h1, h2, h3⟩ := ih (Nat.le_of_succ_le hn)
    rw [forLoop_succ]
    generalize forLoop k (InitBlockMap.body cfg d) t0 = t at h1 h2 h3
    have hk : k < cfg.USER_BLOCKS_PER_DIE := hn
    obtain ⟨f1, f2, f3, f4, f5, f6, f7, f8⟩ := InitBlockMap_body_fields cfg d k t
    have hres : resolvedBad cfg t d k = resolvedBad cfg s d k := by
      simp only [resolvedBad, h1]
    refine ⟨by rw [(InitBlockMap_body_frame cfg d k t).1, h1],
      InitBlockMap_body_list cfg hw s t d k h1 hk h2, ?_⟩
    intro vb hvb
    by_cases e : vb = k
    · subst e
      exact ⟨by rw [f1, hres], f2, f3, f4, f5, fun hb => f6 (by rw [hres]; exact hb)⟩
    · have hlt : vb < k := by omega
      obtain ⟨g1, g2, g3, g4, g5, g6⟩ := h3 vb hlt
      obtain ⟨e1, e2, e3, e4, e5⟩ := f7 vb e
      refine ⟨by rw [e1, g1], by rw [e2, g2], by rw [e3, g3], by rw [e4, g4], by rw [e5, g5], ?_⟩
      intro hb
      have hnt : vb ≠ (t.die d).tailFreeBlock := by
        rw [h2.tail]
        intro h
        by_cases hnil : goodBlocks cfg s d k = []
        · rw [hnil] at h
          simp only [lastOr_nil] at h
          omega
        · have hm := lastOr_mem cfg hnil
          rw [← h] at hm
          simp only [goodBlocks, List.mem_filter, List.mem_range, decide_eq_true_eq] at hm
          exact hb hm.2
      rw [f8 vb e hnt]
      exact g6 hb

/-- The block table of a die after `InitBlockMap`, run on empty lists. -/
theorem InitBlockMap_table (cfg : Config) (hw : cfg.USER_BLOCKS_PER_DIE ≤ cfg.BLOCK_NONE)
    (s : State) (hempty : ∀ d, d < cfg.USER_DIES → FreeListIs cfg s d []) :
    ∀ d, d < cfg.USER_DIES → ∀ vb, vb < cfg.USER_BLOCKS_PER_DIE →
      ((InitBlockMap cfg s).block d vb).bad = resolvedBad cfg s d vb ∧
      ((InitBlockMap cfg s).block d vb).free = 1 ∧
      ((InitBlockMap cfg s).block d vb).invalidSliceCnt = 0 ∧
      ((InitBlockMap cfg s).block d vb).currentPage = 0 ∧
      ((InitBlockMap cfg s).block d vb).eraseCnt = 0 ∧
      (resolvedBad cfg s d vb ≠ 0 →
        ((InitBlockMap cfg s).block d vb).prevBlock = cfg.BLOCK_NONE ∧
        ((InitBlockMap cfg s).block d vb).nextBlock = cfg.BLOCK_NONE) := by
  have frame : ∀ (t0 : State) (d n : Nat),
      ∀ d', d' ≠ d →
        (forLoop n (InitBlockMap.body cfg d) t0).die d' = t0.die d' ∧
        (forLoop n (InitBlockMap.body cfg d) t0).block d' = t0.block d' := by
    intro t0 d n
    induction n with
    | zero => intro d' _; exact ⟨rfl, rfl⟩
    | succ k ih =>
      intro d' hd'
      rw [forLoop_succ]
      obtain ⟨g1, g2⟩ := (InitBlockMap_body_frame cfg d k _).2 d' hd'
      obtain ⟨g3, g4⟩ := ih d' hd'
      exact ⟨by rw [g1, g3], by rw [g2, g4]⟩
  have phy : ∀ (t0 : State) (d n : Nat),
      (forLoop n (InitBlockMap.body cfg d) t0).phyBlock = t0.phyBlock := by
    intro t0 d n
    induction n with
    | zero => rfl
    | succ k ih => rw [forLoop_succ, (InitBlockMap_body_frame cfg d k _).1, ih]
  have outer : ∀ n, n ≤ cfg.USER_DIES →
      (forLoop n (fun dieNo t =>
        forLoop cfg.USER_BLOCKS_PER_DIE (InitBlockMap.body cfg dieNo) t) s).phyBlock =
        s.phyBlock ∧
      (∀ d, n ≤ d → d < cfg.USER_DIES →
        FreeListIs cfg (forLoop n (fun dieNo t =>
          forLoop cfg.USER_BLOCKS_PER_DIE (InitBlockMap.body cfg dieNo) t) s) d []) ∧
      (∀ d, d < n → ∀ vb, vb < cfg.USER_BLOCKS_PER_DIE →
        ((forLoop n (fun dieNo t =>
          forLoop cfg.USER_BLOCKS_PER_DIE (InitBlockMap.body cfg dieNo) t) s).block d vb).bad =
          resolvedBad cfg s d vb ∧
        ((forLoop n (fun dieNo t =>
          forLoop cfg.USER_BLOCKS_PER_DIE (InitBlockMap.body cfg dieNo) t) s).block d vb).free =
          1 ∧
        ((forLoop n (fun dieNo t =>
          forLoop cfg.USER_BLOCKS_PER_DIE (InitBlockMap.body cfg dieNo) t) s).block d
            vb).invalidSliceCnt = 0 ∧
        ((forLoop n (fun dieNo t =>
          forLoop cfg.USER_BLOCKS_PER_DIE (InitBlockMap.body cfg dieNo) t) s).block d
            vb).currentPage = 0 ∧
        ((forLoop n (fun dieNo t =>
          forLoop cfg.USER_BLOCKS_PER_DIE (InitBlockMap.body cfg dieNo) t) s).block d
            vb).eraseCnt = 0 ∧
        (resolvedBad cfg s d vb ≠ 0 →
          ((forLoop n (fun dieNo t =>
            forLoop cfg.USER_BLOCKS_PER_DIE (InitBlockMap.body cfg dieNo) t) s).block d
              vb).prevBlock = cfg.BLOCK_NONE ∧
          ((forLoop n (fun dieNo t =>
            forLoop cfg.USER_BLOCKS_PER_DIE (InitBlockMap.body cfg dieNo) t) s).block d
              vb).nextBlock = cfg.BLOCK_NONE)) := by
    intro n
    induction n with
    | zero =>
      intro _
      exact ⟨rfl, fun d _ hd => hempty d hd, fun d hd => absurd hd (Nat.not_lt_zero d)⟩
    | succ k ih =>
      intro hk
      obtain ⟨h1, h2, h3⟩ := ih (Nat.le_of_succ_le hk)
      rw [forLoop_succ]
      generalize forLoop k (fun dieNo t =>
        forLoop cfg.USER_BLOCKS_PER_DIE (InitBlockMap.body cfg dieNo) t) s = t at h1 h2 h3
      obtain ⟨i1, _, i3⟩ := InitBlockMap_inner cfg hw s t k h1 (h2 k (Nat.le_refl k) hk)
        cfg.USER_BLOCKS_PER_DIE (Nat.le_refl _)
      refine ⟨i1, ?_, ?_⟩
      · intro d hd hd'
        have hdk : d ≠ k := by omega
        obtain ⟨j1, j2⟩ := frame t k cfg.USER_BLOCKS_PER_DIE d hdk
        exact FreeListIs_congr cfg _ _ d _ j1 (fun b _ => by rw [j2]) (h2 d (by omega) hd')
      · intro d hd vb hvb
        by_cases hdk : d = k
        · subst hdk
          exact i3 vb hvb
        · obtain ⟨_, j2⟩ := frame t k cfg.USER_BLOCKS_PER_DIE d hdk
          rw [j2]
          exact h3 d (by omega) vb hvb
  exact (outer cfg.USER_DIES (Nat.le_refl _)).2.2

/-- C16. `InitBlockMap`, run after `InitDieMap`.  Every virtual block `vb` of
every die gets `bad` from `phyBlock[die][phyBlock[die][Vblock2PblockOfTbs(vb)]
.remappedPhyBlock].bad`, and `invalidSliceCnt = 0`, `currentPage = 0` (lock and
count), `eraseCnt = 0` (and `free = 1`).  Afterwards the free list of the die
is the list of its virtual blocks that are not bad, in ascending order,
`freeBlockCnt` is the length of that list, and every bad virtual block is off
the list with `prevBlock = nextBlock = BLOCK_NONE`. -/
theorem InitBlockMap_spec (cfg : Config) (hw : cfg.USER_BLOCKS_PER_DIE ≤ cfg.BLOCK_NONE)
    (s : State) (d : Nat) (hd : d < cfg.USER_DIES) :
    (∀ vb, vb < cfg.USER_BLOCKS_PER_DIE →
      ((InitBlockMap cfg (InitDieMap cfg s)).block d vb).bad =
        (s.phyBlock d
          (s.phyBlock d (cfg.Vblock2PblockOfTbsTranslation vb)).remappedPhyBlock).bad ∧
      ((InitBlockMap cfg (InitDieMap cfg s)).block d vb).invalidSliceCnt = 0 ∧
      ((InitBlockMap cfg (InitDieMap cfg s)).block d vb).currentPage = 0 ∧
      ((InitBlockMap cfg (InitDieMap cfg s)).block d vb).eraseCnt = 0 ∧
      ((InitBlockMap cfg (InitDieMap cfg s)).block d vb).free = 1) ∧
    FreeListIs cfg (InitBlockMap cfg (InitDieMap cfg s)) d
      ((List.range cfg.USER_BLOCKS_PER_DIE).filter
        (fun vb => ((InitBlockMap cfg (InitDieMap cfg s)).block d vb).bad = 0)) ∧
    ((InitBlockMap cfg (InitDieMap cfg s)).die d).freeBlockCnt =
      ((List.range cfg.USER_BLOCKS_PER_DIE).filter
        (fun vb => ((InitBlockMap cfg (InitDieMap cfg s)).block d vb).bad = 0)).length ∧
    (∀ vb, vb < cfg.USER_BLOCKS_PER_DIE →
      ((InitBlockMap cfg (InitDieMap cfg s)).block d vb).bad ≠ 0 →
      ¬ OnFreeList cfg (InitBlockMap cfg (InitDieMap cfg s)) d vb ∧
      ((InitBlockMap cfg (InitDieMap cfg s)).block d vb).prevBlock = cfg.BLOCK_NONE ∧
      ((InitBlockMap cfg (InitDieMap cfg s)).block d vb).nextBlock = cfg.BLOCK_NONE) := by
  have hphy : (InitDieMap cfg s).phyBlock = s.phyBlock := by rw [InitDieMap_eq]
  have hres : ∀ vb, resolvedBad cfg (InitDieMap cfg s) d vb =
      (s.phyBlock d (s.phyBlock d (cfg.Vblock2PblockOfTbsTranslation vb)).remappedPhyBlock).bad := by
    intro vb
    simp only [resolvedBad, hphy]
  have htab := InitBlockMap_table cfg hw (InitDieMap cfg s)
    (fun d' hd' => InitDieMap_list cfg s d' hd') d hd
  have hlist := InitBlockMap_list cfg hw (InitDieMap cfg s)
    (fun d' hd' => InitDieMap_list cfg s d' hd') d hd
  have hgood : goodBlocks cfg (InitDieMap cfg s) d cfg.USER_BLOCKS_PER_DIE =
      (List.range cfg.USER_BLOCKS_PER_DIE).filter
        (fun vb => ((InitBlockMap cfg (InitDieMap cfg s)).block d vb).bad = 0) := by
    unfold goodBlocks
    apply List.filter_congr
    intro vb hvb
    rw [(htab vb (List.mem_range.mp hvb)).1]
  rw [hgood] at hlist
  refine ⟨?_, hlist, hlist.count, ?_⟩
  · intro vb hvb
    obtain ⟨g1, g2, g3, g4, g5, _⟩ := htab vb hvb
    exact ⟨by rw [g1, hres], g3, g4, g5, g2⟩
  · intro vb hvb hbad
    obtain ⟨g1, _, _, _, _, g6⟩ := htab vb hvb
    have hb' : resolvedBad cfg (InitDieMap cfg s) d vb ≠ 0 := by rw [← g1]; exact hbad
    refine ⟨?_, g6 hb'⟩
    rw [OnFreeList_iff cfg hw _ d vb _ hlist]
    simp only [List.mem_filter, List.mem_range, decide_eq_true_eq, not_and]
    intro _ h0
    exact hbad h0

set_option maxRecDepth 100000 in
theorem InitBlockMap_spec_witness :
    FreeListIs scenario
      (InitBlockMap scenario (InitDieMap scenario
        { State.blank with phyBlock := fun _ pb => ⟨if pb = 2 then 1 else 0, pb⟩ })) 0
      [0, 1, 3] ∧
    ((InitBlockMap scenario (InitDieMap scenario
        { State.blank with phyBlock := fun _ pb => ⟨if pb = 2 then 1 else 0, pb⟩ })).block 0
      2).bad = 1 :=
  have h := InitBlockMap_spec scenario (by decide)
    { State.blank with phyBlock := fun _ pb => ⟨if pb = 2 then 1 else 0, pb⟩ } 0 (by decide)
  ⟨h.2.1, (h.1 2 (by decide)).1⟩

/-! ## FIFO order of the free list -/

theorem NextChain_congr {cfg : Config} {blk blk' : Nat → VirtualBlock} {l : List Nat}
    (h : ∀ b ∈ l, blk' b = blk b) (hl : NextChain cfg blk l) : NextChain cfg blk' l := by
  induction l with
  | nil => trivial
  | cons a t ih =>
    obtain ⟨h1, h2, h3⟩ := hl
    have ha := h a (List.mem_cons_self _ _)
    exact ⟨h1, by rw [ha]; exact h2, ih (fun b hb => h b (List.mem_cons_of_mem _ hb)) h3⟩

theorem NextChain_ne {cfg : Config} {blk : Nat → VirtualBlock} {l : List Nat}
    (hl : NextChain cfg blk l) : ∀ b ∈ l, b ≠ cfg.BLOCK_NONE := by
  induction l with
  | nil => intro b hb; cases hb
  | cons a t ih =>
    intro b hb
    obtain ⟨h1, _, h3⟩ := hl
    rcases List.mem_cons.mp hb with rfl | hb
    · exact h1
    · exact ih h3 b hb

/-- Appending a node behind the last node of a chain. -/
theorem NextChain_append {cfg : Config} {blk blk' : Nat → VirtualBlock} {b : Nat}
    {l : List Nat} (hl : NextChain cfg blk l) (hnd : l.Nodup) (hne : l ≠ [])
    (hb : b ≠ cfg.BLOCK_NONE) (hbl : b ∉ l) (hnext : (blk' b).nextBlock = cfg.BLOCK_NONE)
    (hlast : (blk' (lastOr cfg l)).nextBlock = b)
    (hother : ∀ x ∈ l, x ≠ lastOr cfg l → blk' x = blk x) :
    NextChain cfg blk' (l ++ [b]) := by
  induction l with
  | nil => exact absurd rfl hne
  | cons a t ih =>
    obtain ⟨h1, h2, h3⟩ := hl
    cases t with
    | nil =>
      simp only [lastOr_singleton] at hlast
      exact ⟨h1, by simpa using hlast, hb, hnext, trivial⟩
    | cons c r =>
      rw [lastOr_cons_cons] at hlast hother
      have hmem : lastOr cfg (c :: r) ∈ c :: r := lastOr_mem cfg (by simp)
      have hane : a ≠ lastOr cfg (c :: r) := by
        intro h
        rw [← h] at hmem
        exact (List.nodup_cons.mp hnd).1 hmem
      have ha := hother a (List.mem_cons_self _ _) hane
      refine ⟨h1, by rw [ha]; exact h2, ?_⟩
      exact ih h3 (List.nodup_cons.mp hnd).2 (by simp)
        (fun h => hbl (List.mem_cons_of_mem _ h)) hlast
        (fun x hx hne => hother x (List.mem_cons_of_mem _ hx) hne)

/-- `PutToFbList` appends a block that is not in the queue. -/
theorem FifoIs_put (cfg : Config) (s : State) (d b : Nat) (l : List Nat)
    (hl : FifoIs cfg s d l) (hb : b ≠ cfg.BLOCK_NONE) (hbl : b ∉ l) :
    FifoIs cfg (PutToFbList cfg s d b) d (l ++ [b]) := by
  obtain ⟨hnd, hhead, htail, hchain⟩ := hl
  have hnd' : (l ++ [b]).Nodup := by
    rw [List.nodup_append]
    exact ⟨hnd, List.nodup_singleton b, by
      intro x hx hx'
      rw [List.mem_singleton] at hx'
      exact hbl (hx' ▸ hx)⟩
  by_cases hne : l = []
  · subst hne
    have ht : (s.die d).tailFreeBlock = cfg.BLOCK_NONE := htail
    refine ⟨hnd', ?_, ?_, ?_⟩
    · rw [PutToFbList_die]; simp [ht]
    · rw [PutToFbList_die]; simp
    · refine ⟨hb, ?_, trivial⟩
      simp [PutToFbList_block_empty cfg s d b ht]
  · have hmem := lastOr_mem cfg hne
    have hlt := NextChain_ne hchain _ hmem
    have ht : (s.die d).tailFreeBlock ≠ cfg.BLOCK_NONE := by rw [htail]; exact hlt
    have htb : (s.die d).tailFreeBlock ≠ b := by
      rw [htail]; intro h; exact hbl (h ▸ hmem)
    refine ⟨hnd', ?_, ?_, ?_⟩
    · rw [PutToFbList_die]
      cases l with
      | nil => exact absurd rfl hne
      | cons a t => simpa [ht] using hhead
    · rw [PutToFbList_die]; simp
    · have hbt : b ≠ (s.die d).tailFreeBlock := fun h => htb h.symm
      apply NextChain_append hchain hnd hne hb hbl
      · simp [PutToFbList_block_tail cfg s d b ht htb, hbt]
      · rw [← htail]
        simp [PutToFbList_block_tail cfg s d b ht htb]
      · intro x hx hxl
        rw [← htail] at hxl
        have hxb : x ≠ b := fun h => hbl (h ▸ hx)
        simp [PutToFbList_block_tail cfg s d b ht htb, hxl, hxb]

/-- Unlinking the head of a queue leaves the rest of the queue. -/
theorem FifoIs_unlink (cfg : Config) (s : State) (d b : Nat) (rest : List Nat)
    (hl : FifoIs cfg s d (b :: rest)) :
    FifoIs cfg (GetFromFbList.unlink cfg s d b).2 d rest := by
  obtain ⟨hnd, hhead, htail, hchain⟩ := hl
  obtain ⟨hb, hnext, hrest⟩ := hchain
  obtain ⟨hbr, hndr⟩ := List.nodup_cons.mp hnd
  cases rest with
  | nil =>
    simp only [headOr_nil] at hnext
    refine ⟨List.nodup_nil, ?_, ?_, trivial⟩
    · rw [unlink_die]; simp [hnext]
    · rw [unlink_die]; simp [hnext]
  | cons c r =>
    simp only [headOr_cons] at hnext
    obtain ⟨hc, hcnext, hr⟩ := hrest
    have hcne : (s.block d b).nextBlock ≠ cfg.BLOCK_NONE := by rw [hnext]; exact hc
    have hcb : c ≠ b := fun h => hbr (h ▸ List.mem_cons_self _ _)
    refine ⟨hndr, ?_, ?_, ?_⟩
    · rw [unlink_die]; simp [hnext]
    · rw [unlink_die]
      simp only [hcne, ne_eq, not_false_eq_true, ↓reduceIte]
      rw [htail, lastOr_cons_cons]
    · refine ⟨hc, ?_, ?_⟩
      · rw [unlink_block_other cfg s d b c hcb]; simp [hnext, hcnext, hc]
      · apply NextChain_congr _ hr
        intro x hx
        have hxb : x ≠ b := fun h => hbr (h ▸ List.mem_cons_of_mem _ hx)
        have hxc : x ≠ c := fun h => (List.nodup_cons.mp hndr).1 (h ▸ hx)
        rw [unlink_block_other cfg s d b x hxb]
        simp [hnext, hxc]

/-- `GetFromFbList` in mode `GET_FREE_BLOCK_GC` on a queue. -/
theorem GetFromFbList_gc_fifo (cfg : Config)
    (hopt : cfg.GET_FREE_BLOCK_NORMAL ≠ cfg.GET_FREE_BLOCK_GC) (s : State) (d : Nat)
    (l : List Nat) (hl : FifoIs cfg s d l) :
    GetFromFbList cfg s d cfg.GET_FREE_BLOCK_GC =
      match l with
      | [] => .ok (cfg.BLOCK_FAIL, s)
      | b :: _ => .ok (b, (GetFromFbList.unlink cfg s d b).2) := by
  have hopt' : cfg.GET_FREE_BLOCK_GC ≠ cfg.GET_FREE_BLOCK_NORMAL := fun h => hopt h.symm
  unfold GetFromFbList
  cases l with
  | nil =>
    have := hl.head
    simp only [headOr_nil] at this
    simp [hopt', this]
  | cons b t =>
    have h1 := hl.head
    simp only [headOr_cons] at h1
    have h2 : b ≠ cfg.BLOCK_NONE := hl.chain.1
    simp only [hopt', ↓reduceIte, h1, h2]
    congr 1

theorem getAll_succ (cfg : Config) (d n : Nat) (s : State) (r : Nat × State)
    (h : GetFromFbList cfg s d cfg.GET_FREE_BLOCK_GC = .ok r) :
    getAll cfg d (n + 1) s = (getAll cfg d n r.2).map (fun q => (r.1 :: q.1, q.2)) := by
  rw [getAll, h]
  dsimp only
  cases hq : getAll cfg d n r.2 <;> simp

/-- Draining a queue: `l.length + 1` successive calls in mode
`GET_FREE_BLOCK_GC` return the blocks of `l` in order and then `BLOCK_FAIL`. -/
theorem getAll_fifo (cfg : Config) (hopt : cfg.GET_FREE_BLOCK_NORMAL ≠ cfg.GET_FREE_BLOCK_GC)
    (d : Nat) (l : List Nat) :
    ∀ s, FifoIs cfg s d l →
      ∃ t, getAll cfg d (l.length + 1) s = some (l ++ [cfg.BLOCK_FAIL], t) := by
  induction l with
  | nil =>
    intro s hl
    refine ⟨s, ?_⟩
    rw [List.length_nil, getAll_succ cfg d 0 s _ (GetFromFbList_gc_fifo cfg hopt s d [] hl)]
    rfl
  | cons b rest ih =>
    intro s hl
    obtain ⟨t, ht⟩ := ih _ (FifoIs_unlink cfg s d b rest hl)
    refine ⟨t, ?_⟩
    rw [List.length_cons,
      getAll_succ cfg d _ s _ (GetFromFbList_gc_fifo cfg hopt s d (b :: rest) hl), ht]
    rfl

/-- A run of `PutToFbList` calls appends its blocks to the queue. -/
theorem putAll_fifo (cfg : Config) (d : Nat) (bs : List Nat) :
    ∀ s l, FifoIs cfg s d l → (∀ b ∈ bs, b ≠ cfg.BLOCK_NONE) → (l ++ bs).Nodup →
      FifoIs cfg (putAll cfg s d bs) d (l ++ bs) := by
  induction bs with
  | nil =>
    intro s l hl _ _
    simpa [putAll] using hl
  | cons b rest ih =>
    intro s l hl hv hnd
    have hbl : b ∉ l := by
      intro h
      have := List.nodup_append.mp hnd
      exact this.2.2 h (List.mem_cons_self _ _)
    have h1 := FifoIs_put cfg s d b l hl (hv b (List.mem_cons_self _ _)) hbl
    have h2 := ih (PutToFbList cfg s d b) (l ++ [b]) h1
      (fun x hx => hv x (List.mem_cons_of_mem _ hx)) (by simpa using hnd)
    simpa [putAll] using h2

/-- C19. FIFO order of the free list.  Starting from an empty free list of a
die, after `PutToFbList(die, b1)`, .., `PutToFbList(die, bn)` for pairwise
distinct valid blocks, `n + 1` successive `GetFromFbList(die, GET_FREE_BLOCK_GC)`
calls return `b1, .., bn`, in this order, and then `BLOCK_FAIL`.  More
generally, when the list holds the blocks `l` and a valid block `b` that is not
among them is put on it, the next `|l| + 2` calls return the blocks of `l` in
their order, then `b`, then `BLOCK_FAIL`: `b` is returned only after every
block that was on the list before it. -/
theorem free_list_fifo (cfg : Config) (hw : cfg.WellFormed) (d : Nat) :
    (∀ (s : State) (bs : List Nat),
      (s.die d).headFreeBlock = cfg.BLOCK_NONE → (s.die d).tailFreeBlock = cfg.BLOCK_NONE →
      (∀ b ∈ bs, b < cfg.USER_BLOCKS_PER_DIE) → bs.Nodup →
      ∃ t, getAll cfg d (bs.length + 1) (putAll cfg s d bs) =
        some (bs ++ [cfg.BLOCK_FAIL], t)) ∧
    (∀ (s : State) (l : List Nat) (b : Nat), FifoIs cfg s d l →
      b < cfg.USER_BLOCKS_PER_DIE → b ∉ l →
      ∃ t, getAll cfg d (l.length + 2) (PutToFbList cfg s d b) =
        some (l ++ [b, cfg.BLOCK_FAIL], t)) := by
  have hbn := hw.block_none
  refine ⟨?_, ?_⟩
  · intro s bs hh ht hv hnd
    have h0 : FifoIs cfg s d [] := ⟨List.nodup_nil, hh, ht, trivial⟩
    have h1 := putAll_fifo cfg d bs s [] h0 (fun b hb => by have := hv b hb; omega)
      (by simpa using hnd)
    simp only [List.nil_append] at h1
    exact getAll_fifo cfg hw.option_ne d bs _ h1
  · intro s l b hl hb hbl
    have h1 := FifoIs_put cfg s d b l hl (by omega) hbl
    obtain ⟨t, ht⟩ := getAll_fifo cfg hw.option_ne d (l ++ [b]) _ h1
    refine ⟨t, ?_⟩
    simp only [List.length_append, List.length_singleton, List.append_assoc,
      List.singleton_append] at ht
    exact ht

set_option maxRecDepth 100000 in
theorem free_list_fifo_witness :
    ∃ t, getAll scenario 1 (3 + 1) (putAll scenario (InitDieMap scenario State.blank) 1 [2, 0, 3]) =
      some ([2, 0, 3] ++ [scenario.BLOCK_FAIL], t) :=
  (free_list_fifo scenario scenario_wellFormed 1).1 (InitDieMap scenario State.blank) [2, 0, 3]
    (by decide) (by decide) (by decide) (by decide)

/-! ## Slice allocation -/

/-- The block that `FindFreeVirtualSlice` settles on: the current block when it
is unlocked and not full, else the head of the free list, which becomes the
current block. -/
theorem FindFreeVirtualSlice_pick_spec (cfg : Config) (s : State) (d : Nat) (q : Nat × State)
    (h : FindFreeVirtualSlice.pick Collector.stop cfg s d = .ok q) :
    (q = ((s.die d).currentBlock, s) ∧
      GetBlockCurrentPage s d (s.die d).currentBlock < cfg.USER_PAGES_PER_BLOCK ∧
      IsBlockReservedForBlkMapping s d (s.die d).currentBlock = 0) ∨
    ((GetBlockCurrentPage s d (s.die d).currentBlock = cfg.USER_PAGES_PER_BLOCK ∨
        IsBlockReservedForBlkMapping s d (s.die d).currentBlock ≠ 0) ∧
      cfg.RESERVED_FREE_BLOCK_COUNT < (s.die d).freeBlockCnt ∧
      (s.die d).headFreeBlock ≠ cfg.BLOCK_FAIL ∧
      q = ((s.die d).headFreeBlock,
        (GetFromFbList.unlink cfg s d (s.die d).headFreeBlock).2.setDie d
          { (GetFromFbList.unlink cfg s d (s.die d).headFreeBlock).2.die d with
            currentBlock := (s.die d).headFreeBlock })) := by
  unfold FindFreeVirtualSlice.pick at h
  by_cases hc : GetBlockCurrentPage s d (s.die d).currentBlock = cfg.USER_PAGES_PER_BLOCK ∨
      IsBlockReservedForBlkMapping s d (s.die d).currentBlock ≠ 0
  · right
    simp only [hc, ↓reduceIte, GetFromFbList_normal, Outcome.bind_ok] at h
    by_cases hr : (s.die d).freeBlockCnt ≤ cfg.RESERVED_FREE_BLOCK_COUNT
    · simp [hr] at h
    · simp only [hr, ↓reduceIte, (unlink_frame cfg s d _).1] at h
      by_cases hf : (s.die d).headFreeBlock = cfg.BLOCK_FAIL
      · simp [hf] at h
      · simp only [hf, ne_eq, not_false_eq_true, ↓reduceIte, Outcome.ok.injEq] at h
        exact ⟨hc, Nat.lt_of_not_le hr, hf, h.symm⟩
  · left
    simp only [hc, ↓reduceIte] at h
    by_cases hg : GetBlockCurrentPage s d (s.die d).currentBlock > cfg.USER_PAGES_PER_BLOCK
    · simp [hg] at h
    · simp only [hg, ↓reduceIte, Outcome.ok.injEq] at h
      simp only [not_or, not_not] at hc
      exact ⟨h.symm, by omega, hc.2⟩

/-- The tail of `FindFreeVirtualSlice`, after block `q.1` has been chosen in
state `q.2`. -/
theorem FindFreeVirtualSlice_unfold (cfg : Config) (s : State) (r : Nat × State)
    (h : FindFreeVirtualSlice Collector.stop cfg s = .ok r) :
    ∃ q, FindFreeVirtualSlice.pick Collector.stop cfg s s.sliceAllocationTargetDie = .ok q ∧
      r.1 = cfg.Vorg2VsaTranslation s.sliceAllocationTargetDie q.1
        (GetBlockCurrentPage q.2 s.sliceAllocationTargetDie q.1) ∧
      r.2 =
        { q.2 with
          block := upd2 q.2.block s.sliceAllocationTargetDie q.1
            { q.2.block s.sliceAllocationTargetDie q.1 with
              currentPage :=
                (((q.2.block s.sliceAllocationTargetDie q.1).currentPage &&&
                    BLOCK_CUR_PAGE_LOCK_MASK) |||
                  ((GetBlockCurrentPage q.2 s.sliceAllocationTargetDie q.1 + 1) &&&
                    BLOCK_CUR_PAGE_VALUE_MASK)) % 65536 }
          targetCh := (FindDieForFreeSliceAllocation cfg q.2).2.targetCh
          targetWay := (FindDieForFreeSliceAllocation cfg q.2).2.targetWay
          sliceAllocationTargetDie := (FindDieForFreeSliceAllocation cfg q.2).1 % 256 } := by
  unfold FindFreeVirtualSlice at h
  obtain ⟨q, hq, hf⟩ := Outcome.bind_eq_ok h
  refine ⟨q, hq, ?_⟩
  simp only [Outcome.ok.injEq] at hf
  subst hf
  refine ⟨rfl, ?_⟩
  obtain ⟨e1, e2, e3⟩ := FindDie_congr cfg q.2
    (SetBlockCurrentPageCount q.2 s.sliceAllocationTargetDie q.1
      (GetBlockCurrentPage q.2 s.sliceAllocationTargetDie q.1 + 1)) rfl rfl
  simp only
  rw [FindDie_frame, e1, e2, e3]
  rfl

/-- The count field after `SetBlockCurrentPageCount` to `n + 1`, for a count
`n` below `USER_PAGES_PER_BLOCK`. -/
theorem cp_increment (cfg : Config) (hw : cfg.WellFormed) (cp n : Nat)
    (hn : n < cfg.USER_PAGES_PER_BLOCK) :
    (((cp &&& BLOCK_CUR_PAGE_LOCK_MASK) ||| ((n + 1) &&& BLOCK_CUR_PAGE_VALUE_MASK)) % 65536) &&&
      BLOCK_CUR_PAGE_VALUE_MASK = n + 1 := by
  rw [cp_get_set]
  exact Nat.mod_eq_of_lt (by have := hw.pages_le; omega)

/-- A packed field with count 0 and lock 0 is 0 when it fits 16 bits; here:
a zero field has count 0 and lock 0. -/
theorem cp_zero : (0 &&& BLOCK_CUR_PAGE_VALUE_MASK = 0) ∧ (0 &&& BLOCK_CUR_PAGE_LOCK_MASK = 0) := by
  constructor <;> simp

/-- `FindFreeVirtualSlice` when it does not enter the collector.  On a state
whose allocation die `die` has a consistent free list `l` with
`currentPage = 0` on every listed block, a returning call returns
`Vorg2Vsa(die, b, n)`, where `b` is the current block of `die` after the call,
the lock bit of `b` is 0 before and after the call,
`n < USER_PAGES_PER_BLOCK` is the programmed-page count of `b` before the
call, and the count of `b` after the call is `n + 1`.  When the current block
before the call was locked or full, `b` is a different block and the
`currentPage` field of the old block is unchanged.  The allocation die becomes
the die that the round-robin cursor points at, and the cursor moves to the die
after it; when the cursor was one die ahead of the allocation die, the new
allocation die is `(die + 1) mod USER_DIES`. -/
theorem FindFreeVirtualSlice_direct (cfg : Config) (hw : cfg.WellFormed) (s : State)
    (l : List Nat) (hl : FreeListIs cfg s s.sliceAllocationTargetDie l)
    (hclean : ∀ x ∈ l, (s.block s.sliceAllocationTargetDie x).currentPage = 0)
    (r : Nat × State) (h : FindFreeVirtualSlice Collector.stop cfg s = .ok r) :
    ∃ b n, r.1 = cfg.Vorg2VsaTranslation s.sliceAllocationTargetDie b n ∧
      (r.2.die s.sliceAllocationTargetDie).currentBlock = b ∧
      IsBlockReservedForBlkMapping s s.sliceAllocationTargetDie b = 0 ∧
      IsBlockReservedForBlkMapping r.2 s.sliceAllocationTargetDie b = 0 ∧
      n < cfg.USER_PAGES_PER_BLOCK ∧
      GetBlockCurrentPage s s.sliceAllocationTargetDie b = n ∧
      GetBlockCurrentPage r.2 s.sliceAllocationTargetDie b = n + 1 ∧
      ((GetBlockCurrentPage s s.sliceAllocationTargetDie
            (s.die s.sliceAllocationTargetDie).currentBlock = cfg.USER_PAGES_PER_BLOCK ∨
          IsBlockReservedForBlkMapping s s.sliceAllocationTargetDie
            (s.die s.sliceAllocationTargetDie).currentBlock ≠ 0) →
        b ≠ (s.die s.sliceAllocationTargetDie).currentBlock ∧
        (r.2.block s.sliceAllocationTargetDie
            (s.die s.sliceAllocationTargetDie).currentBlock).currentPage =
          (s.block s.sliceAllocationTargetDie
            (s.die s.sliceAllocationTargetDie).currentBlock).currentPage) ∧
      r.2.sliceAllocationTargetDie = (FindDieForFreeSliceAllocation cfg s).1 % 256 ∧
      (s.targetCh < cfg.USER_CHANNELS → s.targetWay < cfg.USER_WAYS →
        r.2.sliceAllocationTargetDie = s.targetWay * cfg.USER_CHANNELS + s.targetCh ∧
        r.2.sliceAllocationTargetDie < cfg.USER_DIES ∧
        r.2.targetWay * cfg.USER_CHANNELS + r.2.targetCh =
          (r.2.sliceAllocationTargetDie + 1) % cfg.USER_DIES ∧
        (s.targetWay * cfg.USER_CHANNELS + s.targetCh =
            (s.sliceAllocationTargetDie + 1) % cfg.USER_DIES →
          r.2.sliceAllocationTargetDie = (s.sliceAllocationTargetDie + 1) % cfg.USER_DIES)) := by
  obtain ⟨q, hq, hr1, hr2⟩ := FindFreeVirtualSlice_unfold cfg s r h
  have hdie : ∀ (t : State), t.targetCh = s.targetCh → t.targetWay = s.targetWay →
      r.2 = { t with
          block := r.2.block
          targetCh := (FindDieForFreeSliceAllocation cfg t).2.targetCh
          targetWay := (FindDieForFreeSliceAllocation cfg t).2.targetWay
          sliceAllocationTargetDie := (FindDieForFreeSliceAllocation cfg t).1 % 256 } →
      r.2.sliceAllocationTargetDie = (FindDieForFreeSliceAllocation cfg s).1 % 256 ∧
      (s.targetCh < cfg.USER_CHANNELS → s.targetWay < cfg.USER_WAYS →
        r.2.sliceAllocationTargetDie = s.targetWay * cfg.USER_CHANNELS + s.targetCh ∧
        r.2.sliceAllocationTargetDie < cfg.USER_DIES ∧
        r.2.targetWay * cfg.USER_CHANNELS + r.2.targetCh =
          (r.2.sliceAllocationTargetDie + 1) % cfg.USER_DIES ∧
        (s.targetWay * cfg.USER_CHANNELS + s.targetCh =
            (s.sliceAllocationTargetDie + 1) % cfg.USER_DIES →
          r.2.sliceAllocationTargetDie = (s.sliceAllocationTargetDie + 1) % cfg.USER_DIES)) := by
    intro t e1 e2 e
    obtain ⟨c1, c2, c3⟩ := FindDie_congr cfg s t e1 e2
    have a1 : r.2.sliceAllocationTargetDie = (FindDieForFreeSliceAllocation cfg s).1 % 256 := by
      rw [e, c1]
    have a2 : r.2.targetCh = (FindDieForFreeSliceAllocation cfg s).2.targetCh := by rw [e, c2]
    have a3 : r.2.targetWay = (FindDieForFreeSliceAllocation cfg s).2.targetWay := by rw [e, c3]
    refine ⟨a1, ?_⟩
    intro hch hway
    obtain ⟨g1, g2, g3, g4, g5⟩ := FindDie_step cfg hw.dies_le s hch hway
    have hlt : (FindDieForFreeSliceAllocation cfg s).1 < 256 := by
      have := hw.dies_le; omega
    have a1' : r.2.sliceAllocationTargetDie = s.targetWay * cfg.USER_CHANNELS + s.targetCh := by
      rw [a1, Nat.mod_eq_of_lt hlt, g1]
    refine ⟨a1', by rw [a1']; rw [← g1]; exact g2, ?_, ?_⟩
    · rw [a2, a3, g5, a1', g1]
    · intro hnext
      rw [a1', hnext]
  rcases FindFreeVirtualSlice_pick_spec cfg s _ q hq with ⟨hq', hlt, hk⟩ | ⟨hc, hcnt, hf, hq'⟩
  · -- the current block is used
    subst hq'
    simp only at hr1 hr2
    refine ⟨(s.die s.sliceAllocationTargetDie).currentBlock,
      GetBlockCurrentPage s s.sliceAllocationTargetDie
        (s.die s.sliceAllocationTargetDie).currentBlock, hr1, by rw [hr2], hk, ?_, hlt, rfl,
      ?_, ?_, ?_⟩
    · rw [hr2]
      simp only [IsBlockReservedForBlkMapping, upd2_same]
      rw [cp_lock_set]
      exact hk
    · rw [hr2]
      simp only [GetBlockCurrentPage, upd2_same]
      exact cp_increment cfg hw _ _ hlt
    · intro hc
      exfalso
      rcases hc with hc | hc
      · omega
      · exact hc hk
    · exact hdie s rfl rfl (by rw [hr2])
  · -- the head of the free list becomes the current block
    have hbn := hw.block_none
    have hne : l ≠ [] := by
      intro e
      have := hl.count
      rw [e] at this
      simp only [List.length_nil] at this
      omega
    have hmem : (s.die s.sliceAllocationTargetDie).headFreeBlock ∈ l := by
      rw [hl.head]
      exact headOr_mem cfg hne
    have hzero := hclean _ hmem
    have hcur : (s.die s.sliceAllocationTargetDie).currentBlock ∉ l := by
      intro hin
      have hz := hclean _ hin
      rcases hc with hc | hc
      · rw [GetBlockCurrentPage, hz, Nat.zero_and] at hc
        have := hw.pages_pos
        omega
      · rw [IsBlockReservedForBlkMapping, hz, Nat.zero_and] at hc
        exact hc rfl
    have hbne : (s.die s.sliceAllocationTargetDie).headFreeBlock ≠
        (s.die s.sliceAllocationTargetDie).currentBlock := fun e => hcur (e ▸ hmem)
    obtain ⟨u1, u2, u3, u4, u5⟩ := unlink_fields cfg s s.sliceAllocationTargetDie
      (s.die s.sliceAllocationTargetDie).headFreeBlock s.sliceAllocationTargetDie
      (s.die s.sliceAllocationTargetDie).headFreeBlock
    have hq2 : (q.2.block s.sliceAllocationTargetDie
        (s.die s.sliceAllocationTargetDie).headFreeBlock).currentPage = 0 := by
      rw [hq']
      simp only [State.setDie]
      rw [u4, hzero]
    have hq1 : q.1 = (s.die s.sliceAllocationTargetDie).headFreeBlock := by rw [hq']
    have hg0 : GetBlockCurrentPage q.2 s.sliceAllocationTargetDie
        (s.die s.sliceAllocationTargetDie).headFreeBlock = 0 := by
      simp only [GetBlockCurrentPage, hq2]
      simp
    rw [hq1] at hr1 hr2
    rw [hg0] at hr1 hr2
    have hpos := hw.pages_pos
    refine ⟨(s.die s.sliceAllocationTargetDie).headFreeBlock, 0, hr1, ?_, ?_, ?_, hpos, ?_, ?_,
      ?_, ?_⟩
    · rw [hr2, hq']
      simp [State.setDie]
    · simp only [IsBlockReservedForBlkMapping, hzero]
      simp
    · rw [hr2]
      simp only [IsBlockReservedForBlkMapping, upd2_same]
      rw [cp_lock_set, hq2]
      simp
    · simp only [GetBlockCurrentPage, hzero]
      simp
    · rw [hr2]
      simp only [GetBlockCurrentPage, upd2_same]
      exact cp_increment cfg hw _ 0 hpos
    · intro _
      refine ⟨hbne, ?_⟩
      rw [hr2]
      have : ¬ (s.sliceAllocationTargetDie = s.sliceAllocationTargetDie ∧
          (s.die s.sliceAllocationTargetDie).currentBlock =
            (s.die s.sliceAllocationTargetDie).headFreeBlock) := fun e => hbne e.2.symm
      simp only
      rw [upd2_ne _ _ this, hq']
      simp only [State.setDie]
      exact (unlink_fields cfg s _ _ _ _).2.2.2.1
    · apply hdie q.2
      · rw [hq']; exact (unlink_frame cfg s _ _).2.2.2.2.2.2.2.1
      · rw [hq']; exact (unlink_frame cfg s _ _).2.2.2.2.2.2.2.2.1
      · rw [hr2]

/-! ## RemapBadBlock -/

/-- The scan of the spare blocks returns when started below the limit with the
fuel that `RemapBadBlock` gives it: it stops at the first spare that is not
bad, or at the limit. -/
theorem RemapBadBlock_scan_spec (s : State) (d limit : Nat) :
    ∀ fuel r, r < limit → limit - r ≤ fuel →
      ∃ r' f, RemapBadBlock.scan s d limit fuel r = some (r', f) ∧ r ≤ r' ∧
        (∀ q, r ≤ q → q < r' → (s.phyBlock d q).bad ≠ 0) ∧
        ((f ≠ 0 ∧ r' < limit ∧ (s.phyBlock d r').bad = 0) ∨ (f = 0 ∧ r' = limit)) := by
  intro fuel
  induction fuel with
  | zero => intro r h1 h2; omega
  | succ k ih =>
    intro r h1 h2
    unfold RemapBadBlock.scan
    by_cases hb : (s.phyBlock d r).bad = 0
    · refine ⟨r, 1, by simp [hb], Nat.le_refl _, fun q a b => by omega, Or.inl ⟨by simp, h1, hb⟩⟩
    · by_cases hl : r + 1 ≥ limit
      · refine ⟨r + 1, 0, by simp [hb, hl], by omega, ?_, Or.inr ⟨rfl, by omega⟩⟩
        intro q a b
        have : q = r := by omega
        rw [this]; exact hb
      · obtain ⟨r', f, e1, e2, e3, e4⟩ := ih (r + 1) (by omega) (by omega)
        refine ⟨r', f, by simp [hb, hl, e1], by omega, ?_, e4⟩
        intro q a b
        by_cases hq : q = r
        · rw [hq]; exact hb
        · exact e3 q (by omega) b

theorem missCount_succ (s : State) (d base n : Nat) :
    missCount s d base (n + 1) = missCount s d base n +
      (if (s.phyBlock d (base + n)).bad ≠ 0 ∧
          (s.phyBlock d (base + n)).remappedPhyBlock = base + n then 1 else 0) := by
  simp only [missCount, List.range_succ, List.filter_append, List.length_append]
  congr 1
  split_ifs with h
  · simp [List.filter, h]
  · simp [List.filter, h]

theorem missCount_congr (s s' : State) (d base n : Nat)
    (h : ∀ i, i < n → s'.phyBlock d (base + i) = s.phyBlock d (base + i)) :
    missCount s' d base n = missCount s d base n := by
  unfold missCount
  congr 1
  apply List.filter_congr
  intro i hi
  rw [h i (List.mem_range.mp hi)]

theorem missCount_le (s : State) (d base n : Nat) : missCount s d base n ≤ n := by
  unfold missCount
  calc _ ≤ (List.range n).length := List.length_filter_le _ _
    _ = n := List.length_range n

theorem missCount_eq_zero (s : State) (d base n : Nat) :
    missCount s d base n = 0 ↔
      ∀ i, i < n → ¬ ((s.phyBlock d (base + i)).bad ≠ 0 ∧
        (s.phyBlock d (base + i)).remappedPhyBlock = base + i) := by
  unfold missCount
  rw [List.length_eq_zero, List.filter_eq_nil_iff]
  constructor
  · intro h i hi
    have := h i (List.mem_range.mpr hi)
    simpa using this
  · intro h i hi
    have := h i (List.mem_range.mp hi)
    simpa using this

theorem RemapInv_congr (s0 s s' : State) (d base ubl start limit n r : Nat) (hn : n ≤ ubl)
    (h : ∀ i, i < ubl → (s'.phyBlock d (base + i)).remappedPhyBlock =
      (s.phyBlock d (base + i)).remappedPhyBlock)
    (hi : RemapInv s0 s d base ubl start limit n r) :
    RemapInv s0 s' d base ubl start limit n r := by
  obtain ⟨h1, h2, h3, h4⟩ := hi
  refine ⟨h1, ?_, ?_, ?_⟩
  · intro i hi
    rw [h i (by omega)]
    exact h2 i hi
  · intro i a b
    rw [h i b]
    exact h3 i a b
  · intro q a b c e
    obtain ⟨i, i1, i2, i3⟩ := h4 q a b c e
    exact ⟨i, i1, i2, by rw [h i (by omega)]; exact i3⟩

theorem missCount_step (s s' : State) (d base n : Nat)
    (h : ∀ x, x ≠ base + n → s'.phyBlock d x = s.phyBlock d x) :
    missCount s' d base (n + 1) = missCount s d base n +
      (if (s'.phyBlock d (base + n)).bad ≠ 0 ∧
          (s'.phyBlock d (base + n)).remappedPhyBlock = base + n then 1 else 0) := by
  rw [missCount_succ, missCount_congr s s' d base n (fun i hi => h _ (by omega))]

/-- One section of the loop body of `RemapBadBlock` returns, and takes the
remapping of its LUN one user block further. -/
theorem RemapBadBlock_lun_step (s0 s : State) (d base ubl start limit n r : Nat)
    (hbad : ∀ x, (s.phyBlock d x).bad = (s0.phyBlock d x).bad)
    (hstart : base + ubl ≤ start) (hn : n < ubl)
    (hinv : RemapInv s0 s d base ubl start limit n r) :
    ∃ s' r' m, RemapBadBlock.lun s d (base + n) limit r = some (s', r', m) ∧
      RemapInv s0 s' d base ubl start limit (n + 1) r' ∧
      (∀ d' x, (s'.phyBlock d' x).bad = (s.phyBlock d' x).bad) ∧
      (∀ d' x, ¬ (d' = d ∧ x = base + n) → s'.phyBlock d' x = s.phyBlock d' x) ∧
      s' = { s with phyBlock := s'.phyBlock } ∧
      m = (if (s'.phyBlock d (base + n)).bad ≠ 0 ∧
        (s'.phyBlock d (base + n)).remappedPhyBlock = base + n then 1 else 0) := by
  obtain ⟨h1, h2, h3, h4⟩ := hinv
  have hself := h3 n (Nat.le_refl n) hn
  unfold RemapBadBlock.lun
  by_cases hb : (s.phyBlock d (base + n)).bad = 0
  · have hb0 : (s0.phyBlock d (base + n)).bad = 0 := by rw [← hbad]; exact hb
    refine ⟨s, r, 0, by simp [hb], ⟨h1, ?_, ?_, ?_⟩, fun _ _ => rfl, fun _ _ _ => rfl, rfl,
      by simp [hb]⟩
    · intro i hi
      by_cases e : i = n
      · subst e
        exact ⟨fun _ => hself, fun c => absurd hb0 c⟩
      · exact h2 i (by omega)
    · intro i a b
      exact h3 i (by omega) b
    · intro q a b c e
      obtain ⟨i, i1, i2, i3⟩ := h4 q a b c e
      exact ⟨i, by omega, i2, i3⟩
  · have hb0 : (s0.phyBlock d (base + n)).bad ≠ 0 := by rw [← hbad]; exact hb
    by_cases hr : r < limit
    · obtain ⟨r1, f, e1, e2, e3, e4⟩ :=
        RemapBadBlock_scan_spec s d limit (limit - r) r hr (Nat.le_refl _)
      rcases e4 with ⟨f1, f2, f3⟩ | ⟨f1, f2⟩
      · -- a spare is found and assigned
        have hne : ∀ i, i ≠ n → ¬ (d = d ∧ base + i = base + n) := by
          intro i hi c; omega
        refine ⟨{ s with
          phyBlock := upd2 s.phyBlock d (base + n)
            { s.phyBlock d (base + n) with remappedPhyBlock := r1 } }, r1 + 1, 0,
          by simp [hb, hr, e1, f1], ⟨by omega, ?_, ?_, ?_⟩, ?_, ?_, rfl, ?_⟩
        · intro i hi
          by_cases e : i = n
          · subst e
            refine ⟨fun c => absurd c hb0, fun _ => Or.inl ?_⟩
            simp only [upd2_same]
            exact ⟨by omega, by omega, f2, by rw [← hbad]; exact f3⟩
          · simp only [upd2_ne _ _ (hne i e)]
            obtain ⟨a1, a2⟩ := h2 i (by omega)
            refine ⟨a1, fun c => ?_⟩
            rcases a2 c with ⟨b1, b2, b3, b4⟩ | ⟨b1, b2⟩
            · exact Or.inl ⟨b1, by omega, b3, b4⟩
            · omega
        · intro i a b
          simp only [upd2_ne _ _ (hne i (by omega))]
          exact h3 i (by omega) b
        · intro q a b c e
          by_cases hq : q < r
          · obtain ⟨i, i1, i2, i3⟩ := h4 q a hq c e
            refine ⟨i, by omega, i2, ?_⟩
            simp only [upd2_ne _ _ (hne i (by omega))]
            exact i3
          · by_cases hq1 : q = r1
            · subst hq1
              exact ⟨n, by omega, hb0, by simp⟩
            · exfalso
              have := e3 q (by omega) (by omega)
              rw [hbad] at this
              exact this e
        · intro d' x
          simp only [upd2_apply]
          split_ifs with c
          · obtain ⟨rfl, rfl⟩ := c; rfl
          · rfl
        · intro d' x c
          simp only [upd2_ne _ _ c]
        · have : r1 ≠ base + n := by omega
          simp [this]
      · -- the spares are exhausted during the scan
        subst f1
        refine ⟨s, r1, 1, by simp [hb, hr, e1], ⟨by omega, ?_, ?_, ?_⟩, fun _ _ => rfl,
          fun _ _ _ => rfl, rfl, by simp [hb, hself]⟩
        · intro i hi
          by_cases e : i = n
          · subst e
            exact ⟨fun c => absurd c hb0, fun _ => Or.inr ⟨hself, by omega⟩⟩
          · obtain ⟨a1, a2⟩ := h2 i (by omega)
            refine ⟨a1, fun c => ?_⟩
            rcases a2 c with ⟨b1, b2, b3, b4⟩ | ⟨b1, b2⟩
            · exact Or.inl ⟨b1, by omega, b3, b4⟩
            · exact Or.inr ⟨b1, by omega⟩
        · intro i a b
          exact h3 i (by omega) b
        · intro q a b c e
          by_cases hq : q < r
          · obtain ⟨i, i1, i2, i3⟩ := h4 q a hq c e
            exact ⟨i, by omega, i2, i3⟩
          · exfalso
            have := e3 q (by omega) (by omega)
            rw [hbad] at this
            exact this e
    · -- the spares were exhausted before
      refine ⟨s, r, 1, by simp [hb, hr], ⟨h1, ?_, ?_, ?_⟩, fun _ _ => rfl, fun _ _ _ => rfl, rfl,
        by simp [hb, hself]⟩
      · intro i hi
        by_cases e : i = n
        · subst e
          exact ⟨fun c => absurd c hb0, fun _ => Or.inr ⟨hself, by omega⟩⟩
        · exact h2 i (by omega)
      · intro i a b
        exact h3 i (by omega) b
      · intro q a b c e
        obtain ⟨i, i1, i2, i3⟩ := h4 q a b c e
        exact ⟨i, by omega, i2, i3⟩

/-- One iteration of the inner loop of `RemapBadBlock` returns, takes the
remapping of die `j` one user block further in every LUN, and leaves the other
dies alone. -/
theorem RemapBadBlock_body_step (cfg : Config) (sp : BlockSpace) (hsp : sp.WellFormed cfg)
    (s0 : State) (st : State × RemapBadBlock.Locals) (k j : Nat)
    (hk : k < sp.USER_BLOCKS_PER_LUN)
    (hbad : ∀ d x, (st.1.phyBlock d x).bad = (s0.phyBlock d x).bad)
    (hQ : RemapDone sp s0 st.1 st.2 j k) :
    ∃ st', RemapBadBlock.body sp k j (.ok st) = .ok st' ∧
      RemapDone sp s0 st'.1 st'.2 j (k + 1) ∧
      (∀ d x, (st'.1.phyBlock d x).bad = (s0.phyBlock d x).bad) ∧
      (∀ d, d ≠ j → st'.1.phyBlock d = st.1.phyBlock d ∧
        st'.2.reservedBlockOfLun0 d = st.2.reservedBlockOfLun0 d ∧
        st'.2.reservedBlockOfLun1 d = st.2.reservedBlockOfLun1 d ∧
        st'.2.badBlockCount d = st.2.badBlockCount d) ∧
      st'.1 = { st.1 with phyBlock := st'.1.phyBlock } := by
  have hle := hsp.user_le
  obtain ⟨q0, q1, qc⟩ := hQ
  obtain ⟨s1, r0, m0, a1, a2, a3, a4, a5, a6⟩ :=
    RemapBadBlock_lun_step s0 st.1 j 0 sp.USER_BLOCKS_PER_LUN sp.USER_BLOCKS_PER_LUN
      sp.TOTAL_BLOCKS_PER_LUN k (st.2.reservedBlockOfLun0 j) (fun x => hbad j x) (by omega) hk q0
  rw [Nat.zero_add] at a1 a4 a6
  have hbad1 : ∀ d x, (s1.phyBlock d x).bad = (s0.phyBlock d x).bad := by
    intro d x; rw [a3, hbad]
  have hother1 : ∀ d, d ≠ j → s1.phyBlock d = st.1.phyBlock d := by
    intro d hd
    funext x
    exact a4 d x (fun c => hd c.1)
  have hc0 : missCount s1 j 0 (k + 1) = missCount st.1 j 0 k + m0 := by
    rw [missCount_step st.1 s1 j 0 k (fun x hx => a4 j x (fun c => hx (by omega))), a6,
      Nat.zero_add]
  by_cases hl : sp.LUNS_PER_DIE > 1
  · have q1' : RemapInv s0 s1 j sp.TOTAL_BLOCKS_PER_LUN sp.USER_BLOCKS_PER_LUN
        (sp.TOTAL_BLOCKS_PER_LUN + sp.USER_BLOCKS_PER_LUN) sp.TOTAL_BLOCKS_PER_DIE k
        (st.2.reservedBlockOfLun1 j) := by
      apply RemapInv_congr s0 st.1 s1 j _ _ _ _ _ _ (Nat.le_of_lt hk) _ (q1 hl)
      intro i hi
      rw [a4 j _ (fun c => by omega)]
    obtain ⟨s2, r1, m1, b1, b2, b3, b4, b5, b6⟩ :=
      RemapBadBlock_lun_step s0 s1 j sp.TOTAL_BLOCKS_PER_LUN sp.USER_BLOCKS_PER_LUN
        (sp.TOTAL_BLOCKS_PER_LUN + sp.USER_BLOCKS_PER_LUN) sp.TOTAL_BLOCKS_PER_DIE k
        (st.2.reservedBlockOfLun1 j) (fun x => hbad1 j x) (Nat.le_refl _) hk q1'
    rw [Nat.add_comm sp.TOTAL_BLOCKS_PER_LUN k] at b1 b4 b6
    have hc1 : missCount s2 j sp.TOTAL_BLOCKS_PER_LUN (k + 1) =
        missCount st.1 j sp.TOTAL_BLOCKS_PER_LUN k + m1 := by
      rw [missCount_step s1 s2 j sp.TOTAL_BLOCKS_PER_LUN k
        (fun x hx => b4 j x (fun c => hx (by omega))), b6,
        Nat.add_comm sp.TOTAL_BLOCKS_PER_LUN k,
        missCount_congr st.1 s1 j sp.TOTAL_BLOCKS_PER_LUN k
          (fun i hi => a4 j _ (fun c => by omega))]
    have hc0' : missCount s2 j 0 (k + 1) = missCount st.1 j 0 k + m0 := by
      rw [← hc0]
      apply missCount_congr
      intro i hi
      exact b4 j _ (fun c => by omega)
    refine ⟨(s2, { reservedBlockOfLun0 := upd st.2.reservedBlockOfLun0 j r0
                   reservedBlockOfLun1 := upd st.2.reservedBlockOfLun1 j r1
                   badBlockCount := upd (upd st.2.badBlockCount j (st.2.badBlockCount j + m0)) j
                     (upd st.2.badBlockCount j (st.2.badBlockCount j + m0) j + m1) }), ?_,
      ⟨?_, ?_, ?_⟩, ?_, ?_, ?_⟩
    · simp only [RemapBadBlock.body, Outcome.bind_ok, a1, hl, ↓reduceIte, b1]
    · simp only [upd_same]
      apply RemapInv_congr s0 s1 s2 j _ _ _ _ _ _ hk _ a2
      intro i hi
      rw [b4 j _ (fun c => by omega)]
    · intro _
      simp only [upd_same]
      exact b2
    · simp only [upd_same, hl, ↓reduceIte, hc0', hc1, qc]
      omega
    · intro d x
      rw [b3, hbad1]
    · intro d hd
      refine ⟨?_, by simp [upd_apply, hd], by simp [upd_apply, hd], by simp [upd_apply, hd]⟩
      rw [← hother1 d hd]
      funext x
      exact b4 d x (fun c => hd c.1)
    · simp only
      rw [b5, a5]
  · refine ⟨(s1, { st.2 with
        reservedBlockOfLun0 := upd st.2.reservedBlockOfLun0 j r0
        badBlockCount := upd st.2.badBlockCount j (st.2.badBlockCount j + m0) }), ?_,
      ⟨?_, ?_, ?_⟩, hbad1, ?_, ?_⟩
    · simp only [RemapBadBlock.body, Outcome.bind_ok, a1, hl, ↓reduceIte]
    · simp only [upd_same]
      exact a2
    · intro c
      exact absurd c hl
    · simp only [upd_same, hl, ↓reduceIte, hc0, qc, Nat.add_zero]
    · intro d hd
      exact ⟨hother1 d hd, by simp [upd_apply, hd], rfl, by simp [upd_apply, hd]⟩
    · exact a5

theorem RemapDone_congr (sp : BlockSpace) (s0 s s' : State) (v v' : RemapBadBlock.Locals)
    (d n : Nat) (hn : n ≤ sp.USER_BLOCKS_PER_LUN) (hp : s'.phyBlock d = s.phyBlock d)
    (h0 : v'.reservedBlockOfLun0 d = v.reservedBlockOfLun0 d)
    (h1 : v'.reservedBlockOfLun1 d = v.reservedBlockOfLun1 d)
    (hc : v'.badBlockCount d = v.badBlockCount d) (h : RemapDone sp s0 s v d n) :
    RemapDone sp s0 s' v' d n := by
  obtain ⟨q0, q1, qc⟩ := h
  refine ⟨?_, ?_, ?_⟩
  · rw [h0]
    exact RemapInv_congr s0 s s' d _ _ _ _ _ _ hn (fun i _ => by rw [hp]) q0
  · intro hl
    rw [h1]
    exact RemapInv_congr s0 s s' d _ _ _ _ _ _ hn (fun i _ => by rw [hp]) (q1 hl)
  · rw [hc, qc, missCount_congr s s' d 0 n (fun i _ => by rw [hp]),
      missCount_congr s s' d sp.TOTAL_BLOCKS_PER_LUN n (fun i _ => by rw [hp])]

/-- The inner loop of `RemapBadBlock` for user block `k`. -/
theorem RemapBadBlock_inner (cfg : Config) (sp : BlockSpace) (hsp : sp.WellFormed cfg)
    (s0 : State) (st : State × RemapBadBlock.Locals) (k : Nat)
    (hk : k < sp.USER_BLOCKS_PER_LUN)
    (hbad : ∀ d x, (st.1.phyBlock d x).bad = (s0.phyBlock d x).bad)
    (hQ : ∀ d, d < cfg.USER_DIES → RemapDone sp s0 st.1 st.2 d k) (n : Nat)
    (hn : n ≤ cfg.USER_DIES) :
    ∃ st', forLoop n (RemapBadBlock.body sp k) (.ok st) = .ok st' ∧
      (∀ d x, (st'.1.phyBlock d x).bad = (s0.phyBlock d x).bad) ∧
      (∀ d, d < n → RemapDone sp s0 st'.1 st'.2 d (k + 1)) ∧
      (∀ d, n ≤ d → d < cfg.USER_DIES → RemapDone sp s0 st'.1 st'.2 d k) ∧
      st'.1 = { st.1 with phyBlock := st'.1.phyBlock } := by
  induction n with
  | zero => exact ⟨st, rfl, hbad, fun d hd => absurd hd (Nat.not_lt_zero d), fun d _ hd => hQ d hd, rfl⟩
  | succ j ih =>
    obtain ⟨t, e1, e2, e3, e4, e5⟩ := ih (Nat.le_of_succ_le hn)
    obtain ⟨t', f1, f2, f3, f4, f5⟩ :=
      RemapBadBlock_body_step cfg sp hsp s0 t k j hk e2 (e4 j (Nat.le_refl j) hn)
    refine ⟨t', by rw [forLoop_succ, e1, f1], f3, ?_, ?_, ?_⟩
    · intro d hd
      by_cases e : d = j
      · subst e; exact f2
      · obtain ⟨g1, g2, g3, g4⟩ := f4 d e
        exact RemapDone_congr sp s0 t.1 t'.1 t.2 t'.2 d (k + 1) hk g1 g2 g3 g4 (e3 d (by omega))
    · intro d hd hd'
      have e : d ≠ j := by omega
      obtain ⟨g1, g2, g3, g4⟩ := f4 d e
      exact RemapDone_congr sp s0 t.1 t'.1 t.2 t'.2 d k (Nat.le_of_lt hk) g1 g2 g3 g4
        (e4 d (by omega) hd')
    · rw [f5, e5]

theorem RemapBadBlock_init_eq (cfg : Config) (sp : BlockSpace) (d : Nat)
    (hd : d < cfg.USER_DIES) :
    (RemapBadBlock.init cfg sp).reservedBlockOfLun0 d = sp.USER_BLOCKS_PER_LUN ∧
    (RemapBadBlock.init cfg sp).reservedBlockOfLun1 d =
      sp.TOTAL_BLOCKS_PER_LUN + sp.USER_BLOCKS_PER_LUN ∧
    (RemapBadBlock.init cfg sp).badBlockCount d = 0 := by
  unfold RemapBadBlock.init
  have h : ∀ n, d < n →
      (forLoop n (fun dieNo (v : RemapBadBlock.Locals) =>
        ({ reservedBlockOfLun0 := upd v.reservedBlockOfLun0 dieNo sp.USER_BLOCKS_PER_LUN
           reservedBlockOfLun1 :=
            upd v.reservedBlockOfLun1 dieNo (sp.TOTAL_BLOCKS_PER_LUN + sp.USER_BLOCKS_PER_LUN)
           badBlockCount := upd v.badBlockCount dieNo 0 } : RemapBadBlock.Locals))
        ⟨fun _ => 0, fun _ => 0, fun _ => 0⟩).reservedBlockOfLun0 d = sp.USER_BLOCKS_PER_LUN ∧
      (forLoop n (fun dieNo (v : RemapBadBlock.Locals) =>
        ({ reservedBlockOfLun0 := upd v.reservedBlockOfLun0 dieNo sp.USER_BLOCKS_PER_LUN
           reservedBlockOfLun1 :=
            upd v.reservedBlockOfLun1 dieNo (sp.TOTAL_BLOCKS_PER_LUN + sp.USER_BLOCKS_PER_LUN)
           badBlockCount := upd v.badBlockCount dieNo 0 } : RemapBadBlock.Locals))
        ⟨fun _ => 0, fun _ => 0, fun _ => 0⟩).reservedBlockOfLun1 d =
        sp.TOTAL_BLOCKS_PER_LUN + sp.USER_BLOCKS_PER_LUN ∧
      (forLoop n (fun dieNo (v : RemapBadBlock.Locals) =>
        ({ reservedBlockOfLun0 := upd v.reservedBlockOfLun0 dieNo sp.USER_BLOCKS_PER_LUN
           reservedBlockOfLun1 :=
            upd v.reservedBlockOfLun1 dieNo (sp.TOTAL_BLOCKS_PER_LUN + sp.USER_BLOCKS_PER_LUN)
           badBlockCount := upd v.badBlockCount dieNo 0 } : RemapBadBlock.Locals))
        ⟨fun _ => 0, fun _ => 0, fun _ => 0⟩).badBlockCount d = 0 := by
    intro n
    induction n with
    | zero => intro h; omega
    | succ k ih =>
      intro hdk
      rw [forLoop_succ]
      by_cases e : d = k
      · subst e; simp
      · simp only [upd_apply, e, ↓reduceIte]
        exact ih (by omega)
  exact h _ hd

/-- The remapping loops of `RemapBadBlock` return; started on the identity
remapping they remap every LUN of every die. -/
theorem RemapBadBlock_outer (cfg : Config) (sp : BlockSpace) (hsp : sp.WellFormed cfg)
    (s : State)
    (hid : ∀ d x, d < cfg.USER_DIES → x < sp.TOTAL_BLOCKS_PER_DIE →
      (s.phyBlock d x).remappedPhyBlock = x)
    (n : Nat) (hn : n ≤ sp.USER_BLOCKS_PER_LUN) :
    ∃ st', forLoop n (fun blockNo x => forLoop cfg.USER_DIES (RemapBadBlock.body sp blockNo) x)
        (.ok (s, RemapBadBlock.init cfg sp)) = .ok st' ∧
      (∀ d x, (st'.1.phyBlock d x).bad = (s.phyBlock d x).bad) ∧
      (∀ d, d < cfg.USER_DIES → RemapDone sp s st'.1 st'.2 d n) ∧
      st'.1 = { s with phyBlock := st'.1.phyBlock } := by
  induction n with
  | zero =>
    refine ⟨(s, RemapBadBlock.init cfg sp), rfl, fun _ _ => rfl, ?_, rfl⟩
    intro d hd
    obtain ⟨i0, i1, ic⟩ := RemapBadBlock_init_eq cfg sp d hd
    refine ⟨⟨by rw [i0], fun i hi => absurd hi (Nat.not_lt_zero i), ?_, ?_⟩, ?_, ?_⟩
    · intro i _ hi
      rw [Nat.zero_add]
      exact hid d i hd (by have := hsp.lun_le; omega)
    · intro q a b
      rw [i0] at b
      omega
    · intro hl
      refine ⟨by rw [i1], fun i hi => absurd hi (Nat.not_lt_zero i), ?_, ?_⟩
      · intro i _ hi
        exact hid d _ hd (by have := hsp.die_le hl; omega)
      · intro q a b
        rw [i1] at b
        omega
    · rw [ic]
      simp [missCount]
  | succ k ih =>
    obtain ⟨t, e1, e2, e3, e4⟩ := ih (Nat.le_of_succ_le hn)
    obtain ⟨t', f1, f2, f3, _, f5⟩ :=
      RemapBadBlock_inner cfg sp hsp s t k hn e2 e3 cfg.USER_DIES (Nat.le_refl _)
    exact ⟨t', by rw [forLoop_succ, e1, f1], f2, f3, by rw [f5, e4]⟩

theorem RemapBadBlock_maxCount_spec (cfg : Config) (c : Nat → Nat) :
    (∀ d, d < cfg.USER_DIES → c d ≤ RemapBadBlock.maxCount cfg c) ∧
    ((RemapBadBlock.maxCount cfg c = 0 ∧ ∀ d, d < cfg.USER_DIES → c d = 0) ∨
      ∃ d, d < cfg.USER_DIES ∧ c d = RemapBadBlock.maxCount cfg c) := by
  unfold RemapBadBlock.maxCount
  generalize cfg.USER_DIES = n
  induction n with
  | zero =>
    exact ⟨fun d hd => absurd hd (Nat.not_lt_zero d), Or.inl ⟨rfl, fun d hd => absurd hd (Nat.not_lt_zero d)⟩⟩
  | succ k ih =>
    obtain ⟨h1, h2⟩ := ih
    rw [forLoop_succ]
    generalize forLoop k (fun dieNo maxBadBlockCount =>
      if maxBadBlockCount < c dieNo then c dieNo else maxBadBlockCount) 0 = m at h1 h2
    by_cases hlt : m < c k
    · simp only [hlt, ↓reduceIte]
      refine ⟨?_, Or.inr ⟨k, Nat.lt_succ_self k, rfl⟩⟩
      intro d hd
      by_cases e : d = k
      · subst e; exact Nat.le_refl _
      · have := h1 d (by omega)
        omega
    · simp only [hlt, ↓reduceIte]
      refine ⟨?_, ?_⟩
      · intro d hd
        by_cases e : d = k
        · subst e; omega
        · exact h1 d (by omega)
      · rcases h2 with ⟨a, b⟩ | ⟨d, a, b⟩
        · left
          refine ⟨a, ?_⟩
          intro d hd
          by_cases e : d = k
          · subst e; omega
          · exact b d (by omega)
        · exact Or.inr ⟨d, by omega, b⟩

/-- `RemapBadBlock` returns; the result differs from the state before the call
in the remap targets and in `mbPerbadBlockSpace`. -/
theorem RemapBadBlock_result (cfg : Config) (sp : BlockSpace) (hsp : sp.WellFormed cfg)
    (s : State)
    (hid : ∀ d x, d < cfg.USER_DIES → x < sp.TOTAL_BLOCKS_PER_DIE →
      (s.phyBlock d x).remappedPhyBlock = x) :
    ∃ (p : Nat → Nat → PhyBlock) (v : RemapBadBlock.Locals),
      RemapBadBlock cfg sp s = .ok { s with
        phyBlock := p
        mbPerbadBlockSpace := (RemapBadBlock.maxCount cfg v.badBlockCount * cfg.USER_DIES *
          sp.MB_PER_BLOCK) % 4294967296 } ∧
      (∀ d x, (p d x).bad = (s.phyBlock d x).bad) ∧
      (∀ d, d < cfg.USER_DIES →
        RemapDone sp s { s with phyBlock := p } v d sp.USER_BLOCKS_PER_LUN) := by
  obtain ⟨st, e1, e2, e3, e4⟩ :=
    RemapBadBlock_outer cfg sp hsp s hid sp.USER_BLOCKS_PER_LUN (Nat.le_refl _)
  refine ⟨st.1.phyBlock, st.2, ?_, e2, ?_⟩
  · unfold RemapBadBlock
    rw [e1]
    simp only [Outcome.bind_ok]
    congr 1
    rw [e4]
  · intro d hd
    rw [← e4]
    exact e3 d hd

/-- C12. Remap destination.  Started on the identity remapping,
`RemapBadBlock` returns and leaves the `bad` flags; for every die and every
user physical block `pb` of LUN0 (`pb < USER_BLOCKS_PER_LUN`) and, when
`LUNS_PER_DIE > 1`, of LUN1 (`TOTAL_BLOCKS_PER_LUN ≤ pb < TOTAL_BLOCKS_PER_LUN +
USER_BLOCKS_PER_LUN`): a block that is not bad keeps `remappedPhyBlock = pb`; a
bad block gets a block that is not bad inside the spare range of its own LUN,
or keeps `pb`, the latter only when every spare of that LUN that is not bad has
been assigned to a bad user block of that LUN; in both cases the remap target
lies in the LUN zone of `pb`. -/
theorem RemapBadBlock_destination (cfg : Config) (sp : BlockSpace) (hsp : sp.WellFormed cfg)
    (s : State)
    (hid : ∀ d x, d < cfg.USER_DIES → x < sp.TOTAL_BLOCKS_PER_DIE →
      (s.phyBlock d x).remappedPhyBlock = x) :
    ∃ s', RemapBadBlock cfg sp s = .ok s' ∧
      (∀ d x, (s'.phyBlock d x).bad = (s.phyBlock d x).bad) ∧
      ∀ d, d < cfg.USER_DIES →
        (∀ pb, pb < sp.USER_BLOCKS_PER_LUN →
          ((s.phyBlock d pb).bad = 0 → (s'.phyBlock d pb).remappedPhyBlock = pb) ∧
          ((s.phyBlock d pb).bad ≠ 0 →
            (sp.USER_BLOCKS_PER_LUN ≤ (s'.phyBlock d pb).remappedPhyBlock ∧
              (s'.phyBlock d pb).remappedPhyBlock < sp.TOTAL_BLOCKS_PER_LUN ∧
              (s'.phyBlock d (s'.phyBlock d pb).remappedPhyBlock).bad = 0) ∨
            ((s'.phyBlock d pb).remappedPhyBlock = pb ∧
              ∀ q, sp.USER_BLOCKS_PER_LUN ≤ q → q < sp.TOTAL_BLOCKS_PER_LUN →
                (s'.phyBlock d q).bad = 0 →
                ∃ pb', pb' < sp.USER_BLOCKS_PER_LUN ∧ (s'.phyBlock d pb').bad ≠ 0 ∧
                  (s'.phyBlock d pb').remappedPhyBlock = q)) ∧
          (s'.phyBlock d pb).remappedPhyBlock < sp.TOTAL_BLOCKS_PER_LUN) ∧
        (sp.LUNS_PER_DIE > 1 →
          ∀ pb, sp.TOTAL_BLOCKS_PER_LUN ≤ pb →
            pb < sp.TOTAL_BLOCKS_PER_LUN + sp.USER_BLOCKS_PER_LUN →
            ((s.phyBlock d pb).bad = 0 → (s'.phyBlock d pb).remappedPhyBlock = pb) ∧
            ((s.phyBlock d pb).bad ≠ 0 →
              (sp.TOTAL_BLOCKS_PER_LUN + sp.USER_BLOCKS_PER_LUN ≤
                  (s'.phyBlock d pb).remappedPhyBlock ∧
                (s'.phyBlock d pb).remappedPhyBlock < sp.TOTAL_BLOCKS_PER_DIE ∧
                (s'.phyBlock d (s'.phyBlock d pb).remappedPhyBlock).bad = 0) ∨
              ((s'.phyBlock d pb).remappedPhyBlock = pb ∧
                ∀ q, sp.TOTAL_BLOCKS_PER_LUN + sp.USER_BLOCKS_PER_LUN ≤ q →
                  q < sp.TOTAL_BLOCKS_PER_DIE → (s'.phyBlock d q).bad = 0 →
                  ∃ pb', sp.TOTAL_BLOCKS_PER_LUN ≤ pb' ∧
                    pb' < sp.TOTAL_BLOCKS_PER_LUN + sp.USER_BLOCKS_PER_LUN ∧
                    (s'.phyBlock d pb').bad ≠ 0 ∧ (s'.phyBlock d pb').remappedPhyBlock = q)) ∧
            sp.TOTAL_BLOCKS_PER_LUN ≤ (s'.phyBlock d pb).remappedPhyBlock ∧
            (s'.phyBlock d pb).remappedPhyBlock < sp.TOTAL_BLOCKS_PER_DIE) := by
  obtain ⟨p, v, e1, e2, e3⟩ := RemapBadBlock_result cfg sp hsp s hid
  refine ⟨_, e1, e2, ?_⟩
  intro d hd
  obtain ⟨q0, q1, _⟩ := e3 d hd
  have hle := hsp.user_le
  refine ⟨?_, ?_⟩
  · intro pb hpb
    obtain ⟨a1, a2⟩ := q0.done pb hpb
    simp only [Nat.zero_add] at a1 a2
    refine ⟨a1, ?_, ?_⟩
    · intro hb
      rcases a2 hb with ⟨b1, b2, b3, b4⟩ | ⟨b1, b2⟩
      · exact Or.inl ⟨b1, b3, by simp only; rw [e2]; exact b4⟩
      · refine Or.inr ⟨b1, ?_⟩
        intro q c1 c2 c3
        simp only at c3
        rw [e2] at c3
        obtain ⟨i, i1, i2, i3⟩ := q0.used q c1 (by omega) c2 c3
        simp only [Nat.zero_add] at i2 i3
        exact ⟨i, i1, by simp only; rw [e2]; exact i2, i3⟩
    · by_cases hb : (s.phyBlock d pb).bad = 0
      · have := a1 hb
        simp only at this ⊢
        omega
      · rcases a2 hb with ⟨_, _, b3, _⟩ | ⟨b1, _⟩
        · exact b3
        · simp only at b1 ⊢
          omega
  · intro hl pb h1 h2
    have hdl := hsp.die_le hl
    obtain ⟨a1, a2⟩ := (q1 hl).done (pb - sp.TOTAL_BLOCKS_PER_LUN) (by omega)
    rw [Nat.add_sub_cancel' h1] at a1 a2
    refine ⟨a1, ?_, ?_⟩
    · intro hb
      rcases a2 hb with ⟨b1, b2, b3, b4⟩ | ⟨b1, b2⟩
      · exact Or.inl ⟨b1, b3, by simp only; rw [e2]; exact b4⟩
      · refine Or.inr ⟨b1, ?_⟩
        intro q c1 c2 c3
        simp only at c3
        rw [e2] at c3
        obtain ⟨i, i1, i2, i3⟩ := (q1 hl).used q c1 (by omega) c2 c3
        exact ⟨sp.TOTAL_BLOCKS_PER_LUN + i, by omega, by omega, by simp only; rw [e2]; exact i2,
          i3⟩
    · by_cases hb : (s.phyBlock d pb).bad = 0
      · have := a1 hb
        simp only at this ⊢
        omega
      · rcases a2 hb with ⟨b1, _, b3, _⟩ | ⟨b1, _⟩
        · simp only at b1 b3 ⊢
          omega
        · simp only at b1 ⊢
          omega

theorem scenarioSpace_wellFormed : scenarioSpace.WellFormed scenario :=
  ⟨by decide, by decide, by decide, by decide, by decide⟩

set_option maxRecDepth 100000 in
theorem RemapBadBlock_destination_witness :
    ∃ s', RemapBadBlock scenario scenarioSpace (badBlocksAt [1, 4, 7]) = .ok s' ∧
      (s'.phyBlock 0 0).remappedPhyBlock = 0 ∧ (s'.phyBlock 0 1).remappedPhyBlock < 6 :=
  match RemapBadBlock_destination scenario scenarioSpace scenarioSpace_wellFormed
    (badBlocksAt [1, 4, 7]) (fun _ _ _ _ => rfl) with
  | ⟨s', h1, _, h3⟩ =>
    ⟨s', h1, ((h3 0 (by decide)).1 0 (by decide)).1 (by decide),
      ((h3 0 (by decide)).1 1 (by decide)).2.2⟩

/-- C18. Capacity deficit.  Started on the identity remapping, `RemapBadBlock`
returns with `mbPerbadBlockSpace = M * USER_DIES * MB_PER_BLOCK`, where `M` is
the largest number, over the dies, of bad user physical blocks of a die (of
LUN0 and, when `LUNS_PER_DIE > 1`, of LUN1) that were not assigned a spare;
`mbPerbadBlockSpace` is 0 exactly when every bad user block of every die has
been given a spare of its LUN that is not bad. -/
theorem RemapBadBlock_deficit (cfg : Config) (hw : cfg.WellFormed) (sp : BlockSpace)
    (hsp : sp.WellFormed cfg) (s : State)
    (hid : ∀ d x, d < cfg.USER_DIES → x < sp.TOTAL_BLOCKS_PER_DIE →
      (s.phyBlock d x).remappedPhyBlock = x) :
    ∃ s', RemapBadBlock cfg sp s = .ok s' ∧
      (∃ M, s'.mbPerbadBlockSpace = M * cfg.USER_DIES * sp.MB_PER_BLOCK ∧
        (∀ d, d < cfg.USER_DIES → unassignedBad sp s' d ≤ M) ∧
        (∃ d, d < cfg.USER_DIES ∧ unassignedBad sp s' d = M)) ∧
      (s'.mbPerbadBlockSpace = 0 ↔
        ∀ d, d < cfg.USER_DIES →
          (∀ pb, pb < sp.USER_BLOCKS_PER_LUN → (s'.phyBlock d pb).bad ≠ 0 →
            sp.USER_BLOCKS_PER_LUN ≤ (s'.phyBlock d pb).remappedPhyBlock ∧
            (s'.phyBlock d pb).remappedPhyBlock < sp.TOTAL_BLOCKS_PER_LUN ∧
            (s'.phyBlock d (s'.phyBlock d pb).remappedPhyBlock).bad = 0) ∧
          (sp.LUNS_PER_DIE > 1 →
            ∀ pb, sp.TOTAL_BLOCKS_PER_LUN ≤ pb →
              pb < sp.TOTAL_BLOCKS_PER_LUN + sp.USER_BLOCKS_PER_LUN →
              (s'.phyBlock d pb).bad ≠ 0 →
              sp.TOTAL_BLOCKS_PER_LUN + sp.USER_BLOCKS_PER_LUN ≤
                (s'.phyBlock d pb).remappedPhyBlock ∧
              (s'.phyBlock d pb).remappedPhyBlock < sp.TOTAL_BLOCKS_PER_DIE ∧
              (s'.phyBlock d (s'.phyBlock d pb).remappedPhyBlock).bad = 0)) := by
  obtain ⟨p, v, e1, e2, e3⟩ := RemapBadBlock_result cfg sp hsp s hid
  have hle := hsp.user_le
  have hdies : 0 < cfg.USER_DIES := Nat.mul_pos hw.channels_pos hw.ways_pos
  have hcount : ∀ d, d < cfg.USER_DIES →
      v.badBlockCount d = unassignedBad sp { s with phyBlock := p } d := fun d hd => (e3 d hd).count
  obtain ⟨m1, m2⟩ := RemapBadBlock_maxCount_spec cfg v.badBlockCount
  generalize RemapBadBlock.maxCount cfg v.badBlockCount = M at e1 m1 m2
  have hc2 : ∀ d, v.badBlockCount d ≤ 2 * sp.USER_BLOCKS_PER_LUN ∨ ¬ d < cfg.USER_DIES := by
    intro d
    by_cases hd : d < cfg.USER_DIES
    · left
      rw [(e3 d hd).count]
      have a := missCount_le { s with phyBlock := p } d 0 sp.USER_BLOCKS_PER_LUN
      have b := missCount_le { s with phyBlock := p } d sp.TOTAL_BLOCKS_PER_LUN
        sp.USER_BLOCKS_PER_LUN
      split_ifs <;> omega
    · exact Or.inr hd
  have hM : M ≤ 2 * sp.USER_BLOCKS_PER_LUN := by
    rcases m2 with ⟨a, _⟩ | ⟨d, a, b⟩
    · omega
    · rcases hc2 d with c | c
      · omega
      · exact absurd a c
  have hfit : M * cfg.USER_DIES * sp.MB_PER_BLOCK < 4294967296 := by
    have := hsp.capacity_fits
    calc M * cfg.USER_DIES * sp.MB_PER_BLOCK
        ≤ 2 * sp.USER_BLOCKS_PER_LUN * cfg.USER_DIES * sp.MB_PER_BLOCK :=
          Nat.mul_le_mul_right _ (Nat.mul_le_mul_right _ hM)
      _ < 4294967296 := this
  have hex : ∃ d, d < cfg.USER_DIES ∧ v.badBlockCount d = M := by
    rcases m2 with ⟨a, b⟩ | h
    · exact ⟨0, hdies, by rw [b 0 hdies, a]⟩
    · exact h
  have hzero : M = 0 ↔ ∀ d, d < cfg.USER_DIES → v.badBlockCount d = 0 := by
    constructor
    · intro h d hd
      have := m1 d hd
      omega
    · intro h
      obtain ⟨d, a, b⟩ := hex
      rw [← b]
      exact h d a
  have hmb : (M * cfg.USER_DIES * sp.MB_PER_BLOCK = 0) ↔ M = 0 := by
    have := hsp.mb_pos
    constructor
    · intro h
      rcases Nat.mul_eq_zero.mp h with h | h
      · rcases Nat.mul_eq_zero.mp h with h | h
        · exact h
        · omega
      · omega
    · intro h
      rw [h]
      simp
  refine ⟨_, e1, ⟨M, Nat.mod_eq_of_lt hfit, ?_, ?_⟩, ?_⟩
  · intro d hd
    have := m1 d hd
    rw [hcount d hd] at this
    exact this
  · obtain ⟨d, a, b⟩ := hex
    exact ⟨d, a, (hcount d a).symm.trans b⟩
  · show (M * cfg.USER_DIES * sp.MB_PER_BLOCK) % 4294967296 = 0 ↔ _
    rw [Nat.mod_eq_of_lt hfit, hmb, hzero]
    constructor
    · intro h d hd
      obtain ⟨q0, q1, qc⟩ := e3 d hd
      have hz := h d hd
      rw [qc] at hz
      have hz0 : missCount { s with phyBlock := p } d 0 sp.USER_BLOCKS_PER_LUN = 0 := by omega
      rw [missCount_eq_zero] at hz0
      refine ⟨?_, ?_⟩
      · intro pb hpb hb
        obtain ⟨_, a2⟩ := q0.done pb hpb
        simp only [Nat.zero_add] at a2
        have hb' : (s.phyBlock d pb).bad ≠ 0 := by rw [← e2]; exact hb
        rcases a2 hb' with ⟨b1, _, b3, b4⟩ | ⟨b1, _⟩
        · exact ⟨b1, b3, by simp only; rw [e2]; exact b4⟩
        · exfalso
          have := hz0 pb hpb
          simp only [Nat.zero_add] at this
          exact this ⟨hb, b1⟩
      · intro hl pb h1 h2 hb
        simp only [hl, ↓reduceIte] at hz
        have hz1 : missCount { s with phyBlock := p } d sp.TOTAL_BLOCKS_PER_LUN
            sp.USER_BLOCKS_PER_LUN = 0 := by omega
        rw [missCount_eq_zero] at hz1
        obtain ⟨_, a2⟩ := (q1 hl).done (pb - sp.TOTAL_BLOCKS_PER_LUN) (by omega)
        rw [Nat.add_sub_cancel' h1] at a2
        have hb' : (s.phyBlock d pb).bad ≠ 0 := by rw [← e2]; exact hb
        rcases a2 hb' with ⟨b1, _, b3, b4⟩ | ⟨b1, _⟩
        · exact ⟨b1, b3, by simp only; rw [e2]; exact b4⟩
        · exfalso
          have := hz1 (pb - sp.TOTAL_BLOCKS_PER_LUN) (by omega)
          rw [Nat.add_sub_cancel' h1] at this
          exact this ⟨hb, b1⟩
    · intro h d hd
      obtain ⟨h0, h1⟩ := h d hd
      rw [(e3 d hd).count]
      have z0 : missCount { s with phyBlock := p } d 0 sp.USER_BLOCKS_PER_LUN = 0 := by
        rw [missCount_eq_zero]
        rintro i hi ⟨a, b⟩
        simp only [Nat.zero_add] at a b
        have := (h0 i hi a).1
        simp only at this b
        omega
      rw [z0]
      by_cases hl : sp.LUNS_PER_DIE > 1
      · simp only [hl, ↓reduceIte, Nat.zero_add]
        rw [missCount_eq_zero]
        rintro i hi ⟨a, b⟩
        have := (h1 hl (sp.TOTAL_BLOCKS_PER_LUN + i) (by omega) (by omega) a).1
        simp only at this b
        omega
      · simp [hl]

set_option maxRecDepth 100000 in
theorem RemapBadBlock_deficit_witness :
    ∃ s', RemapBadBlock scenario scenarioSpace (badBlocksAt [1, 2, 3, 4, 7]) = .ok s' ∧
      ∃ M, s'.mbPerbadBlockSpace = M * scenario.USER_DIES * scenarioSpace.MB_PER_BLOCK :=
  match RemapBadBlock_deficit scenario scenario_wellFormed scenarioSpace scenarioSpace_wellFormed
    (badBlocksAt [1, 2, 3, 4, 7]) (fun _ _ _ _ => rfl) with
  | ⟨s', h1, ⟨M, h2, _⟩, _⟩ => ⟨s', h1, M, h2⟩

/-! ## Counting over a range -/

theorem filter_single_length (P : Nat → Bool) (n : Nat) :
    (List.filter P [n]).length = if P n = true then 1 else 0 := by
  cases h : P n <;> simp [List.filter, h]

theorem countRange_congr (P Q : Nat → Bool) (n : Nat) (h : ∀ p, p < n → P p = Q p) :
    ((List.range n).filter P).length = ((List.range n).filter Q).length := by
  induction n with
  | zero => simp
  | succ n ih =>
    rw [List.range_succ, List.filter_append, List.filter_append, List.length_append,
      List.length_append, ih (fun p hp => h p (Nat.lt_succ_of_lt hp)), filter_single_length,
      filter_single_length, h n (Nat.lt_succ_self n)]

theorem countRange_le_succ (P Q : Nat → Bool) (k n : Nat)
    (h : ∀ p, p < n → p ≠ k → P p = Q p) :
    ((List.range n).filter P).length ≤ ((List.range n).filter Q).length + 1 := by
  induction n with
  | zero => simp
  | succ n ih =>
    rw [List.range_succ, List.filter_append, List.filter_append, List.length_append,
      List.length_append]
    by_cases hk : n = k
    · have := countRange_congr P Q n (fun p hp => h p (Nat.lt_succ_of_lt hp) (by omega))
      rw [this, filter_single_length, filter_single_length]
      split <;> split <;> omega
    · have h1 := ih (fun p hp => h p (Nat.lt_succ_of_lt hp))
      have h2 := h n (Nat.lt_succ_self n) hk
      rw [filter_single_length, filter_single_length, h2]
      omega

theorem countRange_remove (P Q : Nat → Bool) (k n : Nat) (hk : k < n) (hQ : Q k = true)
    (hP : P k = false) (h : ∀ p, p < n → p ≠ k → P p = Q p) :
    ((List.range n).filter P).length + 1 = ((List.range n).filter Q).length := by
  induction n with
  | zero => omega
  | succ n ih =>
    rw [List.range_succ, List.filter_append, List.filter_append, List.length_append,
      List.length_append]
    by_cases hkn : k = n
    · subst hkn
      have := countRange_congr P Q k (fun p hp => h p (Nat.lt_succ_of_lt hp) (by omega))
      rw [this, filter_single_length, filter_single_length, hP, hQ]
      simp
    · have h1 := ih (by omega) (fun p hp => h p (Nat.lt_succ_of_lt hp))
      have h2 := h n (Nat.lt_succ_self n) (fun e => hkn e.symm)
      rw [filter_single_length, filter_single_length, h2]
      omega

theorem countRange_eq_zero (P : Nat → Bool) (n : Nat) :
    ((List.range n).filter P).length = 0 ↔ ∀ p, p < n → P p = false := by
  rw [List.length_eq_zero, List.filter_eq_nil_iff]
  constructor
  · intro h p hp
    have := h p (List.mem_range.mpr hp)
    simpa using this
  · intro h p hp
    simp [h p (List.mem_range.mp hp)]

/-! ## Live slices -/

theorem liveSlices_congr (cfg : Config) (s s' : State) (d b : Nat)
    (h : ∀ p, p < cfg.SLICES_PER_BLOCK →
      (coherentSlot cfg s' (cfg.Vorg2VsaTranslation d b p) ↔
        coherentSlot cfg s (cfg.Vorg2VsaTranslation d b p))) :
    liveSlices cfg s' d b = liveSlices cfg s d b := by
  unfold liveSlices
  apply countRange_congr
  intro p hp
  simp only [decide_eq_decide]
  exact h p hp

theorem liveSlices_le_succ (cfg : Config) (s s' : State) (d b k : Nat)
    (h : ∀ p, p < cfg.SLICES_PER_BLOCK → p ≠ k →
      (coherentSlot cfg s' (cfg.Vorg2VsaTranslation d b p) ↔
        coherentSlot cfg s (cfg.Vorg2VsaTranslation d b p))) :
    liveSlices cfg s' d b ≤ liveSlices cfg s d b + 1 := by
  unfold liveSlices
  apply countRange_le_succ _ _ k
  intro p hp hk
  simp only [decide_eq_decide]
  exact h p hp hk

theorem liveSlices_remove (cfg : Config) (s s' : State) (d b k : Nat)
    (hk : k < cfg.SLICES_PER_BLOCK)
    (hs : coherentSlot cfg s (cfg.Vorg2VsaTranslation d b k))
    (hs' : ¬ coherentSlot cfg s' (cfg.Vorg2VsaTranslation d b k))
    (h : ∀ p, p < cfg.SLICES_PER_BLOCK → p ≠ k →
      (coherentSlot cfg s' (cfg.Vorg2VsaTranslation d b p) ↔
        coherentSlot cfg s (cfg.Vorg2VsaTranslation d b p))) :
    liveSlices cfg s' d b + 1 = liveSlices cfg s d b := by
  unfold liveSlices
  apply countRange_remove _ _ k _ hk
  · simpa using hs
  · simpa using hs'
  · intro p hp hk
    simp only [decide_eq_decide]
    exact h p hp hk

theorem liveSlices_eq_zero (cfg : Config) (s : State) (d b : Nat) :
    liveSlices cfg s d b = 0 ↔
      ∀ p, p < cfg.SLICES_PER_BLOCK → ¬ coherentSlot cfg s (cfg.Vorg2VsaTranslation d b p) := by
  unfold liveSlices
  rw [countRange_eq_zero]
  constructor
  · intro h p hp
    simpa using h p hp
  · intro h p hp
    simpa using h p hp

theorem coherentSlot_congr (cfg : Config) (s s' : State) (v : Nat)
    (hl : s'.logicalSlice = s.logicalSlice) (hv : s'.virtualSlice = s.virtualSlice) :
    coherentSlot cfg s' v ↔ coherentSlot cfg s v := by
  unfold coherentSlot
  rw [hl, hv]

theorem liveSlices_frame (cfg : Config) (s s' : State) (d b : Nat)
    (hl : s'.logicalSlice = s.logicalSlice) (hv : s'.virtualSlice = s.virtualSlice) :
    liveSlices cfg s' d b = liveSlices cfg s d b :=
  liveSlices_congr cfg s s' d b (fun _ _ => coherentSlot_congr cfg s s' _ hl hv)

/-! ## Slots -/

theorem slot_inj (cfg : Config) (hw : cfg.WellFormed) (d b p d' b' p' : Nat)
    (hd : d < cfg.USER_DIES) (hb : b < cfg.USER_BLOCKS_PER_DIE) (hp : p < cfg.SLICES_PER_BLOCK)
    (hd' : d' < cfg.USER_DIES) (hb' : b' < cfg.USER_BLOCKS_PER_DIE)
    (hp' : p' < cfg.SLICES_PER_BLOCK)
    (h : cfg.Vorg2VsaTranslation d b p = cfg.Vorg2VsaTranslation d' b' p') :
    d = d' ∧ b = b' ∧ p = p' := by
  refine ⟨?_, ?_, ?_⟩
  · rw [← hw.pack_die d b p hd hb hp, h, hw.pack_die d' b' p' hd' hb' hp']
  · rw [← hw.pack_block d b p hd hb hp, h, hw.pack_block d' b' p' hd' hb' hp']
  · rw [← hw.pack_page d b p hd hb hp, h, hw.pack_page d' b' p' hd' hb' hp']

theorem SLICES_PER_BLOCK_pos (cfg : Config) (hw : cfg.WellFormed) : 0 < cfg.SLICES_PER_BLOCK := by
  simp only [Config.SLICES_PER_BLOCK]
  exact Nat.mul_pos hw.pages_pos hw.slices_pos

theorem base_ne_none (cfg : Config) (hw : cfg.WellFormed) (d b : Nat)
    (hd : d < cfg.USER_DIES) (hb : b < cfg.USER_BLOCKS_PER_DIE) :
    cfg.Vorg2VsaTranslation d b 0 ≠ cfg.VSA_NONE := by
  have := hw.pack_lt d b 0 hd hb (SLICES_PER_BLOCK_pos cfg hw)
  have := hw.vsa_none
  omega

/-! ## Taking the head of a free list as the current block -/

theorem pop_spec (cfg : Config) (hw : cfg.USER_BLOCKS_PER_DIE ≤ cfg.BLOCK_NONE)
    (s : State) (d h : Nat) (rest : List Nat) (hl : FreeListIs cfg s d (h :: rest))
    (P : State)
    (hP : P = (GetFromFbList.unlink cfg s d h).2.setDie d
      { (GetFromFbList.unlink cfg s d h).2.die d with currentBlock := h }) :
    FreeListIs cfg P d rest ∧
    (∀ d' l, d' ≠ d → FreeListIs cfg s d' l → FreeListIs cfg P d' l) ∧
    (P.die d).currentBlock = h ∧
    (∀ d', d' ≠ d → P.die d' = s.die d') ∧
    (∀ d' x, (P.block d' x).bad = (s.block d' x).bad ∧
      (P.block d' x).invalidSliceCnt = (s.block d' x).invalidSliceCnt ∧
      (P.block d' x).eraseCnt = (s.block d' x).eraseCnt ∧
      (P.block d' x).currentPage = (s.block d' x).currentPage) ∧
    (∀ d' x, (P.block d' x).free = if d' = d ∧ x = h then 0 else (s.block d' x).free) ∧
    (P.logicalSlice = s.logicalSlice ∧ P.virtualSlice = s.virtualSlice ∧
      P.logicalBlockBaseVsa = s.logicalBlockBaseVsa ∧
      P.logicalBlockNextOffset = s.logicalBlockNextOffset ∧
      P.sliceAllocationTargetDie = s.sliceAllocationTargetDie ∧
      P.targetCh = s.targetCh ∧ P.targetWay = s.targetWay ∧ P.phyBlock = s.phyBlock) ∧
    (∀ d' x, (∃ l, FreeListIs cfg s d' l) →
      (OnFreeList cfg P d' x ↔ OnFreeList cfg s d' x ∧ ¬ (d' = d ∧ x = h))) := by
  have hfr := unlink_frame cfg s d h
  have hU := FreeListIs_unlink cfg hw s d h rest hl
  have hPd : ∀ d', (P.die d').headFreeBlock = ((GetFromFbList.unlink cfg s d h).2.die d').headFreeBlock ∧
      (P.die d').tailFreeBlock = ((GetFromFbList.unlink cfg s d h).2.die d').tailFreeBlock ∧
      (P.die d').freeBlockCnt = ((GetFromFbList.unlink cfg s d h).2.die d').freeBlockCnt := by
    intro d'
    rw [hP]
    by_cases e : d' = d
    · subst e; simp [State.setDie, upd_apply]
    · simp [State.setDie, upd_apply, e]
  have hPb : P.block = (GetFromFbList.unlink cfg s d h).2.block := by rw [hP]; rfl
  have hlist : ∀ d' l, FreeListIs cfg (GetFromFbList.unlink cfg s d h).2 d' l →
      FreeListIs cfg P d' l := by
    intro d' l hl'
    refine FreeListIs_of_fields cfg _ P d' l (hPd d') ?_ hl'
    intro x; rw [hPb]; exact ⟨rfl, rfl, rfl⟩
  have hnext : (s.block d h).nextBlock ≠ h := by
    have hlk := hl.linked
    simp only [Linked] at hlk
    obtain ⟨hlt, _, _, hn, hrest⟩ := hlk
    rw [hn]
    cases rest with
    | nil => simp [headOr]; omega
    | cons a t =>
      simp only [headOr, List.head?_cons, Option.getD_some]
      intro e
      have := hl.nodup
      simp [e] at this
  have hfree : ∀ d' x, (P.block d' x).free = if d' = d ∧ x = h then 0 else (s.block d' x).free := by
    intro d' x
    rw [hPb]
    by_cases e : d' = d
    · subst e
      by_cases ex : x = h
      · subst ex
        rw [unlink_block_self cfg s d' x hnext]
        simp
      · rw [unlink_block_other cfg s d' h x ex]
        simp only [ex, and_false, ↓reduceIte]
        split <;> rfl
    · rw [(unlink_other cfg s d h d' e).2]
      simp [e]
  have hP1 : FreeListIs cfg P d rest := hlist d rest hU
  have hP2 : ∀ d' l, d' ≠ d → FreeListIs cfg s d' l → FreeListIs cfg P d' l :=
    fun d' l e hl' => hlist d' l (FreeListIs_unlink_other cfg s d h d' l e hl')
  refine ⟨hP1, hP2, ?_, ?_, ?_, hfree, ?_, ?_⟩
  · rw [hP]; simp [State.setDie]
  · intro d' e
    rw [hP]
    simp only [State.setDie, upd_apply, e, ↓reduceIte]
    exact (unlink_other cfg s d h d' e).1
  · intro d' x
    rw [hPb]
    obtain ⟨a, b, c, e, _⟩ := unlink_fields cfg s d h d' x
    exact ⟨a, b, c, e⟩
  · obtain ⟨_, a1, a2, a3, a4, a5, a6, a7, a8, _, _⟩ := hfr
    rw [hP]
    exact ⟨a1, a2, a4, a5, a6, a7, a8, a3⟩
  · intro d' x ⟨l, hl'⟩
    by_cases e : d' = d
    · subst e
      rw [OnFreeList_iff cfg hw P d' x rest hP1, OnFreeList_iff cfg hw s d' x _ hl]
      have hnd := hl.nodup
      simp only [List.nodup_cons] at hnd
      simp only [List.mem_cons, true_and]
      constructor
      · intro hx
        exact ⟨Or.inr hx, fun e => hnd.1 (e ▸ hx)⟩
      · rintro ⟨hx | hx, hne⟩
        · exact absurd hx hne
        · exact hx
    · rw [OnFreeList_iff cfg hw P d' x l (hP2 d' l e hl'), OnFreeList_iff cfg hw s d' x l hl']
      simp [e]

theorem AllocInv_pop_list (cfg : Config) (hw : cfg.WellFormed) (s : State)
    (hinv : AllocInv cfg s) (d h : Nat) (rest : List Nat) (hd : d < cfg.USER_DIES)
    (hl : FreeListIs cfg s d (h :: rest)) (P : State)
    (hP : P = (GetFromFbList.unlink cfg s d h).2.setDie d
      { (GetFromFbList.unlink cfg s d h).2.die d with currentBlock := h }) :
    AllocInv cfg P := by
  obtain ⟨p1, p2, p3, p4, p5, p6, ⟨q1, q2, q3, q4, q5, q6, q7, q8⟩, p8⟩ :=
    pop_spec cfg hw.block_none s d h rest hl P hP
  have hmono : ∀ d' x, d' < cfg.USER_DIES → OnFreeList cfg P d' x → OnFreeList cfg s d' x :=
    fun d' x hd' hx => ((p8 d' x (hinv.lists d' hd')).mp hx).1
  refine ⟨by rw [q5]; exact hinv.targetDie_lt, by rw [q6]; exact hinv.targetCh_lt,
    by rw [q7]; exact hinv.targetWay_lt, ?_, ?_, ?_, ?_⟩
  · intro d' hd'
    by_cases e : d' = d
    · subst e; exact ⟨rest, p1⟩
    · obtain ⟨l, hl'⟩ := hinv.lists d' hd'
      exact ⟨l, p2 d' l e hl'⟩
  · intro d' hd'
    by_cases e : d' = d
    · subst e
      rw [p3]
      have := hl.linked
      simp only [Linked] at this
      exact this.1
    · rw [p4 d' e]; exact hinv.current_lt d' hd'
  · intro d' hd' hon
    by_cases e : d' = d
    · subst e
      rw [p3] at hon
      exact ((p8 d' h (hinv.lists d' hd')).mp hon).2 ⟨rfl, rfl⟩
    · rw [p4 d' e] at hon
      exact hinv.current_off d' hd' (hmono d' _ hd' hon)
  · intro lb hlb hne
    rw [q3] at hne ⊢
    obtain ⟨d', b', hd', hb', hbase, hoff⟩ := hinv.cursor_ok lb hlb hne
    exact ⟨d', b', hd', hb', hbase, fun hon => hoff (hmono d' b' hd' hon)⟩

/-! ## Steps that keep the lock invariant -/

theorem LockInv_transfer (cfg : Config) (hw : cfg.WellFormed) (s s' : State)
    (h : LockInv cfg s) (halloc : AllocInv cfg s')
    (hbase : ∀ lb, s'.logicalBlockBaseVsa lb = s.logicalBlockBaseVsa lb ∨
      s'.logicalBlockBaseVsa lb = cfg.VSA_NONE)
    (hlock : ∀ lb d b, lb < cfg.LOGICAL_BLOCKS_PER_SSD → d < cfg.USER_DIES →
      b < cfg.USER_BLOCKS_PER_DIE → s.logicalBlockBaseVsa lb = cfg.Vorg2VsaTranslation d b 0 →
      s'.logicalBlockBaseVsa lb = cfg.Vorg2VsaTranslation d b 0 →
      IsBlockReservedForBlkMapping s d b ≠ 0 → IsBlockReservedForBlkMapping s' d b ≠ 0) :
    LockInv cfg s' := by
  have hsame : ∀ lb d b, d < cfg.USER_DIES → b < cfg.USER_BLOCKS_PER_DIE →
      s'.logicalBlockBaseVsa lb = cfg.Vorg2VsaTranslation d b 0 →
      s.logicalBlockBaseVsa lb = cfg.Vorg2VsaTranslation d b 0 := by
    intro lb d b hd hb e
    rcases hbase lb with e1 | e1
    · rw [← e1]; exact e
    · rw [e1] at e
      exact absurd e.symm (base_ne_none cfg hw d b hd hb)
  refine ⟨halloc, ?_, ?_⟩
  · intro lb d b hlb hd hb e
    have e0 := hsame lb d b hd hb e
    exact hlock lb d b hlb hd hb e0 e (h.locked lb d b hlb hd hb e0)
  · intro lb lb' d b hlb hlb' hd hb e e'
    exact h.distinct lb lb' d b hlb hlb' hd hb (hsame lb d b hd hb e) (hsame lb' d b hd hb e')

theorem LockInv_frame (cfg : Config) (hw : cfg.WellFormed) (s s' : State)
    (h : LockInv cfg s) (hdie : s'.die = s.die)
    (hb : ∀ d x, (s'.block d x).free = (s.block d x).free ∧
      (s'.block d x).prevBlock = (s.block d x).prevBlock ∧
      (s'.block d x).nextBlock = (s.block d x).nextBlock ∧
      (s'.block d x).currentPage = (s.block d x).currentPage)
    (hbase : s'.logicalBlockBaseVsa = s.logicalBlockBaseVsa)
    (htd : s'.sliceAllocationTargetDie < cfg.USER_DIES)
    (hch : s'.targetCh < cfg.USER_CHANNELS) (hway : s'.targetWay < cfg.USER_WAYS) :
    LockInv cfg s' := by
  apply LockInv_transfer cfg hw s s' h
  · exact AllocInv_of_fields cfg s s' h.alloc hdie
      (fun d x => ⟨(hb d x).1, (hb d x).2.1, (hb d x).2.2.1⟩) hbase htd hch hway
  · intro lb; rw [hbase]; exact Or.inl rfl
  · intro lb d b _ _ _ _ _ hl
    simp only [IsBlockReservedForBlkMapping] at hl ⊢
    rw [(hb d b).2.2.2]; exact hl

theorem LockInv_setPage (cfg : Config) (hw : cfg.WellFormed) (s : State) (h : LockInv cfg s)
    (d b c ch w td : Nat)
    (hlock : ∀ lb, lb < cfg.LOGICAL_BLOCKS_PER_SSD →
      s.logicalBlockBaseVsa lb = cfg.Vorg2VsaTranslation d b 0 →
      c &&& BLOCK_CUR_PAGE_LOCK_MASK ≠ 0)
    (hch : ch < cfg.USER_CHANNELS) (hway : w < cfg.USER_WAYS) (htd : td < cfg.USER_DIES)
    (s' : State)
    (hs' : s' = { s with
      block := upd2 s.block d b { s.block d b with currentPage := c }
      targetCh := ch, targetWay := w, sliceAllocationTargetDie := td }) :
    LockInv cfg s' := by
  subst hs'
  apply LockInv_transfer cfg hw s _ h
  · refine AllocInv_of_fields cfg s _ h.alloc rfl ?_ rfl htd hch hway
    intro d' x
    by_cases e : d' = d ∧ x = b
    · obtain ⟨rfl, rfl⟩ := e; simp
    · simp [upd2_ne _ _ e]
  · intro lb; exact Or.inl rfl
  · intro lb d' b' hlb _ _ e _ hl
    by_cases e' : d' = d ∧ b' = b
    · obtain ⟨rfl, rfl⟩ := e'
      simp only [IsBlockReservedForBlkMapping, upd2_same]
      exact hlock lb hlb e
    · simp only [IsBlockReservedForBlkMapping] at hl ⊢
      rw [upd2_ne _ _ e']; exact hl

theorem LockInv_pop (cfg : Config) (hw : cfg.WellFormed) (s : State) (h : LockInv cfg s)
    (d h0 : Nat) (rest : List Nat) (hd : d < cfg.USER_DIES)
    (hl : FreeListIs cfg s d (h0 :: rest)) (P : State)
    (hP : P = (GetFromFbList.unlink cfg s d h0).2.setDie d
      { (GetFromFbList.unlink cfg s d h0).2.die d with currentBlock := h0 }) :
    LockInv cfg P := by
  obtain ⟨_, _, _, _, p5, _, ⟨_, _, q3, _⟩, _⟩ :=
    pop_spec cfg hw.block_none s d h0 rest hl P hP
  apply LockInv_transfer cfg hw s P h (AllocInv_pop_list cfg hw s h.alloc d h0 rest hd hl P hP)
  · intro lb; rw [q3]; exact Or.inl rfl
  · intro lb d' b' _ _ _ _ _ hlk
    simp only [IsBlockReservedForBlkMapping] at hlk ⊢
    rw [(p5 d' b').2.2.2]; exact hlk

theorem LockInv_clear (cfg : Config) (hw : cfg.WellFormed) (s : State) (h : LockInv cfg s)
    (lb n : Nat) (s' : State)
    (hs' : s' = { s with
      logicalBlockBaseVsa := upd s.logicalBlockBaseVsa lb cfg.VSA_NONE
      logicalBlockNextOffset := upd s.logicalBlockNextOffset lb n }) :
    LockInv cfg s' := by
  subst hs'
  have hbase : ∀ lb', upd s.logicalBlockBaseVsa lb cfg.VSA_NONE lb' = s.logicalBlockBaseVsa lb' ∨
      upd s.logicalBlockBaseVsa lb cfg.VSA_NONE lb' = cfg.VSA_NONE := by
    intro lb'
    simp only [upd_apply]
    split
    · exact Or.inr rfl
    · exact Or.inl rfl
  apply LockInv_transfer cfg hw s _ h
  · exact AllocInv_of_fields_clear cfg s _ h.alloc rfl (fun _ _ => ⟨rfl, rfl, rfl⟩) hbase
      h.alloc.targetDie_lt h.alloc.targetCh_lt h.alloc.targetWay_lt
  · exact hbase
  · intro lb' d b _ _ _ _ _ hl
    exact hl

theorem LockInv_set_cursor (cfg : Config) (hw : cfg.WellFormed) (s : State) (h : LockInv cfg s)
    (lb d b n : Nat) (hd : d < cfg.USER_DIES) (hb : b < cfg.USER_BLOCKS_PER_DIE)
    (hoff : ¬ OnFreeList cfg s d b) (hlk : IsBlockReservedForBlkMapping s d b ≠ 0)
    (hother : ∀ lb', lb' < cfg.LOGICAL_BLOCKS_PER_SSD → lb' ≠ lb →
      s.logicalBlockBaseVsa lb' ≠ cfg.Vorg2VsaTranslation d b 0)
    (s' : State)
    (hs' : s' = { s with
      logicalBlockBaseVsa := upd s.logicalBlockBaseVsa lb (cfg.Vorg2VsaTranslation d b 0)
      logicalBlockNextOffset := upd s.logicalBlockNextOffset lb n }) :
    LockInv cfg s' := by
  subst hs'
  refine ⟨AllocInv_set_cursor cfg s h.alloc lb d b n hd hb hoff, ?_, ?_⟩
  · intro lb' d' b' hlb' hd' hb' e
    simp only [upd_apply] at e
    split at e
    · obtain ⟨rfl, rfl⟩ := pack_base_inj cfg hw d b d' b' hd hb hd' hb' e
      exact hlk
    · exact h.locked lb' d' b' hlb' hd' hb' e
  · intro l1 l2 d' b' h1 h2 hd' hb' e1 e2
    simp only [upd_apply] at e1 e2
    by_cases c1 : l1 = lb <;> by_cases c2 : l2 = lb
    · rw [c1, c2]
    · simp only [c1, c2, ↓reduceIte] at e1 e2
      obtain ⟨rfl, rfl⟩ := pack_base_inj cfg hw d b d' b' hd hb hd' hb' e1
      exact absurd e2 (hother l2 h2 c2)
    · simp only [c1, c2, ↓reduceIte] at e1 e2
      obtain ⟨rfl, rfl⟩ := pack_base_inj cfg hw d b d' b' hd hb hd' hb' e2
      exact absurd e1 (hother l1 h1 c1)
    · simp only [c1, c2, ↓reduceIte] at e1 e2
      exact h.distinct l1 l2 d' b' h1 h2 hd' hb' e1 e2

/-- A cursor of a logical block is on a block that is not on a free list. -/
theorem LockInv.cursor_off (cfg : Config) (hw : cfg.WellFormed) (s : State) (h : LockInv cfg s)
    (lb d b : Nat) (hlb : lb < cfg.LOGICAL_BLOCKS_PER_SSD) (hd : d < cfg.USER_DIES)
    (hb : b < cfg.USER_BLOCKS_PER_DIE)
    (e : s.logicalBlockBaseVsa lb = cfg.Vorg2VsaTranslation d b 0) :
    ¬ OnFreeList cfg s d b := by
  obtain ⟨d', b', hd', hb', e', hoff⟩ :=
    h.alloc.cursor_ok lb hlb (by rw [e]; exact base_ne_none cfg hw d b hd hb)
  rw [e] at e'
  obtain ⟨rfl, rfl⟩ := pack_base_inj cfg hw d b d' b' hd hb hd' hb' e'
  exact hoff

/-! ## The calls as chains of elementary steps -/

theorem FreeListIs_head_cons (cfg : Config) (s : State) (d : Nat) (l : List Nat)
    (hl : FreeListIs cfg s d l) (hne : l ≠ []) :
    ∃ rest, l = (s.die d).headFreeBlock :: rest := by
  cases l with
  | nil => exact absurd rfl hne
  | cons a t =>
    refine ⟨t, ?_⟩
    have := hl.head
    simp only [headOr, List.head?_cons, Option.getD_some] at this
    rw [this]

theorem FreeListIs_of_count (cfg : Config) (s : State) (d : Nat) (l : List Nat)
    (hl : FreeListIs cfg s d l) (hc : 0 < (s.die d).freeBlockCnt) :
    ∃ rest, FreeListIs cfg s d ((s.die d).headFreeBlock :: rest) := by
  have hne : l ≠ [] := by
    intro e
    have := hl.count
    rw [e] at this
    simp at this
    omega
  obtain ⟨rest, e⟩ := FreeListIs_head_cons cfg s d l hl hne
  exact ⟨rest, e ▸ hl⟩

theorem FreeListIs_of_head (cfg : Config) (s : State) (d : Nat) (l : List Nat)
    (hl : FreeListIs cfg s d l) (hc : (s.die d).headFreeBlock ≠ cfg.BLOCK_NONE) :
    ∃ rest, FreeListIs cfg s d ((s.die d).headFreeBlock :: rest) := by
  have hne : l ≠ [] := by
    intro e
    have := hl.head
    rw [e] at this
    exact hc this
  obtain ⟨rest, e⟩ := FreeListIs_head_cons cfg s d l hl hne
  exact ⟨rest, e ▸ hl⟩

/-- What `InvalidateOldVsa` leaves alone, whatever its argument. -/
theorem InvalidateOldVsa_fields (cfg : Config) (s : State) (lsa : Nat) :
    (InvalidateOldVsa cfg s lsa).die = s.die ∧
    (∀ d x, ((InvalidateOldVsa cfg s lsa).block d x).bad = (s.block d x).bad ∧
      ((InvalidateOldVsa cfg s lsa).block d x).free = (s.block d x).free ∧
      ((InvalidateOldVsa cfg s lsa).block d x).prevBlock = (s.block d x).prevBlock ∧
      ((InvalidateOldVsa cfg s lsa).block d x).nextBlock = (s.block d x).nextBlock ∧
      ((InvalidateOldVsa cfg s lsa).block d x).currentPage = (s.block d x).currentPage ∧
      ((InvalidateOldVsa cfg s lsa).block d x).eraseCnt = (s.block d x).eraseCnt) ∧
    (InvalidateOldVsa cfg s lsa).virtualSlice = s.virtualSlice ∧
    (InvalidateOldVsa cfg s lsa).logicalBlockBaseVsa = s.logicalBlockBaseVsa ∧
    (InvalidateOldVsa cfg s lsa).logicalBlockNextOffset = s.logicalBlockNextOffset ∧
    (InvalidateOldVsa cfg s lsa).sliceAllocationTargetDie = s.sliceAllocationTargetDie ∧
    (InvalidateOldVsa cfg s lsa).targetCh = s.targetCh ∧
    (InvalidateOldVsa cfg s lsa).targetWay = s.targetWay := by
  by_cases h : s.logicalSlice lsa = cfg.VSA_NONE ∨ s.virtualSlice (s.logicalSlice lsa) ≠ lsa
  · rw [InvalidateOldVsa_skip cfg s lsa h]
    exact ⟨rfl, fun _ _ => ⟨rfl, rfl, rfl, rfl, rfl, rfl⟩, rfl, rfl, rfl, rfl, rfl, rfl⟩
  · simp only [not_or, not_not] at h
    rw [InvalidateOldVsa_eq cfg s lsa h.1 h.2]
    refine ⟨rfl, ?_, rfl, rfl, rfl, rfl, rfl, rfl⟩
    intro d x
    simp only [upd2_apply]
    split <;> rename_i e
    · obtain ⟨rfl, rfl⟩ := e
      exact ⟨rfl, rfl, rfl, rfl, rfl, rfl⟩
    · exact ⟨rfl, rfl, rfl, rfl, rfl, rfl⟩

/-- A reserving `AddrTransWrite.reserve` as a chain of elementary steps. -/
theorem reserve_chain (cfg : Config) (s : State) (lb : Nat) (t : State)
    (hlists : ∃ l, FreeListIs cfg s s.sliceAllocationTargetDie l)
    (hb : s.logicalBlockBaseVsa lb = cfg.VSA_NONE)
    (h : AddrTransWrite.reserve Collector.stop 2 cfg s lb = .ok t) :
    ∃ q r2 b,
      ((q = s ∧ b = (s.die s.sliceAllocationTargetDie).currentBlock ∧
          GetBlockCurrentPage s s.sliceAllocationTargetDie b = 0 ∧
          IsBlockReservedForBlkMapping s s.sliceAllocationTargetDie b = 0) ∨
        (∃ rest P, FreeListIs cfg s s.sliceAllocationTargetDie (b :: rest) ∧
          P = (GetFromFbList.unlink cfg s s.sliceAllocationTargetDie b).2.setDie
            s.sliceAllocationTargetDie
            { (GetFromFbList.unlink cfg s s.sliceAllocationTargetDie b).2.die
                s.sliceAllocationTargetDie with currentBlock := b } ∧
          q = { P with
            block := upd2 P.block s.sliceAllocationTargetDie b
              { P.block s.sliceAllocationTargetDie b with currentPage := 0 }
            targetCh := P.targetCh, targetWay := P.targetWay
            sliceAllocationTargetDie := P.sliceAllocationTargetDie })) ∧
      r2 = { q with
        block := upd2 q.block s.sliceAllocationTargetDie b
          { q.block s.sliceAllocationTargetDie b with currentPage := BLOCK_CUR_PAGE_LOCK_MASK }
        targetCh := (FindDieForFreeSliceAllocation cfg q).2.targetCh
        targetWay := (FindDieForFreeSliceAllocation cfg q).2.targetWay
        sliceAllocationTargetDie := (FindDieForFreeSliceAllocation cfg q).1 % 256 } ∧
      t = { r2 with
        logicalBlockBaseVsa := upd r2.logicalBlockBaseVsa lb
          (cfg.Vorg2VsaTranslation s.sliceAllocationTargetDie b 0)
        logicalBlockNextOffset := upd r2.logicalBlockNextOffset lb 0 } := by
  unfold AddrTransWrite.reserve at h
  simp only [hb, ↓reduceIte] at h
  obtain ⟨r, hr, ht⟩ := Outcome.bind_eq_ok h
  simp only [Outcome.ok.injEq] at ht
  obtain ⟨q, hq, hr1, hr2⟩ := FindFreeVirtualBlock_unfold cfg s r hr
  refine ⟨q.2, r.2, q.1, ?_, hr2, ?_⟩
  · rcases FindFreeVirtualBlock_loop_spec cfg s _ _ q hq with ⟨e, hg, hk⟩ | ⟨hc, _, e⟩
    · left
      rw [e]
      exact ⟨rfl, rfl, hg, hk⟩
    · right
      obtain ⟨l, hl⟩ := hlists
      obtain ⟨rest, hl'⟩ := FreeListIs_of_count cfg s _ l hl (by omega)
      rw [e]
      exact ⟨rest, _, hl', rfl, rfl⟩
  · rw [← ht, hr1]

/-- A returning `AddrTransWrite.commit` as a chain of elementary steps. -/
theorem commit_chain (cfg : Config) (hw : cfg.WellFormed) (s : State) (lsa lb d b : Nat)
    (hd : d < cfg.USER_DIES) (hb : b < cfg.USER_BLOCKS_PER_DIE)
    (hbase : s.logicalBlockBaseVsa lb = cfg.Vorg2VsaTranslation d b 0)
    (r : Nat × State) (h : AddrTransWrite.commit cfg s lsa lb = .ok r) :
    ∃ s3 s4 : State,
      s.logicalBlockNextOffset lb < cfg.SLICES_PER_BLOCK ∧
      r.1 = cfg.Vorg2VsaTranslation d b (s.logicalBlockNextOffset lb) ∧
      s3 = { s with
        logicalBlockNextOffset :=
          upd s.logicalBlockNextOffset lb (s.logicalBlockNextOffset lb + 1)
        logicalSlice := upd s.logicalSlice lsa
          (cfg.Vorg2VsaTranslation d b (s.logicalBlockNextOffset lb))
        virtualSlice := upd s.virtualSlice
          (cfg.Vorg2VsaTranslation d b (s.logicalBlockNextOffset lb)) lsa } ∧
      ((s4 = s3 ∧
          (s.logicalBlockNextOffset lb + 1 + (cfg.SLICES_PER_PAGE - 1)) / cfg.SLICES_PER_PAGE ≤
            GetBlockCurrentPage s d b) ∨
        (GetBlockCurrentPage s d b <
            (s.logicalBlockNextOffset lb + 1 + (cfg.SLICES_PER_PAGE - 1)) / cfg.SLICES_PER_PAGE ∧
          s4 = { s3 with
            block := upd2 s3.block d b
              { s3.block d b with
                currentPage :=
                  (((s.block d b).currentPage &&& BLOCK_CUR_PAGE_LOCK_MASK) |||
                    (((s.logicalBlockNextOffset lb + 1 + (cfg.SLICES_PER_PAGE - 1)) /
                      cfg.SLICES_PER_PAGE) &&& BLOCK_CUR_PAGE_VALUE_MASK)) % 65536 }
            targetCh := s3.targetCh, targetWay := s3.targetWay
            sliceAllocationTargetDie := s3.sliceAllocationTargetDie })) ∧
      ((s.logicalBlockNextOffset lb + 1 ≠ cfg.SLICES_PER_BLOCK ∧ r.2 = s4) ∨
        (s.logicalBlockNextOffset lb + 1 = cfg.SLICES_PER_BLOCK ∧
          ∃ s5 : State,
            s5 = { s4 with
              logicalBlockBaseVsa := upd s4.logicalBlockBaseVsa lb cfg.VSA_NONE
              logicalBlockNextOffset := upd s4.logicalBlockNextOffset lb 0 } ∧
            r.2 = { s5 with
              block := upd2 s5.block d b
                { s5.block d b with
                  currentPage :=
                    ((s4.block d b).currentPage &&& BLOCK_CUR_PAGE_VALUE_MASK) % 65536 }
              targetCh := s5.targetCh, targetWay := s5.targetWay
              sliceAllocationTargetDie := s5.sliceAllocationTargetDie })) := by
  have hspb := SLICES_PER_BLOCK_pos cfg hw
  by_cases hk : s.logicalBlockNextOffset lb ≥ cfg.SLICES_PER_BLOCK
  · simp [AddrTransWrite.commit, hk] at h
  have hk' : s.logicalBlockNextOffset lb < cfg.SLICES_PER_BLOCK := Nat.lt_of_not_le hk
  have hd0 := hw.pack_die d b 0 hd hb hspb
  have hb0 := hw.pack_block d b 0 hd hb hspb
  have hdk := hw.pack_die d b _ hd hb hk'
  have hbk := hw.pack_block d b _ hd hb hk'
  have h16 : (s.logicalBlockNextOffset lb + 1) % 65536 = s.logicalBlockNextOffset lb + 1 :=
    Nat.mod_eq_of_lt (by have := hw.slices_lt; omega)
  unfold AddrTransWrite.commit at h
  simp only [hk, ↓reduceIte, hbase, hd0, hb0, hdk, hbk, upd_same, h16, Outcome.ok.injEq,
    apply_ite State.logicalBlockNextOffset, SetBlockCurrentPageCount, State.setBlock,
    ite_self] at h
  simp only [GetBlockCurrentPage] at h
  by_cases c : GetBlockCurrentPage s d b <
      (s.logicalBlockNextOffset lb + 1 + (cfg.SLICES_PER_PAGE - 1)) / cfg.SLICES_PER_PAGE
  · have c' : (s.block d b).currentPage &&& BLOCK_CUR_PAGE_VALUE_MASK <
        (s.logicalBlockNextOffset lb + 1 + (cfg.SLICES_PER_PAGE - 1)) / cfg.SLICES_PER_PAGE := c
    simp only [c', ↓reduceIte] at h
    by_cases f : s.logicalBlockNextOffset lb + 1 = cfg.SLICES_PER_BLOCK
    · rw [if_pos f] at h
      subst h
      exact ⟨_, _, hk', rfl, rfl, Or.inr ⟨c, rfl⟩, Or.inr ⟨f, _, rfl, rfl⟩⟩
    · rw [if_neg f] at h
      subst h
      exact ⟨_, _, hk', rfl, rfl, Or.inr ⟨c, rfl⟩, Or.inl ⟨f, rfl⟩⟩
  · have c' : ¬ (s.block d b).currentPage &&& BLOCK_CUR_PAGE_VALUE_MASK <
        (s.logicalBlockNextOffset lb + 1 + (cfg.SLICES_PER_PAGE - 1)) / cfg.SLICES_PER_PAGE := c
    simp only [c', ↓reduceIte] at h
    by_cases f : s.logicalBlockNextOffset lb + 1 = cfg.SLICES_PER_BLOCK
    · rw [if_pos f] at h
      subst h
      exact ⟨_, _, hk', rfl, rfl, Or.inl ⟨rfl, Nat.le_of_not_lt c⟩, Or.inr ⟨f, _, rfl, rfl⟩⟩
    · rw [if_neg f] at h
      subst h
      exact ⟨_, _, hk', rfl, rfl, Or.inl ⟨rfl, Nat.le_of_not_lt c⟩, Or.inl ⟨f, rfl⟩⟩

/-! ## The lock invariant along the calls -/

theorem lockMask_and_self : BLOCK_CUR_PAGE_LOCK_MASK &&& BLOCK_CUR_PAGE_LOCK_MASK ≠ 0 := by
  decide

theorem FindDie_valid (cfg : Config) (hw : cfg.WellFormed) (s : State)
    (hch : s.targetCh < cfg.USER_CHANNELS) (hway : s.targetWay < cfg.USER_WAYS) :
    (FindDieForFreeSliceAllocation cfg s).2.targetCh < cfg.USER_CHANNELS ∧
    (FindDieForFreeSliceAllocation cfg s).2.targetWay < cfg.USER_WAYS ∧
    (FindDieForFreeSliceAllocation cfg s).1 % 256 < cfg.USER_DIES := by
  obtain ⟨_, h2, h3, h4, _⟩ := FindDie_step cfg hw.dies_le s hch hway
  refine ⟨h3, h4, ?_⟩
  rw [Nat.mod_eq_of_lt (by have := hw.dies_le; omega)]
  exact h2

theorem LockInv_invalidateOld (cfg : Config) (hw : cfg.WellFormed) (s : State)
    (h : LockInv cfg s) (lsa : Nat) : LockInv cfg (InvalidateOldVsa cfg s lsa) := by
  obtain ⟨f1, f2, _, f4, _, f6, f7, f8⟩ := InvalidateOldVsa_fields cfg s lsa
  exact LockInv_frame cfg hw s _ h f1
    (fun d x => ⟨(f2 d x).2.1, (f2 d x).2.2.1, (f2 d x).2.2.2.1, (f2 d x).2.2.2.2.1⟩) f4
    (by rw [f6]; exact h.alloc.targetDie_lt) (by rw [f7]; exact h.alloc.targetCh_lt)
    (by rw [f8]; exact h.alloc.targetWay_lt)

theorem LockInv_invalidate (cfg : Config) (hw : cfg.WellFormed) (s : State)
    (h : LockInv cfg s) (lsa : Nat) : LockInv cfg (AddrTransWrite.invalidate cfg s lsa) := by
  unfold AddrTransWrite.invalidate
  split
  · exact LockInv_invalidateOld cfg hw s h lsa
  · exact h

theorem Linked_head_lt (cfg : Config) (s : State) (d b : Nat) (rest : List Nat)
    (hl : FreeListIs cfg s d (b :: rest)) : b < cfg.USER_BLOCKS_PER_DIE := by
  have := hl.linked
  simp only [Linked] at this
  exact this.1

theorem LockInv_reserve (cfg : Config) (hw : cfg.WellFormed) (s : State) (h : LockInv cfg s)
    (lb : Nat) (hlb : lb < cfg.LOGICAL_BLOCKS_PER_SSD) (t : State)
    (ht : AddrTransWrite.reserve Collector.stop 2 cfg s lb = .ok t) :
    LockInv cfg t ∧ ∃ d b, d < cfg.USER_DIES ∧ b < cfg.USER_BLOCKS_PER_DIE ∧
      t.logicalBlockBaseVsa lb = cfg.Vorg2VsaTranslation d b 0 := by
  by_cases hb : s.logicalBlockBaseVsa lb = cfg.VSA_NONE
  · have hd := h.alloc.targetDie_lt
    obtain ⟨q, r2, b, hq, hr2, htt⟩ :=
      reserve_chain cfg s lb t (h.alloc.lists _ hd) hb ht
    have hqfacts : LockInv cfg q ∧ b < cfg.USER_BLOCKS_PER_DIE ∧
        (q.die s.sliceAllocationTargetDie).currentBlock = b ∧
        q.logicalBlockBaseVsa = s.logicalBlockBaseVsa ∧
        (∀ lb', lb' < cfg.LOGICAL_BLOCKS_PER_SSD →
          s.logicalBlockBaseVsa lb' ≠ cfg.Vorg2VsaTranslation s.sliceAllocationTargetDie b 0) := by
      rcases hq with ⟨e, eb, _, hk⟩ | ⟨rest, P, hl, hP, e⟩
      · subst e
        refine ⟨h, by rw [eb]; exact h.alloc.current_lt _ hd, eb.symm, rfl, ?_⟩
        intro lb' hlb' e'
        exact h.locked lb' _ b hlb' hd (by rw [eb]; exact h.alloc.current_lt _ hd) e' hk
      · have hbl := Linked_head_lt cfg s _ b rest hl
        have hno : ∀ lb', lb' < cfg.LOGICAL_BLOCKS_PER_SSD →
            s.logicalBlockBaseVsa lb' ≠ cfg.Vorg2VsaTranslation s.sliceAllocationTargetDie b 0 := by
          intro lb' hlb' e'
          exact LockInv.cursor_off cfg hw s h lb' _ b hlb' hd hbl e'
            ⟨_, hl, List.mem_cons_self _ _⟩
        obtain ⟨_, _, p3, _, _, _, ⟨_, _, q3, _, q5, q6, q7, _⟩, _⟩ :=
          pop_spec cfg hw.block_none s _ b rest hl P hP
        have hLP := LockInv_pop cfg hw s h _ b rest hd hl P hP
        refine ⟨?_, hbl, ?_, ?_, hno⟩
        · refine LockInv_setPage cfg hw P hLP _ b 0 _ _ _ ?_ hLP.alloc.targetCh_lt
            hLP.alloc.targetWay_lt hLP.alloc.targetDie_lt q e
          intro lb' hlb' e'
          rw [q3] at e'
          exact absurd e' (hno lb' hlb')
        · rw [e]; exact p3
        · rw [e]; exact q3
    obtain ⟨hLq, hbl, hcur, hqb, hno⟩ := hqfacts
    obtain ⟨v1, v2, v3⟩ := FindDie_valid cfg hw q hLq.alloc.targetCh_lt hLq.alloc.targetWay_lt
    have hLr2 : LockInv cfg r2 :=
      LockInv_setPage cfg hw q hLq _ b _ _ _ _ (fun _ _ _ => lockMask_and_self) v1 v2 v3 r2 hr2
    have hr2die : r2.die = q.die := by rw [hr2]
    have hr2base : r2.logicalBlockBaseVsa = q.logicalBlockBaseVsa := by rw [hr2]
    refine ⟨?_, _, b, hd, hbl, by rw [htt]; simp [upd_apply]⟩
    refine LockInv_set_cursor cfg hw r2 hLr2 lb _ b 0 hd hbl ?_ ?_ ?_ t htt
    · have := hLr2.alloc.current_off _ hd
      rw [hr2die, hcur] at this
      exact this
    · rw [hr2]
      simp only [IsBlockReservedForBlkMapping, upd2_same]
      exact lockMask_and_self
    · intro lb' hlb' _
      rw [hr2base, hqb]
      exact hno lb' hlb'
  · have e : t = s := by
      unfold AddrTransWrite.reserve at ht
      simp only [hb, ↓reduceIte, Outcome.ok.injEq] at ht
      exact ht.symm
    subst e
    obtain ⟨d, b, hd, hbl, e, _⟩ := h.alloc.cursor_ok lb hlb hb
    exact ⟨h, d, b, hd, hbl, e⟩

theorem LockInv_commit (cfg : Config) (hw : cfg.WellFormed) (s : State) (h : LockInv cfg s)
    (lsa lb d b : Nat) (hlb : lb < cfg.LOGICAL_BLOCKS_PER_SSD)
    (hd : d < cfg.USER_DIES) (hb : b < cfg.USER_BLOCKS_PER_DIE)
    (hbase : s.logicalBlockBaseVsa lb = cfg.Vorg2VsaTranslation d b 0)
    (r : Nat × State) (hr : AddrTransWrite.commit cfg s lsa lb = .ok r) :
    LockInv cfg r.2 := by
  obtain ⟨s3, s4, hk, _, h3, h4, h5⟩ := commit_chain cfg hw s lsa lb d b hd hb hbase r hr
  have hL3 : LockInv cfg s3 := by
    rw [h3]
    exact LockInv_frame cfg hw s _ h rfl (fun _ _ => ⟨rfl, rfl, rfl, rfl⟩) rfl
      h.alloc.targetDie_lt h.alloc.targetCh_lt h.alloc.targetWay_lt
  have hb3 : s3.logicalBlockBaseVsa = s.logicalBlockBaseVsa := by rw [h3]
  have hL4 : LockInv cfg s4 := by
    rcases h4 with ⟨e, _⟩ | ⟨_, e⟩
    · rw [e]; exact hL3
    · refine LockInv_setPage cfg hw s3 hL3 d b _ _ _ _ ?_ hL3.alloc.targetCh_lt
        hL3.alloc.targetWay_lt hL3.alloc.targetDie_lt s4 e
      intro _ _ _
      rw [cp_lock_set]
      exact h.locked lb d b hlb hd hb hbase
  have hb4 : s4.logicalBlockBaseVsa = s.logicalBlockBaseVsa := by
    rcases h4 with ⟨e, _⟩ | ⟨_, e⟩
    · rw [e, hb3]
    · rw [e]; exact hb3
  rcases h5 with ⟨_, e⟩ | ⟨_, s5, e5, e⟩
  · rw [e]; exact hL4
  · have hL5 := LockInv_clear cfg hw s4 hL4 lb 0 s5 e5
    refine LockInv_setPage cfg hw s5 hL5 d b _ _ _ _ ?_ hL5.alloc.targetCh_lt
      hL5.alloc.targetWay_lt hL5.alloc.targetDie_lt r.2 e
    intro lb' hlb' e'
    rw [e5] at e'
    simp only [upd_apply] at e'
    split at e'
    · exact absurd e'.symm (base_ne_none cfg hw d b hd hb)
    · rename_i hne
      rw [hb4] at e'
      exact absurd (h.distinct lb' lb d b hlb' hlb hd hb e' hbase) hne

/-- A returning `AddrTransWrite` is an invalidation of the old VSA, a
reservation and a commit. -/
theorem AddrTransWrite_steps {gc : Collector} {fuel : Nat} (cfg : Config) (s : State)
    (lsa : Nat) (r : Nat × State) (h : AddrTransWrite gc fuel cfg s lsa = .ok r) :
    lsa < cfg.SLICES_PER_SSD ∧
    ¬ (s.logicalSlice lsa ≠ cfg.VSA_NONE ∧ s.virtualSlice (s.logicalSlice lsa) ≠ lsa) ∧
    ∃ t, AddrTransWrite.reserve gc fuel cfg (AddrTransWrite.invalidate cfg s lsa)
        (AddrToBlock cfg lsa) = .ok t ∧
      AddrTransWrite.commit cfg t lsa (AddrToBlock cfg lsa) = .ok r := by
  unfold AddrTransWrite at h
  by_cases hr : lsa ≥ cfg.SLICES_PER_SSD
  · simp [hr] at h
  have hlt : lsa < cfg.SLICES_PER_SSD := Nat.lt_of_not_le hr
  by_cases hok : s.logicalSlice lsa ≠ cfg.VSA_NONE ∧ s.virtualSlice (s.logicalSlice lsa) ≠ lsa
  · simp [hr, hok] at h
  simp only [hr, hok, ↓reduceIte] at h
  obtain ⟨t, ht, hc⟩ := Outcome.bind_eq_ok h
  exact ⟨hlt, hok, t, ht, hc⟩

theorem LockInv_write (cfg : Config) (hw : cfg.WellFormed) (s : State) (h : LockInv cfg s)
    (lsa : Nat) (r : Nat × State) (hr : AddrTransWrite Collector.stop 2 cfg s lsa = .ok r) :
    LockInv cfg r.2 := by
  obtain ⟨hlt, _, t, ht, hc⟩ := AddrTransWrite_steps cfg s lsa r hr
  have hlb := AddrToBlock_lt cfg hw lsa hlt
  obtain ⟨hLt, d, b, hd, hb, e⟩ :=
    LockInv_reserve cfg hw _ (LockInv_invalidate cfg hw s h lsa) _ hlb t ht
  exact LockInv_commit cfg hw t hLt lsa _ d b hlb hd hb e r hc

/-- The block chosen by `FindFreeVirtualSlice.pick`: the state is unchanged and
the block is the current one, or the head of the free list has been made the
current block. -/
theorem FindFreeVirtualSlice_pick_chain (cfg : Config) (s : State) (d : Nat)
    (hl : ∃ l, FreeListIs cfg s d l) (q : Nat × State)
    (h : FindFreeVirtualSlice.pick Collector.stop cfg s d = .ok q) :
    (q = ((s.die d).currentBlock, s) ∧
      GetBlockCurrentPage s d (s.die d).currentBlock < cfg.USER_PAGES_PER_BLOCK ∧
      IsBlockReservedForBlkMapping s d (s.die d).currentBlock = 0) ∨
    (∃ rest, FreeListIs cfg s d (q.1 :: rest) ∧
      q.2 = (GetFromFbList.unlink cfg s d q.1).2.setDie d
        { (GetFromFbList.unlink cfg s d q.1).2.die d with currentBlock := q.1 }) := by
  rcases FindFreeVirtualSlice_pick_spec cfg s d q h with a | ⟨_, hc, _, e⟩
  · exact Or.inl a
  · right
    obtain ⟨l, hl⟩ := hl
    obtain ⟨rest, hl'⟩ := FreeListIs_of_count cfg s d l hl (by omega)
    rw [e]
    exact ⟨rest, hl', rfl⟩

theorem LockInv_findSlice (cfg : Config) (hw : cfg.WellFormed) (s : State) (h : LockInv cfg s)
    (r : Nat × State) (hr : FindFreeVirtualSlice Collector.stop cfg s = .ok r) : LockInv cfg r.2 := by
  have hd := h.alloc.targetDie_lt
  obtain ⟨q, hq, _, e⟩ := FindFreeVirtualSlice_unfold cfg s r hr
  have hqf : LockInv cfg q.2 ∧ q.1 < cfg.USER_BLOCKS_PER_DIE := by
    rcases FindFreeVirtualSlice_pick_chain cfg s _ (h.alloc.lists _ hd) q hq with
      ⟨e1, _, _⟩ | ⟨rest, hl, e1⟩
    · rw [e1]
      exact ⟨h, h.alloc.current_lt _ hd⟩
    · exact ⟨LockInv_pop cfg hw s h _ q.1 rest hd hl q.2 e1, Linked_head_lt cfg s _ q.1 rest hl⟩
  obtain ⟨hLq, hb⟩ := hqf
  obtain ⟨v1, v2, v3⟩ := FindDie_valid cfg hw q.2 hLq.alloc.targetCh_lt hLq.alloc.targetWay_lt
  refine LockInv_setPage cfg hw q.2 hLq _ q.1 _ _ _ _ ?_ v1 v2 v3 r.2 e
  intro lb hlb e'
  rw [cp_lock_set]
  exact hLq.locked lb _ q.1 hlb hd hb e'

/-! ## Elementary steps that keep the use invariant -/

theorem GetBlockCurrentPage_congr (s s' : State) (d b : Nat)
    (h : (s'.block d b).currentPage = (s.block d b).currentPage) :
    GetBlockCurrentPage s' d b = GetBlockCurrentPage s d b := by
  simp only [GetBlockCurrentPage, h]

theorem IsBlockReserved_congr (s s' : State) (d b : Nat)
    (h : (s'.block d b).currentPage = (s.block d b).currentPage) :
    IsBlockReservedForBlkMapping s' d b = IsBlockReservedForBlkMapping s d b := by
  simp only [IsBlockReservedForBlkMapping, h]

theorem UseInv_pop (cfg : Config) (hw : cfg.WellFormed) (s : State) (h : UseInv cfg s)
    (d h0 : Nat) (rest : List Nat) (hd : d < cfg.USER_DIES)
    (hl : FreeListIs cfg s d (h0 :: rest)) (P : State)
    (hP : P = (GetFromFbList.unlink cfg s d h0).2.setDie d
      { (GetFromFbList.unlink cfg s d h0).2.die d with currentBlock := h0 }) :
    UseInv cfg P := by
  obtain ⟨_, _, _, _, p5, p6, ⟨q1, q2, q3, q4, _, _, _, _⟩, p8⟩ :=
    pop_spec cfg hw.block_none s d h0 rest hl P hP
  have hon : ∀ d' x, d' < cfg.USER_DIES →
      (OnFreeList cfg P d' x ↔ OnFreeList cfg s d' x ∧ ¬ (d' = d ∧ x = h0)) :=
    fun d' x hd' => p8 d' x (h.lock.alloc.lists d' hd')
  have hhead : OnFreeList cfg s d h0 := ⟨_, hl, List.mem_cons_self _ _⟩
  have hlive : ∀ d' b', liveSlices cfg P d' b' = liveSlices cfg s d' b' :=
    fun d' b' => liveSlices_frame cfg s P d' b' q1 q2
  refine ⟨LockInv_pop cfg hw s h.lock d h0 rest hd hl P hP, ?_, ?_, ?_, ?_, ?_, ?_, ?_, ?_⟩
  · intro d' b' hd' hb' hbad
    rw [(p5 d' b').1] at hbad
    rw [p6, hon d' b' hd']
    by_cases e : d' = d ∧ b' = h0
    · simp [e]
    · simp only [e, ↓reduceIte, not_false_eq_true, and_true]
      exact h.free_iff d' b' hd' hb' hbad
  · intro d' b' hd' hb' hbad
    rw [(p5 d' b').1] at hbad
    obtain ⟨a1, a2⟩ := h.bad_off d' b' hd' hb' hbad
    refine ⟨fun hc => a1 ((hon d' b' hd').mp hc).1, ?_⟩
    rw [p6]
    have e : ¬ (d' = d ∧ b' = h0) := by
      rintro ⟨rfl, rfl⟩
      exact a1 hhead
    simp only [e, ↓reduceIte]
    exact a2
  · intro d' b' hd' hc
    rw [(p5 d' b').2.2.2]
    exact h.listed d' b' hd' ((hon d' b' hd').mp hc).1
  · intro d' b' hd' hb'
    rw [GetBlockCurrentPage_congr s P d' b' (p5 d' b').2.2.2]
    exact h.pages d' b' hd' hb'
  · intro lsa hlsa
    rw [q1]
    exact h.fwd lsa hlsa
  · intro d' b' hd' hb'
    rw [GetBlockCurrentPage_congr s P d' b' (p5 d' b').2.2.2,
      IsBlockReserved_congr s P d' b' (p5 d' b').2.2.2, (p5 d' b').2.1, hlive]
    exact h.clean d' b' hd' hb'
  · intro d' b' hd' hb'
    rw [(p5 d' b').2.1, hlive]
    exact h.cap d' b' hd' hb'
  · intro lb d' b' hlb hd' hb'
    rw [(p5 d' b').2.1, hlive, q3, q4]
    exact h.cursor_cap lb d' b' hlb hd' hb'

theorem UseInv_setPage (cfg : Config) (hw : cfg.WellFormed) (s : State) (h : UseInv cfg s)
    (d b c ch w td : Nat) (hoff : ¬ OnFreeList cfg s d b)
    (hlock : ∀ lb, lb < cfg.LOGICAL_BLOCKS_PER_SSD →
      s.logicalBlockBaseVsa lb = cfg.Vorg2VsaTranslation d b 0 →
      c &&& BLOCK_CUR_PAGE_LOCK_MASK ≠ 0)
    (hpages : c &&& BLOCK_CUR_PAGE_VALUE_MASK ≤ cfg.USER_PAGES_PER_BLOCK)
    (hclean : c &&& BLOCK_CUR_PAGE_VALUE_MASK = 0 → c &&& BLOCK_CUR_PAGE_LOCK_MASK = 0 →
      (s.block d b).invalidSliceCnt = 0 ∧ liveSlices cfg s d b = 0)
    (hch : ch < cfg.USER_CHANNELS) (hway : w < cfg.USER_WAYS) (htd : td < cfg.USER_DIES)
    (s' : State)
    (hs' : s' = { s with
      block := upd2 s.block d b { s.block d b with currentPage := c }
      targetCh := ch, targetWay := w, sliceAllocationTargetDie := td }) :
    UseInv cfg s' := by
  have hL := LockInv_setPage cfg hw s h.lock d b c ch w td hlock hch hway htd s' hs'
  have hf : ∀ d' x, (s'.block d' x).bad = (s.block d' x).bad ∧
      (s'.block d' x).free = (s.block d' x).free ∧
      (s'.block d' x).prevBlock = (s.block d' x).prevBlock ∧
      (s'.block d' x).nextBlock = (s.block d' x).nextBlock ∧
      (s'.block d' x).invalidSliceCnt = (s.block d' x).invalidSliceCnt := by
    intro d' x
    rw [hs']
    by_cases e : d' = d ∧ x = b
    · obtain ⟨rfl, rfl⟩ := e; simp
    · simp [upd2_ne _ _ e]
  have hcp : ∀ d' x, ¬ (d' = d ∧ x = b) →
      (s'.block d' x).currentPage = (s.block d' x).currentPage := by
    intro d' x e
    rw [hs']
    simp [upd2_ne _ _ e]
  have hcp0 : (s'.block d b).currentPage = c := by rw [hs']; simp
  have hdie : s'.die = s.die := by rw [hs']
  have hon : ∀ d' x, OnFreeList cfg s' d' x ↔ OnFreeList cfg s d' x := fun d' x =>
    OnFreeList_of_fields cfg s s' d' x (by rw [hdie]; exact ⟨rfl, rfl, rfl⟩)
      (fun y => ⟨(hf d' y).2.1, (hf d' y).2.2.1, (hf d' y).2.2.2.1⟩)
  have hlive : ∀ d' b', liveSlices cfg s' d' b' = liveSlices cfg s d' b' :=
    fun d' b' => liveSlices_frame cfg s s' d' b' (by rw [hs']) (by rw [hs'])
  refine ⟨hL, ?_, ?_, ?_, ?_, ?_, ?_, ?_, ?_⟩
  · intro d' b' hd' hb'
    rw [(hf d' b').1, (hf d' b').2.1, hon]
    exact h.free_iff d' b' hd' hb'
  · intro d' b' hd' hb'
    rw [(hf d' b').1, (hf d' b').2.1, hon]
    exact h.bad_off d' b' hd' hb'
  · intro d' b' hd' hc
    rw [hon] at hc
    have e : ¬ (d' = d ∧ b' = b) := by
      rintro ⟨rfl, rfl⟩
      exact hoff hc
    rw [hcp d' b' e]
    exact h.listed d' b' hd' hc
  · intro d' b' hd' hb'
    by_cases e : d' = d ∧ b' = b
    · obtain ⟨rfl, rfl⟩ := e
      simp only [GetBlockCurrentPage, hcp0]
      exact hpages
    · rw [GetBlockCurrentPage_congr s s' d' b' (hcp d' b' e)]
      exact h.pages d' b' hd' hb'
  · intro lsa hlsa
    have : s'.logicalSlice = s.logicalSlice := by rw [hs']
    rw [this]
    exact h.fwd lsa hlsa
  · intro d' b' hd' hb'
    rw [(hf d' b').2.2.2.2, hlive]
    by_cases e : d' = d ∧ b' = b
    · obtain ⟨rfl, rfl⟩ := e
      simp only [GetBlockCurrentPage, IsBlockReservedForBlkMapping, hcp0]
      exact hclean
    · rw [GetBlockCurrentPage_congr s s' d' b' (hcp d' b' e),
        IsBlockReserved_congr s s' d' b' (hcp d' b' e)]
      exact h.clean d' b' hd' hb'
  · intro d' b' hd' hb'
    rw [(hf d' b').2.2.2.2, hlive]
    exact h.cap d' b' hd' hb'
  · intro lb d' b' hlb hd' hb'
    rw [(hf d' b').2.2.2.2, hlive]
    have e1 : s'.logicalBlockBaseVsa = s.logicalBlockBaseVsa := by rw [hs']
    have e2 : s'.logicalBlockNextOffset = s.logicalBlockNextOffset := by rw [hs']
    rw [e1, e2]
    exact h.cursor_cap lb d' b' hlb hd' hb'

/-- The fields that the use invariant reads, apart from the cursors, are kept. -/
theorem UseInv_cursor_frame (cfg : Config) (s s' : State) (h : UseInv cfg s)
    (hL : LockInv cfg s') (hblock : s'.block = s.block) (hdie : s'.die = s.die)
    (hls : s'.logicalSlice = s.logicalSlice) (hvs : s'.virtualSlice = s.virtualSlice)
    (hcur : ∀ lb d b, lb < cfg.LOGICAL_BLOCKS_PER_SSD → d < cfg.USER_DIES →
      b < cfg.USER_BLOCKS_PER_DIE →
      s'.logicalBlockBaseVsa lb = cfg.Vorg2VsaTranslation d b 0 →
      (s.block d b).invalidSliceCnt + liveSlices cfg s d b ≤ s'.logicalBlockNextOffset lb) :
    UseInv cfg s' := by
  have hon : ∀ d' x, OnFreeList cfg s' d' x ↔ OnFreeList cfg s d' x := fun d' x =>
    OnFreeList_of_fields cfg s s' d' x (by rw [hdie]; exact ⟨rfl, rfl, rfl⟩)
      (fun y => by rw [hblock]; exact ⟨rfl, rfl, rfl⟩)
  have hlive : ∀ d' b', liveSlices cfg s' d' b' = liveSlices cfg s d' b' :=
    fun d' b' => liveSlices_frame cfg s s' d' b' hls hvs
  refine ⟨hL, ?_, ?_, ?_, ?_, ?_, ?_, ?_, ?_⟩
  · intro d' b' hd' hb'
    rw [hblock, hon]
    exact h.free_iff d' b' hd' hb'
  · intro d' b' hd' hb'
    rw [hblock, hon]
    exact h.bad_off d' b' hd' hb'
  · intro d' b' hd' hc
    rw [hon] at hc
    rw [hblock]
    exact h.listed d' b' hd' hc
  · intro d' b' hd' hb'
    rw [GetBlockCurrentPage_congr s s' d' b' (by rw [hblock])]
    exact h.pages d' b' hd' hb'
  · intro lsa hlsa
    rw [hls]
    exact h.fwd lsa hlsa
  · intro d' b' hd' hb'
    rw [GetBlockCurrentPage_congr s s' d' b' (by rw [hblock]),
      IsBlockReserved_congr s s' d' b' (by rw [hblock]), hblock, hlive]
    exact h.clean d' b' hd' hb'
  · intro d' b' hd' hb'
    rw [hblock, hlive]
    exact h.cap d' b' hd' hb'
  · intro lb d' b' hlb hd' hb' e
    rw [hblock, hlive]
    exact hcur lb d' b' hlb hd' hb' e

theorem UseInv_set_cursor (cfg : Config) (hw : cfg.WellFormed) (s : State) (h : UseInv cfg s)
    (lb d b : Nat) (hd : d < cfg.USER_DIES) (hb : b < cfg.USER_BLOCKS_PER_DIE)
    (hoff : ¬ OnFreeList cfg s d b) (hlk : IsBlockReservedForBlkMapping s d b ≠ 0)
    (hother : ∀ lb', lb' < cfg.LOGICAL_BLOCKS_PER_SSD → lb' ≠ lb →
      s.logicalBlockBaseVsa lb' ≠ cfg.Vorg2VsaTranslation d b 0)
    (hzero : (s.block d b).invalidSliceCnt + liveSlices cfg s d b = 0)
    (s' : State)
    (hs' : s' = { s with
      logicalBlockBaseVsa := upd s.logicalBlockBaseVsa lb (cfg.Vorg2VsaTranslation d b 0)
      logicalBlockNextOffset := upd s.logicalBlockNextOffset lb 0 }) :
    UseInv cfg s' := by
  have hL := LockInv_set_cursor cfg hw s h.lock lb d b 0 hd hb hoff hlk hother s' hs'
  refine UseInv_cursor_frame cfg s s' h hL (by rw [hs']) (by rw [hs']) (by rw [hs'])
    (by rw [hs']) ?_
  intro lb' d' b' hlb' hd' hb' e
  rw [hs'] at e ⊢
  simp only [upd_apply] at e ⊢
  split at e
  · obtain ⟨rfl, rfl⟩ := pack_base_inj cfg hw d b d' b' hd hb hd' hb' e
    omega
  · rename_i hne
    simp only [hne, ↓reduceIte]
    exact h.cursor_cap lb' d' b' hlb' hd' hb' e

theorem UseInv_clear (cfg : Config) (hw : cfg.WellFormed) (s : State) (h : UseInv cfg s)
    (lb n : Nat) (s' : State)
    (hs' : s' = { s with
      logicalBlockBaseVsa := upd s.logicalBlockBaseVsa lb cfg.VSA_NONE
      logicalBlockNextOffset := upd s.logicalBlockNextOffset lb n }) :
    UseInv cfg s' := by
  have hL := LockInv_clear cfg hw s h.lock lb n s' hs'
  refine UseInv_cursor_frame cfg s s' h hL (by rw [hs']) (by rw [hs']) (by rw [hs'])
    (by rw [hs']) ?_
  intro lb' d' b' hlb' hd' hb' e
  rw [hs'] at e ⊢
  simp only [upd_apply] at e ⊢
  split at e
  · exact absurd e.symm (base_ne_none cfg hw d' b' hd' hb')
  · rename_i hne
    simp only [hne, ↓reduceIte]
    exact h.cursor_cap lb' d' b' hlb' hd' hb' e

/-! ## Map updates and the use invariant -/

theorem coherentSlot_other (cfg : Config) (s s' : State) (v x nv : Nat)
    (hv : s'.virtualSlice v = s.virtualSlice v)
    (hl : ∀ l, s'.logicalSlice l = if l = x then nv else s.logicalSlice l)
    (h1 : s.logicalSlice x ≠ v) (h2 : nv ≠ v) :
    coherentSlot cfg s' v ↔ coherentSlot cfg s v := by
  unfold coherentSlot
  rw [hv, hl]
  by_cases e : s.virtualSlice v = x
  · simp only [e, ↓reduceIte]
    constructor
    · rintro ⟨_, c⟩; exact absurd c h2
    · rintro ⟨_, c⟩; exact absurd c h1
  · simp only [e, ↓reduceIte]

theorem slot_lt_none (cfg : Config) (hw : cfg.WellFormed) (d b p : Nat)
    (hd : d < cfg.USER_DIES) (hb : b < cfg.USER_BLOCKS_PER_DIE) (hp : p < cfg.SLICES_PER_BLOCK) :
    cfg.Vorg2VsaTranslation d b p ≠ cfg.VSA_NONE := by
  have := hw.pack_lt d b p hd hb hp
  have := hw.vsa_none
  omega

theorem UseInv_maps (cfg : Config) (hw : cfg.WellFormed) (s : State) (h : UseInv cfg s)
    (lsa lb d b : Nat) (hlb : lb < cfg.LOGICAL_BLOCKS_PER_SSD)
    (hd : d < cfg.USER_DIES) (hb : b < cfg.USER_BLOCKS_PER_DIE)
    (hun : s.logicalSlice lsa = cfg.VSA_NONE)
    (hbase : s.logicalBlockBaseVsa lb = cfg.Vorg2VsaTranslation d b 0)
    (hk : s.logicalBlockNextOffset lb < cfg.SLICES_PER_BLOCK)
    (s' : State)
    (hs' : s' = { s with
      logicalBlockNextOffset :=
        upd s.logicalBlockNextOffset lb (s.logicalBlockNextOffset lb + 1)
      logicalSlice := upd s.logicalSlice lsa
        (cfg.Vorg2VsaTranslation d b (s.logicalBlockNextOffset lb))
      virtualSlice := upd s.virtualSlice
        (cfg.Vorg2VsaTranslation d b (s.logicalBlockNextOffset lb)) lsa }) :
    UseInv cfg s' := by
  have hblock : s'.block = s.block := by rw [hs']
  have hdie : s'.die = s.die := by rw [hs']
  have hbs : s'.logicalBlockBaseVsa = s.logicalBlockBaseVsa := by rw [hs']
  have hL : LockInv cfg s' :=
    LockInv_frame cfg hw s s' h.lock hdie (fun _ _ => by rw [hblock]; exact ⟨rfl, rfl, rfl, rfl⟩)
      hbs (by rw [hs']; exact h.lock.alloc.targetDie_lt)
      (by rw [hs']; exact h.lock.alloc.targetCh_lt) (by rw [hs']; exact h.lock.alloc.targetWay_lt)
  have hon : ∀ d' x, OnFreeList cfg s' d' x ↔ OnFreeList cfg s d' x := fun d' x =>
    OnFreeList_of_fields cfg s s' d' x (by rw [hdie]; exact ⟨rfl, rfl, rfl⟩)
      (fun y => by rw [hblock]; exact ⟨rfl, rfl, rfl⟩)
  have hcoh : ∀ d' b' p, d' < cfg.USER_DIES → b' < cfg.USER_BLOCKS_PER_DIE →
      p < cfg.SLICES_PER_BLOCK → ¬ (d' = d ∧ b' = b ∧ p = s.logicalBlockNextOffset lb) →
      (coherentSlot cfg s' (cfg.Vorg2VsaTranslation d' b' p) ↔
        coherentSlot cfg s (cfg.Vorg2VsaTranslation d' b' p)) := by
    intro d' b' p hd' hb' hp hne
    have hvne : cfg.Vorg2VsaTranslation d b (s.logicalBlockNextOffset lb) ≠
        cfg.Vorg2VsaTranslation d' b' p := by
      intro e
      obtain ⟨e1, e2, e3⟩ := slot_inj cfg hw d b _ d' b' p hd hb hk hd' hb' hp e
      exact hne ⟨e1.symm, e2.symm, e3.symm⟩
    apply coherentSlot_other cfg s s' _ lsa
      (cfg.Vorg2VsaTranslation d b (s.logicalBlockNextOffset lb))
    · rw [hs']
      simp only [upd_apply, hvne.symm, ↓reduceIte]
    · intro l; rw [hs']; rfl
    · rw [hun]; exact (slot_lt_none cfg hw d' b' p hd' hb' hp).symm
    · exact hvne
  have hlo : ∀ d' b', d' < cfg.USER_DIES → b' < cfg.USER_BLOCKS_PER_DIE →
      ¬ (d' = d ∧ b' = b) → liveSlices cfg s' d' b' = liveSlices cfg s d' b' := by
    intro d' b' hd' hb' hne
    apply liveSlices_congr
    intro p hp
    exact hcoh d' b' p hd' hb' hp (fun e => hne ⟨e.1, e.2.1⟩)
  have hls : liveSlices cfg s' d b ≤ liveSlices cfg s d b + 1 := by
    apply liveSlices_le_succ cfg s s' d b (s.logicalBlockNextOffset lb)
    intro p hp hne
    exact hcoh d b p hd hb hp (fun e => hne e.2.2)
  have hcc := h.cursor_cap lb d b hlb hd hb hbase
  refine ⟨hL, ?_, ?_, ?_, ?_, ?_, ?_, ?_, ?_⟩
  · intro d' b' hd' hb'
    rw [hblock, hon]
    exact h.free_iff d' b' hd' hb'
  · intro d' b' hd' hb'
    rw [hblock, hon]
    exact h.bad_off d' b' hd' hb'
  · intro d' b' hd' hc
    rw [hon] at hc
    rw [hblock]
    exact h.listed d' b' hd' hc
  · intro d' b' hd' hb'
    rw [GetBlockCurrentPage_congr s s' d' b' (by rw [hblock])]
    exact h.pages d' b' hd' hb'
  · intro l hl hne
    rw [hs'] at hne ⊢
    simp only [upd_apply] at hne ⊢
    split
    · exact hw.pack_lt d b _ hd hb hk
    · rename_i e
      simp only [e, ↓reduceIte] at hne
      exact h.fwd l hl hne
  · intro d' b' hd' hb' hg hkk
    rw [GetBlockCurrentPage_congr s s' d' b' (by rw [hblock])] at hg
    rw [IsBlockReserved_congr s s' d' b' (by rw [hblock])] at hkk
    by_cases e : d' = d ∧ b' = b
    · obtain ⟨rfl, rfl⟩ := e
      exact absurd hkk (h.lock.locked lb d' b' hlb hd hb hbase)
    · rw [hblock, hlo d' b' hd' hb' e]
      exact h.clean d' b' hd' hb' hg hkk
  · intro d' b' hd' hb'
    rw [hblock]
    by_cases e : d' = d ∧ b' = b
    · obtain ⟨rfl, rfl⟩ := e
      omega
    · rw [hlo d' b' hd' hb' e]
      exact h.cap d' b' hd' hb'
  · intro lb' d' b' hlb' hd' hb' e
    rw [hbs] at e
    rw [hblock]
    by_cases e' : d' = d ∧ b' = b
    · obtain ⟨rfl, rfl⟩ := e'
      have := h.lock.distinct lb' lb d' b' hlb' hlb hd hb e hbase
      subst this
      have hno : s'.logicalBlockNextOffset lb' = s.logicalBlockNextOffset lb' + 1 := by
        rw [hs']; simp [upd_apply]
      rw [hno]
      omega
    · rw [hlo d' b' hd' hb' e']
      have hne : lb' ≠ lb := by
        rintro rfl
        rw [hbase] at e
        obtain ⟨e1, e2⟩ := pack_base_inj cfg hw d b d' b' hd hb hd' hb' e
        exact e' ⟨e1.symm, e2.symm⟩
      have hno : s'.logicalBlockNextOffset lb' = s.logicalBlockNextOffset lb' := by
        rw [hs']; simp [upd_apply, hne]
      rw [hno]
      exact h.cursor_cap lb' d' b' hlb' hd' hb' e

theorem UseInv_invalidateOld (cfg : Config) (hw : cfg.WellFormed) (s : State) (h : UseInv cfg s)
    (lsa : Nat) (hlsa : lsa < cfg.SLICES_PER_SSD) :
    UseInv cfg (InvalidateOldVsa cfg s lsa) := by
  by_cases hskip : s.logicalSlice lsa = cfg.VSA_NONE ∨ s.virtualSlice (s.logicalSlice lsa) ≠ lsa
  · rw [InvalidateOldVsa_skip cfg s lsa hskip]; exact h
  simp only [not_or, not_not] at hskip
  obtain ⟨hv, hc⟩ := hskip
  have hL := LockInv_invalidateOld cfg hw s h.lock lsa
  obtain ⟨f1, f2, f3, f4, f5, _, _, _⟩ := InvalidateOldVsa_fields cfg s lsa
  have hE := InvalidateOldVsa_eq cfg s lsa hv hc
  generalize InvalidateOldVsa cfg s lsa = s' at hL f1 f2 f3 f4 f5 hE ⊢
  have hvlt := h.fwd lsa hlsa hv
  have hdx := hw.unpack_die _ hvlt
  have hbx := hw.unpack_block _ hvlt
  have hpx := hw.unpack_page _ hvlt
  have hpk := hw.unpack_pack _ hvlt
  have hvn : s.logicalSlice lsa ≠ cfg.VSA_NONE := hv
  have hls : ∀ l, s'.logicalSlice l = if l = lsa then cfg.VSA_NONE else s.logicalSlice l := by
    intro l; rw [hE]; rfl
  have hcnt : ∀ d' b', (s'.block d' b').invalidSliceCnt =
      if d' = cfg.Vsa2VdieTranslation (s.logicalSlice lsa) ∧
          b' = cfg.Vsa2VblockTranslation (s.logicalSlice lsa)
        then (s.block d' b').invalidSliceCnt + 1 else (s.block d' b').invalidSliceCnt := by
    intro d' b'
    rw [hE]
    simp only [upd2_apply]
    split
    · rename_i e; obtain ⟨rfl, rfl⟩ := e; rfl
    · rfl
  have hon : ∀ d' x, OnFreeList cfg s' d' x ↔ OnFreeList cfg s d' x := fun d' x =>
    OnFreeList_of_fields cfg s s' d' x (by rw [f1]; exact ⟨rfl, rfl, rfl⟩)
      (fun y => ⟨(f2 d' y).2.1, (f2 d' y).2.2.1, (f2 d' y).2.2.2.1⟩)
  have hcoh : ∀ d' b' p, d' < cfg.USER_DIES → b' < cfg.USER_BLOCKS_PER_DIE →
      p < cfg.SLICES_PER_BLOCK → cfg.Vorg2VsaTranslation d' b' p ≠ s.logicalSlice lsa →
      (coherentSlot cfg s' (cfg.Vorg2VsaTranslation d' b' p) ↔
        coherentSlot cfg s (cfg.Vorg2VsaTranslation d' b' p)) := by
    intro d' b' p hd' hb' hp hne
    apply coherentSlot_other cfg s s' _ lsa cfg.VSA_NONE (by rw [f3]) hls hne.symm
    exact (slot_lt_none cfg hw d' b' p hd' hb' hp).symm
  have hlo : ∀ d' b', d' < cfg.USER_DIES → b' < cfg.USER_BLOCKS_PER_DIE →
      ¬ (d' = cfg.Vsa2VdieTranslation (s.logicalSlice lsa) ∧
        b' = cfg.Vsa2VblockTranslation (s.logicalSlice lsa)) →
      liveSlices cfg s' d' b' = liveSlices cfg s d' b' := by
    intro d' b' hd' hb' hne
    apply liveSlices_congr
    intro p hp
    apply hcoh d' b' p hd' hb' hp
    intro e
    apply hne
    rw [← e]
    exact ⟨(hw.pack_die d' b' p hd' hb' hp).symm, (hw.pack_block d' b' p hd' hb' hp).symm⟩
  have hlx : liveSlices cfg s' (cfg.Vsa2VdieTranslation (s.logicalSlice lsa))
      (cfg.Vsa2VblockTranslation (s.logicalSlice lsa)) + 1 =
      liveSlices cfg s (cfg.Vsa2VdieTranslation (s.logicalSlice lsa))
        (cfg.Vsa2VblockTranslation (s.logicalSlice lsa)) := by
    apply liveSlices_remove cfg s s' _ _ (cfg.Vsa2VpageTranslation (s.logicalSlice lsa)) hpx
    · rw [hpk]
      exact ⟨by rw [hc]; exact hlsa, by rw [hc]⟩
    · rw [hpk]
      rintro ⟨_, c⟩
      rw [f3, hc, hls] at c
      simp only [↓reduceIte] at c
      exact hvn c.symm
    · intro p hp hne
      apply hcoh _ _ p hdx hbx hp
      intro e
      apply hne
      rw [← e]
      exact (hw.pack_page _ _ p hdx hbx hp).symm
  refine ⟨hL, ?_, ?_, ?_, ?_, ?_, ?_, ?_, ?_⟩
  · intro d' b' hd' hb'
    rw [(f2 d' b').1, (f2 d' b').2.1, hon]
    exact h.free_iff d' b' hd' hb'
  · intro d' b' hd' hb'
    rw [(f2 d' b').1, (f2 d' b').2.1, hon]
    exact h.bad_off d' b' hd' hb'
  · intro d' b' hd' hcc
    rw [hon] at hcc
    rw [(f2 d' b').2.2.2.2.1]
    exact h.listed d' b' hd' hcc
  · intro d' b' hd' hb'
    rw [GetBlockCurrentPage_congr s s' d' b' (f2 d' b').2.2.2.2.1]
    exact h.pages d' b' hd' hb'
  · intro l hl hne
    rw [hls] at hne ⊢
    split
    · rename_i e; simp [e] at hne
    · rename_i e
      simp only [e, ↓reduceIte] at hne
      exact h.fwd l hl hne
  · intro d' b' hd' hb' hg hkk
    rw [GetBlockCurrentPage_congr s s' d' b' (f2 d' b').2.2.2.2.1] at hg
    rw [IsBlockReserved_congr s s' d' b' (f2 d' b').2.2.2.2.1] at hkk
    have hcl := h.clean d' b' hd' hb' hg hkk
    by_cases e : d' = cfg.Vsa2VdieTranslation (s.logicalSlice lsa) ∧
        b' = cfg.Vsa2VblockTranslation (s.logicalSlice lsa)
    · obtain ⟨rfl, rfl⟩ := e
      omega
    · rw [hcnt, hlo d' b' hd' hb' e]
      simp only [e, ↓reduceIte]
      exact hcl
  · intro d' b' hd' hb'
    have := h.cap d' b' hd' hb'
    rw [hcnt]
    by_cases e : d' = cfg.Vsa2VdieTranslation (s.logicalSlice lsa) ∧
        b' = cfg.Vsa2VblockTranslation (s.logicalSlice lsa)
    · obtain ⟨rfl, rfl⟩ := e
      simp only [and_self, ↓reduceIte]
      omega
    · rw [hlo d' b' hd' hb' e]
      simp only [e, ↓reduceIte]
      exact this
  · intro lb d' b' hlb hd' hb' e
    rw [f4] at e
    rw [f5]
    have := h.cursor_cap lb d' b' hlb hd' hb' e
    rw [hcnt]
    by_cases e' : d' = cfg.Vsa2VdieTranslation (s.logicalSlice lsa) ∧
        b' = cfg.Vsa2VblockTranslation (s.logicalSlice lsa)
    · obtain ⟨rfl, rfl⟩ := e'
      simp only [and_self, ↓reduceIte]
      omega
    · rw [hlo d' b' hd' hb' e']
      simp only [e', ↓reduceIte]
      exact this

/-! ## Erasing a block -/

theorem requeue_fields (cfg : Config) (s : State) (d b : Nat) :
    (∀ d', ((EraseBlock.requeue cfg s d b).die d').currentBlock = (s.die d').currentBlock) ∧
    (∀ d' x, ((EraseBlock.requeue cfg s d b).block d' x).bad = (s.block d' x).bad) ∧
    (∀ d' x, ¬ (d' = d ∧ x = b) →
      ((EraseBlock.requeue cfg s d b).block d' x).free = (s.block d' x).free ∧
      ((EraseBlock.requeue cfg s d b).block d' x).invalidSliceCnt =
        (s.block d' x).invalidSliceCnt ∧
      ((EraseBlock.requeue cfg s d b).block d' x).currentPage = (s.block d' x).currentPage) ∧
    ((EraseBlock.requeue cfg s d b).logicalSlice = s.logicalSlice ∧
      (EraseBlock.requeue cfg s d b).logicalBlockBaseVsa = s.logicalBlockBaseVsa ∧
      (EraseBlock.requeue cfg s d b).logicalBlockNextOffset = s.logicalBlockNextOffset ∧
      (EraseBlock.requeue cfg s d b).sliceAllocationTargetDie = s.sliceAllocationTargetDie ∧
      (EraseBlock.requeue cfg s d b).targetCh = s.targetCh ∧
      (EraseBlock.requeue cfg s d b).targetWay = s.targetWay) ∧
    (∀ d' l', d' ≠ d → FreeListIs cfg s d' l' →
      FreeListIs cfg (EraseBlock.requeue cfg s d b) d' l') := by
  unfold EraseBlock.requeue
  refine ⟨?_, ?_, ?_, ⟨?_, ?_, ?_, ?_, ?_, ?_⟩, ?_⟩
  · intro d'
    rw [(PutToFbList_fields cfg _ d b d' 0).2.2.2.2.2]
    rfl
  · intro d' x
    rw [(PutToFbList_fields cfg _ d b d' x).1]
    by_cases e : d' = d ∧ x = b
    · obtain ⟨rfl, rfl⟩ := e
      simp [ResetBlockCurrentPage, State.setBlock]
    · simp [ResetBlockCurrentPage, State.setBlock, upd2_apply, e]
  · intro d' x e
    rw [(PutToFbList_fields cfg _ d b d' x).2.1, (PutToFbList_fields cfg _ d b d' x).2.2.1,
      (PutToFbList_fields cfg _ d b d' x).2.2.2.2.1]
    simp [ResetBlockCurrentPage, State.setBlock, upd2_apply, e]
  · rw [(PutToFbList_frame cfg _ d b).1]; rfl
  · rw [(PutToFbList_frame cfg _ d b).2.2.2.1]; rfl
  · rw [(PutToFbList_frame cfg _ d b).2.2.2.2.1]; rfl
  · rw [(PutToFbList_frame cfg _ d b).2.2.2.2.2.1]; rfl
  · rw [(PutToFbList_frame cfg _ d b).2.2.2.2.2.2.1]; rfl
  · rw [(PutToFbList_frame cfg _ d b).2.2.2.2.2.2.2.1]; rfl
  · intro d' l' hne hl'
    apply FreeListIs_put_other cfg _ d b d' l' hne
    refine FreeListIs_congr cfg s _ d' l' rfl ?_ hl'
    intro x _
    simp [ResetBlockCurrentPage, State.setBlock, upd2_apply, hne]

theorem EraseBlock_effect (cfg : Config) (hw : cfg.USER_BLOCKS_PER_DIE ≤ cfg.BLOCK_NONE)
    (s : State) (d b : Nat) (l : List Nat) (hb : b < cfg.USER_BLOCKS_PER_DIE)
    (hl : FreeListIs cfg s d l) (hbl : b ∉ l) :
    FreeListIs cfg (EraseBlock cfg s d b) d (l ++ [b]) ∧
    (∀ d' l', d' ≠ d → FreeListIs cfg s d' l' → FreeListIs cfg (EraseBlock cfg s d b) d' l') ∧
    (∀ d', ((EraseBlock cfg s d b).die d').currentBlock = (s.die d').currentBlock) ∧
    (∀ d' x, ((EraseBlock cfg s d b).block d' x).bad = (s.block d' x).bad) ∧
    (∀ d' x, ¬ (d' = d ∧ x = b) →
      ((EraseBlock cfg s d b).block d' x).free = (s.block d' x).free ∧
      ((EraseBlock cfg s d b).block d' x).invalidSliceCnt = (s.block d' x).invalidSliceCnt ∧
      ((EraseBlock cfg s d b).block d' x).currentPage = (s.block d' x).currentPage) ∧
    (((EraseBlock cfg s d b).block d b).free = 1 ∧
      ((EraseBlock cfg s d b).block d b).invalidSliceCnt = 0 ∧
      ((EraseBlock cfg s d b).block d b).currentPage = 0) ∧
    ((EraseBlock cfg s d b).logicalSlice = s.logicalSlice ∧
      (EraseBlock cfg s d b).logicalBlockBaseVsa = s.logicalBlockBaseVsa ∧
      (EraseBlock cfg s d b).logicalBlockNextOffset = s.logicalBlockNextOffset ∧
      (EraseBlock cfg s d b).sliceAllocationTargetDie = s.sliceAllocationTargetDie ∧
      (EraseBlock cfg s d b).targetCh = s.targetCh ∧
      (EraseBlock cfg s d b).targetWay = s.targetWay) ∧
    (∀ x, (∀ p, p < cfg.USER_PAGES_PER_BLOCK → cfg.Vorg2VsaTranslation d b p ≠ x) →
      (EraseBlock cfg s d b).virtualSlice x = s.virtualSlice x) ∧
    (∀ p, p < cfg.USER_PAGES_PER_BLOCK →
      (EraseBlock cfg s d b).virtualSlice (cfg.Vorg2VsaTranslation d b p) = cfg.LSA_NONE) := by
  obtain ⟨_, _, c3⟩ := clearLoop_spec (fun p => cfg.Vorg2VsaTranslation d b p) cfg.LSA_NONE
    cfg.USER_PAGES_PER_BLOCK (EraseBlock.requeue cfg s d b)
  have hE : EraseBlock cfg s d b = _ := c3
  obtain ⟨_, _, _, _, _, _, e7, e8, e9⟩ := EraseBlock_post cfg hw s d b l hb hl hbl
  obtain ⟨r1, r2, r3, _, _, _⟩ := EraseBlock_requeue_spec cfg hw s d b l hb hl hbl
  obtain ⟨q1, q2, q3, ⟨q4, q5, q6, q7, q8, q9⟩, q10⟩ := requeue_fields cfg s d b
  have hblk : (EraseBlock cfg s d b).block = (EraseBlock.requeue cfg s d b).block := by
    rw [hE]
  have hdie : (EraseBlock cfg s d b).die = (EraseBlock.requeue cfg s d b).die := by
    rw [hE]
  clear c3
  refine ⟨e7, ?_, ?_, ?_, ?_, ?_, ⟨?_, ?_, ?_, ?_, ?_, ?_⟩, e9, e8⟩
  · intro d' l' hne hl'
    exact FreeListIs_congr cfg (EraseBlock.requeue cfg s d b) _ d' l' (by rw [hdie])
      (fun _ _ => by rw [hblk]) (q10 d' l' hne hl')
  · intro d'; rw [hdie]; exact q1 d'
  · intro d' x; rw [hblk]; exact q2 d' x
  · intro d' x hne; rw [hblk]; exact q3 d' x hne
  · rw [hblk]; exact ⟨r3, r2, r1⟩
  · rw [hE]; exact q4
  · rw [hE]; exact q5
  · rw [hE]; exact q6
  · rw [hE]; exact q7
  · rw [hE]; exact q8
  · rw [hE]; exact q9

theorem pages_le_slices (cfg : Config) (hw : cfg.WellFormed) :
    cfg.USER_PAGES_PER_BLOCK ≤ cfg.SLICES_PER_BLOCK := by
  simp only [Config.SLICES_PER_BLOCK]
  exact Nat.le_mul_of_pos_right _ hw.slices_pos

theorem UseInv_erase (cfg : Config) (hw : cfg.WellFormed) (s : State) (h : UseInv cfg s)
    (d b : Nat) (hd : d < cfg.USER_DIES) (hb : b < cfg.USER_BLOCKS_PER_DIE)
    (hbad : (s.block d b).bad = 0) (hfree : (s.block d b).free = 0)
    (hcur : b ≠ (s.die d).currentBlock)
    (hno : ∀ lb, lb < cfg.LOGICAL_BLOCKS_PER_SSD →
      s.logicalBlockBaseVsa lb ≠ cfg.Vorg2VsaTranslation d b 0)
    (hlive : liveSlices cfg s d b = 0) :
    UseInv cfg (EraseBlock cfg s d b) := by
  obtain ⟨l, hl⟩ := h.lock.alloc.lists d hd
  have hoff : ¬ OnFreeList cfg s d b := by
    intro hc
    have := (h.free_iff d b hd hb hbad).mpr hc
    omega
  have hbl : b ∉ l := fun hc => hoff ⟨l, hl, hc⟩
  obtain ⟨e1, e2, e3, e4, e5, ⟨e6a, e6b, e6c⟩, ⟨f1, f2, f3, f4, f5, f6⟩, e8, e9⟩ :=
    EraseBlock_effect cfg hw.block_none s d b l hb hl hbl
  generalize EraseBlock cfg s d b = E at e1 e2 e3 e4 e5 e6a e6b e6c f1 f2 f3 f4 f5 f6 e8 e9 ⊢
  have hon : ∀ d' x, d' < cfg.USER_DIES →
      (OnFreeList cfg E d' x ↔ OnFreeList cfg s d' x ∨ (d' = d ∧ x = b)) := by
    intro d' x hd'
    by_cases e : d' = d
    · subst e
      rw [OnFreeList_iff cfg hw.block_none E d' x _ e1, OnFreeList_iff cfg hw.block_none s d' x l hl]
      simp
    · obtain ⟨l', hl'⟩ := h.lock.alloc.lists d' hd'
      rw [OnFreeList_iff cfg hw.block_none E d' x l' (e2 d' l' e hl'),
        OnFreeList_iff cfg hw.block_none s d' x l' hl']
      simp [e]
  have hA : AllocInv cfg E := by
    refine ⟨by rw [f4]; exact h.lock.alloc.targetDie_lt, by rw [f5]; exact h.lock.alloc.targetCh_lt,
      by rw [f6]; exact h.lock.alloc.targetWay_lt, ?_, ?_, ?_, ?_⟩
    · intro d' hd'
      by_cases e : d' = d
      · subst e; exact ⟨_, e1⟩
      · obtain ⟨l', hl'⟩ := h.lock.alloc.lists d' hd'
        exact ⟨l', e2 d' l' e hl'⟩
    · intro d' hd'
      rw [e3]; exact h.lock.alloc.current_lt d' hd'
    · intro d' hd' hc
      rw [e3, hon d' _ hd'] at hc
      rcases hc with hc | ⟨rfl, hc⟩
      · exact h.lock.alloc.current_off d' hd' hc
      · exact hcur hc.symm
    · intro lb hlb hne
      rw [f2] at hne ⊢
      obtain ⟨d', b', hd', hb', e, hoff'⟩ := h.lock.alloc.cursor_ok lb hlb hne
      refine ⟨d', b', hd', hb', e, ?_⟩
      intro hc
      rw [hon d' b' hd'] at hc
      rcases hc with hc | ⟨rfl, rfl⟩
      · exact hoff' hc
      · exact hno lb hlb e
  have hcur_ne : ∀ lb d' b', lb < cfg.LOGICAL_BLOCKS_PER_SSD →
      s.logicalBlockBaseVsa lb = cfg.Vorg2VsaTranslation d' b' 0 → ¬ (d' = d ∧ b' = b) := by
    rintro lb d' b' hlb e ⟨rfl, rfl⟩
    exact hno lb hlb e
  have hL : LockInv cfg E := by
    apply LockInv_transfer cfg hw s E h.lock hA
    · intro lb; rw [f2]; exact Or.inl rfl
    · intro lb d' b' hlb _ _ e _ hk
      rw [IsBlockReserved_congr s E d' b' (e5 d' b' (hcur_ne lb d' b' hlb e)).2.2]
      exact hk
  have hpl := pages_le_slices cfg hw
  have hlo : ∀ d' b', d' < cfg.USER_DIES → b' < cfg.USER_BLOCKS_PER_DIE → ¬ (d' = d ∧ b' = b) →
      liveSlices cfg E d' b' = liveSlices cfg s d' b' := by
    intro d' b' hd' hb' hne
    apply liveSlices_congr
    intro p hp
    unfold coherentSlot
    rw [f1, e8]
    intro p' hp' e
    obtain ⟨a1, a2, _⟩ := slot_inj cfg hw d b p' d' b' p hd hb (by omega) hd' hb' hp e
    exact hne ⟨a1.symm, a2.symm⟩
  have hlz : liveSlices cfg E d b = 0 := by
    rw [liveSlices_eq_zero]
    intro p hp hc
    by_cases hpp : p < cfg.USER_PAGES_PER_BLOCK
    · unfold coherentSlot at hc
      rw [e9 p hpp] at hc
      have := hw.lsa_none
      omega
    · apply (liveSlices_eq_zero cfg s d b).mp hlive p hp
      unfold coherentSlot at hc ⊢
      rw [f1, e8] at hc
      · exact hc
      · intro p' hp' e
        obtain ⟨_, _, a3⟩ := slot_inj cfg hw d b p' d b p hd hb (by omega) hd hb hp e
        omega
  refine ⟨hL, ?_, ?_, ?_, ?_, ?_, ?_, ?_, ?_⟩
  · intro d' b' hd' hb' hbd
    rw [hon d' b' hd']
    by_cases e : d' = d ∧ b' = b
    · obtain ⟨rfl, rfl⟩ := e
      simp [e6a]
    · rw [(e5 d' b' e).1]
      simp only [e, or_false]
      rw [e4] at hbd
      exact h.free_iff d' b' hd' hb' hbd
  · intro d' b' hd' hb' hbd
    rw [e4] at hbd
    have e : ¬ (d' = d ∧ b' = b) := by
      rintro ⟨rfl, rfl⟩
      exact hbd hbad
    rw [hon d' b' hd', (e5 d' b' e).1]
    simp only [e, or_false]
    exact h.bad_off d' b' hd' hb' hbd
  · intro d' b' hd' hc
    rw [hon d' b' hd'] at hc
    by_cases e : d' = d ∧ b' = b
    · obtain ⟨rfl, rfl⟩ := e
      exact e6c
    · rw [(e5 d' b' e).2.2]
      rcases hc with hc | hc
      · exact h.listed d' b' hd' hc
      · exact absurd hc e
  · intro d' b' hd' hb'
    by_cases e : d' = d ∧ b' = b
    · obtain ⟨rfl, rfl⟩ := e
      simp only [GetBlockCurrentPage, e6c]
      simp [cp_zero.1]
    · rw [GetBlockCurrentPage_congr s E d' b' (e5 d' b' e).2.2]
      exact h.pages d' b' hd' hb'
  · intro lsa hlsa
    rw [f1]
    exact h.fwd lsa hlsa
  · intro d' b' hd' hb'
    by_cases e : d' = d ∧ b' = b
    · obtain ⟨rfl, rfl⟩ := e
      intro _ _
      exact ⟨e6b, hlz⟩
    · rw [GetBlockCurrentPage_congr s E d' b' (e5 d' b' e).2.2,
        IsBlockReserved_congr s E d' b' (e5 d' b' e).2.2, (e5 d' b' e).2.1, hlo d' b' hd' hb' e]
      exact h.clean d' b' hd' hb'
  · intro d' b' hd' hb'
    by_cases e : d' = d ∧ b' = b
    · obtain ⟨rfl, rfl⟩ := e
      rw [e6b, hlz]
      omega
    · rw [(e5 d' b' e).2.1, hlo d' b' hd' hb' e]
      exact h.cap d' b' hd' hb'
  · intro lb d' b' hlb hd' hb' e
    rw [f2] at e
    have hne := hcur_ne lb d' b' hlb e
    rw [(e5 d' b' hne).2.1, hlo d' b' hd' hb' hne, f3]
    exact h.cursor_cap lb d' b' hlb hd' hb' e

/-! ## The use invariant along the calls -/

theorem lockMask_value : BLOCK_CUR_PAGE_LOCK_MASK &&& BLOCK_CUR_PAGE_VALUE_MASK = 0 := by
  decide

theorem UseInv_invalidate (cfg : Config) (hw : cfg.WellFormed) (s : State) (h : UseInv cfg s)
    (lsa : Nat) (hlsa : lsa < cfg.SLICES_PER_SSD) :
    UseInv cfg (AddrTransWrite.invalidate cfg s lsa) := by
  unfold AddrTransWrite.invalidate
  split
  · exact UseInv_invalidateOld cfg hw s h lsa hlsa
  · exact h

theorem UseInv_reserve (cfg : Config) (hw : cfg.WellFormed) (s : State) (h : UseInv cfg s)
    (lb : Nat) (hlb : lb < cfg.LOGICAL_BLOCKS_PER_SSD) (t : State)
    (ht : AddrTransWrite.reserve Collector.stop 2 cfg s lb = .ok t) :
    UseInv cfg t := by
  by_cases hb : s.logicalBlockBaseVsa lb = cfg.VSA_NONE
  · have hd := h.lock.alloc.targetDie_lt
    obtain ⟨q, r2, b, hq, hr2, htt⟩ :=
      reserve_chain cfg s lb t (h.lock.alloc.lists _ hd) hb ht
    have hqfacts : UseInv cfg q ∧ b < cfg.USER_BLOCKS_PER_DIE ∧
        (q.die s.sliceAllocationTargetDie).currentBlock = b ∧
        q.logicalBlockBaseVsa = s.logicalBlockBaseVsa ∧
        (∀ lb', lb' < cfg.LOGICAL_BLOCKS_PER_SSD →
          s.logicalBlockBaseVsa lb' ≠ cfg.Vorg2VsaTranslation s.sliceAllocationTargetDie b 0) ∧
        GetBlockCurrentPage q s.sliceAllocationTargetDie b = 0 ∧
        IsBlockReservedForBlkMapping q s.sliceAllocationTargetDie b = 0 := by
      rcases hq with ⟨e, eb, hg, hk⟩ | ⟨rest, P, hl, hP, e⟩
      · subst e
        refine ⟨h, by rw [eb]; exact h.lock.alloc.current_lt _ hd, eb.symm, rfl, ?_, hg, hk⟩
        intro lb' hlb' e'
        exact h.lock.locked lb' _ b hlb' hd (by rw [eb]; exact h.lock.alloc.current_lt _ hd) e' hk
      · have hbl := Linked_head_lt cfg s _ b rest hl
        have hon : OnFreeList cfg s s.sliceAllocationTargetDie b :=
          ⟨_, hl, List.mem_cons_self _ _⟩
        have hno : ∀ lb', lb' < cfg.LOGICAL_BLOCKS_PER_SSD →
            s.logicalBlockBaseVsa lb' ≠ cfg.Vorg2VsaTranslation s.sliceAllocationTargetDie b 0 := by
          intro lb' hlb' e'
          exact LockInv.cursor_off cfg hw s h.lock lb' _ b hlb' hd hbl e' hon
        obtain ⟨_, _, p3, _, p5, _, ⟨_, _, q3, _, q5, q6, q7, _⟩, p8⟩ :=
          pop_spec cfg hw.block_none s _ b rest hl P hP
        have hUP := UseInv_pop cfg hw s h _ b rest hd hl P hP
        have hcp : (P.block s.sliceAllocationTargetDie b).currentPage = 0 := by
          rw [(p5 _ b).2.2.2]
          exact h.listed _ b hd hon
        have hoffP : ¬ OnFreeList cfg P s.sliceAllocationTargetDie b := by
          intro hc
          exact ((p8 _ b (h.lock.alloc.lists _ hd)).mp hc).2 ⟨rfl, rfl⟩
        have hclP := hUP.clean _ b hd hbl
          (by simp only [GetBlockCurrentPage, hcp]; exact cp_zero.1)
          (by simp only [IsBlockReservedForBlkMapping, hcp]; exact cp_zero.2)
        refine ⟨?_, hbl, ?_, ?_, hno, ?_, ?_⟩
        · refine UseInv_setPage cfg hw P hUP _ b 0 _ _ _ hoffP ?_ ?_ (fun _ _ => hclP)
            hUP.lock.alloc.targetCh_lt hUP.lock.alloc.targetWay_lt hUP.lock.alloc.targetDie_lt q e
          · intro lb' hlb' e'
            rw [q3] at e'
            exact absurd e' (hno lb' hlb')
          · rw [cp_zero.1]; exact Nat.zero_le _
        · rw [e]; exact p3
        · rw [e]; exact q3
        · rw [e]; simp only [GetBlockCurrentPage, upd2_same]; exact cp_zero.1
        · rw [e]; simp only [IsBlockReservedForBlkMapping, upd2_same]; exact cp_zero.2
    obtain ⟨hUq, hbl, hcur, hqb, hno, hg, hk⟩ := hqfacts
    obtain ⟨v1, v2, v3⟩ :=
      FindDie_valid cfg hw q hUq.lock.alloc.targetCh_lt hUq.lock.alloc.targetWay_lt
    have hoffq : ¬ OnFreeList cfg q s.sliceAllocationTargetDie b := by
      have := hUq.lock.alloc.current_off _ hd
      rw [hcur] at this
      exact this
    have hUr2 : UseInv cfg r2 := by
      refine UseInv_setPage cfg hw q hUq _ b _ _ _ _ hoffq (fun _ _ _ => lockMask_and_self) ?_ ?_
        v1 v2 v3 r2 hr2
      · rw [lockMask_value]; exact Nat.zero_le _
      · intro _ hc
        exact absurd hc lockMask_and_self
    have hr2die : r2.die = q.die := by rw [hr2]
    have hr2base : r2.logicalBlockBaseVsa = q.logicalBlockBaseVsa := by rw [hr2]
    have hclq := hUq.clean _ b hd hbl hg hk
    refine UseInv_set_cursor cfg hw r2 hUr2 lb _ b hd hbl ?_ ?_ ?_ ?_ t htt
    · have := hUr2.lock.alloc.current_off _ hd
      rw [hr2die, hcur] at this
      exact this
    · rw [hr2]
      simp only [IsBlockReservedForBlkMapping, upd2_same]
      exact lockMask_and_self
    · intro lb' hlb' _
      rw [hr2base, hqb]
      exact hno lb' hlb'
    · have e1 : (r2.block s.sliceAllocationTargetDie b).invalidSliceCnt =
          (q.block s.sliceAllocationTargetDie b).invalidSliceCnt := by
        rw [hr2]; simp
      have e2 : liveSlices cfg r2 s.sliceAllocationTargetDie b =
          liveSlices cfg q s.sliceAllocationTargetDie b :=
        liveSlices_frame cfg q r2 _ _ (by rw [hr2]) (by rw [hr2])
      rw [e1, e2, hclq.1, hclq.2]
  · have e : t = s := by
      unfold AddrTransWrite.reserve at ht
      simp only [hb, ↓reduceIte, Outcome.ok.injEq] at ht
      exact ht.symm
    rw [e]; exact h

theorem UseInv_commit (cfg : Config) (hw : cfg.WellFormed) (s : State) (h : UseInv cfg s)
    (lsa lb d b : Nat) (hlb : lb < cfg.LOGICAL_BLOCKS_PER_SSD)
    (hd : d < cfg.USER_DIES) (hb : b < cfg.USER_BLOCKS_PER_DIE)
    (hun : s.logicalSlice lsa = cfg.VSA_NONE)
    (hbase : s.logicalBlockBaseVsa lb = cfg.Vorg2VsaTranslation d b 0)
    (r : Nat × State) (hr : AddrTransWrite.commit cfg s lsa lb = .ok r) :
    UseInv cfg r.2 := by
  obtain ⟨s3, s4, hk, _, h3, h4, h5⟩ := commit_chain cfg hw s lsa lb d b hd hb hbase r hr
  obtain ⟨hp1, hp2⟩ := programmedPages_bounds cfg hw _ hk
  have hp3 : (s.logicalBlockNextOffset lb + 1 + (cfg.SLICES_PER_PAGE - 1)) / cfg.SLICES_PER_PAGE %
      32768 = (s.logicalBlockNextOffset lb + 1 + (cfg.SLICES_PER_PAGE - 1)) / cfg.SLICES_PER_PAGE :=
    Nat.mod_eq_of_lt (by have := hw.pages_le; omega)
  have hU3 : UseInv cfg s3 := UseInv_maps cfg hw s h lsa lb d b hlb hd hb hun hbase hk s3 h3
  have hb3 : s3.logicalBlockBaseVsa = s.logicalBlockBaseVsa := by rw [h3]
  have hg3 : GetBlockCurrentPage s3 d b = GetBlockCurrentPage s d b := by rw [h3]; rfl
  have hoff3 : ¬ OnFreeList cfg s3 d b :=
    LockInv.cursor_off cfg hw s3 hU3.lock lb d b hlb hd hb (by rw [hb3]; exact hbase)
  have h4f : UseInv cfg s4 ∧ 1 ≤ GetBlockCurrentPage s4 d b ∧
      s4.logicalBlockBaseVsa = s.logicalBlockBaseVsa := by
    rcases h4 with ⟨e, hle⟩ | ⟨_, e⟩
    · rw [e]
      exact ⟨hU3, by rw [hg3]; omega, hb3⟩
    · refine ⟨?_, ?_, by rw [e]; exact hb3⟩
      · refine UseInv_setPage cfg hw s3 hU3 d b _ _ _ _ hoff3 ?_ ?_ ?_ hU3.lock.alloc.targetCh_lt
          hU3.lock.alloc.targetWay_lt hU3.lock.alloc.targetDie_lt s4 e
        · intro _ _ _
          rw [cp_lock_set]
          exact h.lock.locked lb d b hlb hd hb hbase
        · rw [cp_get_set, hp3]; exact hp2
        · intro hc
          rw [cp_get_set, hp3] at hc
          omega
      · rw [e]
        simp only [GetBlockCurrentPage, upd2_same]
        rw [cp_get_set, hp3]; exact hp1
  obtain ⟨hU4, hG4, hb4⟩ := h4f
  rcases h5 with ⟨_, e⟩ | ⟨_, s5, e5, e⟩
  · rw [e]; exact hU4
  · have hU5 := UseInv_clear cfg hw s4 hU4 lb 0 s5 e5
    have hoff4 : ¬ OnFreeList cfg s4 d b :=
      LockInv.cursor_off cfg hw s4 hU4.lock lb d b hlb hd hb (by rw [hb4]; exact hbase)
    have hoff5 : ¬ OnFreeList cfg s5 d b := by
      intro hc
      apply hoff4
      refine (OnFreeList_of_fields cfg s4 s5 d b ?_ ?_).mp hc
      · rw [e5]; exact ⟨rfl, rfl, rfl⟩
      · intro x; rw [e5]; exact ⟨rfl, rfl, rfl⟩
    refine UseInv_setPage cfg hw s5 hU5 d b _ _ _ _ hoff5 ?_ ?_ ?_ hU5.lock.alloc.targetCh_lt
      hU5.lock.alloc.targetWay_lt hU5.lock.alloc.targetDie_lt r.2 e
    · intro lb' hlb' e'
      rw [e5] at e'
      simp only [upd_apply] at e'
      split at e'
      · exact absurd e'.symm (base_ne_none cfg hw d b hd hb)
      · rename_i hne
        rw [hb4] at e'
        exact absurd (h.lock.distinct lb' lb d b hlb' hlb hd hb e' hbase) hne
    · rw [cp_get_unlock]
      exact hU4.pages d b hd hb
    · intro hc
      rw [cp_get_unlock] at hc
      simp only [GetBlockCurrentPage] at hG4
      omega

theorem UseInv_write (cfg : Config) (hw : cfg.WellFormed) (s : State) (h : UseInv cfg s)
    (lsa : Nat) (r : Nat × State) (hr : AddrTransWrite Collector.stop 2 cfg s lsa = .ok r) :
    UseInv cfg r.2 := by
  obtain ⟨hlt, hok, t, ht, hc⟩ := AddrTransWrite_steps cfg s lsa r hr
  have hlb := AddrToBlock_lt cfg hw lsa hlt
  have hU1 := UseInv_invalidate cfg hw s h lsa hlt
  have hUt := UseInv_reserve cfg hw _ hU1 _ hlb t ht
  obtain ⟨d, b, hd, hb, e, _, _, _, _, e8, _⟩ := reserve_spec cfg hw _ hU1.lock.alloc _ hlb t ht
  have hun : t.logicalSlice lsa = cfg.VSA_NONE := by
    rw [e8, (invalidate_frame cfg s lsa hok).2.2.1]
    simp [upd_apply]
  exact UseInv_commit cfg hw t hUt lsa _ d b hlb hd hb hun e r hc

theorem UseInv_findSlice (cfg : Config) (hw : cfg.WellFormed) (s : State) (h : UseInv cfg s)
    (r : Nat × State) (hr : FindFreeVirtualSlice Collector.stop cfg s = .ok r) : UseInv cfg r.2 := by
  have hd := h.lock.alloc.targetDie_lt
  obtain ⟨q, hq, _, e⟩ := FindFreeVirtualSlice_unfold cfg s r hr
  have hqf : UseInv cfg q.2 ∧ q.1 < cfg.USER_BLOCKS_PER_DIE ∧
      (q.2.die s.sliceAllocationTargetDie).currentBlock = q.1 ∧
      GetBlockCurrentPage q.2 s.sliceAllocationTargetDie q.1 < cfg.USER_PAGES_PER_BLOCK := by
    rcases FindFreeVirtualSlice_pick_chain cfg s _ (h.lock.alloc.lists _ hd) q hq with
      ⟨e1, hg, _⟩ | ⟨rest, hl, e1⟩
    · rw [e1]
      exact ⟨h, h.lock.alloc.current_lt _ hd, rfl, hg⟩
    · obtain ⟨_, _, p3, _, p5, _, _, _⟩ := pop_spec cfg hw.block_none s _ q.1 rest hl q.2 e1
      refine ⟨UseInv_pop cfg hw s h _ q.1 rest hd hl q.2 e1, Linked_head_lt cfg s _ q.1 rest hl,
        p3, ?_⟩
      rw [GetBlockCurrentPage_congr s q.2 _ _ (p5 _ q.1).2.2.2]
      simp only [GetBlockCurrentPage,
        h.listed _ q.1 hd ⟨_, hl, List.mem_cons_self _ _⟩, cp_zero.1]
      exact hw.pages_pos
  obtain ⟨hUq, hb, hcur, hg⟩ := hqf
  obtain ⟨v1, v2, v3⟩ :=
    FindDie_valid cfg hw q.2 hUq.lock.alloc.targetCh_lt hUq.lock.alloc.targetWay_lt
  refine UseInv_setPage cfg hw q.2 hUq _ q.1 _ _ _ _ ?_ ?_ ?_ ?_ v1 v2 v3 r.2 e
  · have := hUq.lock.alloc.current_off _ hd
    rw [hcur] at this
    exact this
  · intro lb hlb e'
    rw [cp_lock_set]
    exact hUq.lock.locked lb _ q.1 hlb hd hb e'
  · rw [cp_increment cfg hw _ _ hg]; omega
  · intro hc
    rw [cp_increment cfg hw _ _ hg] at hc
    omega

theorem UseInv_invalidateBlock (cfg : Config) (hw : cfg.WellFormed) (s : State)
    (h : UseInv cfg s) (lblk : Nat)
    (hadm : ∀ k, k < cfg.SLICES_PER_BLOCK →
      lblk * cfg.SLICES_PER_BLOCK + k < cfg.SLICES_PER_SSD) :
    UseInv cfg (InvalidateOldVsaBlock cfg s lblk) := by
  have hloop : UseInv cfg (forLoop cfg.SLICES_PER_BLOCK
      (fun offset t => InvalidateOldVsa cfg t (lblk * cfg.SLICES_PER_BLOCK + offset)) s) := by
    apply forLoop_induction (fun _ t => UseInv cfg t)
    · exact h
    · intro i t hi ht
      exact UseInv_invalidateOld cfg hw t ht _ (hadm i hi)
  unfold InvalidateOldVsaBlock
  simp only
  split
  · exact UseInv_clear cfg hw _ hloop lblk 0 _ rfl
  · exact hloop

/-! ## FindFreeVirtualSliceForGc -/

theorem GetFromFbList_gc (cfg : Config) (hopt : cfg.GET_FREE_BLOCK_NORMAL ≠ cfg.GET_FREE_BLOCK_GC)
    (s : State) (d : Nat) :
    GetFromFbList cfg s d cfg.GET_FREE_BLOCK_GC =
      .ok (if (s.die d).headFreeBlock = cfg.BLOCK_NONE then (cfg.BLOCK_FAIL, s)
        else GetFromFbList.unlink cfg s d (s.die d).headFreeBlock) := by
  unfold GetFromFbList
  simp only [hopt.symm, ↓reduceIte]
  split <;> rfl

/-- The first step of `FindFreeVirtualSliceForGc`, when it returns: the victim
is not the current block and nothing changes, or it is and the head of the
free list becomes the current block. -/
theorem FindFreeVirtualSliceForGc_replace_chain (cfg : Config)
    (hopt : cfg.GET_FREE_BLOCK_NORMAL ≠ cfg.GET_FREE_BLOCK_GC) (s : State) (d v : Nat)
    (s1 : State) (h : FindFreeVirtualSliceForGc.replace cfg s d v = .ok s1) :
    (v ≠ (s.die d).currentBlock ∧ s1 = s) ∨
    (v = (s.die d).currentBlock ∧ (s.die d).headFreeBlock ≠ cfg.BLOCK_NONE ∧
      s1 = (GetFromFbList.unlink cfg s d (s.die d).headFreeBlock).2.setDie d
        { (GetFromFbList.unlink cfg s d (s.die d).headFreeBlock).2.die d with
          currentBlock := (s.die d).headFreeBlock }) := by
  unfold FindFreeVirtualSliceForGc.replace at h
  by_cases hv : v = (s.die d).currentBlock
  · right
    simp only [hv, ↓reduceIte, GetFromFbList_gc cfg hopt, Outcome.bind_ok] at h
    by_cases hh : (s.die d).headFreeBlock = cfg.BLOCK_NONE
    · simp [hh, State.setDie] at h
    · simp only [hh, ↓reduceIte, (unlink_frame cfg s d _).1] at h
      split at h
      · exact absurd h (by simp)
      · simp only [Outcome.ok.injEq] at h
        exact ⟨hv, hh, h.symm⟩
  · left
    simp only [hv, ↓reduceIte, Outcome.ok.injEq] at h
    exact ⟨hv, h.symm⟩

/-- The choice of the block in `FindFreeVirtualSliceForGc`, when it returns. -/
theorem FindFreeVirtualSliceForGc_pick_chain (cfg : Config)
    (hopt : cfg.GET_FREE_BLOCK_NORMAL ≠ cfg.GET_FREE_BLOCK_GC) (s : State) (d : Nat)
    (q : Nat × State) (h : FindFreeVirtualSliceForGc.pick cfg s d = .ok q) :
    (q = ((s.die d).currentBlock, s) ∧
      GetBlockCurrentPage s d (s.die d).currentBlock < cfg.USER_PAGES_PER_BLOCK ∧
      IsBlockReservedForBlkMapping s d (s.die d).currentBlock = 0) ∨
    ((GetBlockCurrentPage s d (s.die d).currentBlock = cfg.USER_PAGES_PER_BLOCK ∨
        IsBlockReservedForBlkMapping s d (s.die d).currentBlock ≠ 0) ∧
      (s.die d).headFreeBlock ≠ cfg.BLOCK_NONE ∧
      q = ((s.die d).headFreeBlock,
        (GetFromFbList.unlink cfg s d (s.die d).headFreeBlock).2.setDie d
          { (GetFromFbList.unlink cfg s d (s.die d).headFreeBlock).2.die d with
            currentBlock := (s.die d).headFreeBlock })) := by
  unfold FindFreeVirtualSliceForGc.pick at h
  by_cases hc : GetBlockCurrentPage s d (s.die d).currentBlock = cfg.USER_PAGES_PER_BLOCK ∨
      IsBlockReservedForBlkMapping s d (s.die d).currentBlock ≠ 0
  · right
    simp only [hc, ↓reduceIte, GetFromFbList_gc cfg hopt, Outcome.bind_ok] at h
    by_cases hh : (s.die d).headFreeBlock = cfg.BLOCK_NONE
    · simp [hh] at h
    · simp only [hh, ↓reduceIte, (unlink_frame cfg s d _).1] at h
      split at h
      · simp only [Outcome.ok.injEq] at h
        exact ⟨hc, hh, h.symm⟩
      · exact absurd h (by simp)
  · left
    simp only [hc, ↓reduceIte] at h
    by_cases hg : GetBlockCurrentPage s d (s.die d).currentBlock > cfg.USER_PAGES_PER_BLOCK
    · simp [hg] at h
    · simp only [hg, ↓reduceIte, Outcome.ok.injEq] at h
      simp only [not_or, not_not] at hc
      exact ⟨h.symm, by omega, hc.2⟩

/-- A returning `FindFreeVirtualSliceForGc` as a chain of steps. -/
theorem FindFreeVirtualSliceForGc_unfold (cfg : Config) (s : State) (d v : Nat)
    (r : Nat × State) (h : FindFreeVirtualSliceForGc cfg s d v = .ok r) :
    ∃ s1 q, FindFreeVirtualSliceForGc.replace cfg s d v = .ok s1 ∧
      FindFreeVirtualSliceForGc.pick cfg s1 d = .ok q ∧
      r.1 = cfg.Vorg2VsaTranslation d q.1 (GetBlockCurrentPage q.2 d q.1) ∧
      r.2 = { q.2 with
        block := upd2 q.2.block d q.1
          { q.2.block d q.1 with
            currentPage :=
              (((q.2.block d q.1).currentPage &&& BLOCK_CUR_PAGE_LOCK_MASK) |||
                ((GetBlockCurrentPage q.2 d q.1 + 1) &&& BLOCK_CUR_PAGE_VALUE_MASK)) % 65536 }
        targetCh := q.2.targetCh, targetWay := q.2.targetWay
        sliceAllocationTargetDie := q.2.sliceAllocationTargetDie } := by
  unfold FindFreeVirtualSliceForGc at h
  obtain ⟨s1, hs1, h1⟩ := Outcome.bind_eq_ok h
  obtain ⟨q, hq, h2⟩ := Outcome.bind_eq_ok h1
  simp only [Outcome.ok.injEq] at h2
  refine ⟨s1, q, hs1, hq, ?_, ?_⟩
  · rw [← h2]
  · rw [← h2]; rfl

theorem UseInv_takeHead (cfg : Config) (hw : cfg.WellFormed) (s : State) (h : UseInv cfg s)
    (d : Nat) (hd : d < cfg.USER_DIES) (hh : (s.die d).headFreeBlock ≠ cfg.BLOCK_NONE)
    (P : State)
    (hP : P = (GetFromFbList.unlink cfg s d (s.die d).headFreeBlock).2.setDie d
      { (GetFromFbList.unlink cfg s d (s.die d).headFreeBlock).2.die d with
        currentBlock := (s.die d).headFreeBlock }) :
    UseInv cfg P ∧ (s.die d).headFreeBlock < cfg.USER_BLOCKS_PER_DIE ∧
      (P.die d).currentBlock = (s.die d).headFreeBlock ∧
      (P.block d (s.die d).headFreeBlock).currentPage = 0 ∧
      OnFreeList cfg s d (s.die d).headFreeBlock := by
  obtain ⟨l, hl⟩ := h.lock.alloc.lists d hd
  obtain ⟨rest, hl'⟩ := FreeListIs_of_head cfg s d l hl hh
  obtain ⟨_, _, p3, _, p5, _, _, _⟩ := pop_spec cfg hw.block_none s d _ rest hl' P hP
  have hon : OnFreeList cfg s d (s.die d).headFreeBlock := ⟨_, hl', List.mem_cons_self _ _⟩
  refine ⟨UseInv_pop cfg hw s h d _ rest hd hl' P hP, Linked_head_lt cfg s d _ rest hl', p3, ?_,
    hon⟩
  rw [(p5 d _).2.2.2]
  exact h.listed d _ hd hon

theorem UseInv_forGc (cfg : Config) (hw : cfg.WellFormed) (s : State) (h : UseInv cfg s)
    (d v : Nat) (hd : d < cfg.USER_DIES) (r : Nat × State)
    (hr : FindFreeVirtualSliceForGc cfg s d v = .ok r) : UseInv cfg r.2 := by
  obtain ⟨s1, q, hs1, hq, _, e⟩ := FindFreeVirtualSliceForGc_unfold cfg s d v r hr
  have hU1 : UseInv cfg s1 := by
    rcases FindFreeVirtualSliceForGc_replace_chain cfg hw.option_ne s d v s1 hs1 with
      ⟨_, e1⟩ | ⟨_, hh, e1⟩
    · rw [e1]; exact h
    · exact (UseInv_takeHead cfg hw s h d hd hh s1 e1).1
  have hqf : UseInv cfg q.2 ∧ q.1 < cfg.USER_BLOCKS_PER_DIE ∧
      (q.2.die d).currentBlock = q.1 ∧
      GetBlockCurrentPage q.2 d q.1 < cfg.USER_PAGES_PER_BLOCK := by
    rcases FindFreeVirtualSliceForGc_pick_chain cfg hw.option_ne s1 d q hq with
      ⟨e1, hg, _⟩ | ⟨_, hh, e1⟩
    · rw [e1]
      exact ⟨hU1, hU1.lock.alloc.current_lt _ hd, rfl, hg⟩
    · obtain ⟨a1, a2, a3, a4, _⟩ := UseInv_takeHead cfg hw s1 hU1 d hd hh q.2 (by rw [e1])
      have e2 : q.1 = (s1.die d).headFreeBlock := by rw [e1]
      rw [e2]
      refine ⟨a1, a2, a3, ?_⟩
      unfold GetBlockCurrentPage
      rw [a4, cp_zero.1]
      exact hw.pages_pos
  obtain ⟨hUq, hb, hcur, hg⟩ := hqf
  refine UseInv_setPage cfg hw q.2 hUq _ q.1 _ _ _ _ ?_ ?_ ?_ ?_ hUq.lock.alloc.targetCh_lt
    hUq.lock.alloc.targetWay_lt hUq.lock.alloc.targetDie_lt r.2 e
  · have := hUq.lock.alloc.current_off _ hd
    rw [hcur] at this
    exact this
  · intro lb hlb e'
    rw [cp_lock_set]
    exact hUq.lock.locked lb _ q.1 hlb hd hb e'
  · rw [cp_increment cfg hw _ _ hg]; omega
  · intro hc
    rw [cp_increment cfg hw _ _ hg] at hc
    omega

/-! ## Runs -/

theorem UseInv_call (cfg : Config) (hw : cfg.WellFormed) (s : State) (h : UseInv cfg s)
    (c : Call) (hadm : c.Admissible cfg s) (t : State) (ht : c.run Collector.stop 2 cfg s = some t) :
    UseInv cfg t := by
  cases c with
  | write lsa =>
    simp only [Call.run] at ht
    split at ht
    · rename_i r hr
      simp only [Option.some.injEq] at ht
      rw [← ht]
      exact UseInv_write cfg hw s h lsa r hr
    · exact absurd ht (by simp)
  | invalidate lsa =>
    simp only [Call.run, Option.some.injEq] at ht
    rw [← ht]
    exact UseInv_invalidateOld cfg hw s h lsa hadm
  | invalidateBlock lblk =>
    simp only [Call.run, Option.some.injEq] at ht
    rw [← ht]
    exact UseInv_invalidateBlock cfg hw s h lblk hadm
  | findSlice =>
    simp only [Call.run] at ht
    split at ht
    · rename_i r hr
      simp only [Option.some.injEq] at ht
      rw [← ht]
      exact UseInv_findSlice cfg hw s h r hr
    · exact absurd ht (by simp)
  | findSliceForGc d v =>
    simp only [Call.run] at ht
    split at ht
    · rename_i r hr
      simp only [Option.some.injEq] at ht
      rw [← ht]
      exact UseInv_forGc cfg hw s h d v hadm r hr
    · exact absurd ht (by simp)
  | erase d b =>
    simp only [Call.run, Option.some.injEq] at ht
    rw [← ht]
    obtain ⟨a1, a2, a3, a4, a5, a6, a7⟩ := hadm
    exact UseInv_erase cfg hw s h d b a1 a2 a3 a4 a5 a6 a7

theorem UseInv_runAdmissible (cfg : Config) (hw : cfg.WellFormed) (calls : List Call) :
    ∀ s t, UseInv cfg s → runAdmissible Collector.stop 2 cfg s calls = some t → UseInv cfg t := by
  induction calls with
  | nil =>
    intro s t h ht
    simp only [runAdmissible, Option.some.injEq] at ht
    rw [← ht]; exact h
  | cons c cs ih =>
    intro s t h ht
    simp only [runAdmissible] at ht
    split at ht
    · rename_i hadm
      split at ht
      · rename_i u hu
        exact ih u t (UseInv_call cfg hw s h c hadm u hu) ht
      · exact absurd ht (by simp)
    · exact absurd ht (by simp)

theorem LockInv_call (cfg : Config) (hw : cfg.WellFormed) (s : State) (h : LockInv cfg s)
    (c : Call) (hc : c.isAllocation = true) (t : State) (ht : c.run Collector.stop 2 cfg s = some t) :
    LockInv cfg t := by
  cases c with
  | write lsa =>
    simp only [Call.run] at ht
    split at ht
    · rename_i r hr
      simp only [Option.some.injEq] at ht
      rw [← ht]
      exact LockInv_write cfg hw s h lsa r hr
    · exact absurd ht (by simp)
  | invalidate lsa =>
    simp only [Call.run, Option.some.injEq] at ht
    rw [← ht]
    exact LockInv_invalidateOld cfg hw s h lsa
  | invalidateBlock lblk => simp [Call.isAllocation] at hc
  | findSlice =>
    simp only [Call.run] at ht
    split at ht
    · rename_i r hr
      simp only [Option.some.injEq] at ht
      rw [← ht]
      exact LockInv_findSlice cfg hw s h r hr
    · exact absurd ht (by simp)
  | findSliceForGc d v => simp [Call.isAllocation] at hc
  | erase d b => simp [Call.isAllocation] at hc

theorem LockInv_runCalls (cfg : Config) (hw : cfg.WellFormed) (calls : List Call) :
    ∀ s t, LockInv cfg s → (∀ c ∈ calls, c.isAllocation = true) →
      runCalls Collector.stop 2 cfg s calls = some t → LockInv cfg t := by
  induction calls with
  | nil =>
    intro s t h _ ht
    simp only [runCalls, Option.some.injEq] at ht
    rw [← ht]; exact h
  | cons c cs ih =>
    intro s t h hall ht
    simp only [runCalls] at ht
    split at ht
    · rename_i u hu
      exact ih u t (LockInv_call cfg hw s h c (hall c (List.mem_cons_self _ _)) u hu)
        (fun c' hc' => hall c' (List.mem_cons_of_mem _ hc')) ht
    · exact absurd ht (by simp)

/-! ## The initialised state -/

theorem SameMaps.refl (s : State) : SameMaps s s := ⟨rfl, rfl, rfl, rfl, rfl, rfl, rfl⟩

theorem SameMaps.trans {s t u : State} (h1 : SameMaps s t) (h2 : SameMaps t u) : SameMaps s u :=
  ⟨h2.1.trans h1.1, h2.2.trans h1.2, h2.3.trans h1.3, h2.4.trans h1.4, h2.5.trans h1.5,
    h2.6.trans h1.6, h2.7.trans h1.7⟩

theorem InitBlockMap_body_maps (cfg : Config) (d vb : Nat) (s : State) :
    SameMaps s (InitBlockMap.body cfg d vb s) := by
  unfold InitBlockMap.body
  simp only
  split
  · exact ⟨rfl, rfl, rfl, rfl, rfl, rfl, rfl⟩
  · obtain ⟨a1, a2, _, a4, a5, a6, a7, a8, _, _⟩ := PutToFbList_frame cfg
      ((((s.setBlock d vb { s.block d vb with
          bad := (s.phyBlock d (s.phyBlock d
            (cfg.Vblock2PblockOfTbsTranslation vb)).remappedPhyBlock).bad }).setBlock d vb
        { (s.setBlock d vb { s.block d vb with
            bad := (s.phyBlock d (s.phyBlock d
              (cfg.Vblock2PblockOfTbsTranslation vb)).remappedPhyBlock).bad }).block d vb with
          free := 1 }) |> fun s2 => ResetBlockCurrentPage
            (s2.setBlock d vb { s2.block d vb with invalidSliceCnt := 0 }) d vb) |> fun s4 =>
          s4.setBlock d vb { s4.block d vb with eraseCnt := 0 }) d vb
    exact ⟨a1, a2, a4, a5, a6, a7, a8⟩

theorem InitBlockMap_maps (cfg : Config) (s : State) : SameMaps s (InitBlockMap cfg s) := by
  unfold InitBlockMap
  apply forLoop_induction (fun _ t => SameMaps s t)
  · exact SameMaps.refl s
  · intro d t _ ht
    apply forLoop_induction (fun _ u => SameMaps s u)
    · exact ht
    · intro vb u _ hu
      exact hu.trans (InitBlockMap_body_maps cfg d vb u)

/-- One round of `InitCurrentBlockOfDieMap` that returns takes the head of the
free list of the die as its current block. -/
theorem InitCurrentBlockOfDieMap_body_ok (cfg : Config) (n : Nat) (x : Outcome State)
    (t' : State) (h : InitCurrentBlockOfDieMap.body cfg n x = .ok t') :
    ∃ t, x = .ok t ∧ cfg.RESERVED_FREE_BLOCK_COUNT < (t.die n).freeBlockCnt ∧
      t' = (GetFromFbList.unlink cfg t n (t.die n).headFreeBlock).2.setDie n
        { (GetFromFbList.unlink cfg t n (t.die n).headFreeBlock).2.die n with
          currentBlock := (t.die n).headFreeBlock } := by
  unfold InitCurrentBlockOfDieMap.body at h
  obtain ⟨t, ht, h1⟩ := Outcome.bind_eq_ok h
  refine ⟨t, ht, ?_⟩
  rw [GetFromFbList_normal] at h1
  simp only [Outcome.bind_ok] at h1
  by_cases hc : (t.die n).freeBlockCnt ≤ cfg.RESERVED_FREE_BLOCK_COUNT
  · simp [hc, State.setDie] at h1
  · simp only [hc, ↓reduceIte, (unlink_frame cfg t n _).1] at h1
    split at h1
    · exact absurd h1 (by simp)
    · simp only [Outcome.ok.injEq] at h1
      exact ⟨by omega, h1.symm⟩

theorem InitCurrentBlockOfDieMap_loop (cfg : Config) (hw : cfg.WellFormed) (t0 : State)
    (hl : ∀ d, d < cfg.USER_DIES → ∃ l, FreeListIs cfg t0 d l) :
    ∀ n, n ≤ cfg.USER_DIES → ∀ t,
      forLoop n (InitCurrentBlockOfDieMap.body cfg) (.ok t0) = .ok t →
      SameMaps t0 t ∧
      (∀ d x, (t.block d x).bad = (t0.block d x).bad ∧
        (t.block d x).invalidSliceCnt = (t0.block d x).invalidSliceCnt ∧
        (t.block d x).currentPage = (t0.block d x).currentPage) ∧
      (∀ d, n ≤ d → t.die d = t0.die d ∧ t.block d = t0.block d) ∧
      (∀ d, d < n → ∃ h rest, FreeListIs cfg t0 d (h :: rest) ∧ FreeListIs cfg t d rest ∧
        (t.die d).currentBlock = h ∧
        (∀ x, (t.block d x).free = if x = h then 0 else (t0.block d x).free)) := by
  intro n
  induction n with
  | zero =>
    intro _ t ht
    simp only [forLoop, List.range_zero, List.foldl_nil, Outcome.ok.injEq] at ht
    subst ht
    exact ⟨SameMaps.refl _, fun _ _ => ⟨rfl, rfl, rfl⟩, fun _ _ => ⟨rfl, rfl⟩,
      fun d hd => absurd hd (Nat.not_lt_zero d)⟩
  | succ n ih =>
    intro hn t' ht'
    rw [forLoop_succ] at ht'
    obtain ⟨t, ht, hcnt, hP⟩ := InitCurrentBlockOfDieMap_body_ok cfg n _ t' ht'
    obtain ⟨i1, i2, i3, i4⟩ := ih (by omega) t ht
    have hnd : n < cfg.USER_DIES := by omega
    obtain ⟨l, hl0⟩ := hl n hnd
    have hlt : FreeListIs cfg t n l :=
      FreeListIs_congr cfg t0 t n l (i3 n (Nat.le_refl n)).1
        (fun b _ => by rw [(i3 n (Nat.le_refl n)).2]) hl0
    obtain ⟨rest, hl'⟩ := FreeListIs_of_count cfg t n l hlt (by omega)
    obtain ⟨p1, p2, p3, p4, p5, p6, ⟨q1, q2, q3, q4, q5, q6, q7, _⟩, _⟩ :=
      pop_spec cfg hw.block_none t n _ rest hl' t' hP
    have hblk : ∀ d, d ≠ n → t'.block d = t.block d := by
      intro d hd
      rw [hP]
      exact (unlink_other cfg t n _ d hd).2
    refine ⟨i1.trans ⟨q1, q2, q3, q4, q5, q6, q7⟩, ?_, ?_, ?_⟩
    · intro d x
      obtain ⟨a1, a2, _, a4⟩ := p5 d x
      obtain ⟨b1, b2, b3⟩ := i2 d x
      exact ⟨a1.trans b1, a2.trans b2, a4.trans b3⟩
    · intro d hd
      have hne : d ≠ n := by omega
      obtain ⟨a1, a2⟩ := i3 d (by omega)
      exact ⟨(p4 d hne).trans a1, (hblk d hne).trans a2⟩
    · intro d hd
      by_cases e : d = n
      · subst e
        refine ⟨_, rest, ?_, p1, p3, ?_⟩
        · exact FreeListIs_congr cfg t t0 d _ (i3 d (Nat.le_refl d)).1.symm
            (fun b _ => by rw [(i3 d (Nat.le_refl d)).2]) hl'
        · intro x
          rw [p6, (i3 d (Nat.le_refl d)).2]
          simp
      · obtain ⟨h, rest', a1, a2, a3, a4⟩ := i4 d (by omega)
        refine ⟨h, rest', a1, p2 d rest' e a2, ?_, ?_⟩
        · rw [p4 d e]; exact a3
        · intro x
          rw [hblk d e]
          exact a4 x

theorem mem_goodBlocks (cfg : Config) (s : State) (d n b : Nat) :
    b ∈ goodBlocks cfg s d n ↔ b < n ∧ resolvedBad cfg s d b = 0 := by
  simp [goodBlocks]

/-- The state that `initialise` returns satisfies the use invariant. -/
theorem initialise_useInv (cfg : Config) (hw : cfg.WellFormed) (s0 s1 : State)
    (h : initialise cfg s0 = .ok s1) : UseInv cfg s1 := by
  unfold initialise at h
  simp only at h
  generalize hsa : ({ (FindDieForFreeSliceAllocation cfg
      { s0 with targetCh := 0, targetWay := 0 }).2 with
    sliceAllocationTargetDie := (FindDieForFreeSliceAllocation cfg
      { s0 with targetCh := 0, targetWay := 0 }).1 % 256 } : State) = sa at h
  obtain ⟨g1, g2, g3, g4, _⟩ := FindDie_step cfg hw.dies_le
    ({ s0 with targetCh := 0, targetWay := 0 } : State) hw.channels_pos hw.ways_pos
  have hsaT : sa.sliceAllocationTargetDie < cfg.USER_DIES := by
    rw [← hsa]
    simp only
    rw [Nat.mod_eq_of_lt (by have := hw.dies_le; omega)]
    exact g2
  have hsaC : sa.targetCh < cfg.USER_CHANNELS := by rw [← hsa]; exact g3
  have hsaW : sa.targetWay < cfg.USER_WAYS := by rw [← hsa]; exact g4
  clear hsa g1 g2 g3 g4
  have hsm := InitSliceMap_eq cfg sa
  generalize InitSliceMap cfg sa = sm at h hsm
  have hdm := InitDieMap_eq cfg sm
  have hdl := fun d hd => InitDieMap_list cfg sm d hd
  generalize InitDieMap cfg sm = sd at h hdm hdl
  have hbl := InitBlockMap_list cfg hw.block_none sd hdl
  have hbt := InitBlockMap_table cfg hw.block_none sd hdl
  have hbm := InitBlockMap_maps cfg sd
  generalize InitBlockMap cfg sd = t0 at h hbl hbt hbm
  obtain ⟨k1, k2, _, k4⟩ := InitCurrentBlockOfDieMap_loop cfg hw t0
    (fun d hd => ⟨_, hbl d hd⟩) cfg.USER_DIES (Nat.le_refl _) s1 h
  have hm := hbm.trans k1
  have hls : ∀ i, i < cfg.SLICES_PER_SSD → s1.logicalSlice i = cfg.VSA_NONE := by
    intro i hi
    rw [hm.logicalSlice, hdm, hsm]
    simp [hi]
  have hvs : ∀ i, i < cfg.SLICES_PER_SSD → s1.virtualSlice i = cfg.LSA_NONE := by
    intro i hi
    rw [hm.virtualSlice, hdm, hsm]
    simp [hi]
  have hbs : ∀ i, i < cfg.LOGICAL_BLOCKS_PER_SSD → s1.logicalBlockBaseVsa i = cfg.VSA_NONE := by
    intro i hi
    rw [hm.base, hdm, hsm]
    simp [hi]
  have hT : s1.sliceAllocationTargetDie < cfg.USER_DIES := by
    rw [hm.targetDie, hdm, hsm]; exact hsaT
  have hC : s1.targetCh < cfg.USER_CHANNELS := by rw [hm.targetCh, hdm, hsm]; exact hsaC
  have hW : s1.targetWay < cfg.USER_WAYS := by rw [hm.targetWay, hdm, hsm]; exact hsaW
  have hnob : ∀ lb d b, lb < cfg.LOGICAL_BLOCKS_PER_SSD → d < cfg.USER_DIES →
      b < cfg.USER_BLOCKS_PER_DIE →
      s1.logicalBlockBaseVsa lb ≠ cfg.Vorg2VsaTranslation d b 0 := by
    intro lb d b hlb hd hb e
    rw [hbs lb hlb] at e
    exact base_ne_none cfg hw d b hd hb e.symm
  -- per-die description
  have hdie : ∀ d, d < cfg.USER_DIES → ∃ h rest,
      goodBlocks cfg sd d cfg.USER_BLOCKS_PER_DIE = h :: rest ∧ FreeListIs cfg s1 d rest ∧
      (s1.die d).currentBlock = h ∧
      (∀ x, (s1.block d x).free = if x = h then 0 else (t0.block d x).free) := by
    intro d hd
    obtain ⟨h', rest, a1, a2, a3, a4⟩ := k4 d hd
    exact ⟨h', rest, FreeListIs_unique cfg hw.block_none t0 d _ _ (hbl d hd) a1, a2, a3, a4⟩
  have hon : ∀ d b h' rest, d < cfg.USER_DIES → FreeListIs cfg s1 d rest →
      goodBlocks cfg sd d cfg.USER_BLOCKS_PER_DIE = h' :: rest →
      (OnFreeList cfg s1 d b ↔ (b < cfg.USER_BLOCKS_PER_DIE ∧ resolvedBad cfg sd d b = 0) ∧
        b ≠ h') := by
    intro d b h' rest hd hr hg
    rw [OnFreeList_iff cfg hw.block_none s1 d b rest hr, ← mem_goodBlocks, hg]
    have hnd : (h' :: rest).Nodup := by
      rw [← hg]
      exact (hbl d hd).nodup
    simp only [List.nodup_cons] at hnd
    simp only [List.mem_cons]
    constructor
    · intro hb
      exact ⟨Or.inr hb, fun e => hnd.1 (e ▸ hb)⟩
    · rintro ⟨hb | hb, hne⟩
      · exact absurd hb hne
      · exact hb
  have hA : AllocInv cfg s1 := by
    refine ⟨hT, hC, hW, ?_, ?_, ?_, ?_⟩
    · intro d hd
      obtain ⟨_, rest, _, a2, _, _⟩ := hdie d hd
      exact ⟨rest, a2⟩
    · intro d hd
      obtain ⟨h', rest, a1, _, a3, _⟩ := hdie d hd
      rw [a3]
      have : h' ∈ goodBlocks cfg sd d cfg.USER_BLOCKS_PER_DIE := by rw [a1]; simp
      exact ((mem_goodBlocks cfg sd d _ h').mp this).1
    · intro d hd hc
      obtain ⟨h', rest, a1, a2, a3, _⟩ := hdie d hd
      rw [a3] at hc
      exact ((hon d h' h' rest hd a2 a1).mp hc).2 rfl
    · intro lb hlb hne
      exact absurd (hbs lb hlb) hne
  have hL : LockInv cfg s1 :=
    ⟨hA, fun lb d b hlb hd hb e => absurd e (hnob lb d b hlb hd hb),
      fun lb _ d b hlb _ hd hb e _ => absurd e (hnob lb d b hlb hd hb)⟩
  have hcp : ∀ d b, d < cfg.USER_DIES → b < cfg.USER_BLOCKS_PER_DIE →
      (s1.block d b).currentPage = 0 := by
    intro d b hd hb
    rw [(k2 d b).2.2]
    exact (hbt d hd b hb).2.2.2.1
  have hcnt : ∀ d b, d < cfg.USER_DIES → b < cfg.USER_BLOCKS_PER_DIE →
      (s1.block d b).invalidSliceCnt = 0 := by
    intro d b hd hb
    rw [(k2 d b).2.1]
    exact (hbt d hd b hb).2.2.1
  have hlive : ∀ d b, d < cfg.USER_DIES → b < cfg.USER_BLOCKS_PER_DIE →
      liveSlices cfg s1 d b = 0 := by
    intro d b hd hb
    rw [liveSlices_eq_zero]
    intro p hp hc
    unfold coherentSlot at hc
    rw [hvs _ (hw.pack_lt d b p hd hb hp)] at hc
    have := hw.lsa_none
    omega
  refine ⟨hL, ?_, ?_, ?_, ?_, ?_, ?_, ?_, ?_⟩
  · intro d b hd hb hbad
    obtain ⟨h', rest, a1, a2, _, a4⟩ := hdie d hd
    rw [(k2 d b).1, (hbt d hd b hb).1] at hbad
    rw [hon d b h' rest hd a2 a1, a4, (hbt d hd b hb).2.1]
    by_cases e : b = h'
    · simp [e]
    · simp [e, hb, hbad]
  · intro d b hd hb hbad
    obtain ⟨h', rest, a1, a2, _, a4⟩ := hdie d hd
    rw [(k2 d b).1, (hbt d hd b hb).1] at hbad
    rw [hon d b h' rest hd a2 a1, a4, (hbt d hd b hb).2.1]
    have hne : b ≠ h' := by
      intro e
      have : h' ∈ goodBlocks cfg sd d cfg.USER_BLOCKS_PER_DIE := by rw [a1]; simp
      exact hbad (e ▸ ((mem_goodBlocks cfg sd d _ h').mp this).2)
    simp [hne, hbad]
  · intro d b hd hc
    obtain ⟨h', rest, a1, a2, _, _⟩ := hdie d hd
    exact hcp d b hd ((hon d b h' rest hd a2 a1).mp hc).1.1
  · intro d b hd hb
    simp only [GetBlockCurrentPage, hcp d b hd hb, cp_zero.1]
    exact Nat.zero_le _
  · intro lsa hlsa hne
    exact absurd (hls lsa hlsa) hne
  · intro d b hd hb _ _
    exact ⟨hcnt d b hd hb, hlive d b hd hb⟩
  · intro d b hd hb
    rw [hcnt d b hd hb, hlive d b hd hb]
    exact Nat.zero_le _
  · intro lb d b hlb hd hb e
    exact absurd e (hnob lb d b hlb hd hb)

/-! ## Programmed pages of the written block -/

theorem scenarioInit_ok : initialise scenario (badBlocksAt [0]) = .ok scenarioInit := rfl

theorem runCalls_eq_some {gc : Collector} {fuel : Nat} (cfg : Config) (s : State)
    (calls : List Call) (h : (runCalls gc fuel cfg s calls).isSome = true) :
    runCalls gc fuel cfg s calls = some (runCallsState gc fuel cfg s calls) := by
  unfold runCallsState
  cases hr : runCalls gc fuel cfg s calls with
  | none => rw [hr] at h; simp at h
  | some t => rfl

theorem runAdmissible_eq_some {gc : Collector} {fuel : Nat} (cfg : Config) (s : State)
    (calls : List Call) (h : (runAdmissible gc fuel cfg s calls).isSome = true) :
    runAdmissible gc fuel cfg s calls = some (runAdmissibleState gc fuel cfg s calls) := by
  unfold runAdmissibleState
  cases hr : runAdmissible gc fuel cfg s calls with
  | none => rw [hr] at h; simp at h
  | some t => rfl

/-- C22. The accessors of the packed `currentPage` field `[lock:1 | count:15]`
preserve the part they do not write, for every value of the field and every
`pageCnt <= 0x7FFF`: `SetBlockCurrentPageCount` leaves the lock bit unchanged
and makes `GetBlockCurrentPage` return `pageCnt`; `LockBlockForBlkMapping` and
`UnlockBlockFromBlkMapping` leave `GetBlockCurrentPage` unchanged and make
`IsBlockReservedForBlkMapping` non-zero, respectively zero;
`ResetBlockCurrentPage` makes both zero. -/
theorem currentPage_accessors (s : State) (d b pageCnt : Nat) (hp : pageCnt ≤ 0x7FFF) :
    IsBlockReservedForBlkMapping (SetBlockCurrentPageCount s d b pageCnt) d b =
      IsBlockReservedForBlkMapping s d b ∧
    GetBlockCurrentPage (SetBlockCurrentPageCount s d b pageCnt) d b = pageCnt ∧
    GetBlockCurrentPage (LockBlockForBlkMapping s d b) d b = GetBlockCurrentPage s d b ∧
    IsBlockReservedForBlkMapping (LockBlockForBlkMapping s d b) d b ≠ 0 ∧
    GetBlockCurrentPage (UnlockBlockFromBlkMapping s d b) d b = GetBlockCurrentPage s d b ∧
    IsBlockReservedForBlkMapping (UnlockBlockFromBlkMapping s d b) d b = 0 ∧
    GetBlockCurrentPage (ResetBlockCurrentPage s d b) d b = 0 ∧
    IsBlockReservedForBlkMapping (ResetBlockCurrentPage s d b) d b = 0 := by
  refine ⟨?_, ?_, ?_, ?_, ?_, ?_, ?_, ?_⟩
  · simp only [IsBlockReservedForBlkMapping, SetBlockCurrentPageCount, State.setBlock, upd2_same]
    exact cp_lock_set _ _
  · simp only [GetBlockCurrentPage, SetBlockCurrentPageCount, State.setBlock, upd2_same]
    rw [cp_get_set]
    exact Nat.mod_eq_of_lt (by omega)
  · simp only [GetBlockCurrentPage, LockBlockForBlkMapping, State.setBlock, upd2_same]
    exact cp_get_lock _
  · simp only [IsBlockReservedForBlkMapping, LockBlockForBlkMapping, State.setBlock, upd2_same]
    rw [cp_lock_lock]
    decide
  · simp only [GetBlockCurrentPage, UnlockBlockFromBlkMapping, State.setBlock, upd2_same]
    exact cp_get_unlock _
  · simp only [IsBlockReservedForBlkMapping, UnlockBlockFromBlkMapping, State.setBlock,
      upd2_same]
    exact cp_lock_unlock _
  · simp only [GetBlockCurrentPage, ResetBlockCurrentPage, State.setBlock, upd2_same]
    exact cp_zero.1
  · simp only [IsBlockReservedForBlkMapping, ResetBlockCurrentPage, State.setBlock, upd2_same]
    exact cp_zero.2

set_option maxRecDepth 100000 in
theorem currentPage_accessors_witness :
    (3 : Nat) ≤ 0x7FFF ∧
    GetBlockCurrentPage (SetBlockCurrentPageCount scenarioInit 0 1 3) 0 1 = 3 ∧
    IsBlockReservedForBlkMapping (LockBlockForBlkMapping scenarioInit 0 1) 0 1 ≠ 0 :=
  ⟨by decide, (currentPage_accessors scenarioInit 0 1 3 (by decide)).2.1,
    (currentPage_accessors scenarioInit 0 1 3 (by decide)).2.2.2.1⟩

/-- C23. No double counting. `InvalidateOldVsa(lsa)` changes nothing at all (no
map, no counter, no cursor, no call of the victim list) when the LSA is
unmapped or when the reverse entry of its VSA names another LSA; and calling
it twice in a row on the same LSA gives the same state as calling it once, so
a live mapping is counted once. -/
theorem InvalidateOldVsa_idempotent (cfg : Config) (s : State) (lsa : Nat) :
    ((s.logicalSlice lsa = cfg.VSA_NONE ∨ s.virtualSlice (s.logicalSlice lsa) ≠ lsa) →
      InvalidateOldVsa cfg s lsa = s) ∧
    InvalidateOldVsa cfg (InvalidateOldVsa cfg s lsa) lsa = InvalidateOldVsa cfg s lsa ∧
    (∀ d b, ((InvalidateOldVsa cfg (InvalidateOldVsa cfg s lsa) lsa).block d b).invalidSliceCnt ≤
      (s.block d b).invalidSliceCnt + 1) := by
  have hidem : InvalidateOldVsa cfg (InvalidateOldVsa cfg s lsa) lsa =
      InvalidateOldVsa cfg s lsa := by
    by_cases h : s.logicalSlice lsa = cfg.VSA_NONE ∨ s.virtualSlice (s.logicalSlice lsa) ≠ lsa
    · rw [InvalidateOldVsa_skip cfg s lsa h, InvalidateOldVsa_skip cfg s lsa h]
    · simp only [not_or, not_not] at h
      apply InvalidateOldVsa_skip
      left
      rw [InvalidateOldVsa_eq cfg s lsa h.1 h.2]
      simp
  refine ⟨InvalidateOldVsa_skip cfg s lsa, hidem, ?_⟩
  intro d b
  rw [hidem]
  by_cases h : s.logicalSlice lsa = cfg.VSA_NONE ∨ s.virtualSlice (s.logicalSlice lsa) ≠ lsa
  · rw [InvalidateOldVsa_skip cfg s lsa h]
    exact Nat.le_succ _
  · simp only [not_or, not_not] at h
    rw [InvalidateOldVsa_eq cfg s lsa h.1 h.2]
    simp only [upd2_apply]
    split
    · rename_i e
      obtain ⟨rfl, rfl⟩ := e
      exact Nat.le_refl _
    · exact Nat.le_succ _

/-- C30. `EraseBlock` touches neither the forward map nor the cursors of the
logical blocks: every `LogicalSlice[lsa].virtualSliceAddr` is the same after
`EraseBlock(die, blk)` as before, also for LSAs mapped into the erased block,
so `AddrTransRead` returns the same value; and `logicalBlockBaseVsa` and
`logicalBlockNextOffset` are unchanged, also for a cursor on the erased
block. -/
theorem EraseBlock_keeps_forward_map (cfg : Config) (s : State) (d b : Nat) :
    (EraseBlock cfg s d b).logicalSlice = s.logicalSlice ∧
    (∀ lsa v t, AddrTransRead cfg s lsa = .ok (v, t) →
      AddrTransRead cfg (EraseBlock cfg s d b) lsa = .ok (v, EraseBlock cfg s d b)) ∧
    (EraseBlock cfg s d b).logicalBlockBaseVsa = s.logicalBlockBaseVsa ∧
    (EraseBlock cfg s d b).logicalBlockNextOffset = s.logicalBlockNextOffset := by
  obtain ⟨_, _, c3⟩ := clearLoop_spec (fun p => cfg.Vorg2VsaTranslation d b p) cfg.LSA_NONE
    cfg.USER_PAGES_PER_BLOCK (EraseBlock.requeue cfg s d b)
  have hE : EraseBlock cfg s d b = _ := c3
  obtain ⟨_, _, _, ⟨q4, q5, q6, _, _, _⟩, _⟩ := requeue_fields cfg s d b
  have h1 : (EraseBlock cfg s d b).logicalSlice = s.logicalSlice := by rw [hE]; exact q4
  refine ⟨h1, ?_, by rw [hE]; exact q5, by rw [hE]; exact q6⟩
  intro lsa v t h
  unfold AddrTransRead at h ⊢
  rw [h1]
  by_cases hl : lsa < cfg.SLICES_PER_SSD
  · simp only [hl, ↓reduceIte] at h ⊢
    split at h
    · rename_i hv
      simp only [Outcome.ok.injEq, Prod.mk.injEq] at h
      rw [if_pos hv, h.1]
    · rename_i hv
      simp only [Outcome.ok.injEq, Prod.mk.injEq] at h
      rw [if_neg hv, h.1]
  · simp [hl] at h

theorem FindFreeVirtualSliceForGc_replace_ok (cfg : Config) (hw : cfg.WellFormed) (s : State)
    (d v : Nat) (l : List Nat) (hl : FreeListIs cfg s d l) (hne : l ≠ []) :
    FindFreeVirtualSliceForGc.replace cfg s d v =
      .ok (if v = (s.die d).currentBlock then
        (GetFromFbList.unlink cfg s d (s.die d).headFreeBlock).2.setDie d
          { (GetFromFbList.unlink cfg s d (s.die d).headFreeBlock).2.die d with
            currentBlock := (s.die d).headFreeBlock }
        else s) := by
  obtain ⟨rest, e⟩ := FreeListIs_head_cons cfg s d l hl hne
  have hlt : (s.die d).headFreeBlock < cfg.USER_BLOCKS_PER_DIE :=
    Linked_head_lt cfg s d _ rest (e ▸ hl)
  have h1 : (s.die d).headFreeBlock ≠ cfg.BLOCK_NONE := by have := hw.block_none; omega
  have h2 : (s.die d).headFreeBlock ≠ cfg.BLOCK_FAIL := by have := hw.block_fail; omega
  unfold FindFreeVirtualSliceForGc.replace
  by_cases hv : v = (s.die d).currentBlock
  · simp only [hv, ↓reduceIte, GetFromFbList_gc cfg hw.option_ne, Outcome.bind_ok, h1,
      (unlink_frame cfg s d _).1]
    rw [if_neg]
    simp only [State.setDie, upd_same]
    exact h2
  · simp only [hv, ↓reduceIte]

theorem FindFreeVirtualSliceForGc_pick_ok (cfg : Config) (hw : cfg.WellFormed) (s : State)
    (d : Nat) (l : List Nat) (hl : FreeListIs cfg s d l) (hne : l ≠ [])
    (hg : GetBlockCurrentPage s d (s.die d).currentBlock ≤ cfg.USER_PAGES_PER_BLOCK) :
    ∃ q, FindFreeVirtualSliceForGc.pick cfg s d = .ok q := by
  obtain ⟨rest, e⟩ := FreeListIs_head_cons cfg s d l hl hne
  have hlt : (s.die d).headFreeBlock < cfg.USER_BLOCKS_PER_DIE :=
    Linked_head_lt cfg s d _ rest (e ▸ hl)
  have h1 : (s.die d).headFreeBlock ≠ cfg.BLOCK_NONE := by have := hw.block_none; omega
  have h2 : (s.die d).headFreeBlock ≠ cfg.BLOCK_FAIL := by have := hw.block_fail; omega
  unfold FindFreeVirtualSliceForGc.pick
  by_cases hc : GetBlockCurrentPage s d (s.die d).currentBlock = cfg.USER_PAGES_PER_BLOCK ∨
      IsBlockReservedForBlkMapping s d (s.die d).currentBlock ≠ 0
  · simp only [hc, ↓reduceIte, GetFromFbList_gc cfg hw.option_ne, Outcome.bind_ok, h1,
      (unlink_frame cfg s d _).1]
    rw [if_pos h2]
    exact ⟨_, rfl⟩
  · have : ¬ GetBlockCurrentPage s d (s.die d).currentBlock > cfg.USER_PAGES_PER_BLOCK := by
      omega
    simp only [hc, this, ↓reduceIte]
    exact ⟨_, rfl⟩

/-- C21. `FindFreeVirtualSliceForGc(copyDie, victimBlk)` on a state whose die
`copyDie` has a consistent free list `l` with `currentPage = 0` on every listed
block, for a victim that is not on that list.  Whenever the call returns, it
returns `Vorg2Vsa(copyDie, b, n)`, where `b` is the current block of the die
after the call and differs from `victimBlk`, `n < USER_PAGES_PER_BLOCK` is the
programmed-page count of `b` before the call, and the count of `b` after the
call is `n + 1`; `sliceAllocationTargetDie` and the round-robin cursor of
`FindDieForFreeSliceAllocation` are unchanged.  Blocks are taken with
`GET_FREE_BLOCK_GC`: when the list is not empty the call returns, whatever
`freeBlockCnt` is, unless the assertion on the page count of a current block
that is not the victim fires. -/
theorem FindFreeVirtualSliceForGc_spec (cfg : Config) (hw : cfg.WellFormed) (s : State)
    (d v : Nat) (l : List Nat) (hl : FreeListIs cfg s d l)
    (hclean : ∀ x ∈ l, (s.block d x).currentPage = 0) (hv : v ∉ l) :
    (∀ r, FindFreeVirtualSliceForGc cfg s d v = .ok r →
      ∃ b n, r.1 = cfg.Vorg2VsaTranslation d b n ∧ (r.2.die d).currentBlock = b ∧ b ≠ v ∧
        GetBlockCurrentPage s d b = n ∧ n < cfg.USER_PAGES_PER_BLOCK ∧
        GetBlockCurrentPage r.2 d b = n + 1 ∧
        r.2.sliceAllocationTargetDie = s.sliceAllocationTargetDie ∧
        r.2.targetCh = s.targetCh ∧ r.2.targetWay = s.targetWay) ∧
    (l ≠ [] →
      (v = (s.die d).currentBlock ∨
        GetBlockCurrentPage s d (s.die d).currentBlock ≤ cfg.USER_PAGES_PER_BLOCK) →
      ∃ r, FindFreeVirtualSliceForGc cfg s d v = .ok r) := by
  have hhead : ∀ rest, FreeListIs cfg s d ((s.die d).headFreeBlock :: rest) →
      (s.die d).headFreeBlock ≠ v ∧ (s.block d (s.die d).headFreeBlock).currentPage = 0 := by
    intro rest hl'
    have e := FreeListIs_unique cfg hw.block_none s d _ _ hl hl'
    have hm : (s.die d).headFreeBlock ∈ l := by rw [e]; exact List.mem_cons_self _ _
    exact ⟨fun e' => hv (e' ▸ hm), hclean _ hm⟩
  refine ⟨?_, ?_⟩
  · intro r hr
    obtain ⟨s1, q, hs1, hq, e1, e2⟩ := FindFreeVirtualSliceForGc_unfold cfg s d v r hr
    -- the block chosen, its count in `s` and the state it is chosen in
    have hq' : (q.2.die d).currentBlock = q.1 ∧ q.1 ≠ v ∧
        GetBlockCurrentPage q.2 d q.1 = GetBlockCurrentPage s d q.1 ∧
        GetBlockCurrentPage s d q.1 < cfg.USER_PAGES_PER_BLOCK ∧
        q.2.sliceAllocationTargetDie = s.sliceAllocationTargetDie ∧
        q.2.targetCh = s.targetCh ∧ q.2.targetWay = s.targetWay := by
      rcases FindFreeVirtualSliceForGc_replace_chain cfg hw.option_ne s d v s1 hs1 with
        ⟨hne, es⟩ | ⟨_, hh, es⟩
      · subst es
        rcases FindFreeVirtualSliceForGc_pick_chain cfg hw.option_ne s1 d q hq with
          ⟨eq, hg, _⟩ | ⟨_, hh, eq⟩
        · rw [eq]
          exact ⟨rfl, fun e => hne e.symm, rfl, hg, rfl, rfl, rfl⟩
        · obtain ⟨rest, hl'⟩ := FreeListIs_of_head cfg s1 d l hl hh
          obtain ⟨a1, a2⟩ := hhead rest hl'
          obtain ⟨_, _, p3, _, p5, _, ⟨_, _, _, _, q5, q6, q7, _⟩, _⟩ :=
            pop_spec cfg hw.block_none s1 d _ rest hl' q.2 (by rw [eq])
          have e : q.1 = (s1.die d).headFreeBlock := by rw [eq]
          rw [e]
          refine ⟨p3, a1, GetBlockCurrentPage_congr s1 q.2 d _ (p5 d _).2.2.2, ?_, q5, q6, q7⟩
          simp only [GetBlockCurrentPage, a2, cp_zero.1]
          exact hw.pages_pos
      · obtain ⟨rest, hl'⟩ := FreeListIs_of_head cfg s d l hl hh
        obtain ⟨a1, a2⟩ := hhead rest hl'
        obtain ⟨_, _, p3, _, p5, _, ⟨_, _, _, _, q5, q6, q7, _⟩, _⟩ :=
          pop_spec cfg hw.block_none s d _ rest hl' s1 es
        have hcp1 : (s1.block d (s1.die d).currentBlock).currentPage = 0 := by
          rw [p3, (p5 d _).2.2.2]; exact a2
        rcases FindFreeVirtualSliceForGc_pick_chain cfg hw.option_ne s1 d q hq with
          ⟨eq, hg, _⟩ | ⟨hc, _, _⟩
        · have eq1 : q.1 = (s.die d).headFreeBlock := by rw [eq]; exact p3
          have eq2 : q.2 = s1 := by rw [eq]
          rw [eq1, eq2]
          refine ⟨p3, a1, GetBlockCurrentPage_congr s s1 d _ (p5 d _).2.2.2, ?_, q5, q6, q7⟩
          simp only [GetBlockCurrentPage, a2, cp_zero.1]
          exact hw.pages_pos
        · exfalso
          simp only [GetBlockCurrentPage, IsBlockReservedForBlkMapping, hcp1, cp_zero.1,
            cp_zero.2] at hc
          have := hw.pages_pos
          omega
    obtain ⟨b1, b2, b3, b4, b5, b6, b7⟩ := hq'
    refine ⟨q.1, GetBlockCurrentPage s d q.1, by rw [e1, b3], ?_, b2, rfl, b4, ?_, ?_, ?_, ?_⟩
    · rw [e2]; exact b1
    · have h1 := cp_increment cfg hw (q.2.block d q.1).currentPage
        (GetBlockCurrentPage q.2 d q.1) (by rw [b3]; exact b4)
      rw [e2, ← b3]
      simp only [GetBlockCurrentPage, upd2_same] at h1 ⊢
      exact h1
    · rw [e2]; exact b5
    · rw [e2]; exact b6
    · rw [e2]; exact b7
  · intro hne hor
    obtain ⟨rest, e⟩ := FreeListIs_head_cons cfg s d l hl hne
    have hl' : FreeListIs cfg s d ((s.die d).headFreeBlock :: rest) := e ▸ hl
    obtain ⟨_, a2⟩ := hhead rest hl'
    simp only [FindFreeVirtualSliceForGc]
    rw [FindFreeVirtualSliceForGc_replace_ok cfg hw s d v l hl hne]
    simp only [Outcome.bind_ok]
    by_cases hvc : v = (s.die d).currentBlock
    · simp only [hvc, ↓reduceIte]
      obtain ⟨p1, _, p3, _, p5, _, _, _⟩ :=
        pop_spec cfg hw.block_none s d _ rest hl' _ rfl
      unfold FindFreeVirtualSliceForGc.pick
      have hcp1 := (p5 d (s.die d).headFreeBlock).2.2.2
      rw [a2] at hcp1
      have hpos := hw.pages_pos
      simp only [GetBlockCurrentPage, IsBlockReservedForBlkMapping, p3, hcp1, cp_zero.1,
        cp_zero.2]
      rw [if_neg (by omega), if_neg (by omega)]
      exact ⟨_, rfl⟩
    · simp only [hvc, ↓reduceIte]
      rcases hor with h | h
      · exact absurd h hvc
      · obtain ⟨q, hq⟩ := FindFreeVirtualSliceForGc_pick_ok cfg hw s d l hl hne h
        rw [hq]
        exact ⟨_, rfl⟩

set_option maxRecDepth 100000 in
theorem FindFreeVirtualSliceForGc_spec_witness :
    ∃ b n, 32 = scenario.Vorg2VsaTranslation 0 b n ∧ b ≠ 1 ∧ n < 4 :=
  match (FindFreeVirtualSliceForGc_spec scenario scenario_wellFormed scenarioInit 0 1 [2, 3]
    ⟨by decide, by decide, by decide, by decide, by decide⟩ (by decide) (by decide)).1
    (32, (FindFreeVirtualSliceForGc scenario scenarioInit 0 1).stateOr State.blank) rfl with
  | ⟨b, n, h1, _, h3, _, h5, _⟩ => ⟨b, n, h1, h3, h5⟩

/-! ## Elementary steps that keep the map invariant -/

/-- An invariant that every call of a class keeps holds after a run of calls of
that class. -/
theorem runCalls_invariant {gc : Collector} {fuel : Nat} (cfg : Config) (P : State → Prop)
    (ok : Call → Bool)
    (hstep : ∀ s c t, P s → ok c = true → c.run gc fuel cfg s = some t → P t) :
    ∀ calls s t, P s → (∀ c ∈ calls, ok c = true) →
      runCalls gc fuel cfg s calls = some t → P t := by
  intro calls
  induction calls with
  | nil =>
    intro s t h _ ht
    simp only [runCalls, Option.some.injEq] at ht
    rw [← ht]; exact h
  | cons c cs ih =>
    intro s t h hall ht
    simp only [runCalls] at ht
    split at ht
    · rename_i u hu
      exact ih u t (hstep s c u h (hall c (List.mem_cons_self _ _)) hu)
        (fun c' hc' => hall c' (List.mem_cons_of_mem _ hc')) ht
    · exact absurd ht (by simp)

/-- The map invariant survives a change that keeps the maps, the cursors, the
`currentPage` fields and the free lists. -/
theorem MapInv_transfer (cfg : Config) (s s' : State) (h : MapInv cfg s)
    (hL : LockInv cfg s')
    (hon : ∀ d b, d < cfg.USER_DIES → OnFreeList cfg s' d b →
      OnFreeList cfg s d b ∧ (s'.block d b).currentPage = (s.block d b).currentPage)
    (hls : s'.logicalSlice = s.logicalSlice) (hvs : s'.virtualSlice = s.virtualSlice)
    (hused : ∀ lsa d b p, lsa < cfg.SLICES_PER_SSD → d < cfg.USER_DIES →
      b < cfg.USER_BLOCKS_PER_DIE → p < cfg.SLICES_PER_BLOCK →
      s.logicalSlice lsa = cfg.Vorg2VsaTranslation d b p →
      (GetBlockCurrentPage s d b ≠ 0 ∨ IsBlockReservedForBlkMapping s d b ≠ 0) →
      (GetBlockCurrentPage s' d b ≠ 0 ∨ IsBlockReservedForBlkMapping s' d b ≠ 0) ∧
      ∀ lb, lb < cfg.LOGICAL_BLOCKS_PER_SSD →
        s'.logicalBlockBaseVsa lb = cfg.Vorg2VsaTranslation d b 0 →
        (s.logicalBlockBaseVsa lb = cfg.Vorg2VsaTranslation d b 0 ∧
          s.logicalBlockNextOffset lb ≤ s'.logicalBlockNextOffset lb)) :
    MapInv cfg s' := by
  refine ⟨hL, ?_, ?_, ?_⟩
  · intro d b hd hc
    obtain ⟨a1, a2⟩ := hon d b hd hc
    rw [a2]
    exact h.listed d b hd a1
  · intro lsa hlsa
    rw [hls, hvs]
    exact h.coh lsa hlsa
  · intro lsa d b p hlsa hd hb hp e
    rw [hls] at e
    obtain ⟨u1, u2⟩ := h.used lsa d b p hlsa hd hb hp e
    obtain ⟨a1, a2⟩ := hused lsa d b p hlsa hd hb hp e u1
    refine ⟨a1, ?_⟩
    intro lb hlb e'
    obtain ⟨b1, b2⟩ := a2 lb hlb e'
    have := u2 lb hlb b1
    omega

theorem MapInv_pop (cfg : Config) (hw : cfg.WellFormed) (s : State) (h : MapInv cfg s)
    (d h0 : Nat) (rest : List Nat) (hd : d < cfg.USER_DIES)
    (hl : FreeListIs cfg s d (h0 :: rest)) (P : State)
    (hP : P = (GetFromFbList.unlink cfg s d h0).2.setDie d
      { (GetFromFbList.unlink cfg s d h0).2.die d with currentBlock := h0 }) :
    MapInv cfg P := by
  obtain ⟨_, _, _, _, p5, _, ⟨q1, q2, q3, q4, _, _, _, _⟩, p8⟩ :=
    pop_spec cfg hw.block_none s d h0 rest hl P hP
  refine MapInv_transfer cfg s P h (LockInv_pop cfg hw s h.lock d h0 rest hd hl P hP) ?_ q1 q2 ?_
  · intro d' b' hd' hc
    exact ⟨((p8 d' b' (h.lock.alloc.lists d' hd')).mp hc).1, (p5 d' b').2.2.2⟩
  · intro lsa d' b' p _ _ _ _ _ hu
    rw [GetBlockCurrentPage_congr s P d' b' (p5 d' b').2.2.2,
      IsBlockReserved_congr s P d' b' (p5 d' b').2.2.2, q3, q4]
    exact ⟨hu, fun lb _ e => ⟨e, Nat.le_refl _⟩⟩

theorem MapInv_setPage (cfg : Config) (hw : cfg.WellFormed) (s : State) (h : MapInv cfg s)
    (d b c ch w td : Nat) (hoff : ¬ OnFreeList cfg s d b)
    (hlock : ∀ lb, lb < cfg.LOGICAL_BLOCKS_PER_SSD →
      s.logicalBlockBaseVsa lb = cfg.Vorg2VsaTranslation d b 0 →
      c &&& BLOCK_CUR_PAGE_LOCK_MASK ≠ 0)
    (hused : (∀ lsa p, lsa < cfg.SLICES_PER_SSD → p < cfg.SLICES_PER_BLOCK →
        s.logicalSlice lsa ≠ cfg.Vorg2VsaTranslation d b p) ∨
      (c &&& BLOCK_CUR_PAGE_VALUE_MASK ≠ 0 ∨ c &&& BLOCK_CUR_PAGE_LOCK_MASK ≠ 0))
    (hch : ch < cfg.USER_CHANNELS) (hway : w < cfg.USER_WAYS) (htd : td < cfg.USER_DIES)
    (s' : State)
    (hs' : s' = { s with
      block := upd2 s.block d b { s.block d b with currentPage := c }
      targetCh := ch, targetWay := w, sliceAllocationTargetDie := td }) :
    MapInv cfg s' := by
  have hL := LockInv_setPage cfg hw s h.lock d b c ch w td hlock hch hway htd s' hs'
  have hf : ∀ d' x, (s'.block d' x).free = (s.block d' x).free ∧
      (s'.block d' x).prevBlock = (s.block d' x).prevBlock ∧
      (s'.block d' x).nextBlock = (s.block d' x).nextBlock := by
    intro d' x
    rw [hs']
    by_cases e : d' = d ∧ x = b
    · obtain ⟨rfl, rfl⟩ := e; simp
    · simp [upd2_ne _ _ e]
  have hcp : ∀ d' x, ¬ (d' = d ∧ x = b) →
      (s'.block d' x).currentPage = (s.block d' x).currentPage := by
    intro d' x e
    rw [hs']
    simp [upd2_ne _ _ e]
  have hcp0 : (s'.block d b).currentPage = c := by rw [hs']; simp
  have hdie : s'.die = s.die := by rw [hs']
  have hon : ∀ d' x, OnFreeList cfg s' d' x ↔ OnFreeList cfg s d' x := fun d' x =>
    OnFreeList_of_fields cfg s s' d' x (by rw [hdie]; exact ⟨rfl, rfl, rfl⟩) (hf d')
  refine MapInv_transfer cfg s s' h hL ?_ (by rw [hs']) (by rw [hs']) ?_
  · intro d' b' _ hc
    have hc' := (hon d' b').mp hc
    refine ⟨hc', hcp d' b' ?_⟩
    rintro ⟨rfl, rfl⟩
    exact hoff hc'
  · intro lsa d' b' p hlsa _ _ hp e hu
    have e1 : s'.logicalBlockBaseVsa = s.logicalBlockBaseVsa := by rw [hs']
    have e2 : s'.logicalBlockNextOffset = s.logicalBlockNextOffset := by rw [hs']
    rw [e1, e2]
    refine ⟨?_, fun lb _ e' => ⟨e', Nat.le_refl _⟩⟩
    by_cases e' : d' = d ∧ b' = b
    · obtain ⟨rfl, rfl⟩ := e'
      simp only [GetBlockCurrentPage, IsBlockReservedForBlkMapping, hcp0]
      rcases hused with hno | hc
      · exact absurd e (hno lsa p hlsa hp)
      · exact hc
    · rw [GetBlockCurrentPage_congr s s' d' b' (hcp d' b' e'),
        IsBlockReserved_congr s s' d' b' (hcp d' b' e')]
      exact hu

theorem MapInv_set_cursor (cfg : Config) (hw : cfg.WellFormed) (s : State) (h : MapInv cfg s)
    (lb d b : Nat) (hd : d < cfg.USER_DIES) (hb : b < cfg.USER_BLOCKS_PER_DIE)
    (hoff : ¬ OnFreeList cfg s d b) (hlk : IsBlockReservedForBlkMapping s d b ≠ 0)
    (hother : ∀ lb', lb' < cfg.LOGICAL_BLOCKS_PER_SSD → lb' ≠ lb →
      s.logicalBlockBaseVsa lb' ≠ cfg.Vorg2VsaTranslation d b 0)
    (hfresh : ∀ lsa p, lsa < cfg.SLICES_PER_SSD → p < cfg.SLICES_PER_BLOCK →
      s.logicalSlice lsa ≠ cfg.Vorg2VsaTranslation d b p)
    (s' : State)
    (hs' : s' = { s with
      logicalBlockBaseVsa := upd s.logicalBlockBaseVsa lb (cfg.Vorg2VsaTranslation d b 0)
      logicalBlockNextOffset := upd s.logicalBlockNextOffset lb 0 }) :
    MapInv cfg s' := by
  have hL := LockInv_set_cursor cfg hw s h.lock lb d b 0 hd hb hoff hlk hother s' hs'
  have hblock : s'.block = s.block := by rw [hs']
  have hon : ∀ d' x, OnFreeList cfg s' d' x ↔ OnFreeList cfg s d' x := fun d' x =>
    OnFreeList_of_fields cfg s s' d' x (by rw [hs']; exact ⟨rfl, rfl, rfl⟩)
      (fun y => by rw [hblock]; exact ⟨rfl, rfl, rfl⟩)
  refine MapInv_transfer cfg s s' h hL ?_ (by rw [hs']) (by rw [hs']) ?_
  · intro d' b' _ hc
    exact ⟨(hon d' b').mp hc, by rw [hblock]⟩
  · intro lsa d' b' p hlsa hd' hb' hp e hu
    refine ⟨?_, ?_⟩
    · rw [GetBlockCurrentPage_congr s s' d' b' (by rw [hblock]),
        IsBlockReserved_congr s s' d' b' (by rw [hblock])]
      exact hu
    · intro lb' _ e'
      rw [hs'] at e' ⊢
      simp only [upd_apply] at e' ⊢
      split at e'
      · obtain ⟨rfl, rfl⟩ := pack_base_inj cfg hw d b d' b' hd hb hd' hb' e'
        exact absurd e (hfresh lsa p hlsa hp)
      · rename_i hne
        simp only [hne, ↓reduceIte]
        exact ⟨e', Nat.le_refl _⟩

theorem MapInv_clear (cfg : Config) (hw : cfg.WellFormed) (s : State) (h : MapInv cfg s)
    (lb n : Nat) (s' : State)
    (hs' : s' = { s with
      logicalBlockBaseVsa := upd s.logicalBlockBaseVsa lb cfg.VSA_NONE
      logicalBlockNextOffset := upd s.logicalBlockNextOffset lb n }) :
    MapInv cfg s' := by
  have hL := LockInv_clear cfg hw s h.lock lb n s' hs'
  have hblock : s'.block = s.block := by rw [hs']
  have hon : ∀ d' x, OnFreeList cfg s' d' x ↔ OnFreeList cfg s d' x := fun d' x =>
    OnFreeList_of_fields cfg s s' d' x (by rw [hs']; exact ⟨rfl, rfl, rfl⟩)
      (fun y => by rw [hblock]; exact ⟨rfl, rfl, rfl⟩)
  refine MapInv_transfer cfg s s' h hL ?_ (by rw [hs']) (by rw [hs']) ?_
  · intro d' b' _ hc
    exact ⟨(hon d' b').mp hc, by rw [hblock]⟩
  · intro lsa d' b' p _ hd' hb' _ _ hu
    refine ⟨?_, ?_⟩
    · rw [GetBlockCurrentPage_congr s s' d' b' (by rw [hblock]),
        IsBlockReserved_congr s s' d' b' (by rw [hblock])]
      exact hu
    · intro lb' _ e'
      rw [hs'] at e' ⊢
      simp only [upd_apply] at e' ⊢
      split at e'
      · exact absurd e'.symm (base_ne_none cfg hw d' b' hd' hb')
      · rename_i hne
        simp only [hne, ↓reduceIte]
        exact ⟨e', Nat.le_refl _⟩

theorem MapInv_invalidateOld (cfg : Config) (hw : cfg.WellFormed) (s : State)
    (h : MapInv cfg s) (lsa : Nat) : MapInv cfg (InvalidateOldVsa cfg s lsa) := by
  by_cases hskip : s.logicalSlice lsa = cfg.VSA_NONE ∨ s.virtualSlice (s.logicalSlice lsa) ≠ lsa
  · rw [InvalidateOldVsa_skip cfg s lsa hskip]; exact h
  simp only [not_or, not_not] at hskip
  obtain ⟨hv, hc⟩ := hskip
  have hL := LockInv_invalidateOld cfg hw s h.lock lsa
  obtain ⟨f1, f2, f3, f4, f5, _, _, _⟩ := InvalidateOldVsa_fields cfg s lsa
  have hE := InvalidateOldVsa_eq cfg s lsa hv hc
  generalize InvalidateOldVsa cfg s lsa = s' at hL f1 f2 f3 f4 f5 hE ⊢
  have hls : ∀ l, s'.logicalSlice l = if l = lsa then cfg.VSA_NONE else s.logicalSlice l := by
    intro l; rw [hE]; rfl
  have hon : ∀ d' x, OnFreeList cfg s' d' x ↔ OnFreeList cfg s d' x := fun d' x =>
    OnFreeList_of_fields cfg s s' d' x (by rw [f1]; exact ⟨rfl, rfl, rfl⟩)
      (fun y => ⟨(f2 d' y).2.1, (f2 d' y).2.2.1, (f2 d' y).2.2.2.1⟩)
  refine ⟨hL, ?_, ?_, ?_⟩
  · intro d b hd hcc
    rw [(f2 d b).2.2.2.2.1]
    exact h.listed d b hd ((hon d b).mp hcc)
  · intro l hl hne
    rw [hls] at hne ⊢
    rw [f3]
    split
    · rename_i e; simp [e] at hne
    · rename_i e
      simp only [e, ↓reduceIte] at hne
      exact h.coh l hl hne
  · intro l d b p hl hd hb hp e
    rw [hls] at e
    split at e
    · exact absurd e.symm (slot_lt_none cfg hw d b p hd hb hp)
    · rw [GetBlockCurrentPage_congr s s' d b (f2 d b).2.2.2.2.1,
        IsBlockReserved_congr s s' d b (f2 d b).2.2.2.2.1, f4, f5]
      exact h.used l d b p hl hd hb hp e

theorem MapInv_maps (cfg : Config) (hw : cfg.WellFormed) (s : State) (h : MapInv cfg s)
    (lsa lb d b : Nat) (hlsa : lsa < cfg.SLICES_PER_SSD) (hlb : lb < cfg.LOGICAL_BLOCKS_PER_SSD)
    (hd : d < cfg.USER_DIES) (hb : b < cfg.USER_BLOCKS_PER_DIE)
    (hbase : s.logicalBlockBaseVsa lb = cfg.Vorg2VsaTranslation d b 0)
    (hk : s.logicalBlockNextOffset lb < cfg.SLICES_PER_BLOCK)
    (s' : State)
    (hs' : s' = { s with
      logicalBlockNextOffset :=
        upd s.logicalBlockNextOffset lb (s.logicalBlockNextOffset lb + 1)
      logicalSlice := upd s.logicalSlice lsa
        (cfg.Vorg2VsaTranslation d b (s.logicalBlockNextOffset lb))
      virtualSlice := upd s.virtualSlice
        (cfg.Vorg2VsaTranslation d b (s.logicalBlockNextOffset lb)) lsa }) :
    MapInv cfg s' := by
  have hblock : s'.block = s.block := by rw [hs']
  have hdie : s'.die = s.die := by rw [hs']
  have hbs : s'.logicalBlockBaseVsa = s.logicalBlockBaseVsa := by rw [hs']
  have hL : LockInv cfg s' :=
    LockInv_frame cfg hw s s' h.lock hdie (fun _ _ => by rw [hblock]; exact ⟨rfl, rfl, rfl, rfl⟩)
      hbs (by rw [hs']; exact h.lock.alloc.targetDie_lt)
      (by rw [hs']; exact h.lock.alloc.targetCh_lt) (by rw [hs']; exact h.lock.alloc.targetWay_lt)
  have hon : ∀ d' x, OnFreeList cfg s' d' x ↔ OnFreeList cfg s d' x := fun d' x =>
    OnFreeList_of_fields cfg s s' d' x (by rw [hdie]; exact ⟨rfl, rfl, rfl⟩)
      (fun y => by rw [hblock]; exact ⟨rfl, rfl, rfl⟩)
  have hls : ∀ l, s'.logicalSlice l = if l = lsa
      then cfg.Vorg2VsaTranslation d b (s.logicalBlockNextOffset lb) else s.logicalSlice l := by
    intro l; rw [hs']; rfl
  have hvs : ∀ v, s'.virtualSlice v =
      if v = cfg.Vorg2VsaTranslation d b (s.logicalBlockNextOffset lb) then lsa
      else s.virtualSlice v := by
    intro v; rw [hs']; rfl
  have hno : ∀ l, l < cfg.SLICES_PER_SSD →
      s.logicalSlice l ≠ cfg.Vorg2VsaTranslation d b (s.logicalBlockNextOffset lb) := by
    intro l hl e
    have := (h.used l d b _ hl hd hb hk e).2 lb hlb hbase
    omega
  have hnext : ∀ lb', s.logicalBlockNextOffset lb' ≤ s'.logicalBlockNextOffset lb' := by
    intro lb'
    rw [hs']
    simp only [upd_apply]
    split
    · rename_i e; rw [e]; omega
    · exact Nat.le_refl _
  refine ⟨hL, ?_, ?_, ?_⟩
  · intro d' b' hd' hcc
    rw [hblock]
    exact h.listed d' b' hd' ((hon d' b').mp hcc)
  · intro l hl hne
    rw [hls] at hne ⊢
    split
    · rename_i e
      refine ⟨hw.pack_lt d b _ hd hb hk, ?_⟩
      rw [hvs]; simp [e]
    · rename_i e
      simp only [e, ↓reduceIte] at hne
      obtain ⟨a1, a2⟩ := h.coh l hl hne
      refine ⟨a1, ?_⟩
      rw [hvs, if_neg (hno l hl), a2]
  · intro l d' b' p hl hd' hb' hp e
    rw [GetBlockCurrentPage_congr s s' d' b' (by rw [hblock]),
      IsBlockReserved_congr s s' d' b' (by rw [hblock]), hbs]
    rw [hls] at e
    split at e
    · obtain ⟨rfl, rfl, rfl⟩ := slot_inj cfg hw d b _ d' b' p hd hb hk hd' hb' hp e
      refine ⟨Or.inr (h.lock.locked lb d b hlb hd hb hbase), ?_⟩
      intro lb' hlb' e'
      have := h.lock.distinct lb' lb d b hlb' hlb hd hb e' hbase
      subst this
      rw [hs']
      simp [upd_apply]
    · obtain ⟨u1, u2⟩ := h.used l d' b' p hl hd' hb' hp e
      refine ⟨u1, ?_⟩
      intro lb' hlb' e'
      have := u2 lb' hlb' e'
      have := hnext lb'
      omega

/-! ## The mapping calls keep the map invariant -/

theorem MapInv_invalidate (cfg : Config) (hw : cfg.WellFormed) (s : State) (h : MapInv cfg s)
    (lsa : Nat) : MapInv cfg (AddrTransWrite.invalidate cfg s lsa) := by
  unfold AddrTransWrite.invalidate
  split
  · exact MapInv_invalidateOld cfg hw s h lsa
  · exact h

/-- No LSA is mapped into a block whose `currentPage` field has count 0 and
lock 0. -/
theorem MapInv.fresh (cfg : Config) (s : State) (h : MapInv cfg s) (d b : Nat)
    (hd : d < cfg.USER_DIES) (hb : b < cfg.USER_BLOCKS_PER_DIE)
    (hg : GetBlockCurrentPage s d b = 0) (hk : IsBlockReservedForBlkMapping s d b = 0) :
    ∀ lsa p, lsa < cfg.SLICES_PER_SSD → p < cfg.SLICES_PER_BLOCK →
      s.logicalSlice lsa ≠ cfg.Vorg2VsaTranslation d b p := by
  intro lsa p hlsa hp e
  rcases (h.used lsa d b p hlsa hd hb hp e).1 with u | u
  · exact u hg
  · exact u hk

theorem MapInv_reserve (cfg : Config) (hw : cfg.WellFormed) (s : State) (h : MapInv cfg s)
    (lb : Nat) (t : State)
    (ht : AddrTransWrite.reserve Collector.stop 2 cfg s lb = .ok t) :
    MapInv cfg t := by
  by_cases hb : s.logicalBlockBaseVsa lb = cfg.VSA_NONE
  · have hd := h.lock.alloc.targetDie_lt
    obtain ⟨q, r2, b, hq, hr2, htt⟩ :=
      reserve_chain cfg s lb t (h.lock.alloc.lists _ hd) hb ht
    have hqfacts : MapInv cfg q ∧ b < cfg.USER_BLOCKS_PER_DIE ∧
        (q.die s.sliceAllocationTargetDie).currentBlock = b ∧
        q.logicalBlockBaseVsa = s.logicalBlockBaseVsa ∧
        (∀ lb', lb' < cfg.LOGICAL_BLOCKS_PER_SSD →
          s.logicalBlockBaseVsa lb' ≠ cfg.Vorg2VsaTranslation s.sliceAllocationTargetDie b 0) ∧
        GetBlockCurrentPage q s.sliceAllocationTargetDie b = 0 ∧
        IsBlockReservedForBlkMapping q s.sliceAllocationTargetDie b = 0 := by
      rcases hq with ⟨e, eb, hg, hk⟩ | ⟨rest, P, hl, hP, e⟩
      · subst e
        refine ⟨h, by rw [eb]; exact h.lock.alloc.current_lt _ hd, eb.symm, rfl, ?_, hg, hk⟩
        intro lb' hlb' e'
        exact h.lock.locked lb' _ b hlb' hd (by rw [eb]; exact h.lock.alloc.current_lt _ hd) e' hk
      · have hbl := Linked_head_lt cfg s _ b rest hl
        have hon : OnFreeList cfg s s.sliceAllocationTargetDie b :=
          ⟨_, hl, List.mem_cons_self _ _⟩
        have hno : ∀ lb', lb' < cfg.LOGICAL_BLOCKS_PER_SSD →
            s.logicalBlockBaseVsa lb' ≠ cfg.Vorg2VsaTranslation s.sliceAllocationTargetDie b 0 := by
          intro lb' hlb' e'
          exact LockInv.cursor_off cfg hw s h.lock lb' _ b hlb' hd hbl e' hon
        obtain ⟨_, _, p3, _, p5, _, ⟨_, _, q3, _, q5, q6, q7, _⟩, p8⟩ :=
          pop_spec cfg hw.block_none s _ b rest hl P hP
        have hUP := MapInv_pop cfg hw s h _ b rest hd hl P hP
        have hcp : (P.block s.sliceAllocationTargetDie b).currentPage = 0 := by
          rw [(p5 _ b).2.2.2]
          exact h.listed _ b hd hon
        have hoffP : ¬ OnFreeList cfg P s.sliceAllocationTargetDie b := by
          intro hc
          exact ((p8 _ b (h.lock.alloc.lists _ hd)).mp hc).2 ⟨rfl, rfl⟩
        have hfr := MapInv.fresh cfg P hUP _ b hd hbl
          (by simp only [GetBlockCurrentPage, hcp]; exact cp_zero.1)
          (by simp only [IsBlockReservedForBlkMapping, hcp]; exact cp_zero.2)
        refine ⟨?_, hbl, ?_, ?_, hno, ?_, ?_⟩
        · refine MapInv_setPage cfg hw P hUP _ b 0 _ _ _ hoffP ?_ (Or.inl hfr)
            hUP.lock.alloc.targetCh_lt hUP.lock.alloc.targetWay_lt hUP.lock.alloc.targetDie_lt q e
          intro lb' hlb' e'
          rw [q3] at e'
          exact absurd e' (hno lb' hlb')
        · rw [e]; exact p3
        · rw [e]; exact q3
        · rw [e]; simp only [GetBlockCurrentPage, upd2_same]; exact cp_zero.1
        · rw [e]; simp only [IsBlockReservedForBlkMapping, upd2_same]; exact cp_zero.2
    obtain ⟨hUq, hbl, hcur, hqb, hno, hg, hk⟩ := hqfacts
    obtain ⟨v1, v2, v3⟩ :=
      FindDie_valid cfg hw q hUq.lock.alloc.targetCh_lt hUq.lock.alloc.targetWay_lt
    have hoffq : ¬ OnFreeList cfg q s.sliceAllocationTargetDie b := by
      have := hUq.lock.alloc.current_off _ hd
      rw [hcur] at this
      exact this
    have hfrq := MapInv.fresh cfg q hUq _ b hd hbl hg hk
    have hUr2 : MapInv cfg r2 :=
      MapInv_setPage cfg hw q hUq _ b _ _ _ _ hoffq (fun _ _ _ => lockMask_and_self)
        (Or.inl hfrq) v1 v2 v3 r2 hr2
    have hr2die : r2.die = q.die := by rw [hr2]
    have hr2base : r2.logicalBlockBaseVsa = q.logicalBlockBaseVsa := by rw [hr2]
    have hr2ls : r2.logicalSlice = q.logicalSlice := by rw [hr2]
    refine MapInv_set_cursor cfg hw r2 hUr2 lb _ b hd hbl ?_ ?_ ?_ ?_ t htt
    · have := hUr2.lock.alloc.current_off _ hd
      rw [hr2die, hcur] at this
      exact this
    · rw [hr2]
      simp only [IsBlockReservedForBlkMapping, upd2_same]
      exact lockMask_and_self
    · intro lb' hlb' _
      rw [hr2base, hqb]
      exact hno lb' hlb'
    · rw [hr2ls]; exact hfrq
  · have e : t = s := by
      unfold AddrTransWrite.reserve at ht
      simp only [hb, ↓reduceIte, Outcome.ok.injEq] at ht
      exact ht.symm
    rw [e]; exact h

theorem MapInv_commit (cfg : Config) (hw : cfg.WellFormed) (s : State) (h : MapInv cfg s)
    (lsa lb d b : Nat) (hlsa : lsa < cfg.SLICES_PER_SSD) (hlb : lb < cfg.LOGICAL_BLOCKS_PER_SSD)
    (hd : d < cfg.USER_DIES) (hb : b < cfg.USER_BLOCKS_PER_DIE)
    (hbase : s.logicalBlockBaseVsa lb = cfg.Vorg2VsaTranslation d b 0)
    (r : Nat × State) (hr : AddrTransWrite.commit cfg s lsa lb = .ok r) :
    MapInv cfg r.2 := by
  obtain ⟨s3, s4, hk, _, h3, h4, h5⟩ := commit_chain cfg hw s lsa lb d b hd hb hbase r hr
  obtain ⟨hp1, hp2⟩ := programmedPages_bounds cfg hw _ hk
  have hp3 : (s.logicalBlockNextOffset lb + 1 + (cfg.SLICES_PER_PAGE - 1)) / cfg.SLICES_PER_PAGE %
      32768 = (s.logicalBlockNextOffset lb + 1 + (cfg.SLICES_PER_PAGE - 1)) / cfg.SLICES_PER_PAGE :=
    Nat.mod_eq_of_lt (by have := hw.pages_le; omega)
  have hU3 : MapInv cfg s3 := MapInv_maps cfg hw s h lsa lb d b hlsa hlb hd hb hbase hk s3 h3
  have hb3 : s3.logicalBlockBaseVsa = s.logicalBlockBaseVsa := by rw [h3]
  have hg3 : GetBlockCurrentPage s3 d b = GetBlockCurrentPage s d b := by rw [h3]; rfl
  have hoff3 : ¬ OnFreeList cfg s3 d b :=
    LockInv.cursor_off cfg hw s3 hU3.lock lb d b hlb hd hb (by rw [hb3]; exact hbase)
  have h4f : MapInv cfg s4 ∧ 1 ≤ GetBlockCurrentPage s4 d b ∧
      s4.logicalBlockBaseVsa = s.logicalBlockBaseVsa := by
    rcases h4 with ⟨e, hle⟩ | ⟨_, e⟩
    · rw [e]
      exact ⟨hU3, by rw [hg3]; omega, hb3⟩
    · refine ⟨?_, ?_, by rw [e]; exact hb3⟩
      · refine MapInv_setPage cfg hw s3 hU3 d b _ _ _ _ hoff3 ?_ ?_ hU3.lock.alloc.targetCh_lt
          hU3.lock.alloc.targetWay_lt hU3.lock.alloc.targetDie_lt s4 e
        · intro _ _ _
          rw [cp_lock_set]
          exact h.lock.locked lb d b hlb hd hb hbase
        · right; left
          rw [cp_get_set, hp3]
          omega
      · rw [e]
        simp only [GetBlockCurrentPage, upd2_same]
        rw [cp_get_set, hp3]; exact hp1
  obtain ⟨hU4, hG4, hb4⟩ := h4f
  rcases h5 with ⟨_, e⟩ | ⟨_, s5, e5, e⟩
  · rw [e]; exact hU4
  · have hU5 := MapInv_clear cfg hw s4 hU4 lb 0 s5 e5
    have hoff4 : ¬ OnFreeList cfg s4 d b :=
      LockInv.cursor_off cfg hw s4 hU4.lock lb d b hlb hd hb (by rw [hb4]; exact hbase)
    have hoff5 : ¬ OnFreeList cfg s5 d b := by
      intro hc
      apply hoff4
      refine (OnFreeList_of_fields cfg s4 s5 d b ?_ ?_).mp hc
      · rw [e5]; exact ⟨rfl, rfl, rfl⟩
      · intro x; rw [e5]; exact ⟨rfl, rfl, rfl⟩
    refine MapInv_setPage cfg hw s5 hU5 d b _ _ _ _ hoff5 ?_ ?_ hU5.lock.alloc.targetCh_lt
      hU5.lock.alloc.targetWay_lt hU5.lock.alloc.targetDie_lt r.2 e
    · intro lb' hlb' e'
      rw [e5] at e'
      simp only [upd_apply] at e'
      split at e'
      · exact absurd e'.symm (base_ne_none cfg hw d b hd hb)
      · rename_i hne
        rw [hb4] at e'
        exact absurd (h.lock.distinct lb' lb d b hlb' hlb hd hb e' hbase) hne
    · right; left
      rw [cp_get_unlock]
      simp only [GetBlockCurrentPage] at hG4
      omega

theorem MapInv_write (cfg : Config) (hw : cfg.WellFormed) (s : State) (h : MapInv cfg s)
    (lsa : Nat) (r : Nat × State) (hr : AddrTransWrite Collector.stop 2 cfg s lsa = .ok r) :
    MapInv cfg r.2 := by
  obtain ⟨hlt, hok, t, ht, hc⟩ := AddrTransWrite_steps cfg s lsa r hr
  have hlb := AddrToBlock_lt cfg hw lsa hlt
  have hU1 := MapInv_invalidate cfg hw s h lsa
  have hUt := MapInv_reserve cfg hw _ hU1 _ t ht
  obtain ⟨d, b, hd, hb, e, _⟩ := reserve_spec cfg hw _ hU1.lock.alloc _ hlb t ht
  exact MapInv_commit cfg hw t hUt lsa _ d b hlt hlb hd hb e r hc

theorem MapInv_invalidateBlock (cfg : Config) (hw : cfg.WellFormed) (s : State)
    (h : MapInv cfg s) (lblk : Nat) : MapInv cfg (InvalidateOldVsaBlock cfg s lblk) := by
  have hloop : MapInv cfg (forLoop cfg.SLICES_PER_BLOCK
      (fun offset t => InvalidateOldVsa cfg t (lblk * cfg.SLICES_PER_BLOCK + offset)) s) := by
    apply forLoop_induction (fun _ t => MapInv cfg t)
    · exact h
    · intro i t _ ht
      exact MapInv_invalidateOld cfg hw t ht _
  unfold InvalidateOldVsaBlock
  simp only
  split
  · exact MapInv_clear cfg hw _ hloop lblk 0 _ rfl
  · exact hloop

theorem MapInv_call (cfg : Config) (hw : cfg.WellFormed) (s : State) (c : Call) (t : State)
    (h : MapInv cfg s) (hc : c.isMapping = true) (ht : c.run Collector.stop 2 cfg s = some t) :
    MapInv cfg t := by
  cases c with
  | write lsa =>
    simp only [Call.run] at ht
    split at ht
    · rename_i r hr
      simp only [Option.some.injEq] at ht
      rw [← ht]
      exact MapInv_write cfg hw s h lsa r hr
    · exact absurd ht (by simp)
  | invalidate lsa =>
    simp only [Call.run, Option.some.injEq] at ht
    rw [← ht]
    exact MapInv_invalidateOld cfg hw s h lsa
  | invalidateBlock lblk =>
    simp only [Call.run, Option.some.injEq] at ht
    rw [← ht]
    exact MapInv_invalidateBlock cfg hw s h lblk
  | findSlice => simp [Call.isMapping] at hc
  | findSliceForGc d v => simp [Call.isMapping] at hc
  | erase d b => simp [Call.isMapping] at hc

/-- The maps that `initialise` returns: no LSA is mapped and no logical block
has a cursor. -/
theorem initialise_maps (cfg : Config) (hw : cfg.WellFormed) (s0 s1 : State)
    (h : initialise cfg s0 = .ok s1) :
    (∀ i, i < cfg.SLICES_PER_SSD → s1.logicalSlice i = cfg.VSA_NONE) ∧
    (∀ i, i < cfg.LOGICAL_BLOCKS_PER_SSD → s1.logicalBlockBaseVsa i = cfg.VSA_NONE) ∧
    (∀ i, i < cfg.LOGICAL_BLOCKS_PER_SSD → s1.logicalBlockNextOffset i = 0) ∧
    (∀ d b, d < cfg.USER_DIES → b < cfg.USER_BLOCKS_PER_DIE →
      (s1.block d b).currentPage = 0) := by
  unfold initialise at h
  simp only at h
  generalize ({ (FindDieForFreeSliceAllocation cfg
      { s0 with targetCh := 0, targetWay := 0 }).2 with
    sliceAllocationTargetDie := (FindDieForFreeSliceAllocation cfg
      { s0 with targetCh := 0, targetWay := 0 }).1 % 256 } : State) = sa at h
  have hsm := InitSliceMap_eq cfg sa
  generalize InitSliceMap cfg sa = sm at h hsm
  have hdm := InitDieMap_eq cfg sm
  have hdl := fun d hd => InitDieMap_list cfg sm d hd
  generalize InitDieMap cfg sm = sd at h hdm hdl
  have hbl := InitBlockMap_list cfg hw.block_none sd hdl
  have hbt := InitBlockMap_table cfg hw.block_none sd hdl
  have hbm := InitBlockMap_maps cfg sd
  generalize InitBlockMap cfg sd = t0 at h hbl hbt hbm
  obtain ⟨k1, k2, _⟩ := InitCurrentBlockOfDieMap_loop cfg hw t0
    (fun d hd => ⟨_, hbl d hd⟩) cfg.USER_DIES (Nat.le_refl _) s1 h
  have hm := hbm.trans k1
  refine ⟨?_, ?_, ?_, ?_⟩
  · intro i hi
    rw [hm.logicalSlice, hdm, hsm]
    simp [hi]
  · intro i hi
    rw [hm.base, hdm, hsm]
    simp [hi]
  · intro i hi
    rw [hm.offset, hdm, hsm]
    simp [hi]
  · intro d b hd hb
    rw [(k2 d b).2.2]
    exact (hbt d hd b hb).2.2.2.1

/-- The state that `initialise` returns satisfies the map invariant. -/
theorem initialise_mapInv (cfg : Config) (hw : cfg.WellFormed) (s0 s1 : State)
    (h : initialise cfg s0 = .ok s1) : MapInv cfg s1 := by
  have hU := initialise_useInv cfg hw s0 s1 h
  obtain ⟨m1, _⟩ := initialise_maps cfg hw s0 s1 h
  refine ⟨hU.lock, hU.listed, ?_, ?_⟩
  · intro lsa hlsa hne
    exact absurd (m1 lsa hlsa) hne
  · intro lsa d b p hlsa hd hb hp e
    rw [m1 lsa hlsa] at e
    exact absurd e.symm (slot_lt_none cfg hw d b p hd hb hp)

theorem MapInv_runCalls (cfg : Config) (hw : cfg.WellFormed) (calls : List Call) (s t : State)
    (h : MapInv cfg s) (hall : ∀ c ∈ calls, c.isMapping = true)
    (ht : runCalls Collector.stop 2 cfg s calls = some t) : MapInv cfg t :=
  runCalls_invariant cfg (MapInv cfg) Call.isMapping
    (fun s c t h hc ht => MapInv_call cfg hw s c t h hc ht) calls s t h hall ht

/-! ## Cursor bounds and locked blocks -/

theorem invalidate_cursors (cfg : Config) (s : State) (lsa : Nat) :
    (AddrTransWrite.invalidate cfg s lsa).logicalBlockBaseVsa = s.logicalBlockBaseVsa ∧
    (AddrTransWrite.invalidate cfg s lsa).logicalBlockNextOffset = s.logicalBlockNextOffset ∧
    ∀ d x, ((AddrTransWrite.invalidate cfg s lsa).block d x).currentPage =
      (s.block d x).currentPage := by
  unfold AddrTransWrite.invalidate
  obtain ⟨_, f2, _, f4, f5, _⟩ := InvalidateOldVsa_fields cfg s lsa
  split
  · exact ⟨f4, f5, fun d x => (f2 d x).2.2.2.2.1⟩
  · exact ⟨rfl, rfl, fun _ _ => rfl⟩

theorem OffsetInv_reserve (cfg : Config) (hw : cfg.WellFormed) (s : State)
    (hA : AllocInv cfg s) (h : OffsetInv cfg s) (lb : Nat)
    (hlb : lb < cfg.LOGICAL_BLOCKS_PER_SSD) (t : State)
    (ht : AddrTransWrite.reserve Collector.stop 2 cfg s lb = .ok t) : OffsetInv cfg t := by
  obtain ⟨d, b, hd, hb, e, _, _, e6, e7, _, _, _, _, _, _, e15, _⟩ :=
    reserve_spec cfg hw s hA lb hlb t ht
  by_cases hn : s.logicalBlockBaseVsa lb = cfg.VSA_NONE
  · intro lb' hlb'
    by_cases hl : lb' = lb
    · subst hl
      rw [e, (e7 hn).1]
      exact ⟨fun _ => SLICES_PER_BLOCK_pos cfg hw, fun _ => rfl⟩
    · rw [(e15 lb' hl).1, (e15 lb' hl).2]
      exact h lb' hlb'
  · rw [e6 hn]; exact h

theorem OffsetInv_commit (cfg : Config) (hw : cfg.WellFormed) (s : State)
    (h : OffsetInv cfg s) (lsa lb d b : Nat)
    (hd : d < cfg.USER_DIES) (hb : b < cfg.USER_BLOCKS_PER_DIE)
    (hbase : s.logicalBlockBaseVsa lb = cfg.Vorg2VsaTranslation d b 0)
    (r : Nat × State) (hr : AddrTransWrite.commit cfg s lsa lb = .ok r) :
    OffsetInv cfg r.2 := by
  obtain ⟨hk, _, _, _, _, _, _, _, _, c10, c11, _⟩ := commit_spec cfg hw s lsa lb d b hd hb hbase r hr
  have hne := base_ne_none cfg hw d b hd hb
  intro lb' hlb'
  rw [c10, c11]
  by_cases hl : lb' = lb
  · subst hl
    by_cases f : s.logicalBlockNextOffset lb' + 1 = cfg.SLICES_PER_BLOCK
    · simp [f]
    · simp only [f, ↓reduceIte, upd_same, hbase]
      exact ⟨fun _ => by omega, fun e => absurd e hne⟩
  · have := h lb' hlb'
    split
    · simp only [upd_apply, hl, ↓reduceIte]; exact this
    · simp only [upd_apply, hl, ↓reduceIte]; exact this

/-- In a state with bounded cursors, the second assertion of `AddrTransWrite`
does not fire: `AddrTransWrite.commit` returns after a returning
`AddrTransWrite.reserve`. -/
theorem commit_returns (cfg : Config) (hw : cfg.WellFormed) (s : State)
    (hL : LockInv cfg s) (h : OffsetInv cfg s) (lsa : Nat) (hlsa : lsa < cfg.SLICES_PER_SSD)
    (t : State)
    (ht : AddrTransWrite.reserve Collector.stop 2 cfg (AddrTransWrite.invalidate cfg s lsa)
      (AddrToBlock cfg lsa) = .ok t) :
    t.logicalBlockNextOffset (AddrToBlock cfg lsa) < cfg.SLICES_PER_BLOCK ∧
    ∃ r, AddrTransWrite.commit cfg t lsa (AddrToBlock cfg lsa) = .ok r := by
  have hlb := AddrToBlock_lt cfg hw lsa hlsa
  obtain ⟨i1, i2, _⟩ := invalidate_cursors cfg s lsa
  have hL1 := LockInv_invalidate cfg hw s hL lsa
  have hO1 : OffsetInv cfg (AddrTransWrite.invalidate cfg s lsa) := by
    intro lb' hlb'
    rw [i1, i2]
    exact h lb' hlb'
  have hOt := OffsetInv_reserve cfg hw _ hL1.alloc hO1 _ hlb t ht
  obtain ⟨d, b, hd, hb, e, _⟩ := reserve_spec cfg hw _ hL1.alloc _ hlb t ht
  have hk := (hOt _ hlb).1 (by rw [e]; exact base_ne_none cfg hw d b hd hb)
  refine ⟨hk, ?_⟩
  unfold AddrTransWrite.commit
  rw [if_neg (by omega)]
  exact ⟨_, rfl⟩

theorem OffsetInv_write (cfg : Config) (hw : cfg.WellFormed) (s : State)
    (hL : LockInv cfg s) (h : OffsetInv cfg s)
    (lsa : Nat) (r : Nat × State) (hr : AddrTransWrite Collector.stop 2 cfg s lsa = .ok r) :
    OffsetInv cfg r.2 := by
  obtain ⟨hlt, _, t, ht, hc⟩ := AddrTransWrite_steps cfg s lsa r hr
  have hlb := AddrToBlock_lt cfg hw lsa hlt
  obtain ⟨i1, i2, _⟩ := invalidate_cursors cfg s lsa
  have hL1 := LockInv_invalidate cfg hw s hL lsa
  have hO1 : OffsetInv cfg (AddrTransWrite.invalidate cfg s lsa) := by
    intro lb' hlb'
    rw [i1, i2]
    exact h lb' hlb'
  have hOt := OffsetInv_reserve cfg hw _ hL1.alloc hO1 _ hlb t ht
  obtain ⟨d, b, hd, hb, e, _⟩ := reserve_spec cfg hw _ hL1.alloc _ hlb t ht
  exact OffsetInv_commit cfg hw t hOt lsa _ d b hd hb e r hc

theorem OffsetInv_invalidateOld (cfg : Config) (s : State) (h : OffsetInv cfg s) (lsa : Nat) :
    OffsetInv cfg (InvalidateOldVsa cfg s lsa) := by
  obtain ⟨_, _, _, f4, f5, _⟩ := InvalidateOldVsa_fields cfg s lsa
  intro lb hlb
  rw [f4, f5]
  exact h lb hlb

theorem OffsetInv_invalidateBlock (cfg : Config) (s : State) (h : OffsetInv cfg s)
    (lblk : Nat) : OffsetInv cfg (InvalidateOldVsaBlock cfg s lblk) := by
  have hloop : OffsetInv cfg (forLoop cfg.SLICES_PER_BLOCK
      (fun offset t => InvalidateOldVsa cfg t (lblk * cfg.SLICES_PER_BLOCK + offset)) s) := by
    apply forLoop_induction (fun _ t => OffsetInv cfg t)
    · exact h
    · intro i t _ ht
      exact OffsetInv_invalidateOld cfg t ht _
  unfold InvalidateOldVsaBlock
  simp only
  split
  · intro lb hlb
    have := hloop lb hlb
    by_cases e : lb = lblk
    · simp [upd_apply, e]
    · simp only [upd_apply, e, ↓reduceIte]
      exact this
  · exact hloop

theorem OffsetInv_call (cfg : Config) (hw : cfg.WellFormed) (s : State) (c : Call) (t : State)
    (h : MapInv cfg s ∧ OffsetInv cfg s) (hc : c.isMapping = true)
    (ht : c.run Collector.stop 2 cfg s = some t) : MapInv cfg t ∧ OffsetInv cfg t := by
  refine ⟨MapInv_call cfg hw s c t h.1 hc ht, ?_⟩
  cases c with
  | write lsa =>
    simp only [Call.run] at ht
    split at ht
    · rename_i r hr
      simp only [Option.some.injEq] at ht
      rw [← ht]
      exact OffsetInv_write cfg hw s h.1.lock h.2 lsa r hr
    · exact absurd ht (by simp)
  | invalidate lsa =>
    simp only [Call.run, Option.some.injEq] at ht
    rw [← ht]
    exact OffsetInv_invalidateOld cfg s h.2 lsa
  | invalidateBlock lblk =>
    simp only [Call.run, Option.some.injEq] at ht
    rw [← ht]
    exact OffsetInv_invalidateBlock cfg s h.2 lblk
  | findSlice => simp [Call.isMapping] at hc
  | findSliceForGc d v => simp [Call.isMapping] at hc
  | erase d b => simp [Call.isMapping] at hc

/-- C26. Forward-map coherence.  In every state reached from the initialised
state through returning `AddrTransWrite`, `InvalidateOldVsa` and
`InvalidateOldVsaBlock` calls only: every LSA mapped to a VSA `v` is the LSA
that the reverse map gives for `v`; no two LSAs are mapped to the same VSA; and
the condition of the reverse-coherence assertion of `AddrTransWrite` is false
for every LSA.  The calls do not enter the garbage collector
(`Collector.stop`). -/
theorem forward_map_coherent (cfg : Config) (hw : cfg.WellFormed) (s0 s1 : State)
    (hinit : initialise cfg s0 = .ok s1) (calls : List Call)
    (hcalls : ∀ c ∈ calls, c.isMapping = true) (s : State)
    (hrun : runCalls Collector.stop 2 cfg s1 calls = some s) :
    (∀ lsa, lsa < cfg.SLICES_PER_SSD → s.logicalSlice lsa ≠ cfg.VSA_NONE →
      s.virtualSlice (s.logicalSlice lsa) = lsa) ∧
    (∀ lsa lsa', lsa < cfg.SLICES_PER_SSD → lsa' < cfg.SLICES_PER_SSD →
      s.logicalSlice lsa ≠ cfg.VSA_NONE → s.logicalSlice lsa = s.logicalSlice lsa' →
      lsa = lsa') ∧
    (∀ lsa, lsa < cfg.SLICES_PER_SSD →
      ¬ (s.logicalSlice lsa ≠ cfg.VSA_NONE ∧ s.virtualSlice (s.logicalSlice lsa) ≠ lsa)) := by
  have hM : MapInv cfg s :=
    MapInv_runCalls cfg hw calls s1 s (initialise_mapInv cfg hw s0 s1 hinit) hcalls hrun
  refine ⟨fun lsa hlsa hne => (hM.coh lsa hlsa hne).2, ?_, ?_⟩
  · intro lsa lsa' hlsa hlsa' hne e
    have h1 := (hM.coh lsa hlsa hne).2
    have h2 := (hM.coh lsa' hlsa' (by rw [← e]; exact hne)).2
    rw [← h1, e, h2]
  · intro lsa hlsa hc
    exact hc.2 (hM.coh lsa hlsa hc.1).2

set_option maxRecDepth 100000 in
theorem forward_map_coherent_witness :
    (runCallsState Collector.stop 2 scenario scenarioInit mappingRun).logicalSlice 4 ≠ scenario.VSA_NONE ∧
    (runCallsState Collector.stop 2 scenario scenarioInit mappingRun).virtualSlice
      ((runCallsState Collector.stop 2 scenario scenarioInit mappingRun).logicalSlice 4) = 4 :=
  ⟨by decide,
    (forward_map_coherent scenario scenario_wellFormed (badBlocksAt [0]) scenarioInit
      scenarioInit_ok mappingRun (by decide) _
      (runCalls_eq_some scenario scenarioInit mappingRun (by decide))).1 4 (by decide)
      (by decide)⟩

/-! ## RemapBadBlock assigns every spare once -/

/-- What a section of the loop body of `RemapBadBlock` does when it returns:
the reserve pointer does not go back, and the state is unchanged or the block
gets a spare that is not below the old pointer and is below the limit. -/
theorem RemapBadBlock_lun_cases (s : State) (d pb limit r : Nat) (s' : State) (r' m : Nat)
    (h : RemapBadBlock.lun s d pb limit r = some (s', r', m)) :
    r ≤ r' ∧
    (s' = s ∨
      ∃ r1, r ≤ r1 ∧ r1 < limit ∧ r' = r1 + 1 ∧
        s' = { s with
          phyBlock := upd2 s.phyBlock d pb
            { s.phyBlock d pb with remappedPhyBlock := r1 } }) := by
  unfold RemapBadBlock.lun at h
  by_cases hb : (s.phyBlock d pb).bad ≠ 0
  · rw [if_pos hb] at h
    by_cases hr : r < limit
    · rw [if_pos hr] at h
      obtain ⟨r1, f, e1, e2, _, e4⟩ :=
        RemapBadBlock_scan_spec s d limit (limit - r) r hr (Nat.le_refl _)
      rw [e1] at h
      simp only at h
      rcases e4 with ⟨f1, f2, _⟩ | ⟨f1, _⟩
      · rw [if_pos f1] at h
        simp only [Option.some.injEq, Prod.mk.injEq] at h
        obtain ⟨h1, h2, _⟩ := h
        exact ⟨by omega, Or.inr ⟨r1, e2, f2, h2.symm, h1.symm⟩⟩
      · rw [if_neg (by simp [f1])] at h
        simp only [Option.some.injEq, Prod.mk.injEq] at h
        obtain ⟨h1, h2, _⟩ := h
        exact ⟨by omega, Or.inl h1.symm⟩
    · rw [if_neg hr] at h
      simp only [Option.some.injEq, Prod.mk.injEq] at h
      obtain ⟨h1, h2, _⟩ := h
      exact ⟨by omega, Or.inl h1.symm⟩
  · rw [if_neg hb] at h
    simp only [Option.some.injEq, Prod.mk.injEq] at h
    obtain ⟨h1, h2, _⟩ := h
    exact ⟨by omega, Or.inl h1.symm⟩

theorem RemapMono_congr (s s' : State) (d base ubl start limit n r : Nat) (hn : n ≤ ubl)
    (h : ∀ i, i < ubl → (s'.phyBlock d (base + i)).remappedPhyBlock =
      (s.phyBlock d (base + i)).remappedPhyBlock)
    (hi : RemapMono s d base ubl start limit n r) :
    RemapMono s' d base ubl start limit n r := by
  obtain ⟨h1, h2, h3, h4⟩ := hi
  refine ⟨h1, ?_, ?_, ?_⟩
  · intro i hi
    rw [h i (by omega)]
    exact h2 i hi
  · intro i a b
    rw [h i b]
    exact h3 i a b
  · intro i j a b
    rw [h i (by omega), h j (by omega)]
    exact h4 i j a b

/-- A returning section of the loop body takes the remapping of its LUN one
user block further. -/
theorem RemapBadBlock_lun_mono (s : State) (d base ubl start limit n r : Nat)
    (hstart : base + ubl ≤ start) (hn : n < ubl)
    (hinv : RemapMono s d base ubl start limit n r) (s' : State) (r' m : Nat)
    (h : RemapBadBlock.lun s d (base + n) limit r = some (s', r', m)) :
    RemapMono s' d base ubl start limit (n + 1) r' ∧
    (∀ d' x, ¬ (d' = d ∧ x = base + n) → s'.phyBlock d' x = s.phyBlock d' x) := by
  obtain ⟨h1, h2, h3, h4⟩ := hinv
  obtain ⟨c1, c2⟩ := RemapBadBlock_lun_cases s d (base + n) limit r s' r' m h
  have hself := h3 n (Nat.le_refl n) hn
  rcases c2 with e | ⟨r1, g1, g2, g3, e⟩
  · subst e
    refine ⟨⟨by omega, ?_, ?_, ?_⟩, fun _ _ _ => rfl⟩
    · intro i hi
      by_cases e : i = n
      · subst e; exact Or.inl hself
      · rcases h2 i (by omega) with a | ⟨a, b, c⟩
        · exact Or.inl a
        · exact Or.inr ⟨a, by omega, c⟩
    · intro i a b
      exact h3 i (by omega) b
    · intro i j a b
      by_cases e : j = n
      · subst e
        rw [hself]
        rcases h2 i a with a1 | ⟨a1, _, _⟩
        · rw [a1]; omega
        · omega
      · exact h4 i j a (by omega)
  · have hne : ∀ i, i ≠ n → ¬ (d = d ∧ base + i = base + n) := by
      intro i hi c; omega
    have hnew : (s'.phyBlock d (base + n)).remappedPhyBlock = r1 := by
      rw [e]; simp
    have hold : ∀ i, i ≠ n → (s'.phyBlock d (base + i)).remappedPhyBlock =
        (s.phyBlock d (base + i)).remappedPhyBlock := by
      intro i hi
      rw [e]
      simp only [upd2_ne _ _ (hne i hi)]
    refine ⟨⟨by omega, ?_, ?_, ?_⟩, ?_⟩
    · intro i hi
      by_cases e' : i = n
      · subst e'
        rw [hnew]
        exact Or.inr ⟨by omega, by omega, g2⟩
      · rw [hold i e']
        rcases h2 i (by omega) with a | ⟨a, b, c⟩
        · exact Or.inl a
        · exact Or.inr ⟨a, by omega, c⟩
    · intro i a b
      rw [hold i (by omega)]
      exact h3 i (by omega) b
    · intro i j a b
      by_cases e' : j = n
      · subst e'
        rw [hnew, hold i (by omega)]
        rcases h2 i a with a1 | ⟨a1, a2, _⟩
        · rw [a1]; omega
        · omega
      · rw [hold i (by omega), hold j e']
        exact h4 i j a (by omega)
    · intro d' x c
      rw [e]
      simp only [upd2_ne _ _ c]

/-- A returning iteration of the inner loop of `RemapBadBlock` takes the
remapping of die `j` one user block further in every LUN, and leaves the other
dies alone. -/
theorem RemapBadBlock_body_mono (cfg : Config) (sp : BlockSpace) (hsp : sp.WellFormed cfg)
    (st st' : State × RemapBadBlock.Locals) (k j : Nat) (hk : k < sp.USER_BLOCKS_PER_LUN)
    (hQ : MonoDone sp st.1 st.2 j k)
    (h : RemapBadBlock.body sp k j (.ok st) = .ok st') :
    MonoDone sp st'.1 st'.2 j (k + 1) ∧
    (∀ d, d ≠ j → st'.1.phyBlock d = st.1.phyBlock d ∧
      st'.2.reservedBlockOfLun0 d = st.2.reservedBlockOfLun0 d ∧
      st'.2.reservedBlockOfLun1 d = st.2.reservedBlockOfLun1 d) := by
  have hle := hsp.user_le
  obtain ⟨q0, q1⟩ := hQ
  simp only [RemapBadBlock.body, Outcome.bind_ok] at h
  cases hl0 : RemapBadBlock.lun st.1 j k sp.TOTAL_BLOCKS_PER_LUN (st.2.reservedBlockOfLun0 j) with
  | none => rw [hl0] at h; simp at h
  | some r0 =>
    obtain ⟨s1, r0', m0⟩ := r0
    rw [hl0] at h
    simp only at h
    have hl0' : RemapBadBlock.lun st.1 j (0 + k) sp.TOTAL_BLOCKS_PER_LUN
        (st.2.reservedBlockOfLun0 j) = some (s1, r0', m0) := by rw [Nat.zero_add]; exact hl0
    obtain ⟨a1, a2⟩ := RemapBadBlock_lun_mono st.1 j 0 sp.USER_BLOCKS_PER_LUN
      sp.USER_BLOCKS_PER_LUN sp.TOTAL_BLOCKS_PER_LUN k (st.2.reservedBlockOfLun0 j) (by omega) hk
      q0 s1 r0' m0 hl0'
    rw [Nat.zero_add] at a2
    have hother1 : ∀ d, d ≠ j → s1.phyBlock d = st.1.phyBlock d := by
      intro d hd
      funext x
      exact a2 d x (fun c => hd c.1)
    by_cases hl : sp.LUNS_PER_DIE > 1
    · rw [if_pos hl] at h
      have q1' : RemapMono s1 j sp.TOTAL_BLOCKS_PER_LUN sp.USER_BLOCKS_PER_LUN
          (sp.TOTAL_BLOCKS_PER_LUN + sp.USER_BLOCKS_PER_LUN) sp.TOTAL_BLOCKS_PER_DIE k
          (st.2.reservedBlockOfLun1 j) := by
        apply RemapMono_congr st.1 s1 j _ _ _ _ _ _ (Nat.le_of_lt hk) _ (q1 hl)
        intro i hi
        rw [a2 j _ (fun c => by omega)]
      cases hl1 : RemapBadBlock.lun s1 j (k + sp.TOTAL_BLOCKS_PER_LUN) sp.TOTAL_BLOCKS_PER_DIE
          (st.2.reservedBlockOfLun1 j) with
      | none => rw [hl1] at h; simp at h
      | some r1 =>
        obtain ⟨s2, r1', m1⟩ := r1
        rw [hl1] at h
        simp only [Outcome.ok.injEq] at h
        have hl1' : RemapBadBlock.lun s1 j (sp.TOTAL_BLOCKS_PER_LUN + k) sp.TOTAL_BLOCKS_PER_DIE
            (st.2.reservedBlockOfLun1 j) = some (s2, r1', m1) := by
          rw [Nat.add_comm]; exact hl1
        obtain ⟨b1, b2⟩ := RemapBadBlock_lun_mono s1 j sp.TOTAL_BLOCKS_PER_LUN
          sp.USER_BLOCKS_PER_LUN (sp.TOTAL_BLOCKS_PER_LUN + sp.USER_BLOCKS_PER_LUN)
          sp.TOTAL_BLOCKS_PER_DIE k (st.2.reservedBlockOfLun1 j) (Nat.le_refl _) hk q1' s2 r1' m1
          hl1'
        rw [← h]
        refine ⟨⟨?_, ?_⟩, ?_⟩
        · simp only [upd_same]
          apply RemapMono_congr s1 s2 j _ _ _ _ _ _ hk _ a1
          intro i hi
          rw [b2 j _ (fun c => by omega)]
        · intro _
          simp only [upd_same]
          exact b1
        · intro d hd
          refine ⟨?_, by simp [upd_apply, hd], by simp [upd_apply, hd]⟩
          rw [← hother1 d hd]
          funext x
          exact b2 d x (fun c => hd c.1)
    · rw [if_neg hl] at h
      simp only [Outcome.ok.injEq] at h
      rw [← h]
      refine ⟨⟨?_, fun c => absurd c hl⟩, ?_⟩
      · simp only [upd_same]
        exact a1
      · intro d hd
        exact ⟨hother1 d hd, by simp [upd_apply, hd], rfl⟩

theorem MonoDone_congr (sp : BlockSpace) (s s' : State) (v v' : RemapBadBlock.Locals)
    (d n : Nat) (hn : n ≤ sp.USER_BLOCKS_PER_LUN) (hp : s'.phyBlock d = s.phyBlock d)
    (h0 : v'.reservedBlockOfLun0 d = v.reservedBlockOfLun0 d)
    (h1 : v'.reservedBlockOfLun1 d = v.reservedBlockOfLun1 d)
    (h : MonoDone sp s v d n) : MonoDone sp s' v' d n := by
  obtain ⟨q0, q1⟩ := h
  refine ⟨?_, ?_⟩
  · rw [h0]
    exact RemapMono_congr s s' d _ _ _ _ _ _ hn (fun i _ => by rw [hp]) q0
  · intro hl
    rw [h1]
    exact RemapMono_congr s s' d _ _ _ _ _ _ hn (fun i _ => by rw [hp]) (q1 hl)

/-- The inner loop of `RemapBadBlock` for user block `k`, when it returns. -/
theorem RemapBadBlock_inner_mono (cfg : Config) (sp : BlockSpace) (hsp : sp.WellFormed cfg)
    (st : State × RemapBadBlock.Locals) (k : Nat) (hk : k < sp.USER_BLOCKS_PER_LUN)
    (hQ : ∀ d, d < cfg.USER_DIES → MonoDone sp st.1 st.2 d k) (n : Nat)
    (hn : n ≤ cfg.USER_DIES) :
    ∀ st', forLoop n (RemapBadBlock.body sp k) (.ok st) = .ok st' →
      (∀ d, d < n → MonoDone sp st'.1 st'.2 d (k + 1)) ∧
      (∀ d, n ≤ d → d < cfg.USER_DIES → MonoDone sp st'.1 st'.2 d k) := by
  induction n with
  | zero =>
    intro st' h
    simp only [forLoop, List.range_zero, List.foldl_nil, Outcome.ok.injEq] at h
    subst h
    exact ⟨fun d hd => absurd hd (Nat.not_lt_zero d), fun d _ hd => hQ d hd⟩
  | succ j ih =>
    intro st' h
    rw [forLoop_succ] at h
    cases ht : forLoop j (RemapBadBlock.body sp k) (.ok st) with
    | ok t =>
      rw [ht] at h
      obtain ⟨e3, e4⟩ := ih (Nat.le_of_succ_le hn) t ht
      obtain ⟨f2, f4⟩ :=
        RemapBadBlock_body_mono cfg sp hsp t st' k j hk (e4 j (Nat.le_refl j) hn) h
      refine ⟨?_, ?_⟩
      · intro d hd
        by_cases e : d = j
        · subst e; exact f2
        · obtain ⟨g1, g2, g3⟩ := f4 d e
          exact MonoDone_congr sp t.1 st'.1 t.2 st'.2 d (k + 1) hk g1 g2 g3 (e3 d (by omega))
      · intro d hd hd'
        have e : d ≠ j := by omega
        obtain ⟨g1, g2, g3⟩ := f4 d e
        exact MonoDone_congr sp t.1 st'.1 t.2 st'.2 d k (Nat.le_of_lt hk) g1 g2 g3
          (e4 d (by omega) hd')
    | fatal t => rw [ht] at h; simp [RemapBadBlock.body, Outcome.bind] at h
    | gc t => rw [ht] at h; simp [RemapBadBlock.body, Outcome.bind] at h
    | fuel => rw [ht] at h; simp [RemapBadBlock.body, Outcome.bind] at h

/-- The remapping loops of `RemapBadBlock`, started on the identity remapping,
when they return. -/
theorem RemapBadBlock_outer_mono (cfg : Config) (sp : BlockSpace) (hsp : sp.WellFormed cfg)
    (s : State)
    (hid : ∀ d x, d < cfg.USER_DIES → x < sp.TOTAL_BLOCKS_PER_DIE →
      (s.phyBlock d x).remappedPhyBlock = x)
    (n : Nat) (hn : n ≤ sp.USER_BLOCKS_PER_LUN) :
    ∀ st', forLoop n (fun blockNo x => forLoop cfg.USER_DIES (RemapBadBlock.body sp blockNo) x)
        (.ok (s, RemapBadBlock.init cfg sp)) = .ok st' →
      ∀ d, d < cfg.USER_DIES → MonoDone sp st'.1 st'.2 d n := by
  induction n with
  | zero =>
    intro st' h d hd
    simp only [forLoop, List.range_zero, List.foldl_nil, Outcome.ok.injEq] at h
    subst h
    obtain ⟨i0, i1, _⟩ := RemapBadBlock_init_eq cfg sp d hd
    refine ⟨⟨by rw [i0], fun i hi => absurd hi (Nat.not_lt_zero i), ?_,
      fun i j _ hj => absurd hj (Nat.not_lt_zero j)⟩, ?_⟩
    · intro i _ hi
      rw [Nat.zero_add]
      exact hid d i hd (by have := hsp.lun_le; omega)
    · intro hl
      refine ⟨by rw [i1], fun i hi => absurd hi (Nat.not_lt_zero i), ?_,
        fun i j _ hj => absurd hj (Nat.not_lt_zero j)⟩
      intro i _ hi
      exact hid d _ hd (by have := hsp.die_le hl; omega)
  | succ k ih =>
    intro st' h
    rw [forLoop_succ] at h
    obtain ⟨t, e1, _⟩ := RemapBadBlock_outer cfg sp hsp s hid k (Nat.le_of_succ_le hn)
    rw [e1] at h
    have e3 := ih (Nat.le_of_succ_le hn) t e1
    obtain ⟨f3, _⟩ :=
      RemapBadBlock_inner_mono cfg sp hsp t k hn e3 cfg.USER_DIES (Nat.le_refl _) st' h
    exact f3

/-- Injectivity of the remap targets of one LUN. -/
theorem RemapMono.injective (s : State) (d base ubl start limit r : Nat)
    (h : RemapMono s d base ubl start limit ubl r) (i j : Nat) (hi : i < ubl) (hj : j < ubl)
    (hne : i ≠ j) :
    (s.phyBlock d (base + i)).remappedPhyBlock ≠ (s.phyBlock d (base + j)).remappedPhyBlock := by
  rcases Nat.lt_or_gt_of_ne hne with c | c
  · exact h.inj i j c hj
  · exact fun e => h.inj j i c hi e.symm

/-- C29. Remapping is injective.  Started on the identity remapping,
`RemapBadBlock` returns, and for every die: two different user physical blocks
(of LUN0 and, when `LUNS_PER_DIE > 1`, of LUN1) have different remap targets; a
remap target that differs from its block is not a user block; so two virtual
blocks that `Vblock2PblockOfTbs` sends to different user physical blocks
resolve to different physical blocks. -/
theorem RemapBadBlock_injective (cfg : Config) (sp : BlockSpace) (hsp : sp.WellFormed cfg)
    (s : State)
    (hid : ∀ d x, d < cfg.USER_DIES → x < sp.TOTAL_BLOCKS_PER_DIE →
      (s.phyBlock d x).remappedPhyBlock = x) :
    ∃ s', RemapBadBlock cfg sp s = .ok s' ∧
      ∀ d, d < cfg.USER_DIES →
        (∀ pb pb', sp.IsUserBlock pb → sp.IsUserBlock pb' →
          (s'.phyBlock d pb).remappedPhyBlock = (s'.phyBlock d pb').remappedPhyBlock →
          pb = pb') ∧
        (∀ pb, sp.IsUserBlock pb → (s'.phyBlock d pb).remappedPhyBlock ≠ pb →
          ¬ sp.IsUserBlock (s'.phyBlock d pb).remappedPhyBlock) ∧
        (∀ vb vb', sp.IsUserBlock (cfg.Vblock2PblockOfTbsTranslation vb) →
          sp.IsUserBlock (cfg.Vblock2PblockOfTbsTranslation vb') →
          cfg.Vblock2PblockOfTbsTranslation vb ≠ cfg.Vblock2PblockOfTbsTranslation vb' →
          (s'.phyBlock d (cfg.Vblock2PblockOfTbsTranslation vb)).remappedPhyBlock ≠
            (s'.phyBlock d (cfg.Vblock2PblockOfTbsTranslation vb')).remappedPhyBlock) := by
  obtain ⟨st, e1, _⟩ :=
    RemapBadBlock_outer cfg sp hsp s hid sp.USER_BLOCKS_PER_LUN (Nat.le_refl _)
  have hM := RemapBadBlock_outer_mono cfg sp hsp s hid sp.USER_BLOCKS_PER_LUN (Nat.le_refl _)
    st e1
  refine ⟨_, by unfold RemapBadBlock; rw [e1]; rfl, ?_⟩
  intro d hd
  simp only
  obtain ⟨m0, m1⟩ := hM d hd
  have hle := hsp.user_le
  -- the targets of the user blocks of LUN0
  have F0 : ∀ pb, pb < sp.USER_BLOCKS_PER_LUN →
      (st.1.phyBlock d pb).remappedPhyBlock = pb ∨
      (sp.USER_BLOCKS_PER_LUN ≤ (st.1.phyBlock d pb).remappedPhyBlock ∧
        (st.1.phyBlock d pb).remappedPhyBlock < sp.TOTAL_BLOCKS_PER_LUN) := by
    intro pb hpb
    have := m0.range pb hpb
    rw [Nat.zero_add] at this
    rcases this with a | ⟨a, _, c⟩
    · exact Or.inl a
    · exact Or.inr ⟨a, c⟩
  have I0 : ∀ pb pb', pb < sp.USER_BLOCKS_PER_LUN → pb' < sp.USER_BLOCKS_PER_LUN → pb ≠ pb' →
      (st.1.phyBlock d pb).remappedPhyBlock ≠ (st.1.phyBlock d pb').remappedPhyBlock := by
    intro pb pb' h1 h2 hne
    have := RemapMono.injective _ d _ _ _ _ _ m0 pb pb' h1 h2 hne
    rw [Nat.zero_add, Nat.zero_add] at this
    exact this
  -- the targets of the user blocks of LUN1
  have F1 : sp.LUNS_PER_DIE > 1 → ∀ pb, sp.TOTAL_BLOCKS_PER_LUN ≤ pb →
      pb < sp.TOTAL_BLOCKS_PER_LUN + sp.USER_BLOCKS_PER_LUN →
      (st.1.phyBlock d pb).remappedPhyBlock = pb ∨
      sp.TOTAL_BLOCKS_PER_LUN + sp.USER_BLOCKS_PER_LUN ≤ (st.1.phyBlock d pb).remappedPhyBlock := by
    intro hl pb h1 h2
    have := (m1 hl).range (pb - sp.TOTAL_BLOCKS_PER_LUN) (by omega)
    rw [Nat.add_sub_cancel' h1] at this
    rcases this with a | ⟨a, _, _⟩
    · exact Or.inl a
    · exact Or.inr a
  have I1 : sp.LUNS_PER_DIE > 1 → ∀ pb pb', sp.TOTAL_BLOCKS_PER_LUN ≤ pb →
      pb < sp.TOTAL_BLOCKS_PER_LUN + sp.USER_BLOCKS_PER_LUN → sp.TOTAL_BLOCKS_PER_LUN ≤ pb' →
      pb' < sp.TOTAL_BLOCKS_PER_LUN + sp.USER_BLOCKS_PER_LUN → pb ≠ pb' →
      (st.1.phyBlock d pb).remappedPhyBlock ≠ (st.1.phyBlock d pb').remappedPhyBlock := by
    intro hl pb pb' h1 h2 h3 h4 hne
    have := RemapMono.injective _ d _ _ _ _ _ (m1 hl) (pb - sp.TOTAL_BLOCKS_PER_LUN)
      (pb' - sp.TOTAL_BLOCKS_PER_LUN) (by omega) (by omega) (by omega)
    rw [Nat.add_sub_cancel' h1, Nat.add_sub_cancel' h3] at this
    exact this
  have hinj : ∀ pb pb', sp.IsUserBlock pb → sp.IsUserBlock pb' →
      (st.1.phyBlock d pb).remappedPhyBlock = (st.1.phyBlock d pb').remappedPhyBlock → pb = pb' := by
    intro pb pb' hu hu' e
    by_contra hne
    rcases hu with a | ⟨hl, a1, a2⟩
    · rcases hu' with b | ⟨hl', b1, b2⟩
      · exact I0 pb pb' a b hne e
      · have f0 := F0 pb a
        have f1 := F1 hl' pb' b1 b2
        omega
    · rcases hu' with b | ⟨_, b1, b2⟩
      · have f0 := F0 pb' b
        have f1 := F1 hl pb a1 a2
        omega
      · exact I1 hl pb pb' a1 a2 b1 b2 hne e
  refine ⟨hinj, ?_, ?_⟩
  · intro pb hu hne hc
    rcases hu with a | ⟨hl, a1, a2⟩
    · have f0 := F0 pb a
      rcases hc with c | ⟨_, c1, c2⟩
      · omega
      · omega
    · have f1 := F1 hl pb a1 a2
      rcases hc with c | ⟨_, c1, c2⟩
      · omega
      · omega
  · intro vb vb' hu hu' hne e
    exact hne (hinj _ _ hu hu' e)

set_option maxRecDepth 100000 in
theorem RemapBadBlock_injective_witness :
    ∃ s', RemapBadBlock scenario scenarioSpace (badBlocksAt [1, 4, 7]) = .ok s' ∧
      (s'.phyBlock 0 (scenario.Vblock2PblockOfTbsTranslation 1)).remappedPhyBlock ≠
        (s'.phyBlock 0 (scenario.Vblock2PblockOfTbsTranslation 2)).remappedPhyBlock :=
  match RemapBadBlock_injective scenario scenarioSpace scenarioSpace_wellFormed
    (badBlocksAt [1, 4, 7]) (fun _ _ _ _ => rfl) with
  | ⟨s', h1, h2⟩ =>
    ⟨s', h1, (h2 0 (by decide)).2.2 1 2 (by decide) (by decide) (by decide)⟩

/-! ## The allocator hands out blocks that are not bad -/

theorem Handover_refl (cfg : Config) (s : State) : Handover cfg s s :=
  ⟨fun _ _ => rfl, rfl, fun _ _ _ _ h => Or.inl h⟩

theorem Handover_trans (cfg : Config) (s t u : State) (h1 : Handover cfg s t)
    (h2 : Handover cfg t u) : Handover cfg s u := by
  refine ⟨fun d b => by rw [h2.bad, h1.bad], by rw [h2.phy, h1.phy], ?_⟩
  intro d b hd hb hu
  rcases h2.usable d b hd hb hu with a | a
  · exact h1.usable d b hd hb a
  · right
    rw [← h1.bad]
    exact a

theorem GoodBlocks_handover (cfg : Config) (s s' : State) (h : GoodBlocks cfg s)
    (hh : Handover cfg s s') : GoodBlocks cfg s' := by
  intro d b hd hb hu
  rw [hh.bad]
  rcases hh.usable d b hd hb hu with a | a
  · exact h d b hd hb a
  · exact a

/-- A step that keeps the current blocks and does not extend the free lists. -/
theorem Handover_of_frame (cfg : Config) (s s' : State)
    (hbad : ∀ d b, (s'.block d b).bad = (s.block d b).bad) (hphy : s'.phyBlock = s.phyBlock)
    (hcur : ∀ d, (s'.die d).currentBlock = (s.die d).currentBlock)
    (hon : ∀ d b, d < cfg.USER_DIES → OnFreeList cfg s' d b → OnFreeList cfg s d b)
    (hbase : ∀ lb d b, lb < cfg.LOGICAL_BLOCKS_PER_SSD → d < cfg.USER_DIES →
      b < cfg.USER_BLOCKS_PER_DIE →
      s'.logicalBlockBaseVsa lb = cfg.Vorg2VsaTranslation d b 0 →
      s.logicalBlockBaseVsa lb = cfg.Vorg2VsaTranslation d b 0 ∨ Usable cfg s d b) :
    Handover cfg s s' := by
  refine ⟨hbad, hphy, ?_⟩
  intro d b hd hb hu
  left
  rcases hu with a | a | ⟨lb, hlb, a⟩
  · exact Or.inl (by rw [a, hcur])
  · exact Or.inr (Or.inl (hon d b hd a))
  · rcases hbase lb d b hlb hd hb a with c | c
    · exact Or.inr (Or.inr ⟨lb, hlb, c⟩)
    · exact c

theorem Handover_pop (cfg : Config) (hw : cfg.WellFormed) (s : State) (hA : AllocInv cfg s)
    (d h0 : Nat) (rest : List Nat) (hl : FreeListIs cfg s d (h0 :: rest)) (P : State)
    (hP : P = (GetFromFbList.unlink cfg s d h0).2.setDie d
      { (GetFromFbList.unlink cfg s d h0).2.die d with currentBlock := h0 }) :
    Handover cfg s P := by
  obtain ⟨_, _, p3, p4, p5, _, ⟨_, _, q3, _, _, _, _, q8⟩, p8⟩ :=
    pop_spec cfg hw.block_none s d h0 rest hl P hP
  refine ⟨fun d' x => (p5 d' x).1, q8, ?_⟩
  intro d' b hd' _ hu
  left
  rcases hu with a | a | ⟨lb, hlb, a⟩
  · by_cases e : d' = d
    · subst e
      rw [p3] at a
      rw [a]
      exact Or.inr (Or.inl ⟨_, hl, List.mem_cons_self _ _⟩)
    · rw [p4 d' e] at a
      exact Or.inl a
  · exact Or.inr (Or.inl ((p8 d' b (hA.lists d' hd')).mp a).1)
  · rw [q3] at a
    exact Or.inr (Or.inr ⟨lb, hlb, a⟩)

theorem Handover_setPage (cfg : Config) (s : State) (d b c ch w td : Nat) (s' : State)
    (hs' : s' = { s with
      block := upd2 s.block d b { s.block d b with currentPage := c }
      targetCh := ch, targetWay := w, sliceAllocationTargetDie := td }) :
    Handover cfg s s' := by
  have hf : ∀ d' x, (s'.block d' x).bad = (s.block d' x).bad ∧
      (s'.block d' x).free = (s.block d' x).free ∧
      (s'.block d' x).prevBlock = (s.block d' x).prevBlock ∧
      (s'.block d' x).nextBlock = (s.block d' x).nextBlock := by
    intro d' x
    rw [hs']
    by_cases e : d' = d ∧ x = b
    · obtain ⟨rfl, rfl⟩ := e; simp
    · simp [upd2_ne _ _ e]
  have hdie : s'.die = s.die := by rw [hs']
  have hbs : s'.logicalBlockBaseVsa = s.logicalBlockBaseVsa := by rw [hs']
  refine Handover_of_frame cfg s s' (fun d' x => (hf d' x).1) (by rw [hs'])
    (fun d' => by rw [hdie]) ?_ ?_
  · intro d' x _ hc
    exact (OnFreeList_of_fields cfg s s' d' x (by rw [hdie]; exact ⟨rfl, rfl, rfl⟩)
      (fun y => (hf d' y).2)).mp hc
  · intro lb d' x _ _ _ e
    rw [hbs] at e
    exact Or.inl e

theorem Handover_cursor (cfg : Config) (hw : cfg.WellFormed) (s : State) (lb v n : Nat)
    (hv : v = cfg.VSA_NONE ∨ ∃ d b, d < cfg.USER_DIES ∧ b < cfg.USER_BLOCKS_PER_DIE ∧
      v = cfg.Vorg2VsaTranslation d b 0 ∧ Usable cfg s d b)
    (s' : State)
    (hs' : s' = { s with
      logicalBlockBaseVsa := upd s.logicalBlockBaseVsa lb v
      logicalBlockNextOffset := upd s.logicalBlockNextOffset lb n }) :
    Handover cfg s s' := by
  have hblock : s'.block = s.block := by rw [hs']
  have hdie : s'.die = s.die := by rw [hs']
  refine Handover_of_frame cfg s s' (fun d' x => by rw [hblock]) (by rw [hs'])
    (fun d' => by rw [hdie]) ?_ ?_
  · intro d' x _ hc
    exact (OnFreeList_of_fields cfg s s' d' x (by rw [hdie]; exact ⟨rfl, rfl, rfl⟩)
      (fun y => by rw [hblock]; exact ⟨rfl, rfl, rfl⟩)).mp hc
  · intro lb' d' x _ hd' hx e
    rw [hs'] at e
    simp only [upd_apply] at e
    split at e
    · rcases hv with hv | ⟨d, b, hd, hb, hv, hu⟩
      · rw [hv] at e
        exact absurd e.symm (base_ne_none cfg hw d' x hd' hx)
      · rw [hv] at e
        obtain ⟨rfl, rfl⟩ := pack_base_inj cfg hw d b d' x hd hb hd' hx e
        exact Or.inr hu
    · exact Or.inl e

theorem Handover_maps (cfg : Config) (s : State) (f : Nat → Nat) (g h : Nat → Nat)
    (s' : State)
    (hs' : s' = { s with logicalBlockNextOffset := f, logicalSlice := g, virtualSlice := h }) :
    Handover cfg s s' := by
  have hblock : s'.block = s.block := by rw [hs']
  have hdie : s'.die = s.die := by rw [hs']
  have hbs : s'.logicalBlockBaseVsa = s.logicalBlockBaseVsa := by rw [hs']
  refine Handover_of_frame cfg s s' (fun d' x => by rw [hblock]) (by rw [hs'])
    (fun d' => by rw [hdie]) ?_ ?_
  · intro d' x _ hc
    exact (OnFreeList_of_fields cfg s s' d' x (by rw [hdie]; exact ⟨rfl, rfl, rfl⟩)
      (fun y => by rw [hblock]; exact ⟨rfl, rfl, rfl⟩)).mp hc
  · intro lb d' x _ _ _ e
    rw [hbs] at e
    exact Or.inl e

theorem InvalidateOldVsa_phyBlock (cfg : Config) (s : State) (lsa : Nat) :
    (InvalidateOldVsa cfg s lsa).phyBlock = s.phyBlock := by
  by_cases h : s.logicalSlice lsa = cfg.VSA_NONE ∨ s.virtualSlice (s.logicalSlice lsa) ≠ lsa
  · rw [InvalidateOldVsa_skip cfg s lsa h]
  · simp only [not_or, not_not] at h
    rw [InvalidateOldVsa_eq cfg s lsa h.1 h.2]

theorem Handover_invalidateOld (cfg : Config) (s : State) (lsa : Nat) :
    Handover cfg s (InvalidateOldVsa cfg s lsa) := by
  obtain ⟨f1, f2, _, f4, _⟩ := InvalidateOldVsa_fields cfg s lsa
  refine Handover_of_frame cfg s _ (fun d' x => (f2 d' x).1)
    (InvalidateOldVsa_phyBlock cfg s lsa) (fun d' => by rw [f1]) ?_ ?_
  · intro d' x _ hc
    exact (OnFreeList_of_fields cfg s _ d' x (by rw [f1]; exact ⟨rfl, rfl, rfl⟩)
      (fun y => ⟨(f2 d' y).2.1, (f2 d' y).2.2.1, (f2 d' y).2.2.2.1⟩)).mp hc
  · intro lb d' x _ _ _ e
    rw [f4] at e
    exact Or.inl e

theorem Handover_invalidate (cfg : Config) (s : State) (lsa : Nat) :
    Handover cfg s (AddrTransWrite.invalidate cfg s lsa) := by
  unfold AddrTransWrite.invalidate
  split
  · exact Handover_invalidateOld cfg s lsa
  · exact Handover_refl cfg s

theorem Handover_invalidateBlock (cfg : Config) (hw : cfg.WellFormed) (s : State) (lblk : Nat) :
    Handover cfg s (InvalidateOldVsaBlock cfg s lblk) := by
  have hloop : Handover cfg s (forLoop cfg.SLICES_PER_BLOCK
      (fun offset t => InvalidateOldVsa cfg t (lblk * cfg.SLICES_PER_BLOCK + offset)) s) := by
    refine forLoop_induction (fun _ (t : State) => Handover cfg s t) _ _ s ?_ ?_
    · exact Handover_refl cfg s
    · intro i t _ ht
      exact Handover_trans cfg s t _ ht (Handover_invalidateOld cfg t _)
  unfold InvalidateOldVsaBlock
  simp only
  split
  · exact Handover_trans cfg s _ _ hloop (Handover_cursor cfg hw _ lblk _ 0 (Or.inl rfl) _ rfl)
  · exact hloop

/-- The block that a returning `AddrTransWrite.reserve` leaves under the
cursor of the logical block is one that the allocator could hand out before
the call. -/
theorem Handover_reserve (cfg : Config) (hw : cfg.WellFormed) (s : State) (h : LockInv cfg s)
    (lb : Nat) (t : State) (ht : AddrTransWrite.reserve Collector.stop 2 cfg s lb = .ok t) :
    Handover cfg s t := by
  by_cases hb : s.logicalBlockBaseVsa lb = cfg.VSA_NONE
  · have hd := h.alloc.targetDie_lt
    obtain ⟨q, r2, b, hq, hr2, htt⟩ :=
      reserve_chain cfg s lb t (h.alloc.lists _ hd) hb ht
    have hqf : Handover cfg s q ∧ b < cfg.USER_BLOCKS_PER_DIE ∧
        (q.die s.sliceAllocationTargetDie).currentBlock = b := by
      rcases hq with ⟨e, eb, _, _⟩ | ⟨rest, P, hl, hP, e⟩
      · subst e
        exact ⟨Handover_refl cfg q, by rw [eb]; exact h.alloc.current_lt _ hd, eb.symm⟩
      · obtain ⟨_, _, p3, _⟩ := pop_spec cfg hw.block_none s _ b rest hl P hP
        refine ⟨Handover_trans cfg s P q (Handover_pop cfg hw s h.alloc _ b rest hl P hP)
          (Handover_setPage cfg P _ b 0 _ _ _ q e), Linked_head_lt cfg s _ b rest hl, ?_⟩
        rw [e]; exact p3
    obtain ⟨hHq, hbl, hcur⟩ := hqf
    have hH2 : Handover cfg q r2 := Handover_setPage cfg q _ b _ _ _ _ r2 hr2
    have hu : Usable cfg r2 s.sliceAllocationTargetDie b := by
      left
      rw [hr2]
      exact hcur.symm
    exact Handover_trans cfg s r2 t (Handover_trans cfg s q r2 hHq hH2)
      (Handover_cursor cfg hw r2 lb _ 0 (Or.inr ⟨_, b, hd, hbl, rfl, hu⟩) t htt)
  · have e : t = s := by
      unfold AddrTransWrite.reserve at ht
      simp only [hb, ↓reduceIte, Outcome.ok.injEq] at ht
      exact ht.symm
    rw [e]; exact Handover_refl cfg s

theorem Handover_commit (cfg : Config) (hw : cfg.WellFormed) (s : State)
    (lsa lb d b : Nat) (hd : d < cfg.USER_DIES) (hb : b < cfg.USER_BLOCKS_PER_DIE)
    (hbase : s.logicalBlockBaseVsa lb = cfg.Vorg2VsaTranslation d b 0)
    (r : Nat × State) (hr : AddrTransWrite.commit cfg s lsa lb = .ok r) :
    Handover cfg s r.2 := by
  obtain ⟨s3, s4, _, _, h3, h4, h5⟩ := commit_chain cfg hw s lsa lb d b hd hb hbase r hr
  have hH3 : Handover cfg s s3 := Handover_maps cfg s _ _ _ s3 h3
  have hH4 : Handover cfg s s4 := by
    rcases h4 with ⟨e, _⟩ | ⟨_, e⟩
    · rw [e]; exact hH3
    · exact Handover_trans cfg s s3 s4 hH3 (Handover_setPage cfg s3 d b _ _ _ _ s4 e)
  rcases h5 with ⟨_, e⟩ | ⟨_, s5, e5, e⟩
  · rw [e]; exact hH4
  · exact Handover_trans cfg s s5 r.2
      (Handover_trans cfg s s4 s5 hH4 (Handover_cursor cfg hw s4 lb _ 0 (Or.inl rfl) s5 e5))
      (Handover_setPage cfg s5 d b _ _ _ _ r.2 e)

theorem pages_lt_slices (cfg : Config) (hw : cfg.WellFormed) (n : Nat)
    (hn : n < cfg.USER_PAGES_PER_BLOCK) : n < cfg.SLICES_PER_BLOCK := by
  simp only [Config.SLICES_PER_BLOCK]
  exact Nat.lt_of_lt_of_le hn (Nat.le_mul_of_pos_right _ hw.slices_pos)

theorem Handover_takeHead (cfg : Config) (hw : cfg.WellFormed) (s : State) (h : UseInv cfg s)
    (d : Nat) (hd : d < cfg.USER_DIES) (hh : (s.die d).headFreeBlock ≠ cfg.BLOCK_NONE)
    (P : State)
    (hP : P = (GetFromFbList.unlink cfg s d (s.die d).headFreeBlock).2.setDie d
      { (GetFromFbList.unlink cfg s d (s.die d).headFreeBlock).2.die d with
        currentBlock := (s.die d).headFreeBlock }) :
    Handover cfg s P := by
  obtain ⟨l, hl⟩ := h.lock.alloc.lists d hd
  obtain ⟨rest, hl'⟩ := FreeListIs_of_head cfg s d l hl hh
  exact Handover_pop cfg hw s h.lock.alloc d _ rest hl' P hP

/-- A returning `AddrTransWrite` returns a slot of a block that the allocator
could hand out before the call. -/
theorem AddrTransWrite_handover (cfg : Config) (hw : cfg.WellFormed) (s : State)
    (h : UseInv cfg s) (lsa : Nat) (r : Nat × State) (hr : AddrTransWrite Collector.stop 2 cfg s lsa = .ok r) :
    Handover cfg s r.2 ∧
    ∃ d b n, d < cfg.USER_DIES ∧ b < cfg.USER_BLOCKS_PER_DIE ∧ n < cfg.SLICES_PER_BLOCK ∧
      r.1 = cfg.Vorg2VsaTranslation d b n ∧ (GoodBlocks cfg s → (s.block d b).bad = 0) := by
  obtain ⟨hlt, _, t, ht, hc⟩ := AddrTransWrite_steps cfg s lsa r hr
  have hlb := AddrToBlock_lt cfg hw lsa hlt
  have hL1 := LockInv_invalidate cfg hw s h.lock lsa
  have hH1 := Handover_invalidate cfg s lsa
  have hHt := Handover_trans cfg s _ t hH1 (Handover_reserve cfg hw _ hL1 _ t ht)
  obtain ⟨d, b, hd, hb, e, _⟩ := reserve_spec cfg hw _ hL1.alloc _ hlb t ht
  obtain ⟨hk, c2, _⟩ := commit_spec cfg hw t lsa _ d b hd hb e r hc
  refine ⟨Handover_trans cfg s t r.2 hHt (Handover_commit cfg hw t lsa _ d b hd hb e r hc),
    d, b, _, hd, hb, hk, c2, ?_⟩
  intro hG
  rw [← hHt.bad]
  exact GoodBlocks_handover cfg s t hG hHt d b hd hb (Or.inr (Or.inr ⟨_, hlb, e⟩))

/-- A returning `FindFreeVirtualSlice` returns a slot of a block that the
allocator could hand out before the call. -/
theorem FindFreeVirtualSlice_handover (cfg : Config) (hw : cfg.WellFormed) (s : State)
    (h : UseInv cfg s) (r : Nat × State) (hr : FindFreeVirtualSlice Collector.stop cfg s = .ok r) :
    Handover cfg s r.2 ∧
    ∃ d b n, d < cfg.USER_DIES ∧ b < cfg.USER_BLOCKS_PER_DIE ∧ n < cfg.SLICES_PER_BLOCK ∧
      r.1 = cfg.Vorg2VsaTranslation d b n ∧ (GoodBlocks cfg s → (s.block d b).bad = 0) := by
  have hd := h.lock.alloc.targetDie_lt
  obtain ⟨q, hq, e1, e⟩ := FindFreeVirtualSlice_unfold cfg s r hr
  have hqf : Handover cfg s q.2 ∧ q.1 < cfg.USER_BLOCKS_PER_DIE ∧
      (q.2.die s.sliceAllocationTargetDie).currentBlock = q.1 ∧
      GetBlockCurrentPage q.2 s.sliceAllocationTargetDie q.1 < cfg.USER_PAGES_PER_BLOCK := by
    rcases FindFreeVirtualSlice_pick_chain cfg s _ (h.lock.alloc.lists _ hd) q hq with
      ⟨e1, hg, _⟩ | ⟨rest, hl, e1⟩
    · rw [e1]
      exact ⟨Handover_refl cfg s, h.lock.alloc.current_lt _ hd, rfl, hg⟩
    · obtain ⟨_, _, p3, _, p5, _, _, _⟩ := pop_spec cfg hw.block_none s _ q.1 rest hl q.2 e1
      refine ⟨Handover_pop cfg hw s h.lock.alloc _ q.1 rest hl q.2 e1,
        Linked_head_lt cfg s _ q.1 rest hl, p3, ?_⟩
      rw [GetBlockCurrentPage_congr s q.2 _ _ (p5 _ q.1).2.2.2]
      simp only [GetBlockCurrentPage,
        h.listed _ q.1 hd ⟨_, hl, List.mem_cons_self _ _⟩, cp_zero.1]
      exact hw.pages_pos
  obtain ⟨hHq, hb, hcur, hg⟩ := hqf
  refine ⟨Handover_trans cfg s q.2 r.2 hHq (Handover_setPage cfg q.2 _ q.1 _ _ _ _ r.2 e),
    _, q.1, _, hd, hb, pages_lt_slices cfg hw _ hg, e1, ?_⟩
  intro hG
  rw [← hHq.bad]
  exact GoodBlocks_handover cfg s q.2 hG hHq _ q.1 hd hb (Or.inl hcur.symm)

/-- A returning `FindFreeVirtualSliceForGc` on a valid die returns a slot of a
block that the allocator could hand out before the call. -/
theorem FindFreeVirtualSliceForGc_handover (cfg : Config) (hw : cfg.WellFormed) (s : State)
    (h : UseInv cfg s) (d v : Nat) (hd : d < cfg.USER_DIES) (r : Nat × State)
    (hr : FindFreeVirtualSliceForGc cfg s d v = .ok r) :
    Handover cfg s r.2 ∧
    ∃ d b n, d < cfg.USER_DIES ∧ b < cfg.USER_BLOCKS_PER_DIE ∧ n < cfg.SLICES_PER_BLOCK ∧
      r.1 = cfg.Vorg2VsaTranslation d b n ∧ (GoodBlocks cfg s → (s.block d b).bad = 0) := by
  obtain ⟨s1, q, hs1, hq, e0, e⟩ := FindFreeVirtualSliceForGc_unfold cfg s d v r hr
  have h1 : UseInv cfg s1 ∧ Handover cfg s s1 := by
    rcases FindFreeVirtualSliceForGc_replace_chain cfg hw.option_ne s d v s1 hs1 with
      ⟨_, e1⟩ | ⟨_, hh, e1⟩
    · rw [e1]; exact ⟨h, Handover_refl cfg s⟩
    · exact ⟨(UseInv_takeHead cfg hw s h d hd hh s1 e1).1,
        Handover_takeHead cfg hw s h d hd hh s1 e1⟩
  obtain ⟨hU1, hH1⟩ := h1
  have hqf : Handover cfg s1 q.2 ∧ q.1 < cfg.USER_BLOCKS_PER_DIE ∧
      (q.2.die d).currentBlock = q.1 ∧
      GetBlockCurrentPage q.2 d q.1 < cfg.USER_PAGES_PER_BLOCK := by
    rcases FindFreeVirtualSliceForGc_pick_chain cfg hw.option_ne s1 d q hq with
      ⟨e1, hg, _⟩ | ⟨_, hh, e1⟩
    · rw [e1]
      exact ⟨Handover_refl cfg s1, hU1.lock.alloc.current_lt _ hd, rfl, hg⟩
    · obtain ⟨_, a2, a3, a4, _⟩ := UseInv_takeHead cfg hw s1 hU1 d hd hh q.2 (by rw [e1])
      have hH := Handover_takeHead cfg hw s1 hU1 d hd hh q.2 (by rw [e1])
      have e2 : q.1 = (s1.die d).headFreeBlock := by rw [e1]
      rw [e2]
      refine ⟨hH, a2, a3, ?_⟩
      unfold GetBlockCurrentPage
      rw [a4, cp_zero.1]
      exact hw.pages_pos
  obtain ⟨hHq', hb, hcur, hg⟩ := hqf
  have hHq := Handover_trans cfg s s1 q.2 hH1 hHq'
  refine ⟨Handover_trans cfg s q.2 r.2 hHq (Handover_setPage cfg q.2 _ q.1 _ _ _ _ r.2 e),
    d, q.1, _, hd, hb, pages_lt_slices cfg hw _ hg, e0, ?_⟩
  intro hG
  rw [← hHq.bad]
  exact GoodBlocks_handover cfg s q.2 hG hHq d q.1 hd hb (Or.inl hcur.symm)

theorem EraseBlock_phyBlock (cfg : Config) (s : State) (d b : Nat) :
    (EraseBlock cfg s d b).phyBlock = s.phyBlock := by
  obtain ⟨_, _, c3⟩ := clearLoop_spec (fun p => cfg.Vorg2VsaTranslation d b p) cfg.LSA_NONE
    cfg.USER_PAGES_PER_BLOCK (EraseBlock.requeue cfg s d b)
  have hE : EraseBlock cfg s d b = _ := c3
  rw [hE]
  simp only
  unfold EraseBlock.requeue
  rw [(PutToFbList_frame cfg _ d b).2.2.1]
  rfl

theorem Handover_erase (cfg : Config) (hw : cfg.WellFormed) (s : State) (h : UseInv cfg s)
    (d b : Nat) (hd : d < cfg.USER_DIES) (hb : b < cfg.USER_BLOCKS_PER_DIE)
    (hbad : (s.block d b).bad = 0) (hfree : (s.block d b).free = 0) :
    Handover cfg s (EraseBlock cfg s d b) := by
  obtain ⟨l, hl⟩ := h.lock.alloc.lists d hd
  have hoff : ¬ OnFreeList cfg s d b := by
    intro hc
    have := (h.free_iff d b hd hb hbad).mpr hc
    omega
  have hbl : b ∉ l := fun hc => hoff ⟨l, hl, hc⟩
  obtain ⟨e1, e2, e3, e4, _, _, ⟨_, f2, _⟩, _⟩ :=
    EraseBlock_effect cfg hw.block_none s d b l hb hl hbl
  refine ⟨e4, EraseBlock_phyBlock cfg s d b, ?_⟩
  intro d' b' hd' _ hu
  rcases hu with a | a | ⟨lb, hlb, a⟩
  · rw [e3] at a
    exact Or.inl (Or.inl a)
  · by_cases e : d' = d
    · subst e
      have hm := (OnFreeList_iff cfg hw.block_none _ d' b' _ e1).mp a
      rcases List.mem_append.mp hm with c | c
      · exact Or.inl (Or.inr (Or.inl ⟨l, hl, c⟩))
      · simp only [List.mem_singleton] at c
        rw [c]
        exact Or.inr hbad
    · obtain ⟨l', hl'⟩ := h.lock.alloc.lists d' hd'
      have hm := (OnFreeList_iff cfg hw.block_none _ d' b' _ (e2 d' l' e hl')).mp a
      exact Or.inl (Or.inr (Or.inl ⟨l', hl', hm⟩))
  · rw [f2] at a
    exact Or.inl (Or.inr (Or.inr ⟨lb, hlb, a⟩))

theorem Handover_call (cfg : Config) (hw : cfg.WellFormed) (s : State) (h : UseInv cfg s)
    (c : Call) (hadm : c.Admissible cfg s) (t : State) (ht : c.run Collector.stop 2 cfg s = some t) :
    Handover cfg s t := by
  cases c with
  | write lsa =>
    simp only [Call.run] at ht
    split at ht
    · rename_i r hr
      simp only [Option.some.injEq] at ht
      rw [← ht]
      exact (AddrTransWrite_handover cfg hw s h lsa r hr).1
    · exact absurd ht (by simp)
  | invalidate lsa =>
    simp only [Call.run, Option.some.injEq] at ht
    rw [← ht]
    exact Handover_invalidateOld cfg s lsa
  | invalidateBlock lblk =>
    simp only [Call.run, Option.some.injEq] at ht
    rw [← ht]
    exact Handover_invalidateBlock cfg hw s lblk
  | findSlice =>
    simp only [Call.run] at ht
    split at ht
    · rename_i r hr
      simp only [Option.some.injEq] at ht
      rw [← ht]
      exact (FindFreeVirtualSlice_handover cfg hw s h r hr).1
    · exact absurd ht (by simp)
  | findSliceForGc d v =>
    simp only [Call.run] at ht
    split at ht
    · rename_i r hr
      simp only [Option.some.injEq] at ht
      rw [← ht]
      exact (FindFreeVirtualSliceForGc_handover cfg hw s h d v hadm r hr).1
    · exact absurd ht (by simp)
  | erase d b =>
    simp only [Call.run, Option.some.injEq] at ht
    rw [← ht]
    obtain ⟨a1, a2, a3, a4, _⟩ := hadm
    exact Handover_erase cfg hw s h d b a1 a2 a3 a4

theorem Handover_runAdmissible (cfg : Config) (hw : cfg.WellFormed) (calls : List Call) :
    ∀ s t, UseInv cfg s → runAdmissible Collector.stop 2 cfg s calls = some t → Handover cfg s t := by
  induction calls with
  | nil =>
    intro s t _ ht
    simp only [runAdmissible, Option.some.injEq] at ht
    rw [← ht]; exact Handover_refl cfg s
  | cons c cs ih =>
    intro s t h ht
    simp only [runAdmissible] at ht
    split at ht
    · rename_i hadm
      split at ht
      · rename_i u hu
        exact Handover_trans cfg s u t (Handover_call cfg hw s h c hadm u hu)
          (ih u t (UseInv_call cfg hw s h c hadm u hu) ht)
      · exact absurd ht (by simp)
    · exact absurd ht (by simp)

/-! ## The tables after the boot sequence -/

theorem forLoop_shift {σ : Type} (n : Nat) (body : Nat → σ → σ) (s : σ) :
    forLoop (n + 1) body s = forLoop n (fun k t => body (k + 1) t) (body 0 s) := by
  unfold forLoop
  rw [List.range_succ_eq_map, List.foldl_cons, List.foldl_map]

theorem ceil_step (x m : Nat) (hx : 0 < x) (hm : 0 < m) :
    (x + m - 1) / m = (x - m + m - 1) / m + 1 := by
  by_cases h : x ≤ m
  · have e : x - m = 0 := Nat.sub_eq_zero_of_le h
    rw [e, Nat.zero_add, Nat.div_eq_of_lt (by omega : m - 1 < m)]
    apply Nat.div_eq_of_lt_le <;> omega
  · have e : x + m - 1 = (x - m + m - 1) + m := by omega
    rw [e, Nat.add_div_right _ hm]

/-- The `while` loop of `SaveBadBlockTable` with
`BYTES_PER_DATA_REGION_OF_PAGE >= 2` and enough fuel: it makes
`ceil(dataSize / (BYTES_PER_DATA_REGION_OF_PAGE - 1))` passes over the dies,
all of them with the same `tempPage`. -/
theorem SaveBadBlockTable_loop_passes (cfg : Config) (bc : BbtConfig) (dieState : Nat → Nat)
    (bbtPhyBlock : Nat → Nat) (tempBbtBufAddr : Nat → Nat) (tempBbtBufEntrySize tempPage : Nat)
    (hB : 2 ≤ bc.BYTES_PER_DATA_REGION_OF_PAGE) :
    ∀ fuel (dataSize : Int) (loop : Nat) (issued : List NandReq), dataSize.toNat < fuel →
      SaveBadBlockTable.loop cfg bc dieState bbtPhyBlock tempBbtBufAddr tempBbtBufEntrySize fuel
        dataSize tempPage loop issued =
      some (forLoop
        ((dataSize.toNat + (bc.BYTES_PER_DATA_REGION_OF_PAGE - 1) - 1) /
          (bc.BYTES_PER_DATA_REGION_OF_PAGE - 1))
        (fun k q => SaveBadBlockTable.pass cfg bc dieState bbtPhyBlock tempBbtBufAddr
          tempBbtBufEntrySize tempPage (loop + k) q) issued) := by
  intro fuel
  induction fuel with
  | zero => intro _ _ _ h; omega
  | succ f ih =>
    intro dataSize loop issued hf
    unfold SaveBadBlockTable.loop
    by_cases hd : dataSize > 0
    · rw [if_pos hd]
      have e1 : (dataSize + 1 - (bc.BYTES_PER_DATA_REGION_OF_PAGE : Int)).toNat =
          dataSize.toNat - (bc.BYTES_PER_DATA_REGION_OF_PAGE - 1) := by omega
      rw [ih _ _ _ (by omega), e1,
        ceil_step dataSize.toNat (bc.BYTES_PER_DATA_REGION_OF_PAGE - 1) (by omega) (by omega),
        forLoop_shift]
      simp only [Nat.add_zero, Nat.add_assoc, Nat.add_comm 1]
    · rw [if_neg hd]
      have e0 : dataSize.toNat = 0 := by omega
      rw [e0, Nat.zero_add, Nat.div_eq_of_lt (by omega)]
      rfl

/-- The `while` loop of `ReadBadBlockTable` with
`BYTES_PER_DATA_REGION_OF_PAGE >= 1`, enough fuel and page numbers that fit 32
bits: it makes `ceil(dataSize / BYTES_PER_DATA_REGION_OF_PAGE)` passes over the
dies, the `k`-th with page `tempPage + k`. -/
theorem ReadBadBlockTable_loop_passes (cfg : Config) (bc : BbtConfig)
    (bbtPhyBlock : Nat → Nat) (tempBbtBufAddr : Nat → Nat) (tempBbtBufEntrySize : Nat)
    (hB : 1 ≤ bc.BYTES_PER_DATA_REGION_OF_PAGE) :
    ∀ fuel (dataSize : Int) (tempPage loop : Nat) (issued : List NandReq),
      dataSize.toNat < fuel →
      tempPage + (dataSize.toNat + bc.BYTES_PER_DATA_REGION_OF_PAGE - 1) /
        bc.BYTES_PER_DATA_REGION_OF_PAGE < 4294967296 →
      ReadBadBlockTable.loop cfg bc bbtPhyBlock tempBbtBufAddr tempBbtBufEntrySize fuel
        dataSize tempPage loop issued =
      some (forLoop
        ((dataSize.toNat + bc.BYTES_PER_DATA_REGION_OF_PAGE - 1) /
          bc.BYTES_PER_DATA_REGION_OF_PAGE)
        (fun k q => ReadBadBlockTable.pass cfg bc bbtPhyBlock tempBbtBufAddr
          tempBbtBufEntrySize (tempPage + k) (loop + k) q) issued) := by
  intro fuel
  induction fuel with
  | zero => intro _ _ _ _ h; omega
  | succ f ih =>
    intro dataSize tempPage loop issued hf hp
    unfold ReadBadBlockTable.loop
    by_cases hd : dataSize > 0
    · rw [if_pos hd]
      have e1 : (dataSize - (bc.BYTES_PER_DATA_REGION_OF_PAGE : Int)).toNat =
          dataSize.toNat - bc.BYTES_PER_DATA_REGION_OF_PAGE := by omega
      have e2 := ceil_step dataSize.toNat bc.BYTES_PER_DATA_REGION_OF_PAGE (by omega) (by omega)
      have h1 : tempPage + 1 + (dataSize.toNat - bc.BYTES_PER_DATA_REGION_OF_PAGE +
          bc.BYTES_PER_DATA_REGION_OF_PAGE - 1) / bc.BYTES_PER_DATA_REGION_OF_PAGE <
          4294967296 := by
        rw [e2] at hp
        rw [Nat.add_assoc, Nat.add_comm 1]
        exact hp
      have e3 : (tempPage + 1) % 4294967296 = tempPage + 1 :=
        Nat.mod_eq_of_lt (Nat.lt_of_le_of_lt (Nat.le_add_right _ _) h1)
      rw [e3, ih _ _ _ _ (by omega) (by rw [e1]; exact h1), e1, e2, forLoop_shift]
      simp only [Nat.add_zero, Nat.add_assoc, Nat.add_comm 1]
    · rw [if_neg hd]
      have e0 : dataSize.toNat = 0 := by omega
      rw [e0, Nat.zero_add, Nat.div_eq_of_lt (by omega)]
      rfl

/-- `SaveBadBlockTable` with `BYTES_PER_DATA_REGION_OF_PAGE >= 2` and enough
fuel returns after `ceil(DATA_SIZE / (BYTES_PER_DATA_REGION_OF_PAGE - 1))`
passes over the dies, all of them with the page of the first pass. -/
theorem SaveBadBlockTable_passes (cfg : Config) (bc : BbtConfig) (dieState : Nat → Nat)
    (bbtPhyBlock : Nat → Nat) (tempBbtBufAddr : Nat → Nat) (tempBbtBufEntrySize fuel : Nat)
    (hB : 2 ≤ bc.BYTES_PER_DATA_REGION_OF_PAGE)
    (hf : bc.DATA_SIZE_OF_BAD_BLOCK_TABLE_PER_DIE < fuel) :
    SaveBadBlockTable cfg bc dieState bbtPhyBlock tempBbtBufAddr tempBbtBufEntrySize fuel =
      some (forLoop
        ((bc.DATA_SIZE_OF_BAD_BLOCK_TABLE_PER_DIE + (bc.BYTES_PER_DATA_REGION_OF_PAGE - 1) - 1) /
          (bc.BYTES_PER_DATA_REGION_OF_PAGE - 1))
        (fun k q => SaveBadBlockTable.pass cfg bc dieState bbtPhyBlock tempBbtBufAddr
          tempBbtBufEntrySize
          (bc.PlsbPage2VpageTranslation bc.START_PAGE_NO_OF_BAD_BLOCK_TABLE_BLOCK) k q) []) := by
  unfold SaveBadBlockTable
  rw [SaveBadBlockTable_loop_passes cfg bc dieState bbtPhyBlock tempBbtBufAddr
    tempBbtBufEntrySize _ hB fuel _ 0 [] (by rw [Int.toNat_ofNat]; exact hf), Int.toNat_ofNat]
  simp only [Nat.zero_add]

/-- `ReadBadBlockTable` with `BYTES_PER_DATA_REGION_OF_PAGE >= 1`, enough fuel
and page numbers that fit 32 bits returns after
`ceil(DATA_SIZE / BYTES_PER_DATA_REGION_OF_PAGE)` passes over the dies, the
`k`-th with page `PlsbPage2Vpage(START_PAGE_NO) + k`. -/
theorem ReadBadBlockTable_passes (cfg : Config) (bc : BbtConfig)
    (bbtPhyBlock : Nat → Nat) (tempBbtBufAddr : Nat → Nat) (tempBbtBufEntrySize fuel : Nat)
    (hB : 1 ≤ bc.BYTES_PER_DATA_REGION_OF_PAGE)
    (hf : bc.DATA_SIZE_OF_BAD_BLOCK_TABLE_PER_DIE < fuel)
    (hp : bc.PlsbPage2VpageTranslation bc.START_PAGE_NO_OF_BAD_BLOCK_TABLE_BLOCK +
      bc.tablePages < 4294967296) :
    ReadBadBlockTable cfg bc bbtPhyBlock tempBbtBufAddr tempBbtBufEntrySize fuel =
      some (forLoop bc.tablePages
        (fun k q => ReadBadBlockTable.pass cfg bc bbtPhyBlock tempBbtBufAddr
          tempBbtBufEntrySize
          (bc.PlsbPage2VpageTranslation bc.START_PAGE_NO_OF_BAD_BLOCK_TABLE_BLOCK + k) k q)
        []) := by
  unfold ReadBadBlockTable
  unfold BbtConfig.tablePages at hp ⊢
  rw [ReadBadBlockTable_loop_passes cfg bc bbtPhyBlock tempBbtBufAddr tempBbtBufEntrySize hB
    fuel _ _ 0 [] (by rw [Int.toNat_ofNat]; exact hf) (by rw [Int.toNat_ofNat]; exact hp),
    Int.toNat_ofNat]
  simp only [Nat.zero_add]

set_option maxRecDepth 100000 in
/-- When the table of a die fits one page (8 bytes, 16 bytes per page),
`SaveBadBlockTable` issues for every die the requests that the specification
describes. -/
theorem SaveBadBlockTable_one_page :
    ∀ fuel, 2 ≤ fuel → ∀ d, d < scenario.USER_DIES →
      (SaveBadBlockTable scenario bbtOnePage bbtStates (fun _ => 0) bbtBuffers 10 fuel).map
          (fun q => requestsOfDie bbtOnePage q d) =
        some (SaveBadBlockTable.expected bbtOnePage bbtStates (fun _ => 0) bbtBuffers 10 d) := by
  intro fuel hf
  obtain ⟨k, rfl⟩ := Nat.exists_eq_add_of_le hf
  rw [show 2 + k = k + 1 + 1 by omega]
  intro d hd
  have hd4 : d < 4 := hd
  interval_cases d <;> rfl

set_option maxRecDepth 100000 in
/-- C24. `SaveBadBlockTable` does not mirror `ReadBadBlockTable` when the
table of a die takes more than one page.  With 8 bytes of table per die and 4
bytes per page (2 pages), on 4 dies of which die 1 has a table:
`ReadBadBlockTable` issues for die 0 the two reads that the specification
describes, of chunk 1000 from page 0 and of chunk 1010 from page 1;
`SaveBadBlockTable` issues for die 0 one erase and three writes, of the chunks
1000, 1010 and 1020, all three to page 0; the specification describes one erase
and two writes, of chunk 1000 to page 0 and of chunk 1010 to page 1; die 1 gets
no request. -/
theorem SaveBadBlockTable_does_not_mirror :
    ∀ fuel, 4 ≤ fuel →
      (ReadBadBlockTable scenario bbtScenario (fun _ => 0) bbtBuffers 10 fuel).map
          (fun q => requestsOfDie bbtScenario q 0) =
        some (ReadBadBlockTable.expected bbtScenario (fun _ => 0) bbtBuffers 10 0) ∧
      ReadBadBlockTable.expected bbtScenario (fun _ => 0) bbtBuffers 10 0 =
        [⟨.read, some 1000, 0, 0, 0, 0⟩, ⟨.read, some 1010, 0, 0, 0, 1⟩] ∧
      (SaveBadBlockTable scenario bbtScenario bbtStates (fun _ => 0) bbtBuffers 10 fuel).map
          (fun q => requestsOfDie bbtScenario q 0) =
        some [⟨.erase, none, 0, 0, 0, 0⟩, ⟨.write, some 1000, 0, 0, 0, 0⟩,
          ⟨.write, some 1010, 0, 0, 0, 0⟩, ⟨.write, some 1020, 0, 0, 0, 0⟩] ∧
      SaveBadBlockTable.expected bbtScenario bbtStates (fun _ => 0) bbtBuffers 10 0 =
        [⟨.erase, none, 0, 0, 0, 0⟩, ⟨.write, some 1000, 0, 0, 0, 0⟩,
          ⟨.write, some 1010, 0, 0, 0, 1⟩] ∧
      (SaveBadBlockTable scenario bbtScenario bbtStates (fun _ => 0) bbtBuffers 10 fuel).map
          (fun q => requestsOfDie bbtScenario q 1) = some [] := by
  intro fuel hf
  obtain ⟨k, rfl⟩ := Nat.exists_eq_add_of_le hf
  rw [show 4 + k = k + 1 + 1 + 1 + 1 by omega]
  refine ⟨?_, ?_, ?_, ?_, ?_⟩
  · rfl
  · decide
  · rfl
  · decide
  · rfl

set_option maxRecDepth 100000 in
theorem SaveBadBlockTable_does_not_mirror_witness :
    (4 : Nat) ≤ 9 ∧
    (SaveBadBlockTable scenario bbtScenario bbtStates (fun _ => 0) bbtBuffers 10 9).map
        (fun q => requestsOfDie bbtScenario q 0) =
      some [⟨.erase, none, 0, 0, 0, 0⟩, ⟨.write, some 1000, 0, 0, 0, 0⟩,
        ⟨.write, some 1010, 0, 0, 0, 0⟩, ⟨.write, some 1020, 0, 0, 0, 0⟩] :=
  ⟨by decide, (SaveBadBlockTable_does_not_mirror 9 (by decide)).2.2.1⟩

/-! ## Grown bad blocks: booking and flush -/

theorem fill_spec (sp : BlockSpace) (gb : GrownBadConfig) (m : Machine) (d A : Nat) :
    (UpdateBadBlockTableForGrownBadBlock.fill sp gb m d A).tables = m.tables ∧
    (UpdateBadBlockTableForGrownBadBlock.fill sp gb m d A).bbtInfo = m.bbtInfo ∧
    (UpdateBadBlockTableForGrownBadBlock.fill sp gb m d A).issued = m.issued ∧
    (∀ a, (∀ pb, pb < sp.TOTAL_BLOCKS_PER_DIE → (A + pb) % 4294967296 ≠ a) →
      (UpdateBadBlockTableForGrownBadBlock.fill sp gb m d A).mem a = m.mem a) ∧
    (A + sp.TOTAL_BLOCKS_PER_DIE ≤ 4294967296 → ∀ pb, pb < sp.TOTAL_BLOCKS_PER_DIE →
      (UpdateBadBlockTableForGrownBadBlock.fill sp gb m d A).mem (A + pb) =
        if pb ≠ (m.bbtInfo d).phyBlock then (m.tables.phyBlock d pb).bad % 256
        else gb.BLOCK_STATE_NORMAL % 256) := by
  unfold UpdateBadBlockTableForGrownBadBlock.fill
  refine forLoop_induction (fun (k : Nat) (t : Machine) =>
    t.tables = m.tables ∧ t.bbtInfo = m.bbtInfo ∧ t.issued = m.issued ∧
    (∀ a, (∀ pb, pb < k → (A + pb) % 4294967296 ≠ a) → t.mem a = m.mem a) ∧
    (A + sp.TOTAL_BLOCKS_PER_DIE ≤ 4294967296 → ∀ pb, pb < k →
      t.mem (A + pb) =
        if pb ≠ (m.bbtInfo d).phyBlock then (m.tables.phyBlock d pb).bad % 256
        else gb.BLOCK_STATE_NORMAL % 256)) _ _ m ?_ ?_
  · exact ⟨rfl, rfl, rfl, fun _ _ => rfl, fun _ pb hpb => absurd hpb (Nat.not_lt_zero pb)⟩
  · intro i t hi ⟨h1, h2, h3, h4, h5⟩
    have hmem : ∀ v : Nat,
        (∀ a, (∀ pb, pb < i + 1 → (A + pb) % 4294967296 ≠ a) →
          upd t.mem ((A + i) % 4294967296) v a = m.mem a) ∧
        (A + sp.TOTAL_BLOCKS_PER_DIE ≤ 4294967296 → ∀ pb, pb < i + 1 →
          upd t.mem ((A + i) % 4294967296) v (A + pb) =
            if pb = i then v
            else if pb ≠ (m.bbtInfo d).phyBlock then (m.tables.phyBlock d pb).bad % 256
            else gb.BLOCK_STATE_NORMAL % 256) := by
      intro v
      refine ⟨?_, ?_⟩
      · intro a ha
        simp only [upd_apply]
        rw [if_neg (fun e => ha i (Nat.lt_succ_self i) e.symm)]
        exact h4 a (fun pb hpb => ha pb (Nat.lt_succ_of_lt hpb))
      · intro hA pb hpb
        simp only [upd_apply]
        have hi' : (A + i) % 4294967296 = A + i := Nat.mod_eq_of_lt (by omega)
        rw [hi']
        by_cases e : pb = i
        · subst e
          simp
        · rw [if_neg (by omega), if_neg e]
          exact h5 hA pb (by omega)
    simp only
    split
    · rename_i hne
      refine ⟨h1, h2, h3, (hmem _).1, ?_⟩
      intro hA pb hpb
      refine Eq.trans ((hmem _).2 hA pb hpb) ?_
      by_cases e : pb = i
      · subst e
        rw [h2] at hne
        rw [if_pos rfl, if_pos hne, h1]
      · rw [if_neg e]
    · rename_i hne
      refine ⟨h1, h2, h3, (hmem _).1, ?_⟩
      intro hA pb hpb
      refine Eq.trans ((hmem _).2 hA pb hpb) ?_
      by_cases e : pb = i
      · subst e
        rw [h2] at hne
        rw [if_pos rfl, if_neg hne]
      · rw [if_neg e]

theorem bufAddr_spec (cfg : Config) (bc : BbtConfig) (gb : GrownBadConfig) (base : Nat) :
    ∀ d, d < cfg.USER_DIES →
      UpdateBadBlockTableForGrownBadBlock.bufAddr cfg bc gb base d =
        (base + d * gb.USED_PAGES_FOR_BAD_BLOCK_TABLE_PER_DIE *
          UpdateBadBlockTableForGrownBadBlock.entrySize bc gb) % 4294967296 := by
  unfold UpdateBadBlockTableForGrownBadBlock.bufAddr
  refine forLoop_induction (fun k (a : Nat → Nat) => ∀ d, d < k →
    a d = (base + d * gb.USED_PAGES_FOR_BAD_BLOCK_TABLE_PER_DIE *
      UpdateBadBlockTableForGrownBadBlock.entrySize bc gb) % 4294967296) _ _ _ ?_ ?_
  · intro d hd; omega
  · intro i a _ ha d hd
    simp only [upd_apply]
    by_cases e : d = i
    · subst e; simp
    · rw [if_neg e]
      exact ha d (by omega)

/-- The buffers of the dies are apart: with `TOTAL_BLOCKS_PER_DIE` bytes in
`S` bytes per die, the bytes of die `d` lie below the buffer of a later die. -/
theorem buffers_apart (base S T d n pb : Nat) (hfit : T ≤ S) (hd : d < n) (hpb : pb < T) :
    base + d * S + pb < base + n * S := by
  have h1 : (d + 1) * S ≤ n * S := Nat.mul_le_mul_right S hd
  rw [Nat.succ_mul] at h1
  omega

/-- The loop of `UpdateBadBlockTableForGrownBadBlock` that creates the tables,
for buffers that hold a table each and do not wrap around: only the buffers
are written, every die gets its state, and the buffer of a booked die holds
`NORMAL` at the index of the bad-block-table block and the `bad` flag (as a
byte) at every other index. -/
theorem build_spec (cfg : Config) (bc : BbtConfig) (sp : BlockSpace) (gb : GrownBadConfig)
    (m : Machine) (base : Nat)
    (hfit : sp.TOTAL_BLOCKS_PER_DIE ≤ gb.USED_PAGES_FOR_BAD_BLOCK_TABLE_PER_DIE *
      UpdateBadBlockTableForGrownBadBlock.entrySize bc gb)
    (hwrap : base + cfg.USER_DIES * (gb.USED_PAGES_FOR_BAD_BLOCK_TABLE_PER_DIE *
      UpdateBadBlockTableForGrownBadBlock.entrySize bc gb) < 4294967296) :
    ∀ d, d < cfg.USER_DIES →
      (m.bbtInfo d).grownBadUpdate = gb.BBT_INFO_GROWN_BAD_UPDATE_BOOKED →
      ∀ pb, pb < sp.TOTAL_BLOCKS_PER_DIE →
        (UpdateBadBlockTableForGrownBadBlock.build cfg bc sp gb m base).1.mem
            (base + d * (gb.USED_PAGES_FOR_BAD_BLOCK_TABLE_PER_DIE *
              UpdateBadBlockTableForGrownBadBlock.entrySize bc gb) + pb) =
          if pb ≠ (m.bbtInfo d).phyBlock then (m.tables.phyBlock d pb).bad % 256
          else gb.BLOCK_STATE_NORMAL % 256 := by
  generalize hS : gb.USED_PAGES_FOR_BAD_BLOCK_TABLE_PER_DIE *
    UpdateBadBlockTableForGrownBadBlock.entrySize bc gb = S at hfit hwrap
  have hA : ∀ d, d < cfg.USER_DIES →
      UpdateBadBlockTableForGrownBadBlock.bufAddr cfg bc gb base d = base + d * S ∧
      base + d * S + sp.TOTAL_BLOCKS_PER_DIE ≤ 4294967296 := by
    intro d hd
    have h1 : (d + 1) * S ≤ cfg.USER_DIES * S := Nat.mul_le_mul_right S hd
    rw [Nat.succ_mul] at h1
    rw [bufAddr_spec cfg bc gb base d hd, Nat.mul_assoc, hS]
    exact ⟨Nat.mod_eq_of_lt (by omega), by omega⟩
  unfold UpdateBadBlockTableForGrownBadBlock.build
  have h := forLoop_induction (fun (k : Nat) (x : Machine × (Nat → Nat)) =>
      x.1.tables = m.tables ∧ x.1.bbtInfo = m.bbtInfo ∧
      ∀ d, d < k → (m.bbtInfo d).grownBadUpdate = gb.BBT_INFO_GROWN_BAD_UPDATE_BOOKED →
        ∀ pb, pb < sp.TOTAL_BLOCKS_PER_DIE →
          x.1.mem (base + d * S + pb) =
            if pb ≠ (m.bbtInfo d).phyBlock then (m.tables.phyBlock d pb).bad % 256
            else gb.BLOCK_STATE_NORMAL % 256) cfg.USER_DIES
    (fun dieNo (x : Machine × (Nat → Nat)) =>
      if (x.1.bbtInfo dieNo).grownBadUpdate = gb.BBT_INFO_GROWN_BAD_UPDATE_BOOKED then
        (UpdateBadBlockTableForGrownBadBlock.fill sp gb x.1 dieNo
            (UpdateBadBlockTableForGrownBadBlock.bufAddr cfg bc gb base dieNo),
          upd x.2 dieNo (bc.DIE_STATE_BAD_BLOCK_TABLE_UPDATE % 256))
      else (x.1, upd x.2 dieNo (gb.DIE_STATE_BAD_BLOCK_TABLE_HOLD % 256)))
    (m, fun _ => 0)
    ⟨rfl, rfl, fun d hd => absurd hd (Nat.not_lt_zero d)⟩ ?_
  · exact h.2.2
  · intro i x hiU ⟨h1, h2, h3⟩
    obtain ⟨a1, a2⟩ := hA i hiU
    by_cases hb : (x.1.bbtInfo i).grownBadUpdate = gb.BBT_INFO_GROWN_BAD_UPDATE_BOOKED
    · beta_reduce
      rw [if_pos hb]
      obtain ⟨f1, f2, _, f4, f5⟩ := fill_spec sp gb x.1 i
        (UpdateBadBlockTableForGrownBadBlock.bufAddr cfg bc gb base i)
      refine ⟨by rw [f1, h1], by rw [f2, h2], ?_⟩
      intro d hd hbk pb hpb
      simp only
      by_cases e : d = i
      · subst e
        have := f5 (by rw [a1]; exact a2) pb hpb
        rw [h1, h2] at this
        rw [← a1]
        exact this
      · rw [f4]
        · exact h3 d (by omega) hbk pb hpb
        · intro pb' hpb'
          rw [a1, Nat.mod_eq_of_lt (by omega)]
          have := buffers_apart base S sp.TOTAL_BLOCKS_PER_DIE d i pb hfit (by omega) hpb
          omega
    · beta_reduce
      rw [if_neg hb]
      refine ⟨h1, h2, ?_⟩
      intro d hd hbk pb hpb
      by_cases e : d = i
      · subst e
        rw [h2] at hb
        exact absurd hbk hb
      · exact h3 d (by omega) hbk pb hpb

/-- The loop that creates the tables writes only the buffers, and gives every
die its state: `UPDATE` for a booked die, `HOLD` for the others. -/
theorem build_frame (cfg : Config) (bc : BbtConfig) (sp : BlockSpace) (gb : GrownBadConfig)
    (m : Machine) (base : Nat) :
    (UpdateBadBlockTableForGrownBadBlock.build cfg bc sp gb m base).1.tables = m.tables ∧
    (UpdateBadBlockTableForGrownBadBlock.build cfg bc sp gb m base).1.bbtInfo = m.bbtInfo ∧
    (UpdateBadBlockTableForGrownBadBlock.build cfg bc sp gb m base).1.issued = m.issued ∧
    ∀ d, d < cfg.USER_DIES →
      (UpdateBadBlockTableForGrownBadBlock.build cfg bc sp gb m base).2 d =
        if (m.bbtInfo d).grownBadUpdate = gb.BBT_INFO_GROWN_BAD_UPDATE_BOOKED then
          bc.DIE_STATE_BAD_BLOCK_TABLE_UPDATE % 256
        else gb.DIE_STATE_BAD_BLOCK_TABLE_HOLD % 256 := by
  unfold UpdateBadBlockTableForGrownBadBlock.build
  refine forLoop_induction (fun (k : Nat) (x : Machine × (Nat → Nat)) =>
    x.1.tables = m.tables ∧ x.1.bbtInfo = m.bbtInfo ∧ x.1.issued = m.issued ∧
    ∀ d, d < k → x.2 d =
      if (m.bbtInfo d).grownBadUpdate = gb.BBT_INFO_GROWN_BAD_UPDATE_BOOKED then
        bc.DIE_STATE_BAD_BLOCK_TABLE_UPDATE % 256
      else gb.DIE_STATE_BAD_BLOCK_TABLE_HOLD % 256) _ _ _ ?_ ?_
  · exact ⟨rfl, rfl, rfl, fun d hd => absurd hd (Nat.not_lt_zero d)⟩
  · intro i x _ ⟨h1, h2, h3, h4⟩
    by_cases hb : (x.1.bbtInfo i).grownBadUpdate = gb.BBT_INFO_GROWN_BAD_UPDATE_BOOKED
    · rw [if_pos hb]
      obtain ⟨f1, f2, f3, _⟩ := fill_spec sp gb x.1 i
        (UpdateBadBlockTableForGrownBadBlock.bufAddr cfg bc gb base i)
      refine ⟨by rw [f1, h1], by rw [f2, h2], by rw [f3, h3], ?_⟩
      intro d hd
      simp only [upd_apply]
      by_cases e : d = i
      · subst e
        rw [h2] at hb
        simp [hb]
      · rw [if_neg e]
        exact h4 d (by omega)
    · rw [if_neg hb]
      refine ⟨h1, h2, h3, ?_⟩
      intro d hd
      simp only [upd_apply]
      by_cases e : d = i
      · subst e
        rw [h2] at hb
        simp [hb]
      · rw [if_neg e]
        exact h4 d (by omega)

/-- A pass of `SaveBadBlockTable` over the dies keeps the requests issued so
far, and in the first pass (`loop = 0`) it issues the erase request of every
die in state `NOT_EXIST` or `UPDATE`. -/
theorem SaveBadBlockTable_pass_spec (cfg : Config) (bc : BbtConfig) (dieState : Nat → Nat)
    (bbtPhyBlock : Nat → Nat) (tempBbtBufAddr : Nat → Nat)
    (tempBbtBufEntrySize tempPage loop : Nat) (issued : List NandReq) :
    (∀ r, r ∈ issued → r ∈ SaveBadBlockTable.pass cfg bc dieState bbtPhyBlock tempBbtBufAddr
      tempBbtBufEntrySize tempPage loop issued) ∧
    (loop = 0 → ∀ d, d < cfg.USER_DIES →
      (dieState d = bc.DIE_STATE_BAD_BLOCK_TABLE_NOT_EXIST ∨
        dieState d = bc.DIE_STATE_BAD_BLOCK_TABLE_UPDATE) →
      SaveBadBlockTable.eraseReq bc bbtPhyBlock d ∈
        SaveBadBlockTable.pass cfg bc dieState bbtPhyBlock tempBbtBufAddr
          tempBbtBufEntrySize tempPage loop issued) := by
  unfold SaveBadBlockTable.pass
  refine forLoop_induction (fun (k : Nat) (q : List NandReq) =>
    (∀ r, r ∈ issued → r ∈ q) ∧
    (loop = 0 → ∀ d, d < k →
      (dieState d = bc.DIE_STATE_BAD_BLOCK_TABLE_NOT_EXIST ∨
        dieState d = bc.DIE_STATE_BAD_BLOCK_TABLE_UPDATE) →
      SaveBadBlockTable.eraseReq bc bbtPhyBlock d ∈ q)) _ _ _ ?_ ?_
  · exact ⟨fun _ h => h, fun _ d hd => absurd hd (Nat.not_lt_zero d)⟩
  · intro i q _ ⟨h1, h2⟩
    by_cases hs : dieState i = bc.DIE_STATE_BAD_BLOCK_TABLE_NOT_EXIST ∨
        dieState i = bc.DIE_STATE_BAD_BLOCK_TABLE_UPDATE
    · simp only [hs, ↓reduceIte]
      refine ⟨?_, ?_⟩
      · intro r hr
        have := h1 r hr
        split <;> simp [this]
      · intro hl d hd hok
        by_cases e : d = i
        · subst e
          simp [hl, SaveBadBlockTable.eraseReq]
        · have := h2 hl d (by omega) hok
          simp [hl, this]
    · simp only [hs, ↓reduceIte]
      refine ⟨h1, ?_⟩
      intro hl d hd hok
      by_cases e : d = i
      · subst e; exact absurd hok hs
      · exact h2 hl d (by omega) hok

/-- With `BYTES_PER_DATA_REGION_OF_PAGE >= 2`, a table that is not empty and
enough fuel, `SaveBadBlockTable` returns and issues the erase request of every
die in state `NOT_EXIST` or `UPDATE`. -/
theorem SaveBadBlockTable_erases (cfg : Config) (bc : BbtConfig) (dieState : Nat → Nat)
    (bbtPhyBlock : Nat → Nat) (tempBbtBufAddr : Nat → Nat) (tempBbtBufEntrySize fuel : Nat)
    (hB : 2 ≤ bc.BYTES_PER_DATA_REGION_OF_PAGE)
    (hf : bc.DATA_SIZE_OF_BAD_BLOCK_TABLE_PER_DIE < fuel) :
    ∃ q, SaveBadBlockTable cfg bc dieState bbtPhyBlock tempBbtBufAddr tempBbtBufEntrySize
        fuel = some q ∧
      (0 < bc.DATA_SIZE_OF_BAD_BLOCK_TABLE_PER_DIE → ∀ d, d < cfg.USER_DIES →
        (dieState d = bc.DIE_STATE_BAD_BLOCK_TABLE_NOT_EXIST ∨
          dieState d = bc.DIE_STATE_BAD_BLOCK_TABLE_UPDATE) →
        SaveBadBlockTable.eraseReq bc bbtPhyBlock d ∈ q) := by
  refine ⟨_, SaveBadBlockTable_passes cfg bc dieState bbtPhyBlock tempBbtBufAddr
    tempBbtBufEntrySize fuel hB hf, ?_⟩
  intro hD d hd hok
  have hN : 1 ≤ (bc.DATA_SIZE_OF_BAD_BLOCK_TABLE_PER_DIE +
      (bc.BYTES_PER_DATA_REGION_OF_PAGE - 1) - 1) / (bc.BYTES_PER_DATA_REGION_OF_PAGE - 1) := by
    rw [Nat.le_div_iff_mul_le (by omega)]
    omega
  obtain ⟨n, hn⟩ := Nat.exists_eq_add_of_le hN
  rw [hn, Nat.add_comm 1 n, forLoop_shift]
  refine forLoop_induction (fun (_ : Nat) (q : List NandReq) =>
    SaveBadBlockTable.eraseReq bc bbtPhyBlock d ∈ q) _ _ _ ?_ ?_
  · exact (SaveBadBlockTable_pass_spec cfg bc dieState bbtPhyBlock tempBbtBufAddr
      tempBbtBufEntrySize _ 0 []).2 rfl d hd hok
  · intro i q _ hq
    exact (SaveBadBlockTable_pass_spec cfg bc dieState bbtPhyBlock tempBbtBufAddr
      tempBbtBufEntrySize _ (i + 1) q).1 _ hq

/-- With `BYTES_PER_DATA_REGION_OF_PAGE >= 2` and enough fuel,
`UpdateBadBlockTableForGrownBadBlock` returns: the maps and the bad-block-table
info are those before the call, the buffers are those that the creation loop
leaves, and the requests of `SaveBadBlockTable` are added to the issued ones;
when the table is not empty they hold the erase request of every booked
die. -/
theorem UpdateBadBlockTableForGrownBadBlock_returns (cfg : Config) (bc : BbtConfig)
    (sp : BlockSpace) (gb : GrownBadConfig) (m : Machine) (base fuel : Nat)
    (hB : 2 ≤ bc.BYTES_PER_DATA_REGION_OF_PAGE)
    (hf : bc.DATA_SIZE_OF_BAD_BLOCK_TABLE_PER_DIE < fuel)
    (hU : bc.DIE_STATE_BAD_BLOCK_TABLE_UPDATE < 256) :
    ∃ m' q, UpdateBadBlockTableForGrownBadBlock cfg bc sp gb m base fuel = some m' ∧
      m'.tables = m.tables ∧ m'.bbtInfo = m.bbtInfo ∧
      m'.mem = (UpdateBadBlockTableForGrownBadBlock.build cfg bc sp gb m base).1.mem ∧
      m'.issued = m.issued ++ q ∧
      (0 < bc.DATA_SIZE_OF_BAD_BLOCK_TABLE_PER_DIE → ∀ d, d < cfg.USER_DIES →
        (m.bbtInfo d).grownBadUpdate = gb.BBT_INFO_GROWN_BAD_UPDATE_BOOKED →
        SaveBadBlockTable.eraseReq bc (fun dieNo => (m.bbtInfo dieNo).phyBlock) d ∈ q) := by
  obtain ⟨b1, b2, b3, b4⟩ := build_frame cfg bc sp gb m base
  obtain ⟨q, hq, he⟩ := SaveBadBlockTable_erases cfg bc
    (UpdateBadBlockTableForGrownBadBlock.build cfg bc sp gb m base).2
    (fun dieNo => ((UpdateBadBlockTableForGrownBadBlock.build cfg bc sp gb m base).1.bbtInfo
      dieNo).phyBlock)
    (UpdateBadBlockTableForGrownBadBlock.bufAddr cfg bc gb base)
    (UpdateBadBlockTableForGrownBadBlock.entrySize bc gb) fuel hB hf
  refine ⟨{ (UpdateBadBlockTableForGrownBadBlock.build cfg bc sp gb m base).1 with
    issued := (UpdateBadBlockTableForGrownBadBlock.build cfg bc sp gb m base).1.issued ++ q },
    q, ?_, ?_, ?_, ?_, ?_, ?_⟩
  · unfold UpdateBadBlockTableForGrownBadBlock
    simp only
    rw [hq]
  · exact b1
  · exact b2
  · rfl
  · simp only
    rw [b3]
  · intro hD d hd hbk
    have := he hD d hd (Or.inr (by rw [b4 d hd, if_pos hbk]; exact Nat.mod_eq_of_lt hU))
    rw [b2] at this
    exact this

/-- C31. Grown-bad booking survives the flush.
`UpdatePhyBlockMapForGrownBadBlock(die, pb)` sets `phyBlock[die][pb].bad` to
`BLOCK_STATE_BAD` and `bbtInfo[die].grownBadUpdate` to `BOOKED` and changes
nothing else: every `remappedPhyBlock`, every other entry of the
physical-block table, every other map of the translator, `bbtInfo[die].phyBlock`,
the info of the other dies, the buffers and the issued requests are as before.
`UpdateBadBlockTableForGrownBadBlock`, with buffers that hold a table each and
do not wrap around, with `BYTES_PER_DATA_REGION_OF_PAGE >= 2` and enough fuel
for the loop of `SaveBadBlockTable`, returns and leaves the maps and `bbtInfo`
of every die unchanged, so a die that was booked is still booked; the buffer
of a booked die holds the byte `NORMAL` at the index of the bad-block-table
block and the `bad` flag (as a byte) at every other index, and when the table
is not empty the erase request of the die is among the requests of the call.
Every later call finds the die booked and issues its erase request again. -/
theorem grown_bad_booking_survives (cfg : Config) (bc : BbtConfig) (sp : BlockSpace)
    (gb : GrownBadConfig) (m : Machine) (tempBufAddr fuel : Nat)
    (hB : 2 ≤ bc.BYTES_PER_DATA_REGION_OF_PAGE)
    (hf : bc.DATA_SIZE_OF_BAD_BLOCK_TABLE_PER_DIE < fuel)
    (hU : bc.DIE_STATE_BAD_BLOCK_TABLE_UPDATE < 256)
    (hfit : sp.TOTAL_BLOCKS_PER_DIE ≤ gb.USED_PAGES_FOR_BAD_BLOCK_TABLE_PER_DIE *
      UpdateBadBlockTableForGrownBadBlock.entrySize bc gb)
    (hwrap : tempBufAddr + cfg.USER_DIES * (gb.USED_PAGES_FOR_BAD_BLOCK_TABLE_PER_DIE *
      UpdateBadBlockTableForGrownBadBlock.entrySize bc gb) < 4294967296) :
    (∀ d pb,
      ((UpdatePhyBlockMapForGrownBadBlock gb m d pb).tables.phyBlock d pb).bad =
        gb.BLOCK_STATE_BAD ∧
      ((UpdatePhyBlockMapForGrownBadBlock gb m d pb).bbtInfo d).grownBadUpdate =
        gb.BBT_INFO_GROWN_BAD_UPDATE_BOOKED ∧
      (∀ d' x, ((UpdatePhyBlockMapForGrownBadBlock gb m d pb).tables.phyBlock d' x).remappedPhyBlock =
        (m.tables.phyBlock d' x).remappedPhyBlock) ∧
      (∀ d' x, ¬ (d' = d ∧ x = pb) →
        (UpdatePhyBlockMapForGrownBadBlock gb m d pb).tables.phyBlock d' x =
          m.tables.phyBlock d' x) ∧
      (UpdatePhyBlockMapForGrownBadBlock gb m d pb).tables =
        { m.tables with
          phyBlock := (UpdatePhyBlockMapForGrownBadBlock gb m d pb).tables.phyBlock } ∧
      (∀ d', ((UpdatePhyBlockMapForGrownBadBlock gb m d pb).bbtInfo d').phyBlock =
        (m.bbtInfo d').phyBlock) ∧
      (∀ d', d' ≠ d → (UpdatePhyBlockMapForGrownBadBlock gb m d pb).bbtInfo d' = m.bbtInfo d') ∧
      (UpdatePhyBlockMapForGrownBadBlock gb m d pb).mem = m.mem ∧
      (UpdatePhyBlockMapForGrownBadBlock gb m d pb).issued = m.issued) ∧
    ∃ m' q, UpdateBadBlockTableForGrownBadBlock cfg bc sp gb m tempBufAddr fuel = some m' ∧
      m'.tables = m.tables ∧ m'.bbtInfo = m.bbtInfo ∧ m'.issued = m.issued ++ q ∧
      (∀ d, d < cfg.USER_DIES →
        (m.bbtInfo d).grownBadUpdate = gb.BBT_INFO_GROWN_BAD_UPDATE_BOOKED →
        (m'.bbtInfo d).grownBadUpdate = gb.BBT_INFO_GROWN_BAD_UPDATE_BOOKED ∧
        (∀ pb, pb < sp.TOTAL_BLOCKS_PER_DIE →
          m'.mem (tempBufAddr + d * (gb.USED_PAGES_FOR_BAD_BLOCK_TABLE_PER_DIE *
              UpdateBadBlockTableForGrownBadBlock.entrySize bc gb) + pb) =
            if pb ≠ (m.bbtInfo d).phyBlock then (m.tables.phyBlock d pb).bad % 256
            else gb.BLOCK_STATE_NORMAL % 256) ∧
        (0 < bc.DATA_SIZE_OF_BAD_BLOCK_TABLE_PER_DIE →
          SaveBadBlockTable.eraseReq bc (fun dieNo => (m.bbtInfo dieNo).phyBlock) d ∈ q)) ∧
      (∀ tempBufAddr2 fuel2, bc.DATA_SIZE_OF_BAD_BLOCK_TABLE_PER_DIE < fuel2 →
        ∃ m2 q2, UpdateBadBlockTableForGrownBadBlock cfg bc sp gb m' tempBufAddr2 fuel2 =
            some m2 ∧
          m2.issued = m'.issued ++ q2 ∧
          ∀ d, d < cfg.USER_DIES →
            (m.bbtInfo d).grownBadUpdate = gb.BBT_INFO_GROWN_BAD_UPDATE_BOOKED →
            (m2.bbtInfo d).grownBadUpdate = gb.BBT_INFO_GROWN_BAD_UPDATE_BOOKED ∧
            (0 < bc.DATA_SIZE_OF_BAD_BLOCK_TABLE_PER_DIE →
              SaveBadBlockTable.eraseReq bc (fun dieNo => (m.bbtInfo dieNo).phyBlock) d ∈
                q2)) := by
  refine ⟨?_, ?_⟩
  · intro d pb
    refine ⟨?_, ?_, ?_, ?_, rfl, ?_, ?_, rfl, rfl⟩
    · simp [UpdatePhyBlockMapForGrownBadBlock]
    · simp [UpdatePhyBlockMapForGrownBadBlock]
    · intro d' x
      simp only [UpdatePhyBlockMapForGrownBadBlock, upd2_apply]
      split
      · rename_i e
        obtain ⟨rfl, rfl⟩ := e
        rfl
      · rfl
    · intro d' x e
      simp only [UpdatePhyBlockMapForGrownBadBlock, upd2_ne _ _ e]
    · intro d'
      simp only [UpdatePhyBlockMapForGrownBadBlock, upd_apply]
      split
      · rename_i e
        rw [e]
      · rfl
    · intro d' e
      simp only [UpdatePhyBlockMapForGrownBadBlock, upd_apply, e, ↓reduceIte]
  · obtain ⟨m', q, h1, h2, h3, h4, h5, h6⟩ :=
      UpdateBadBlockTableForGrownBadBlock_returns cfg bc sp gb m tempBufAddr fuel hB hf hU
    refine ⟨m', q, h1, h2, h3, h5, ?_, ?_⟩
    · intro d hd hbk
      refine ⟨by rw [h3]; exact hbk, ?_, fun hD => h6 hD d hd hbk⟩
      intro pb hpb
      rw [h4]
      exact build_spec cfg bc sp gb m tempBufAddr hfit hwrap d hd hbk pb hpb
    · intro base2 fuel2 hf2
      obtain ⟨m2, q2, g1, _, g3, _, g5, g6⟩ :=
        UpdateBadBlockTableForGrownBadBlock_returns cfg bc sp gb m' base2 fuel2 hB hf2 hU
      refine ⟨m2, q2, g1, g5, ?_⟩
      intro d hd hbk
      refine ⟨by rw [g3, h3]; exact hbk, ?_⟩
      intro hD
      have := g6 hD d hd (by rw [h3]; exact hbk)
      rw [h3] at this
      exact this

set_option maxRecDepth 100000 in
theorem grown_bad_booking_survives_witness :
    (grownBadBooked.bbtInfo 2).grownBadUpdate =
      grownBadScenario.BBT_INFO_GROWN_BAD_UPDATE_BOOKED ∧
    ∃ m', UpdateBadBlockTableForGrownBadBlock scenario bbtOnePage scenarioSpace
        grownBadScenario grownBadBooked 1000 9 = some m' ∧
      (m'.bbtInfo 2).grownBadUpdate = grownBadScenario.BBT_INFO_GROWN_BAD_UPDATE_BOOKED ∧
      m'.mem (1000 + 2 * (grownBadScenario.USED_PAGES_FOR_BAD_BLOCK_TABLE_PER_DIE *
        UpdateBadBlockTableForGrownBadBlock.entrySize bbtOnePage grownBadScenario) + 3) = 1 ∧
      m'.mem (1000 + 2 * (grownBadScenario.USED_PAGES_FOR_BAD_BLOCK_TABLE_PER_DIE *
        UpdateBadBlockTableForGrownBadBlock.entrySize bbtOnePage grownBadScenario) + 0) = 0 :=
  ⟨by decide,
    match (grown_bad_booking_survives scenario bbtOnePage scenarioSpace grownBadScenario
      grownBadBooked 1000 9 (by decide) (by decide) (by decide) (by decide) (by decide)).2 with
    | ⟨m', _, h1, _, _, _, h5, _⟩ =>
      ⟨m', h1, (h5 2 (by decide) (by decide)).1,
        ((h5 2 (by decide) (by decide)).2.1 3 (by decide)).trans (by decide),
        ((h5 2 (by decide) (by decide)).2.1 0 (by decide)).trans (by decide)⟩⟩

/-! # The garbage collector as a parameter -/

/-! ## Calls that enter the garbage collector -/

theorem CollectorFrame_refl (s : State) : CollectorFrame s s := ⟨rfl, rfl, rfl, rfl, rfl, rfl⟩

theorem CollectorFrame_trans {s t u : State} (h1 : CollectorFrame s t)
    (h2 : CollectorFrame t u) : CollectorFrame s u :=
  ⟨h2.logicalSlice.trans h1.logicalSlice, h2.base.trans h1.base, h2.offset.trans h1.offset,
    h2.targetDie.trans h1.targetDie, h2.targetCh.trans h1.targetCh,
    h2.targetWay.trans h1.targetWay⟩

/-- With a consistent free list above its reserve, the head is a valid block,
so it is not `BLOCK_FAIL`. -/
theorem head_ne_fail (cfg : Config) (hw : cfg.WellFormed) (s : State) (d : Nat)
    (hl : ∃ l, FreeListIs cfg s d l)
    (hr : ¬ (s.die d).freeBlockCnt ≤ cfg.RESERVED_FREE_BLOCK_COUNT) :
    (s.die d).headFreeBlock ≠ cfg.BLOCK_FAIL := by
  obtain ⟨l, hl⟩ := hl
  obtain ⟨rest, hl'⟩ := FreeListIs_of_count cfg s d l hl (by omega)
  have := Linked_head_lt cfg s d _ rest hl'
  have := hw.block_fail
  omega

/-- In a state where the block `x` has just been reset, the loop of
`FindFreeVirtualBlock` settles on `x` at its first test. -/
theorem FindFreeVirtualBlock_loop_reset (gc : Collector) (cfg : Config) (d n : Nat)
    (t : State) (x : Nat) :
    FindFreeVirtualBlock.loop gc cfg d (n + 1) (ResetBlockCurrentPage t d x) x =
      .ok (x, ResetBlockCurrentPage t d x) := by
  have hg : GetBlockCurrentPage (ResetBlockCurrentPage t d x) d x = 0 := by
    simp [GetBlockCurrentPage, ResetBlockCurrentPage, State.setBlock]
  have hk : IsBlockReservedForBlkMapping (ResetBlockCurrentPage t d x) d x = 0 := by
    simp [IsBlockReservedForBlkMapping, ResetBlockCurrentPage, State.setBlock]
  unfold FindFreeVirtualBlock.loop
  simp [hg, hk]

/-- One round of the loop of `FindFreeVirtualBlock` that does not enter the
collector: the current block is taken, or the head of the free list is. -/
theorem FindFreeVirtualBlock_loop_direct (gc : Collector) (cfg : Config) (d n : Nat)
    (s : State) (cb : Nat)
    (hne : (GetBlockCurrentPage s d cb ≠ 0 ∨ IsBlockReservedForBlkMapping s d cb ≠ 0) →
      ¬ (s.die d).freeBlockCnt ≤ cfg.RESERVED_FREE_BLOCK_COUNT ∧
      (s.die d).headFreeBlock ≠ cfg.BLOCK_FAIL) :
    FindFreeVirtualBlock.loop gc cfg d (n + 2) s cb =
      FindFreeVirtualBlock.loop Collector.stop cfg d 2 s cb := by
  have hg : ∀ (t : State) (x : Nat), GetBlockCurrentPage (ResetBlockCurrentPage t d x) d x = 0 := by
    intro t x
    simp [GetBlockCurrentPage, ResetBlockCurrentPage, State.setBlock]
  unfold FindFreeVirtualBlock.loop
  by_cases hc : GetBlockCurrentPage s d cb ≠ 0 ∨ IsBlockReservedForBlkMapping s d cb ≠ 0
  · obtain ⟨hr, hf⟩ := hne hc
    simp only [hc, ↓reduceIte, GetFromFbList_normal, Outcome.bind_ok, hr,
      (unlink_frame cfg s d _).1, hf, ne_eq, not_false_eq_true, hg, Nat.zero_le]
    rw [FindFreeVirtualBlock_loop_reset, FindFreeVirtualBlock_loop_reset]
  · simp [hc]

/-- The choice of the block in `FindFreeVirtualSlice`, on a die with a
consistent free list and with a collector that leaves the free list of the die
consistent: a returning choice is one that does not enter the collector, made
in the state at the call or, when the current block is full or locked and the
free list is down to the reserve, in the state that the collector has left. -/
theorem FindFreeVirtualSlice_pick_cases (gc : Collector) (cfg : Config)
    (hw : cfg.WellFormed) (s : State) (d : Nat) (hls : ∃ l, FreeListIs cfg s d l)
    (hlt : ∀ t, gc d s = .ok t → ∃ l, FreeListIs cfg t d l) (q : Nat × State)
    (h : FindFreeVirtualSlice.pick gc cfg s d = .ok q) :
    FindFreeVirtualSlice.pick Collector.stop cfg s d = .ok q ∨
    ((GetBlockCurrentPage s d (s.die d).currentBlock = cfg.USER_PAGES_PER_BLOCK ∨
        IsBlockReservedForBlkMapping s d (s.die d).currentBlock ≠ 0) ∧
      (s.die d).freeBlockCnt ≤ cfg.RESERVED_FREE_BLOCK_COUNT ∧
      ∃ t, gc d s = .ok t ∧ FindFreeVirtualSlice.pick Collector.stop cfg t d = .ok q) := by
  by_cases hc : GetBlockCurrentPage s d (s.die d).currentBlock = cfg.USER_PAGES_PER_BLOCK ∨
      IsBlockReservedForBlkMapping s d (s.die d).currentBlock ≠ 0
  · by_cases hr : (s.die d).freeBlockCnt ≤ cfg.RESERVED_FREE_BLOCK_COUNT
    · right
      refine ⟨hc, hr, ?_⟩
      unfold FindFreeVirtualSlice.pick at h
      simp only [hc, ↓reduceIte, GetFromFbList_normal, Outcome.bind_ok, hr, ne_eq,
        not_true_eq_false] at h
      obtain ⟨t, hg, h1⟩ := Outcome.bind_eq_ok h
      refine ⟨t, hg, ?_⟩
      unfold FindFreeVirtualSlice.pick
      by_cases hc' : GetBlockCurrentPage t d (t.die d).currentBlock = cfg.USER_PAGES_PER_BLOCK ∨
          IsBlockReservedForBlkMapping t d (t.die d).currentBlock ≠ 0
      · simp only [hc', ↓reduceIte, GetFromFbList_normal, Outcome.bind_ok] at h1 ⊢
        by_cases hr' : (t.die d).freeBlockCnt ≤ cfg.RESERVED_FREE_BLOCK_COUNT
        · simp [hr'] at h1
        · have hf := head_ne_fail cfg hw t d (hlt t hg) hr'
          simp only [hr', ↓reduceIte, (unlink_frame cfg t d _).1, hf, ne_eq,
            not_false_eq_true] at h1 ⊢
          exact h1
      · simp only [hc', ↓reduceIte] at h1 ⊢
        exact h1
    · left
      have hf := head_ne_fail cfg hw s d hls hr
      unfold FindFreeVirtualSlice.pick at h ⊢
      simp only [hc, ↓reduceIte, GetFromFbList_normal, Outcome.bind_ok, hr,
        (unlink_frame cfg s d _).1, hf, ne_eq, not_false_eq_true] at h ⊢
      exact h
  · left
    unfold FindFreeVirtualSlice.pick at h ⊢
    simp only [hc, ↓reduceIte] at h ⊢
    exact h

theorem EraseBlock_frame (cfg : Config) (s : State) (d b : Nat) :
    CollectorFrame s (EraseBlock cfg s d b) := by
  obtain ⟨_, _, c3⟩ := clearLoop_spec (fun p => cfg.Vorg2VsaTranslation d b p) cfg.LSA_NONE
    cfg.USER_PAGES_PER_BLOCK (EraseBlock.requeue cfg s d b)
  have hE : EraseBlock cfg s d b = _ := c3
  obtain ⟨_, _, _, ⟨q4, q5, q6, q7, q8, q9⟩, _⟩ := requeue_fields cfg s d b
  rw [hE]
  exact ⟨q4, q5, q6, q7, q8, q9⟩

theorem takeHead_frame (cfg : Config) (s : State) (d e : Nat) :
    CollectorFrame s ((GetFromFbList.unlink cfg s d e).2.setDie d
      { (GetFromFbList.unlink cfg s d e).2.die d with currentBlock := e }) := by
  obtain ⟨_, u2, _, _, u5, u6, u7, u8, u9, _, _⟩ := unlink_frame cfg s d e
  exact ⟨u2, u5, u6, u7, u8, u9⟩

theorem FindFreeVirtualSliceForGc_frame (cfg : Config)
    (hopt : cfg.GET_FREE_BLOCK_NORMAL ≠ cfg.GET_FREE_BLOCK_GC) (s : State) (d v : Nat)
    (r : Nat × State) (h : FindFreeVirtualSliceForGc cfg s d v = .ok r) :
    CollectorFrame s r.2 := by
  obtain ⟨s1, q, hs1, hq, _, e⟩ := FindFreeVirtualSliceForGc_unfold cfg s d v r h
  have h1 : CollectorFrame s s1 := by
    rcases FindFreeVirtualSliceForGc_replace_chain cfg hopt s d v s1 hs1 with
      ⟨_, e1⟩ | ⟨_, _, e1⟩
    · rw [e1]; exact CollectorFrame_refl s
    · rw [e1]; exact takeHead_frame cfg s d _
  have h2 : CollectorFrame s1 q.2 := by
    rcases FindFreeVirtualSliceForGc_pick_chain cfg hopt s1 d q hq with ⟨e1, _, _⟩ | ⟨_, _, e1⟩
    · rw [e1]; exact CollectorFrame_refl s1
    · rw [e1]; exact takeHead_frame cfg s1 d _
  have h3 : CollectorFrame q.2 r.2 := by
    rw [e]; exact ⟨rfl, rfl, rfl, rfl, rfl, rfl⟩
  exact CollectorFrame_trans (CollectorFrame_trans h1 h2) h3

/-- A call of the collector leaves the forward map, the cursors and the
allocation statics. -/
theorem collector_call_frame {gc : Collector} {fuel : Nat} (cfg : Config)
    (hopt : cfg.GET_FREE_BLOCK_NORMAL ≠ cfg.GET_FREE_BLOCK_GC) (s : State) (c : Call)
    (t : State) (hc : c.isCollector = true) (ht : c.run gc fuel cfg s = some t) :
    CollectorFrame s t := by
  cases c with
  | write lsa => simp [Call.isCollector] at hc
  | invalidate lsa => simp [Call.isCollector] at hc
  | invalidateBlock lblk => simp [Call.isCollector] at hc
  | findSlice => simp [Call.isCollector] at hc
  | findSliceForGc d v =>
    simp only [Call.run] at ht
    split at ht
    · rename_i r hr
      simp only [Option.some.injEq] at ht
      rw [← ht]
      exact FindFreeVirtualSliceForGc_frame cfg hopt s d v r hr
    · exact absurd ht (by simp)
  | erase d b =>
    simp only [Call.run, Option.some.injEq] at ht
    rw [← ht]
    exact EraseBlock_frame cfg s d b

/-- A property of the states that every admissible call of the collector keeps
is kept by every collector that acts through the API. -/
theorem ThroughApi_keeps (gc : Collector) (cfg : Config) (hw : cfg.WellFormed)
    (hgc : gc.ThroughApi cfg) (I : State → Prop) (hA : ∀ t, I t → AllocInv cfg t)
    (hI : ∀ (s : State) (c : Call) (t : State), I s → c.isCollector = true → c.Admissible cfg s →
      c.run Collector.stop 2 cfg s = some t → I t) :
    gc.Keeps cfg I := by
  have run : ∀ (calls : List Call) (s t : State), I s → (∀ c ∈ calls, c.isCollector = true) →
      runAdmissible Collector.stop 2 cfg s calls = some t → I t ∧ CollectorFrame s t := by
    intro calls
    induction calls with
    | nil =>
      intro s t h _ ht
      simp only [runAdmissible, Option.some.injEq] at ht
      rw [← ht]; exact ⟨h, CollectorFrame_refl s⟩
    | cons c cs ih =>
      intro s t h hall ht
      simp only [runAdmissible] at ht
      split at ht
      · rename_i hadm
        split at ht
        · rename_i u hu
          have hc := hall c (List.mem_cons_self _ _)
          obtain ⟨i1, i2⟩ := ih u t (hI s c u h hc hadm hu)
            (fun c' hc' => hall c' (List.mem_cons_of_mem _ hc')) ht
          exact ⟨i1, CollectorFrame_trans (collector_call_frame cfg hw.option_ne s c u hc hu) i2⟩
        · exact absurd ht (by simp)
      · exact absurd ht (by simp)
  refine ⟨hA, ?_⟩
  intro d t t' ht hg
  obtain ⟨calls, hall, hrun⟩ := hgc d t t' hg
  exact run calls t t' ht hall hrun

/-- The collector that carries out a plan acts through the API. -/
theorem ofPlan_throughApi (cfg : Config) (plan : Nat → State → List Call) :
    (Collector.ofPlan cfg plan).ThroughApi cfg := by
  intro d s s' h
  unfold Collector.ofPlan at h
  split at h
  · rename_i hall
    split at h
    · rename_i t ht
      simp only [Outcome.ok.injEq] at h
      refine ⟨plan d s, ?_, by rw [ht, h]⟩
      intro c hc
      exact List.all_eq_true.mp hall c hc
    · exact absurd h (by simp)
  · exact absurd h (by simp)

/-- The collector that is never returned from acts through the API. -/
theorem stop_throughApi (cfg : Config) : Collector.stop.ThroughApi cfg := by
  intro d s s' h
  simp at h

/-! ## The lock invariant along the calls of the collector -/

theorem UseInv_keeps (gc : Collector) (cfg : Config) (hw : cfg.WellFormed)
    (hgc : gc.ThroughApi cfg) : gc.Keeps cfg (UseInv cfg) :=
  ThroughApi_keeps gc cfg hw hgc _ (fun _ h => h.lock.alloc)
    (fun s c t h _ hadm ht => UseInv_call cfg hw s h c hadm t ht)

/-- A loop of `FindFreeVirtualBlock` that returns without collector returns the
same with every collector and every larger bound on its tests. -/
theorem FindFreeVirtualBlock_loop_mono (gc : Collector) (cfg : Config) (d n : Nat) (s : State)
    (cb : Nat) (q : Nat × State)
    (h : FindFreeVirtualBlock.loop Collector.stop cfg d 2 s cb = .ok q) :
    FindFreeVirtualBlock.loop gc cfg d (n + 2) s cb = .ok q := by
  by_cases hc : GetBlockCurrentPage s d cb ≠ 0 ∨ IsBlockReservedForBlkMapping s d cb ≠ 0
  · rw [FindFreeVirtualBlock_loop_direct gc cfg d n s cb]
    · exact h
    · intro _
      unfold FindFreeVirtualBlock.loop at h
      simp only [hc, ↓reduceIte, GetFromFbList_normal, Outcome.bind_ok] at h
      by_cases hr : (s.die d).freeBlockCnt ≤ cfg.RESERVED_FREE_BLOCK_COUNT
      · simp [hr] at h
      · refine ⟨hr, ?_⟩
        intro hf
        simp [hr, (unlink_frame cfg s d _).1, hf] at h
  · rw [FindFreeVirtualBlock_loop_direct gc cfg d n s cb (fun hc' => absurd hc' hc)]
    exact h

theorem AddrTransWrite_mono (gc : Collector) (cfg : Config) (n : Nat) (s : State) (lsa : Nat)
    (r : Nat × State) (h : AddrTransWrite Collector.stop 2 cfg s lsa = .ok r) :
    AddrTransWrite gc (n + 2) cfg s lsa = .ok r := by
  obtain ⟨hlt, hok, t, ht, hc⟩ := AddrTransWrite_steps cfg s lsa r h
  have hres : AddrTransWrite.reserve gc (n + 2) cfg (AddrTransWrite.invalidate cfg s lsa)
      (AddrToBlock cfg lsa) = .ok t := by
    unfold AddrTransWrite.reserve at ht ⊢
    split
    · rename_i hb
      simp only [hb, ↓reduceIte] at ht
      obtain ⟨q, hq, hf⟩ := Outcome.bind_eq_ok ht
      have hq' : FindFreeVirtualBlock gc (n + 2) cfg (AddrTransWrite.invalidate cfg s lsa) =
          .ok q := by
        unfold FindFreeVirtualBlock at hq ⊢
        simp only at hq ⊢
        split
        · rename_i h1; simp [h1] at hq
        · rename_i h1
          split
          · rename_i h2; simp [h1, h2] at hq
          · rename_i h2
            simp only [h1, h2, ↓reduceIte] at hq
            obtain ⟨p, hp, hf'⟩ := Outcome.bind_eq_ok hq
            rw [FindFreeVirtualBlock_loop_mono gc cfg _ n _ _ p hp]
            exact hf'
      rw [hq']
      exact hf
    · rename_i hb
      simp only [hb, ↓reduceIte] at ht
      exact ht
  unfold AddrTransWrite
  simp only [Nat.not_le.mpr hlt, hok, ↓reduceIte, hres, Outcome.bind_ok]
  exact hc

theorem writeAll_mono (gc : Collector) (cfg : Config) (n : Nat) :
    ∀ (ls : List Nat) (s : State) (q : List Nat × State),
      writeAll Collector.stop 2 cfg s ls = some q → writeAll gc (n + 2) cfg s ls = some q := by
  intro ls
  induction ls with
  | nil =>
    intro s q h
    rw [writeAll_nil] at h ⊢
    exact h
  | cons l rest ih =>
    intro s q h
    obtain ⟨r, q', hr, hq', e⟩ := writeAll_cons cfg s l rest q h
    rw [e]
    exact writeAll_cons_eq cfg s l rest r q' (AddrTransWrite_mono gc cfg n s l r hr)
      (ih r.2 q' hq')

/-! ## The bound on the tests of the loop -/

/-- A larger bound on the tests of the loop of `FindFreeVirtualBlock` does not
change a call that returns. -/
theorem FindFreeVirtualBlock_loop_more (gc : Collector) (cfg : Config) (d : Nat) :
    ∀ (n : Nat) (s : State) (cb : Nat) (q : Nat × State),
      FindFreeVirtualBlock.loop gc cfg d n s cb = .ok q →
      FindFreeVirtualBlock.loop gc cfg d (n + 1) s cb = .ok q := by
  intro n
  induction n with
  | zero =>
    intro s cb q h
    simp [FindFreeVirtualBlock.loop] at h
  | succ k ih =>
    intro s cb q h
    unfold FindFreeVirtualBlock.loop at h ⊢
    by_cases hc : GetBlockCurrentPage s d cb ≠ 0 ∨ IsBlockReservedForBlkMapping s d cb ≠ 0
    · simp only [hc, ↓reduceIte] at h ⊢
      obtain ⟨r, hr, h1⟩ := Outcome.bind_eq_ok h
      rw [hr, Outcome.bind_ok]
      by_cases hf : r.1 ≠ cfg.BLOCK_FAIL
      · rw [if_pos hf] at h1 ⊢
        split at h1
        · rename_i hp
          rw [if_pos hp]
          exact ih _ _ q h1
        · exact absurd h1 (by simp)
      · rw [if_neg hf] at h1 ⊢
        obtain ⟨s1, hs1, h2⟩ := Outcome.bind_eq_ok h1
        rw [hs1, Outcome.bind_ok]
        split at h2
        · exact absurd h2 (by simp)
        · rename_i hne
          split at h2
          · rename_i hp
            rw [if_neg hne, if_pos hp]
            exact ih _ _ q h2
          · exact absurd h2 (by simp)
    · simp only [hc, ↓reduceIte] at h ⊢
      exact h

/-- A larger bound on the tests of the loop of `FindFreeVirtualBlock` does not
change an `AddrTransWrite` that returns. -/
theorem AddrTransWrite_more (gc : Collector) (cfg : Config) (n k : Nat) (s : State)
    (lsa : Nat) (r : Nat × State) (h : AddrTransWrite gc n cfg s lsa = .ok r) :
    AddrTransWrite gc (n + k) cfg s lsa = .ok r := by
  induction k with
  | zero => exact h
  | succ j ih =>
    obtain ⟨hlt, hok, t, ht, hc⟩ := AddrTransWrite_steps cfg s lsa r ih
    have hres : AddrTransWrite.reserve gc (n + j + 1) cfg (AddrTransWrite.invalidate cfg s lsa)
        (AddrToBlock cfg lsa) = .ok t := by
      unfold AddrTransWrite.reserve at ht ⊢
      split
      · rename_i hb
        simp only [hb, ↓reduceIte] at ht
        obtain ⟨q, hq, hf⟩ := Outcome.bind_eq_ok ht
        have hq' : FindFreeVirtualBlock gc (n + j + 1) cfg
            (AddrTransWrite.invalidate cfg s lsa) = .ok q := by
          unfold FindFreeVirtualBlock at hq ⊢
          simp only at hq ⊢
          split
          · rename_i h1; simp [h1] at hq
          · rename_i h1
            split
            · rename_i h2; simp [h1, h2] at hq
            · rename_i h2
              simp only [h1, h2, ↓reduceIte] at hq
              obtain ⟨p, hp, hf'⟩ := Outcome.bind_eq_ok hq
              rw [FindFreeVirtualBlock_loop_more gc cfg _ _ _ _ p hp]
              exact hf'
        rw [hq']
        exact hf
      · rename_i hb
        simp only [hb, ↓reduceIte] at ht
        exact ht
    unfold AddrTransWrite
    simp only [Nat.not_le.mpr hlt, hok, ↓reduceIte, Nat.add_succ, hres, Outcome.bind_ok]
    exact hc

theorem Call.run_more (gc : Collector) (cfg : Config) (n k : Nat) (s : State) (c : Call)
    (t : State) (h : c.run gc n cfg s = some t) : c.run gc (n + k) cfg s = some t := by
  cases c with
  | write lsa =>
    simp only [Call.run] at h ⊢
    split at h
    · rename_i r hr
      rw [AddrTransWrite_more gc cfg n k s lsa r hr]
      exact h
    · exact absurd h (by simp)
  | invalidate lsa => exact h
  | invalidateBlock lblk => exact h
  | findSlice => exact h
  | findSliceForGc d v => exact h
  | erase d b => exact h

/-- A run that returns with a bound on the tests of the loop of
`FindFreeVirtualBlock` returns the same with every larger bound. -/
theorem runCalls_more (gc : Collector) (cfg : Config) (n k : Nat) :
    ∀ (calls : List Call) (s t : State), runCalls gc n cfg s calls = some t →
      runCalls gc (n + k) cfg s calls = some t := by
  intro calls
  induction calls with
  | nil => intro s t h; exact h
  | cons c cs ih =>
    intro s t h
    simp only [runCalls] at h ⊢
    split at h
    · rename_i u hu
      rw [Call.run_more gc cfg n k s c u hu]
      exact ih u t h
    · exact absurd h (by simp)

theorem runAdmissible_more (gc : Collector) (cfg : Config) (n k : Nat) :
    ∀ (calls : List Call) (s t : State), runAdmissible gc n cfg s calls = some t →
      runAdmissible gc (n + k) cfg s calls = some t := by
  intro calls
  induction calls with
  | nil => intro s t h; exact h
  | cons c cs ih =>
    intro s t h
    simp only [runAdmissible] at h ⊢
    split at h
    · rename_i hadm
      rw [if_pos hadm]
      split at h
      · rename_i u hu
        rw [Call.run_more gc cfg n k s c u hu]
        exact ih u t h
      · exact absurd h (by simp)
    · exact absurd h (by simp)

/-! ## Writes with a collector -/

theorem replacingCollector_throughApi : replacingCollector.ThroughApi scenario :=
  ofPlan_throughApi scenario replacePlan

set_option maxRecDepth 100000 in
theorem exhausted_useInv : UseInv scenario exhausted :=
  UseInv_runAdmissible scenario scenario_wellFormed exhaustRun scenarioInit exhausted
    (initialise_useInv scenario scenario_wellFormed (badBlocksAt [0]) scenarioInit
      scenarioInit_ok)
    (runAdmissible_eq_some scenario scenarioInit exhaustRun (by decide))

/-! ## Read-after-write, sequential fill, die spread -/

/-- C7. Die spread.  In a well-formed state as `InitAddressMap` leaves it (the
allocation die is 0, the round-robin cursor stands one die further, every die
has an unlocked current block with 0 programmed pages), `USER_DIES` successive
`AddrTransWrite` calls to in-range, unmapped LSAs of `USER_DIES` pairwise
different logical blocks without cursor all return, whatever the garbage
collector `gc` is (it is not entered) and for every bound `n + 2` on the tests
of the loop of `FindFreeVirtualBlock`; the VSA returned by call number `d` is
slice 0 of the current block of die `d`, so the dies of the returned VSAs are
`0, 1, ..., USER_DIES - 1` in this order. -/
theorem die_spread (gc : Collector) (n : Nat) (cfg : Config) (hw : cfg.WellFormed)
    (s : State) (hinv : AllocInv cfg s)
    (htd : s.sliceAllocationTargetDie = 0)
    (hcur : s.targetWay * cfg.USER_CHANNELS + s.targetCh = 1 % cfg.USER_DIES)
    (hfresh : ∀ d, d < cfg.USER_DIES →
      GetBlockCurrentPage s d (s.die d).currentBlock = 0 ∧
      IsBlockReservedForBlkMapping s d (s.die d).currentBlock = 0)
    (lsas : List Nat) (hlen : lsas.length = cfg.USER_DIES)
    (hls : ∀ l ∈ lsas, l < cfg.SLICES_PER_SSD ∧ s.logicalSlice l = cfg.VSA_NONE ∧
      s.logicalBlockBaseVsa (AddrToBlock cfg l) = cfg.VSA_NONE)
    (hnd : (lsas.map (AddrToBlock cfg)).Nodup) :
    (∃ s', writeAll gc (n + 2) cfg s lsas =
      some ((List.range cfg.USER_DIES).map
        (fun d => cfg.Vorg2VsaTranslation d (s.die d).currentBlock 0), s')) ∧
    ((List.range cfg.USER_DIES).map
      (fun d => cfg.Vorg2VsaTranslation d (s.die d).currentBlock 0)).map
        cfg.Vsa2VdieTranslation = List.range cfg.USER_DIES := by
  obtain ⟨⟨s', h⟩, h2⟩ := die_spread_direct cfg hw s hinv htd hcur hfresh lsas hlen hls hnd
  exact ⟨⟨s', writeAll_mono gc cfg n lsas s _ h⟩, h2⟩

set_option maxRecDepth 100000 in
theorem die_spread_witness :
    (∃ s', writeAll scenarioCollector (1 + 2) scenario scenarioBoot [0, 4, 8, 12] =
      some ((List.range scenario.USER_DIES).map
        (fun d => scenario.Vorg2VsaTranslation d (scenarioBoot.die d).currentBlock 0), s')) ∧
    ((List.range scenario.USER_DIES).map
      (fun d => scenario.Vorg2VsaTranslation d (scenarioBoot.die d).currentBlock 0)).map
        scenario.Vsa2VdieTranslation = List.range scenario.USER_DIES :=
  die_spread scenarioCollector 1 scenario scenario_wellFormed scenarioBoot
    scenarioBoot_allocInv (by decide) (by decide) (by decide) [0, 4, 8, 12] (by decide)
    (by decide) (by decide)

/-! ## The invariants of the reachable states, with a collector -/

/-- A collector that acts through the API, called on a die of a state with the
use invariant, leaves the allocation die and the round-robin cursor as they
were and the free list of the die consistent, with `currentPage = 0` on every
listed block. -/
theorem ThroughApi_leaves (gc : Collector) (cfg : Config) (hw : cfg.WellFormed)
    (hgc : gc.ThroughApi cfg) (s : State) (hU : UseInv cfg s) (d : Nat)
    (hd : d < cfg.USER_DIES) (t : State) (hg : gc d s = .ok t) :
    t.sliceAllocationTargetDie = s.sliceAllocationTargetDie ∧ t.targetCh = s.targetCh ∧
    t.targetWay = s.targetWay ∧
    ∃ l, FreeListIs cfg t d l ∧ ∀ x ∈ l, (t.block d x).currentPage = 0 := by
  obtain ⟨hUt, hFt⟩ := (UseInv_keeps gc cfg hw hgc).step d s t hU hg
  obtain ⟨l, hl⟩ := hUt.lock.alloc.lists d hd
  exact ⟨hFt.targetDie, hFt.targetCh, hFt.targetWay, l, hl,
    fun x hx => hUt.listed d x hd ⟨l, hl, hx⟩⟩

/-- C20, amended. `FindFreeVirtualSlice` never allocates inside a locked block.
The allocation die `die` of the state at the call has a consistent free list
with `currentPage = 0` on every listed block, and so has the state that the
garbage collector leaves when the call enters it, with the allocation die and
the round-robin cursor as they were (a collector that acts on the tables
through admissible `FindFreeVirtualSliceForGc` and `EraseBlock` calls only
does, `ThroughApi_leaves`).  A call that returns chooses its block in a state
`t`: the state at the call, or, when the current block was full or locked and
the free list was down to the reserve, the state that the collector has left.
It returns `Vorg2Vsa(die, b, n)`, where `b` is the current block of `die` after
the call, the lock bit of `b` is 0 in `t` and after the call,
`n < USER_PAGES_PER_BLOCK` is the programmed-page count of `b` in `t`, and the
count of `b` after the call is `n + 1`.  When the current block of `die` in `t`
is locked or full, `b` is a different block and the `currentPage` field of that
block is the same after the call as in `t`.  The allocation die becomes the die
that the round-robin cursor points at, and the cursor moves to the die after
it; when the cursor was one die ahead of the allocation die, the new
allocation die is `(die + 1) mod USER_DIES`. -/
theorem FindFreeVirtualSlice_spec (gc : Collector) (cfg : Config) (hw : cfg.WellFormed)
    (s : State) (l : List Nat) (hl : FreeListIs cfg s s.sliceAllocationTargetDie l)
    (hclean : ∀ x ∈ l, (s.block s.sliceAllocationTargetDie x).currentPage = 0)
    (hgc : ∀ t, gc s.sliceAllocationTargetDie s = .ok t →
      t.sliceAllocationTargetDie = s.sliceAllocationTargetDie ∧ t.targetCh = s.targetCh ∧
      t.targetWay = s.targetWay ∧
      ∃ l', FreeListIs cfg t s.sliceAllocationTargetDie l' ∧
        ∀ x ∈ l', (t.block s.sliceAllocationTargetDie x).currentPage = 0)
    (r : Nat × State) (h : FindFreeVirtualSlice gc cfg s = .ok r) :
    ∃ t b n,
      (t = s ∨
        ((GetBlockCurrentPage s s.sliceAllocationTargetDie
              (s.die s.sliceAllocationTargetDie).currentBlock = cfg.USER_PAGES_PER_BLOCK ∨
            IsBlockReservedForBlkMapping s s.sliceAllocationTargetDie
              (s.die s.sliceAllocationTargetDie).currentBlock ≠ 0) ∧
          (s.die s.sliceAllocationTargetDie).freeBlockCnt ≤ cfg.RESERVED_FREE_BLOCK_COUNT ∧
          gc s.sliceAllocationTargetDie s = .ok t)) ∧
      r.1 = cfg.Vorg2VsaTranslation s.sliceAllocationTargetDie b n ∧
      (r.2.die s.sliceAllocationTargetDie).currentBlock = b ∧
      IsBlockReservedForBlkMapping t s.sliceAllocationTargetDie b = 0 ∧
      IsBlockReservedForBlkMapping r.2 s.sliceAllocationTargetDie b = 0 ∧
      n < cfg.USER_PAGES_PER_BLOCK ∧
      GetBlockCurrentPage t s.sliceAllocationTargetDie b = n ∧
      GetBlockCurrentPage r.2 s.sliceAllocationTargetDie b = n + 1 ∧
      ((GetBlockCurrentPage t s.sliceAllocationTargetDie
            (t.die s.sliceAllocationTargetDie).currentBlock = cfg.USER_PAGES_PER_BLOCK ∨
          IsBlockReservedForBlkMapping t s.sliceAllocationTargetDie
            (t.die s.sliceAllocationTargetDie).currentBlock ≠ 0) →
        b ≠ (t.die s.sliceAllocationTargetDie).currentBlock ∧
        (r.2.block s.sliceAllocationTargetDie
            (t.die s.sliceAllocationTargetDie).currentBlock).currentPage =
          (t.block s.sliceAllocationTargetDie
            (t.die s.sliceAllocationTargetDie).currentBlock).currentPage) ∧
      r.2.sliceAllocationTargetDie = (FindDieForFreeSliceAllocation cfg s).1 % 256 ∧
      (s.targetCh < cfg.USER_CHANNELS → s.targetWay < cfg.USER_WAYS →
        r.2.sliceAllocationTargetDie = s.targetWay * cfg.USER_CHANNELS + s.targetCh ∧
        r.2.sliceAllocationTargetDie < cfg.USER_DIES ∧
        r.2.targetWay * cfg.USER_CHANNELS + r.2.targetCh =
          (r.2.sliceAllocationTargetDie + 1) % cfg.USER_DIES ∧
        (s.targetWay * cfg.USER_CHANNELS + s.targetCh =
            (s.sliceAllocationTargetDie + 1) % cfg.USER_DIES →
          r.2.sliceAllocationTargetDie = (s.sliceAllocationTargetDie + 1) % cfg.USER_DIES)) := by
  have h0 := h
  unfold FindFreeVirtualSlice at h0
  obtain ⟨q, hq, hf⟩ := Outcome.bind_eq_ok h0
  rcases FindFreeVirtualSlice_pick_cases gc cfg hw s _ ⟨l, hl⟩
    (fun t hg => by obtain ⟨_, _, _, l', hl', _⟩ := hgc t hg; exact ⟨l', hl'⟩) q hq with
    h1 | ⟨c1, c2, t, hg, h1⟩
  · have hs : FindFreeVirtualSlice Collector.stop cfg s = .ok r := by
      unfold FindFreeVirtualSlice
      simp only [h1, Outcome.bind_ok]
      exact hf
    obtain ⟨b, n, a⟩ := FindFreeVirtualSlice_direct cfg hw s l hl hclean r hs
    exact ⟨s, b, n, Or.inl rfl, a⟩
  · obtain ⟨e1, e2, e3, l', hl', hclean'⟩ := hgc t hg
    have ht : FindFreeVirtualSlice Collector.stop cfg t = .ok r := by
      unfold FindFreeVirtualSlice
      rw [e1]
      simp only [h1, Outcome.bind_ok]
      exact hf
    obtain ⟨b, n, a1, a2, a3, a4, a5, a6, a7, a8, a9, a10⟩ :=
      FindFreeVirtualSlice_direct cfg hw t l' (by rw [e1]; exact hl')
        (by rw [e1]; exact hclean') r ht
    rw [e1] at a1 a2 a3 a4 a6 a7 a8
    rw [(FindDie_congr cfg s t e2 e3).1] at a9
    rw [e1, e2, e3] at a10
    exact ⟨t, b, n, Or.inr ⟨c1, c2, hg⟩, a1, a2, a3, a4, a5, a6, a7, a8, a9, a10⟩

set_option maxRecDepth 100000 in
theorem FindFreeVirtualSlice_spec_witness :
    ∃ t b n, (t = exhausted ∨ replacingCollector 0 exhausted = .ok t) ∧
      52 = scenario.Vorg2VsaTranslation 0 b n ∧ n < 4 ∧ GetBlockCurrentPage t 0 b = n :=
  match FindFreeVirtualSlice_spec replacingCollector scenario scenario_wellFormed exhausted [3]
    ⟨by decide, by decide, by decide, by decide, by decide⟩ (by decide)
    (fun t hg => ThroughApi_leaves replacingCollector scenario scenario_wellFormed
      replacingCollector_throughApi exhausted exhausted_useInv 0 (by decide) t hg)
    (52, (FindFreeVirtualSlice replacingCollector scenario exhausted).stateOr State.blank)
    rfl with
  | ⟨t, b, n, h0, h1, _, _, _, h5, h6, _⟩ =>
    ⟨t, b, n, h0.imp id (fun c => c.2.2), h1, h5, h6⟩

set_option maxRecDepth 100000 in
/-- C20, counterexample. The scenario after `exhaustRun`: the allocation die is
0, its current block 2 is full, and its free list `[3]`, with `currentPage = 0`
on block 3, is down to the reserve.  The collector `replacingCollector` acts
through the API: it calls `FindFreeVirtualSliceForGc` with the current block as
victim and then `EraseBlock` on that block.  `FindFreeVirtualSlice` enters it
and returns `Vorg2Vsa(0, 3, 1)`: the current block after the call is block 3
and its count becomes 2, so `n = 1`, but block 3 had no programmed page before
the call; and the `currentPage` field of the old current block 2, which was
full, goes from 4 to 0. -/
theorem FindFreeVirtualSlice_count_after_collection :
    runAdmissible Collector.stop 2 scenario scenarioInit exhaustRun = some exhausted ∧
    exhausted.sliceAllocationTargetDie = 0 ∧
    FreeListIs scenario exhausted 0 [3] ∧ (exhausted.block 0 3).currentPage = 0 ∧
    (exhausted.die 0).currentBlock = 2 ∧
    GetBlockCurrentPage exhausted 0 2 = scenario.USER_PAGES_PER_BLOCK ∧
    replacingCollector.ThroughApi scenario ∧
    FindFreeVirtualSlice replacingCollector scenario exhausted = .ok collectedSlice ∧
    collectedSlice.1 = scenario.Vorg2VsaTranslation 0 3 1 ∧
    (collectedSlice.2.die 0).currentBlock = 3 ∧
    IsBlockReservedForBlkMapping exhausted 0 3 = 0 ∧
    GetBlockCurrentPage exhausted 0 3 = 0 ∧
    GetBlockCurrentPage collectedSlice.2 0 3 = 2 ∧
    (exhausted.block 0 2).currentPage = 4 ∧ (collectedSlice.2.block 0 2).currentPage = 0 :=
  ⟨runAdmissible_eq_some scenario scenarioInit exhaustRun (by decide), by decide,
    ⟨by decide, by decide, by decide, by decide, by decide⟩, by decide, by decide, by decide,
    replacingCollector_throughApi, rfl, by decide, by decide, by decide, by decide, by decide,
    by decide, by decide⟩

end AddressTranslation
